import Mathlib

/-!
# Pairwise alignment core of PCG: cost-matrix expansion, Needleman-Wunsch fill, backtrace

Shallow embedding of
* `src/production/ffi/external_direct_optimization/c_code_alloc_setup.c`
  (`distance`, `setup2dCostMtx`, `setup3dCostMtx`),
* `src/prototype/from_poy4/algn.c`
  (`algn_fill_row`, `algn_fill_plane`, `algn_fill_plane_2`, `algn_backtrace_2d`, `backtrace_affine`).

C `int` values are `Int`, symbols (`SEQT`, an unsigned int) and direction cells are `Nat`.
The fill functions take the reduction `w : Int → Int` that follows every `int` addition of the
source: `w = wrap32` is the 32 bit two's complement `int`, `w = id` is arithmetic without a
bound; a theorem stated for every `w` holds for both.
A C buffer is a total function from the cell index to the cell value; a pointer into a buffer is
the index of the cell it points to.
-/

namespace PCG

/-! ## Buffers -/

/-- The buffer `m` after the assignment `m[i] = v`. -/
def wr {α : Type} (m : Nat → α) (i : Nat) (v : α) : Nat → α :=
  fun k => if k = i then v else m k

/-- The value of `INT_MAX` for a 32 bit `int`. -/
def INT_MAX : Int := 2147483647

/-- The value of `INT_MIN` for a 32 bit `int`. -/
def INT_MIN : Int := -2147483648

/-! ## `c_code_alloc_setup.c`: `distance` -/

/-- The loop of `distance`: `fuel` iterations are left, `pos` is the loop counter and `min` the
running minimum. -/
def distance_loop (tcm : Nat → Int) (alphSize nucleotide ambElem : Nat) :
    Nat → Nat → Int → Int
  | 0, _, min => min
  | fuel + 1, pos, min =>
    if ((1 <<< pos) &&& ambElem) ≠ 0 then
      let curCost := tcm (pos * alphSize + nucleotide - 1)
      if curCost < min then
        distance_loop tcm alphSize nucleotide ambElem fuel (pos + 1) curCost
      else
        distance_loop tcm alphSize nucleotide ambElem fuel (pos + 1) min
    else
      distance_loop tcm alphSize nucleotide ambElem fuel (pos + 1) min

/-- The function `distance (tcm, alphSize, nucleotide, ambElem)`: the loop runs `pos` from `0` to
`alphSize - 1`, starting from `min = INT_MAX`. -/
def distance (tcm : Nat → Int) (alphSize nucleotide ambElem : Nat) : Int :=
  distance_loop tcm alphSize nucleotide ambElem alphSize 0 INT_MAX

/-! ## The cost matrix structures of `cm.h` -/

/-- The structure `struct cost_matrices_2d` of `cm.h`. -/
structure cost_matrices_2d where
  alphSize : Nat
  lcm : Nat
  gap : Nat
  cost_model_type : Int
  combinations : Int
  gap_open : Int
  is_metric : Int
  all_elements : Int
  cost : Nat → Int
  median : Nat → Nat
  worst : Nat → Int
  prepend_cost : Nat → Int
  tail_cost : Nat → Int

/-- The structure `struct cost_matrices_3d` of `cm.h`. -/
structure cost_matrices_3d where
  alphSize : Nat
  lcm : Nat
  gap : Nat
  cost_model_type : Int
  combinations : Int
  gap_open : Int
  all_elements : Int
  cost : Nat → Int
  median : Nat → Nat

/-- Failures of the cost-matrix expander. -/
inductive SetupError where
  | alphabet_too_large
  deriving DecidableEq, Repr

/-- Modelled from the spec: `cm_calc_cost_position`, the index of the pair `(a, b)` in a row-major
table of stride `2^K` (`idx = a * 2^K + b`); the body is in the absent `cm.c`. -/
def cm_calc_cost_position (a b a_sz : Nat) : Nat := (a <<< a_sz) + b

/-- Modelled from the spec: the index of the triple `(a, b, c)` in the cubed table of stride `2^K`;
the body is in the absent `cm.c`. -/
def cm_calc_cost_position_3d (a b c a_sz : Nat) : Nat := ((((a <<< a_sz) + b) <<< a_sz) + c)

/-- Modelled from the spec: `cm_calc_cost (tcm, a, b, alphSize)` "retrieves the transformation cost
of the elements a and b as stored in the transformation cost matrix" (`cm.h`); the body is in the
absent `cm.c`. -/
def cm_calc_cost (tcm : Nat → Int) (a b alphSize : Nat) : Int :=
  tcm (cm_calc_cost_position a b alphSize)

/-- Modelled from the spec: `cm_get_cost (a, b, c)` reads the best cost of the pair `(a, b)` from
`c->cost`; the body is in the absent `cm.c`. -/
def cm_get_cost (a b : Nat) (c : cost_matrices_2d) : Int :=
  cm_calc_cost c.cost a b c.lcm

/-- Modelled from the spec: `cm_get_median (t, a, b)` reads the median of the pair `(a, b)`; the body
is in the absent `cm.c`. -/
def cm_get_median (t : cost_matrices_2d) (a b : Nat) : Nat :=
  t.median (cm_calc_cost_position a b t.lcm)

/-- Modelled from the spec: `cm_set_cost_2d (a, b, v, c)` stores `v` at the pair `(a, b)` of
`c->cost`; the body is in the absent `cm.c`. -/
def cm_set_cost_2d (a b : Nat) (v : Int) (c : cost_matrices_2d) : cost_matrices_2d :=
  { c with cost := wr c.cost (cm_calc_cost_position a b c.lcm) v }

/-- Modelled from the spec: `cm_set_median_2d (a, b, v, c)` stores `v` at the pair `(a, b)` of
`c->median`; the body is in the absent `cm.c`. -/
def cm_set_median_2d (a b v : Nat) (c : cost_matrices_2d) : cost_matrices_2d :=
  { c with median := wr c.median (cm_calc_cost_position a b c.lcm) v }

/-- Modelled from the spec: `cm_set_prepend_2d (int a, int b, c)` stores the value `b` at index `a`
of `c->prepend_cost` (location first, value last, as for every setter declared in `cm.h`); the body
is in the absent `cm.c`. -/
def cm_set_prepend_2d (a b : Int) (c : cost_matrices_2d) : cost_matrices_2d :=
  { c with prepend_cost := wr c.prepend_cost a.toNat b }

/-- Modelled from the spec: `cm_set_tail_2d (int a, int b, c)` stores the value `b` at index `a` of
`c->tail_cost` (same signature and convention as `cm_set_prepend_2d`); the body is in the absent
`cm.c`. -/
def cm_set_tail_2d (a b : Int) (c : cost_matrices_2d) : cost_matrices_2d :=
  { c with tail_cost := wr c.tail_cost a.toNat b }

/-- Modelled from the spec: `cm_set_cost_3d (a, b, cp, v, c)` stores `v` at the triple of `c->cost`;
the body is in the absent `cm.c`. -/
def cm_set_cost_3d (a b cp : Nat) (v : Int) (c : cost_matrices_3d) : cost_matrices_3d :=
  { c with cost := wr c.cost (cm_calc_cost_position_3d a b cp c.lcm) v }

/-- Modelled from the spec: `cm_set_median_3d (a, b, cp, v, c)` stores `v` at the triple of
`c->median`; the body is in the absent `cm.c`. -/
def cm_set_median_3d (a b cp v : Nat) (c : cost_matrices_3d) : cost_matrices_3d :=
  { c with median := wr c.median (cm_calc_cost_position_3d a b cp c.lcm) v }

/-- Modelled from the spec: `cm_alloc_set_costs_2d`, whose body is in the absent `cm.c`. It records
the parameters in `res` (with all combinations the stride exponent `lcm` is the alphabet size and
the gap is `1 << (alphSize - 1)`) and allocates the tables; the contents of the fresh tables are the
ones of `res`. Spec 4.B: "if K > 31 the total table size overflows native index width; the expander
must refuse with an alphabet-too-large error". -/
def cm_alloc_set_costs_2d (alphSize : Nat) (combinations do_aff gap_open is_metric
    all_elements : Int) (res : cost_matrices_2d) : Except SetupError cost_matrices_2d :=
  if alphSize > 31 then .error .alphabet_too_large
  else .ok { res with
    alphSize := alphSize, lcm := alphSize, gap := 1 <<< (alphSize - 1),
    cost_model_type := do_aff, combinations := combinations, gap_open := gap_open,
    is_metric := is_metric, all_elements := all_elements }

/-- Modelled from the spec: `cm_alloc_set_costs_3d`, whose body is in the absent `cm.c`; "as with 2d,
but doesn't compute worst, prepend or tail" (`cm.h`). -/
def cm_alloc_set_costs_3d (alphSize : Nat) (combinations do_aff gap_open
    all_elements : Int) (res : cost_matrices_3d) : Except SetupError cost_matrices_3d :=
  if alphSize > 31 then .error .alphabet_too_large
  else .ok { res with
    alphSize := alphSize, lcm := alphSize, gap := 1 <<< (alphSize - 1),
    cost_model_type := do_aff, combinations := combinations, gap_open := gap_open,
    all_elements := all_elements }

/-! ## `c_code_alloc_setup.c`: `setup2dCostMtx` -/

/-- The `nucleotide` loop of `setup2dCostMtx` for the pair `(ambElem1, ambElem2)`: `fuel` iterations
are left; the state is the running `minCost` and `median`. -/
def setup2d_nucleotide_loop (tcm : Nat → Int) (alphSize ambElem1 ambElem2 : Nat) :
    Nat → Nat → Int → Nat → Int × Nat
  | 0, _, minCost, median => (minCost, median)
  | fuel + 1, nucleotide, minCost, median =>
    let curCost := distance tcm alphSize nucleotide ambElem1
                 + distance tcm alphSize nucleotide ambElem2
    if curCost < minCost then
      setup2d_nucleotide_loop tcm alphSize ambElem1 ambElem2 fuel (nucleotide + 1)
        curCost (1 <<< (nucleotide - 1))
    else if curCost = minCost then
      setup2d_nucleotide_loop tcm alphSize ambElem1 ambElem2 fuel (nucleotide + 1)
        minCost (median ||| (1 <<< (nucleotide - 1)))
    else
      setup2d_nucleotide_loop tcm alphSize ambElem1 ambElem2 fuel (nucleotide + 1)
        minCost median

/-- The body of the `ambElem2` loop of `setup2dCostMtx`: reset `minCost = INT_MAX`, `median = 0`,
run the `nucleotide` loop from `1` to `alphSize`, store cost and median. -/
def setup2d_cell (tcm : Nat → Int) (alphSize ambElem1 ambElem2 : Nat)
    (retMtx : cost_matrices_2d) : cost_matrices_2d :=
  let r := setup2d_nucleotide_loop tcm alphSize ambElem1 ambElem2 alphSize 1 INT_MAX 0
  cm_set_median_2d ambElem1 ambElem2 r.2 (cm_set_cost_2d ambElem1 ambElem2 r.1 retMtx)

/-- The `ambElem2` loop of `setup2dCostMtx`. -/
def setup2d_loop2 (tcm : Nat → Int) (alphSize ambElem1 : Nat) :
    Nat → Nat → cost_matrices_2d → cost_matrices_2d
  | 0, _, retMtx => retMtx
  | fuel + 1, ambElem2, retMtx =>
    setup2d_loop2 tcm alphSize ambElem1 fuel (ambElem2 + 1)
      (setup2d_cell tcm alphSize ambElem1 ambElem2 retMtx)

/-- The `ambElem1` loop of `setup2dCostMtx`; each iteration runs `ambElem2` from `1` to
`all_elements`. -/
def setup2d_loop1 (tcm : Nat → Int) (alphSize all_elements : Nat) :
    Nat → Nat → cost_matrices_2d → cost_matrices_2d
  | 0, _, retMtx => retMtx
  | fuel + 1, ambElem1, retMtx =>
    setup2d_loop1 tcm alphSize all_elements fuel (ambElem1 + 1)
      (setup2d_loop2 tcm alphSize ambElem1 all_elements 1 retMtx)

/-- The final loop of `setup2dCostMtx`:
`cm_set_prepend_2d (i, cm_get_cost (gap, i, retMtx), retMtx);`
`cm_set_tail_2d (cm_get_cost (i, gap, retMtx), i, retMtx);`. -/
def setup2d_prepend_tail_loop (gap : Nat) :
    Nat → Nat → cost_matrices_2d → cost_matrices_2d
  | 0, _, retMtx => retMtx
  | fuel + 1, i, retMtx =>
    let m1 := cm_set_prepend_2d (i : Int) (cm_get_cost gap i retMtx) retMtx
    let m2 := cm_set_tail_2d (cm_get_cost i gap m1) (i : Int) m1
    setup2d_prepend_tail_loop gap fuel (i + 1) m2

/-- The function `setup2dCostMtx (tcm, alphSize, gap_open, retMtx)`. -/
def setup2dCostMtx (tcm : Nat → Int) (alphSize : Nat) (gap_open : Int)
    (retMtx : cost_matrices_2d) : Except SetupError cost_matrices_2d :=
  let combinations : Int := 1
  let do_aff : Int := if gap_open = 0 then 0 else 3
  let is_metric : Int := 1
  let all_elements : Nat := (1 <<< alphSize) - 1
  match cm_alloc_set_costs_2d alphSize combinations do_aff gap_open is_metric all_elements
      retMtx with
  | .error e => .error e
  | .ok m0 =>
    let m1 := setup2d_loop1 tcm alphSize all_elements all_elements 1 m0
    let gap := 1 <<< (alphSize - 1)
    .ok (setup2d_prepend_tail_loop gap all_elements 1 m1)

/-! ## `c_code_alloc_setup.c`: `setup3dCostMtx` -/

/-- The `nucleotide` loop of `setup3dCostMtx` for the triple `(ambElem1, ambElem2, ambElem3)`. -/
def setup3d_nucleotide_loop (tcm : Nat → Int) (alphSize ambElem1 ambElem2 ambElem3 : Nat) :
    Nat → Nat → Int → Nat → Int × Nat
  | 0, _, minCost, median => (minCost, median)
  | fuel + 1, nucleotide, minCost, median =>
    let curCost := distance tcm alphSize nucleotide ambElem1
                 + distance tcm alphSize nucleotide ambElem2
                 + distance tcm alphSize nucleotide ambElem3
    if curCost < minCost then
      setup3d_nucleotide_loop tcm alphSize ambElem1 ambElem2 ambElem3 fuel (nucleotide + 1)
        curCost (1 <<< (nucleotide - 1))
    else if curCost = minCost then
      setup3d_nucleotide_loop tcm alphSize ambElem1 ambElem2 ambElem3 fuel (nucleotide + 1)
        minCost (median ||| (1 <<< (nucleotide - 1)))
    else
      setup3d_nucleotide_loop tcm alphSize ambElem1 ambElem2 ambElem3 fuel (nucleotide + 1)
        minCost median

/-- The body of the `ambElem3` loop of `setup3dCostMtx`. -/
def setup3d_cell (tcm : Nat → Int) (alphSize ambElem1 ambElem2 ambElem3 : Nat)
    (retMtx : cost_matrices_3d) : cost_matrices_3d :=
  let r := setup3d_nucleotide_loop tcm alphSize ambElem1 ambElem2 ambElem3 alphSize 1 INT_MAX 0
  cm_set_median_3d ambElem1 ambElem2 ambElem3 r.2
    (cm_set_cost_3d ambElem1 ambElem2 ambElem3 r.1 retMtx)

/-- The `ambElem3` loop of `setup3dCostMtx`. -/
def setup3d_loop3 (tcm : Nat → Int) (alphSize ambElem1 ambElem2 : Nat) :
    Nat → Nat → cost_matrices_3d → cost_matrices_3d
  | 0, _, retMtx => retMtx
  | fuel + 1, ambElem3, retMtx =>
    setup3d_loop3 tcm alphSize ambElem1 ambElem2 fuel (ambElem3 + 1)
      (setup3d_cell tcm alphSize ambElem1 ambElem2 ambElem3 retMtx)

/-- The `ambElem2` loop of `setup3dCostMtx`. -/
def setup3d_loop2 (tcm : Nat → Int) (alphSize all_elements ambElem1 : Nat) :
    Nat → Nat → cost_matrices_3d → cost_matrices_3d
  | 0, _, retMtx => retMtx
  | fuel + 1, ambElem2, retMtx =>
    setup3d_loop2 tcm alphSize all_elements ambElem1 fuel (ambElem2 + 1)
      (setup3d_loop3 tcm alphSize ambElem1 ambElem2 all_elements 1 retMtx)

/-- The `ambElem1` loop of `setup3dCostMtx`. -/
def setup3d_loop1 (tcm : Nat → Int) (alphSize all_elements : Nat) :
    Nat → Nat → cost_matrices_3d → cost_matrices_3d
  | 0, _, retMtx => retMtx
  | fuel + 1, ambElem1, retMtx =>
    setup3d_loop1 tcm alphSize all_elements fuel (ambElem1 + 1)
      (setup3d_loop2 tcm alphSize all_elements ambElem1 all_elements 1 retMtx)

/-- The function `setup3dCostMtx (tcm, alphSize, gap_open, retMtx)`. -/
def setup3dCostMtx (tcm : Nat → Int) (alphSize : Nat) (gap_open : Int)
    (retMtx : cost_matrices_3d) : Except SetupError cost_matrices_3d :=
  let combinations : Int := 1
  let do_aff : Int := if gap_open = 0 then 0 else 3
  let all_elements : Nat := (1 <<< alphSize) - 1
  match cm_alloc_set_costs_3d alphSize combinations do_aff gap_open all_elements retMtx with
  | .error e => .error e
  | .ok m0 => .ok (setup3d_loop1 tcm alphSize all_elements all_elements 1 m0)

/-! ## Auxiliary definitions for the cost-matrix expander -/

/-- The pivot loop shared by `setup2dCostMtx` and `setup3dCostMtx`, for a cost `f` of the pivot. -/
def pivot_loop (f : Nat → Int) : Nat → Nat → Int → Nat → Int × Nat
  | 0, _, minCost, median => (minCost, median)
  | fuel + 1, nucleotide, minCost, median =>
    if f nucleotide < minCost then
      pivot_loop f fuel (nucleotide + 1) (f nucleotide) (1 <<< (nucleotide - 1))
    else if f nucleotide = minCost then
      pivot_loop f fuel (nucleotide + 1) minCost (median ||| (1 <<< (nucleotide - 1)))
    else
      pivot_loop f fuel (nucleotide + 1) minCost median

/-- Invariant of the pivot loop before the iteration of pivot `nuc`. -/
def PivotInv (f : Nat → Int) (nuc : Nat) (minCost : Int) (median : Nat) : Prop :=
  (∀ z, 1 ≤ z → z < nuc → minCost ≤ f z) ∧
  (∀ p, median.testBit p = true ↔ (p + 1 < nuc ∧ f (p + 1) = minCost)) ∧
  (minCost = INT_MAX ∨ ∃ z, 1 ≤ z ∧ z < nuc ∧ f z = minCost)

/-- The cost and median that `setup2dCostMtx` computes for the pair `(a, b)`. -/
def setup2d_value (tcm : Nat → Int) (K a b : Nat) : Int × Nat :=
  setup2d_nucleotide_loop tcm K a b K 1 INT_MAX 0

/-- Fields that the table-filling loops of `setup2dCostMtx` leave alone. -/
def SameFrame2d (m m' : cost_matrices_2d) : Prop :=
  m'.lcm = m.lcm ∧ m'.gap = m.gap ∧ m'.prepend_cost = m.prepend_cost ∧
  m'.tail_cost = m.tail_cost ∧ m'.gap_open = m.gap_open ∧
  m'.cost_model_type = m.cost_model_type

/-- No `int` overflow when two entries of the `K × K` base table are added. -/
def TcmInRange2 (tcm : Nat → Int) (K : Nat) : Prop :=
  ∀ i j, i < K * K → j < K * K → INT_MIN ≤ tcm i + tcm j ∧ tcm i + tcm j ≤ INT_MAX

/-- No `int` overflow when three entries of the `K × K` base table are added. -/
def TcmInRange3 (tcm : Nat → Int) (K : Nat) : Prop :=
  ∀ i j k, i < K * K → j < K * K → k < K * K →
    INT_MIN ≤ tcm i + tcm j ∧ tcm i + tcm j ≤ INT_MAX ∧
    INT_MIN ≤ tcm i + tcm j + tcm k ∧ tcm i + tcm j + tcm k ≤ INT_MAX

/-- The cost and median that `setup3dCostMtx` computes for the triple `(a, b, c)`. -/
def setup3d_value (tcm : Nat → Int) (K a b c : Nat) : Int × Nat :=
  setup3d_nucleotide_loop tcm K a b c K 1 INT_MAX 0

/-- The unit-cost base table over `K` states: `0` on the diagonal, `1` elsewhere. -/
def unit_tcm (K : Nat) : Nat → Int := fun i => if i / K = i % K then 0 else 1

/-- A freshly allocated (zero-filled) `cost_matrices_2d`. -/
def zero_mtx_2d : cost_matrices_2d :=
  { alphSize := 0, lcm := 0, gap := 0, cost_model_type := 0, combinations := 0, gap_open := 0,
    is_metric := 0, all_elements := 0, cost := fun _ => 0, median := fun _ => 0,
    worst := fun _ => 0, prepend_cost := fun _ => 0, tail_cost := fun _ => 0 }

/-- A freshly allocated (zero-filled) `cost_matrices_3d`. -/
def zero_mtx_3d : cost_matrices_3d :=
  { alphSize := 0, lcm := 0, gap := 0, cost_model_type := 0, combinations := 0, gap_open := 0,
    all_elements := 0, cost := fun _ => 0, median := fun _ => 0 }

/-- The entry `tail_cost[x]` of the result of the expander, if a table was built. -/
def tail_cost_of (r : Except SetupError cost_matrices_2d) (x : Nat) : Option Int :=
  match r with
  | .ok m => some (m.tail_cost x)
  | .error _ => none

/-- The entry `best_cost[a, b]` of the result of the expander, if a table was built. -/
def best_cost_of (r : Except SetupError cost_matrices_2d) (a b : Nat) : Option Int :=
  match r with
  | .ok m => some (cm_get_cost a b m)
  | .error _ => none

/-! ## Streams (`seq_p`) -/

/-- A stream `seq_p`: a buffer of capacity `cap` whose last `len` slots hold the symbols; `elems`
lists them from `begin` to `end`, so `len` is `elems.length`. -/
structure seq where
  cap : Nat
  elems : List Nat

/-- The field `len` of a stream. -/
def seq.len (s : seq) : Nat := s.elems.length

/-- Modelled from the spec: `seq_get_len`, declared in the absent `seq.h`. -/
def seq_get_len (s : seq) : Nat := s.len

/-- Modelled from the spec: `seq_get_element (s, i)`, "element-at(stream, i)", declared in the
absent `seq.h`; it reads `begin[i]`. A read past the end of the stream returns the content of a
cell that no operation of the model writes, taken as `0`. -/
def seq_get_element (s : seq) (i : Nat) : Nat := s.elems.getD i 0

/-- The macro `my_get(a, b)`, which is `(a->begin)[b]` for an `int` index `b`. A read outside the
stream returns the content of a cell that no operation of the model writes, taken as `0`. -/
def my_get (a : seq) (b : Int) : Nat := if b < 0 then 0 else a.elems.getD b.toNat 0

/-- The macro `my_prepend(a, b)`: `assert (a->cap > a->len)`, then the begin pointer moves one slot
down, the length grows by one and `b` is stored in the new first slot. A failed assertion is
`none`. -/
def my_prepend (a : seq) (b : Nat) : Option seq :=
  if a.cap > a.len then some { a with elems := b :: a.elems } else none

/-- Modelled from the spec: `seq_prepend`, declared in the absent `seq.h`; "prepend(stream, symbol)
... prepend fails when `begin == buffer_start`". -/
def seq_prepend (a : seq) (b : Nat) : Option seq :=
  if a.cap > a.len then some { a with elems := b :: a.elems } else none

/-! ## Direction flags (`nwMatrices.h`) and the alignment buffers -/

/-- The flag `ALIGN`, which is `DIAGONAL = 1 << 0`. -/
def ALIGN : Nat := 1

/-- The flag `INSERT`, which is `BEHIND = 1 << 1`. -/
def INSERT : Nat := 2

/-- The flag `DELETE`, which is `UPPER = 1 << 2`. -/
def DELETE : Nat := 4

/-- The two buffers that the 2-D fill writes: `mtx` is the cost buffer `nw_costMtx` (an `int`
array), `dir` the direction buffer `dir_mtx_2d`. -/
structure nw_buffers where
  mtx : Nat → Int
  dir : Nat → Nat

/-- Modelled from the spec: `cm_get_precal_row (p, item, len)`, whose body is in the absent `cm.c`;
the fill functions of `algn.c` spell it out as `precalcMtx + (item * len)`. -/
def cm_get_precal_row (p item len : Nat) : Nat := p + item * len

/-- Modelled from the spec: `cm_get_gap_2d (c)`, "retrieves the gap code as defined in the
transformation cost matrix" (`cm.h`). -/
def cm_get_gap_2d (c : cost_matrices_2d) : Nat := c.gap

/-- Modelled from the spec: `cm_get_tail_cost (c)`, the table `c->tail_cost`. -/
def cm_get_tail_cost (c : cost_matrices_2d) : Nat → Int := c.tail_cost

/-! ## `algn.c`: the linear fill -/

/-- The body of the loop of `algn_fill_row` (the portable branch): from the three candidates
`tmp1` (delete), `tmp2` (insert), `tmp3` (align) the value and the direction written to
`curRow[i]` and `dirMtx[i]`. -/
def algn_fill_row_cell (tmp1 tmp2 tmp3 : Int) : Int × Nat :=
  if tmp1 < tmp3 then
    if tmp1 < tmp2 then (tmp1, DELETE)
    else if tmp2 < tmp1 then (tmp2, INSERT)
    else (tmp2, INSERT ||| DELETE)
  else if tmp3 < tmp1 then
    if tmp3 < tmp2 then (tmp3, ALIGN)
    else if tmp2 < tmp3 then (tmp2, INSERT)
    else (tmp2, ALIGN ||| INSERT)
  else
    if tmp3 < tmp2 then (tmp3, ALIGN ||| DELETE)
    else if tmp2 < tmp3 then (tmp2, INSERT)
    else (tmp2, DELETE ||| INSERT ||| ALIGN)

/-- The loop of `algn_fill_row`: `fuel` iterations are left and `i` is the loop counter. `curRow`,
`prevRow` point into the cost buffer, `gap_row`, `alg_row` into the precalculated table `precalc`,
`dirMtx` into the direction buffer. Every `int` sum of the source is passed through the reduction
`w` (`wrap32` for the 32 bit `int`). -/
def algn_fill_row_loop (w : Int → Int) (precalc : Nat → Int)
    (curRow prevRow gap_row alg_row dirMtx : Nat) (c : Int) : Nat → Nat → nw_buffers → nw_buffers
  | 0, _, s => s
  | fuel + 1, i, s =>
    let tmp1 := w (s.mtx (prevRow + i) + c)
    let tmp2 := w (s.mtx (curRow + (i - 1)) + precalc (gap_row + i))
    let tmp3 := w (s.mtx (prevRow + (i - 1)) + precalc (alg_row + i))
    let r := algn_fill_row_cell tmp1 tmp2 tmp3
    algn_fill_row_loop w precalc curRow prevRow gap_row alg_row dirMtx c fuel (i + 1)
      { mtx := wr s.mtx (curRow + i) r.1, dir := wr s.dir (dirMtx + i) r.2 }

/-- The function `algn_fill_row (curRow, prevRow, gap_row, alg_row, dirMtx, c, st, end)`: the loop
`for (i = st; i <= end; i++)`. -/
def algn_fill_row (w : Int → Int) (precalc : Nat → Int) (s : nw_buffers)
    (curRow prevRow gap_row alg_row dirMtx : Nat) (c : Int) (st end_ : Nat) : nw_buffers :=
  algn_fill_row_loop w precalc curRow prevRow gap_row alg_row dirMtx c (end_ + 1 - st) st s

/-- The function `algn_fill_last_column (curRow, prevRow, tlc, l, dirMtx)`. -/
def algn_fill_last_column (w : Int → Int) (s : nw_buffers) (curRow prevRow : Nat) (tlc : Int)
    (l : Nat) (dirMtx : Nat) : nw_buffers :=
  if l > 0 then
    let cst := w (tlc + s.mtx (prevRow + l))
    if cst < s.mtx (curRow + l) then
      { mtx := wr s.mtx (curRow + l) cst, dir := wr s.dir (dirMtx + l) DELETE }
    else if cst = s.mtx (curRow + l) then
      { s with dir := wr s.dir (dirMtx + l) (s.dir (dirMtx + l) ||| DELETE) }
    else s
  else s

/-- The function `algn_fill_full_row (curRow, prevRow, gap_row, alg_row, dirMtx, c, tlc, l)`. -/
def algn_fill_full_row (w : Int → Int) (precalc : Nat → Int) (s : nw_buffers)
    (curRow prevRow gap_row alg_row dirMtx : Nat) (c tlc : Int) (l : Nat) : nw_buffers :=
  let s1 : nw_buffers :=
    { mtx := wr s.mtx curRow (w (c + s.mtx prevRow)), dir := wr s.dir dirMtx DELETE }
  let s2 := algn_fill_row w precalc s1 curRow prevRow gap_row alg_row dirMtx c 1 (l - 1)
  algn_fill_last_column w s2 curRow prevRow tlc (l - 1) dirMtx

/-- The first-row loop of `algn_fill_plane`: `curRow[i] = curRow[i - 1] + first_gap_row[i]`,
`dirMtx[i] = INSERT`. -/
def algn_fill_plane_first_row (w : Int → Int) (precalc : Nat → Int)
    (curRow first_gap_row dirMtx : Nat) : Nat → Nat → nw_buffers → nw_buffers
  | 0, _, s => s
  | fuel + 1, i, s =>
    algn_fill_plane_first_row w precalc curRow first_gap_row dirMtx fuel (i + 1)
      { mtx := wr s.mtx (curRow + i)
          (w (s.mtx (curRow + (i - 1)) + precalc (first_gap_row + i))),
        dir := wr s.dir (dirMtx + i) INSERT }

/-- The row loop of `algn_fill_plane`: each iteration fills the row of `seq1[i]` into `curRow`
from `newNWMtx`, then swaps the two pointers and moves `dirMtx` one row down. The result is the
final `newNWMtx` and the buffers. -/
def algn_fill_plane_rows (w : Int → Int) (seq1 : seq) (precalc : Nat → Int)
    (precalcMtx seq2_len : Nat) (c : cost_matrices_2d) (gap_row : Nat) :
    Nat → Nat → Nat → Nat → Nat → nw_buffers → Nat × nw_buffers
  | 0, _, _, newNWMtx, _, s => (newNWMtx, s)
  | fuel + 1, i, curRow, newNWMtx, dirMtx, s =>
    let const_val_tail := (cm_get_tail_cost c) (seq_get_element seq1 i)
    let const_val := cm_calc_cost c.cost (seq_get_element seq1 i) c.gap c.lcm
    let alg_row := cm_get_precal_row precalcMtx (seq_get_element seq1 i) seq2_len
    let s1 := algn_fill_full_row w precalc s curRow newNWMtx gap_row alg_row dirMtx const_val
      const_val_tail seq2_len
    algn_fill_plane_rows w seq1 precalc precalcMtx seq2_len c gap_row fuel (i + 1)
      newNWMtx curRow (dirMtx + seq2_len) s1

/-- The function `algn_fill_plane (seq1, precalcMtx, seq1_len, seq2_len, curRow, dirMtx, c)`; the
result is the returned cost `newNWMtx[seq2_len - 1]` and the buffers it leaves. `precalc` is the
buffer that `precalcMtx` points into. -/
def algn_fill_plane (w : Int → Int) (seq1 : seq) (precalc : Nat → Int)
    (precalcMtx seq1_len seq2_len : Nat) (s : nw_buffers) (curRow dirMtx : Nat)
    (c : cost_matrices_2d) : Int × nw_buffers :=
  let gapcode := cm_get_gap_2d c
  let gap_row := cm_get_precal_row precalcMtx gapcode seq2_len
  let first_gap_row := cm_get_precal_row precalcMtx 0 seq2_len
  let newNWMtx := curRow
  let s0 : nw_buffers := { mtx := wr s.mtx curRow 0, dir := wr s.dir dirMtx ALIGN }
  let s1 := algn_fill_plane_first_row w precalc curRow first_gap_row dirMtx (seq2_len - 1) 1 s0
  let r := algn_fill_plane_rows w seq1 precalc precalcMtx seq2_len c gap_row (seq1_len - 1) 1
    (curRow + seq2_len) newNWMtx (dirMtx + seq2_len) s1
  (r.2.mtx (r.1 + (seq2_len - 1)), r.2)

/-! ## The Needleman-Wunsch recurrence of the specification -/

/-- Row `0` of the recurrence: `C[0,0] = 0`, `C[0,j] = C[0,j-1] + best[gap, S2[j]]`. -/
def nw_first_row (best : Nat → Nat → Int) (gap : Nat) (s2 : List Nat) : Nat → Int
  | 0 => 0
  | j + 1 => nw_first_row best gap s2 j + best gap (s2.getD (j + 1) 0)

/-- Row `i` of the recurrence from row `i - 1` (`prev`) for the symbol `x = S1[i]`:
`C[i,0] = C[i-1,0] + best[x, gap]` and
`C[i,j] = min (C[i-1,j-1] + best[x, S2[j]], C[i,j-1] + best[gap, S2[j]], C[i-1,j] + best[x, gap])`. -/
def nw_next_row (best : Nat → Nat → Int) (gap : Nat) (s2 : List Nat) (prev : Nat → Int)
    (x : Nat) : Nat → Int
  | 0 => prev 0 + best x gap
  | j + 1 =>
    min (min (prev j + best x (s2.getD (j + 1) 0))
             (nw_next_row best gap s2 prev x j + best gap (s2.getD (j + 1) 0)))
        (prev (j + 1) + best x gap)

/-- The Needleman-Wunsch table `C[i,j]` of the specification for the streams `s1`, `s2`. -/
def nw_cost (best : Nat → Nat → Int) (gap : Nat) (s1 s2 : List Nat) : Nat → Nat → Int
  | 0 => nw_first_row best gap s2
  | i + 1 => nw_next_row best gap s2 (nw_cost best gap s1 s2 i) (s1.getD (i + 1) 0)

/-- The direction value that the linear fill stores at cell `(i, j)`, from the table `C`. -/
def nw_dir (best : Nat → Nat → Int) (gap : Nat) (s1 s2 : List Nat) (i j : Nat) : Nat :=
  if i = 0 then (if j = 0 then ALIGN else INSERT)
  else if j = 0 then DELETE
  else (algn_fill_row_cell
    (nw_cost best gap s1 s2 (i - 1) j + best (s1.getD i 0) gap)
    (nw_cost best gap s1 s2 i (j - 1) + best gap (s2.getD j 0))
    (nw_cost best gap s1 s2 (i - 1) (j - 1) + best (s1.getD i 0) (s2.getD j 0))).2

/-- Row `0` of the recurrence when every sum is reduced by `w`, as the fill computes it with
machine integers. -/
def nw_first_row_w (w : Int → Int) (best : Nat → Nat → Int) (gap : Nat) (s2 : List Nat) :
    Nat → Int
  | 0 => 0
  | j + 1 => w (nw_first_row_w w best gap s2 j + best gap (s2.getD (j + 1) 0))

/-- Row `i` of the recurrence from row `i - 1` when every sum is reduced by `w`. -/
def nw_next_row_w (w : Int → Int) (best : Nat → Nat → Int) (gap : Nat) (s2 : List Nat)
    (prev : Nat → Int) (x : Nat) : Nat → Int
  | 0 => w (best x gap + prev 0)
  | j + 1 =>
    min (min (w (prev j + best x (s2.getD (j + 1) 0)))
             (w (nw_next_row_w w best gap s2 prev x j + best gap (s2.getD (j + 1) 0))))
        (w (prev (j + 1) + best x gap))

/-- The table that the linear fill computes for the streams `s1`, `s2` when every sum is reduced
by `w`; with `w = id` it is the table `nw_cost`. -/
def nw_cost_w (w : Int → Int) (best : Nat → Nat → Int) (gap : Nat) (s1 s2 : List Nat) :
    Nat → Nat → Int
  | 0 => nw_first_row_w w best gap s2
  | i + 1 => nw_next_row_w w best gap s2 (nw_cost_w w best gap s1 s2 i) (s1.getD (i + 1) 0)

/-- The direction value that the linear fill stores at cell `(i, j)`, from the table
`nw_cost_w`. -/
def nw_dir_w (w : Int → Int) (best : Nat → Nat → Int) (gap : Nat) (s1 s2 : List Nat)
    (i j : Nat) : Nat :=
  if i = 0 then (if j = 0 then ALIGN else INSERT)
  else if j = 0 then DELETE
  else (algn_fill_row_cell
    (w (nw_cost_w w best gap s1 s2 (i - 1) j + best (s1.getD i 0) gap))
    (w (nw_cost_w w best gap s1 s2 i (j - 1) + best gap (s2.getD j 0)))
    (w (nw_cost_w w best gap s1 s2 (i - 1) (j - 1) + best (s1.getD i 0) (s2.getD j 0)))).2

/-- The reduction `w` leaves every value of the range of `int` as it is: this holds for `wrap32`,
the 32 bit `int` of the source, and for the identity. -/
def IntFixed (w : Int → Int) : Prop := ∀ x : Int, INT_MIN ≤ x → x ≤ INT_MAX → w x = x

/-- The costs `best[a, b]` between the symbols of `s1` or the gap and the symbols of `s2` or the
gap lie between `0` and `B`. -/
def CostsBounded (best : Nat → Nat → Int) (gap : Nat) (s1 s2 : List Nat) (B : Int) : Prop :=
  ∀ a ∈ gap :: s1, ∀ b ∈ gap :: s2, 0 ≤ best a b ∧ best a b ≤ B

instance (best : Nat → Nat → Int) (gap : Nat) (s1 s2 : List Nat) (B : Int) :
    Decidable (CostsBounded best gap s1 s2 B) := by
  unfold CostsBounded; infer_instance

/-- A step of an alignment: a column that pairs two symbols, or pairs a symbol of `S1` with a gap
(delete), or a gap with a symbol of `S2` (insert). -/
inductive Step where
  | align
  | delete
  | insert
  deriving DecidableEq, Repr

/-- The total column cost of an alignment of `S1[1..i]` with `S2[1..j]` (the leading gaps of the two
streams are column `0`, of cost `0`); the columns are listed from the last one to the first one.
`none` if the steps do not consume exactly `i` and `j` symbols. -/
def alignment_cost (best : Nat → Nat → Int) (gap : Nat) (s1 s2 : List Nat) :
    List Step → Nat → Nat → Option Int
  | [], 0, 0 => some 0
  | [], _, _ => none
  | Step.align :: p, i + 1, j + 1 =>
    (alignment_cost best gap s1 s2 p i j).map
      (fun v => v + best (s1.getD (i + 1) 0) (s2.getD (j + 1) 0))
  | Step.delete :: p, i + 1, j =>
    (alignment_cost best gap s1 s2 p i j).map (fun v => v + best (s1.getD (i + 1) 0) gap)
  | Step.insert :: p, i, j + 1 =>
    (alignment_cost best gap s1 s2 p i j).map (fun v => v + best gap (s2.getD (j + 1) 0))
  | _ :: _, _, _ => none

/-- The best cost of the pair `(a, b)` in the expanded matrix `c`, as the fill reads it. -/
def best_cost (c : cost_matrices_2d) (a b : Nat) : Int := cm_calc_cost c.cost a b c.lcm

/-- Modelled from the spec: what `cm_precalc_4algn` (body in the absent `cm.c`) leaves in the
precalculated table at `precalcMtx` for the stream `s2`: row `a` holds `best_cost[a, s2[j]]` for
every symbol `a ≥ 1`, and row `0`, the row of the first horizontal line, holds the cost
`prepend_cost[s2[j]]` of the gap against `s2[j]`. -/
def IsPrecalc (c : cost_matrices_2d) (s2 : seq) (precalc : Nat → Int) (precalcMtx : Nat) : Prop :=
  (∀ a j, 1 ≤ a → j < s2.len →
    precalc (precalcMtx + a * s2.len + j) = best_cost c a (seq_get_element s2 j)) ∧
  (∀ j, j < s2.len →
    precalc (precalcMtx + 0 * s2.len + j) = c.prepend_cost (seq_get_element s2 j))

/-- The relations between the tables of an expanded cost matrix that the data model of the
specification states for the symbols of a stream: `prepend_cost[x] = best_cost[gap, x]` and
`tail_cost[x] = best_cost[x, gap]`, with a gap that is a symbol (`gap ≥ 1`). -/
def GapCostsAgree (c : cost_matrices_2d) (s : seq) : Prop :=
  1 ≤ c.gap ∧ ∀ x ∈ s.elems, c.prepend_cost x = best_cost c c.gap x ∧
    c.tail_cost x = best_cost c x c.gap

/-- The expanded matrix of the data model for the base table `tcm` over `K` states: `best_cost`
and `median` are the values that `setup2dCostMtx` computes for each pair,
`prepend_cost[x] = best_cost[gap, x]` and `tail_cost[x] = best_cost[x, gap]`. -/
def expanded_2d (tcm : Nat → Int) (K : Nat) : cost_matrices_2d :=
  { zero_mtx_2d with
    alphSize := K, lcm := K, gap := 1 <<< (K - 1), combinations := 1, is_metric := 1,
    all_elements := (((1 <<< K) - 1 : Nat) : Int),
    cost := fun idx => (setup2d_value tcm K (idx / 2 ^ K) (idx % 2 ^ K)).1,
    median := fun idx => (setup2d_value tcm K (idx / 2 ^ K) (idx % 2 ^ K)).2,
    prepend_cost := fun x => (setup2d_value tcm K (1 <<< (K - 1)) x).1,
    tail_cost := fun x => (setup2d_value tcm K x (1 <<< (K - 1))).1 }

/-- A precalculated table for the stream `s2` (at offset `0` of its buffer): row `0` holds
`prepend_cost[s2[j]]` and row `a ≥ 1` holds `best_cost[a, s2[j]]`. -/
def precalc_of (c : cost_matrices_2d) (s2 : List Nat) : Nat → Int :=
  fun idx => if idx / s2.length = 0 then c.prepend_cost (s2.getD (idx % s2.length) 0)
    else best_cost c (idx / s2.length) (s2.getD (idx % s2.length) 0)

/-- Zero-filled alignment buffers. -/
def zero_buffers : nw_buffers := { mtx := fun _ => 0, dir := fun _ => 0 }

/-- The stream `ACGT` with its leading gap, over the states `A = 1, C = 2, G = 4, T = 8, - = 16`. -/
def sACGT : seq := { cap := 5, elems := [16, 1, 2, 4, 8] }

/-- The stream `AGT` with its leading gap. -/
def sAGT : seq := { cap := 4, elems := [16, 1, 4, 8] }

/-- The matrix that `setup2dCostMtx` builds in a zero-filled fresh matrix for the unit-cost table
over `A, C, G, T, -`. -/
def setup_unit5 : cost_matrices_2d :=
  match setup2dCostMtx (unit_tcm 5) 5 0 zero_mtx_2d with
  | .ok m => m
  | .error _ => zero_mtx_2d

/-- The stream `AC` with its leading gap. -/
def sAC : seq := { cap := 3, elems := [16, 1, 2] }

/-- The stream `A` with its leading gap. -/
def sA : seq := { cap := 2, elems := [16, 1] }

/-- The stream `GA` with its leading gap. -/
def sGA : seq := { cap := 3, elems := [16, 4, 1] }

/-! ## `algn.c`: the linear branch of `algn_backtrace_2d` -/

/-- The local variables of `algn_backtrace_2d` that its loops change: the pointer `end` into the
direction buffer, the two indices and the two output streams. -/
structure bt_state where
  end_ : Int
  idx_seq1 : Int
  idx_seq2 : Int
  ret_seq1 : seq
  ret_seq2 : seq

/-- The block of `algn_backtrace_2d` taken for `ALIGN`: both indices step back, the two symbols are
prepended, `end -= l + 1`. -/
def bt_align (seq1 seq2 : seq) (l : Nat) (st : bt_state) : Option bt_state :=
  let idx_seq1 := st.idx_seq1 - 1
  let new_item_for_ret_seq1 := my_get seq1 idx_seq1
  (my_prepend st.ret_seq1 new_item_for_ret_seq1).bind fun ret_seq1 =>
  let idx_seq2 := st.idx_seq2 - 1
  let new_item_for_ret_seq2 := my_get seq2 idx_seq2
  (my_prepend st.ret_seq2 new_item_for_ret_seq2).bind fun ret_seq2 =>
  some { end_ := st.end_ - (l + 1), idx_seq1 := idx_seq1, idx_seq2 := idx_seq2,
         ret_seq1 := ret_seq1, ret_seq2 := ret_seq2 }

/-- The block of `algn_backtrace_2d` taken for `DELETE`: the symbol of `seq1` is paired with the
gap, `end -= l`. -/
def bt_delete (seq1 : seq) (c : cost_matrices_2d) (l : Nat) (st : bt_state) : Option bt_state :=
  let idx_seq1 := st.idx_seq1 - 1
  let new_item_for_ret_seq1 := my_get seq1 idx_seq1
  (my_prepend st.ret_seq1 new_item_for_ret_seq1).bind fun ret_seq1 =>
  let new_item_for_ret_seq2 := cm_get_gap_2d c
  (my_prepend st.ret_seq2 new_item_for_ret_seq2).bind fun ret_seq2 =>
  some { end_ := st.end_ - l, idx_seq1 := idx_seq1, idx_seq2 := st.idx_seq2,
         ret_seq1 := ret_seq1, ret_seq2 := ret_seq2 }

/-- The block of `algn_backtrace_2d` taken for `INSERT`: the gap is paired with the symbol of
`seq2`, `end -= 1`. -/
def bt_insert (seq2 : seq) (c : cost_matrices_2d) (st : bt_state) : Option bt_state :=
  let new_item_for_ret_seq1 := cm_get_gap_2d c
  (my_prepend st.ret_seq1 new_item_for_ret_seq1).bind fun ret_seq1 =>
  let idx_seq2 := st.idx_seq2 - 1
  let new_item_for_ret_seq2 := my_get seq2 idx_seq2
  (my_prepend st.ret_seq2 new_item_for_ret_seq2).bind fun ret_seq2 =>
  some { end_ := st.end_ - 1, idx_seq1 := st.idx_seq1, idx_seq2 := idx_seq2,
         ret_seq1 := ret_seq1, ret_seq2 := ret_seq2 }

/-- The body of the two loops of the linear branch of `algn_backtrace_2d`: the tests on `*end` in
the order of the source, for `swapped` and for not `swapped`. A failed assertion is `none`. -/
def algn_backtrace_2d_step (dir : Nat → Nat) (seq1 seq2 : seq) (c : cost_matrices_2d) (l : Nat)
    (swapped : Int) (st : bt_state) : Option bt_state :=
  if swapped ≠ 0 then
    if dir st.end_.toNat &&& ALIGN ≠ 0 then bt_align seq1 seq2 l st
    else if dir st.end_.toNat &&& INSERT ≠ 0 then bt_insert seq2 c st
    else if dir st.end_.toNat &&& DELETE ≠ 0 then bt_delete seq1 c l st
    else none
  else
    if dir st.end_.toNat &&& ALIGN ≠ 0 then bt_align seq1 seq2 l st
    else if dir st.end_.toNat &&& DELETE ≠ 0 then bt_delete seq1 c l st
    else if dir st.end_.toNat &&& INSERT ≠ 0 then bt_insert seq2 c st
    else none

/-- The loop `while (end >= beg)` of the linear branch; `none` if it has not ended after `fuel`
iterations or an assertion fails. -/
def algn_backtrace_2d_loop (dir : Nat → Nat) (seq1 seq2 : seq) (c : cost_matrices_2d)
    (l : Nat) (swapped : Int) (beg : Int) : Nat → bt_state → Option bt_state
  | 0, st => if st.end_ ≥ beg then none else some st
  | fuel + 1, st =>
    if st.end_ ≥ beg then
      (algn_backtrace_2d_step dir seq1 seq2 c l swapped st).bind
        (algn_backtrace_2d_loop dir seq1 seq2 c l swapped beg fuel)
    else some st

/-- The branch `!(cm_get_affine_flag (c))` of `algn_backtrace_2d (seq1, seq2, ret_seq1, ret_seq2,
m, c, st_seq1, st_seq2, swapped)`; `dir` is the direction buffer of `m` and `direct` the pointer
`mat_get_2d_direct (m)`. Every iteration of the loop lowers `end` by at least one when `seq2` is
not empty, so `seq1.len * seq2.len + 1` bounds the number of iterations. -/
def algn_backtrace_2d_linear (seq1 seq2 ret_seq1 ret_seq2 : seq) (dir : Nat → Nat)
    (direct : Nat) (c : cost_matrices_2d) (st_seq1 st_seq2 : Nat) (swapped : Int) :
    Option (seq × seq) :=
  let idx_seq1 : Int := seq_get_len seq1
  let idx_seq2 : Int := seq_get_len seq2
  let beg : Int := direct + st_seq2
  let l : Nat := seq_get_len seq2
  let end_ : Int := beg + (idx_seq2 * (idx_seq1 - 1)) + idx_seq2 - 1
  (algn_backtrace_2d_loop dir seq1 seq2 c l swapped beg (seq1.len * seq2.len + 1)
    { end_ := end_, idx_seq1 := idx_seq1 + st_seq1, idx_seq2 := idx_seq2 + st_seq2,
      ret_seq1 := ret_seq1, ret_seq2 := ret_seq2 }).map
    fun st => (st.ret_seq1, st.ret_seq2)

/-- The flag of the direction matrix that stands for a step. -/
def Step.flag : Step → Nat
  | Step.align => ALIGN
  | Step.delete => DELETE
  | Step.insert => INSERT

/-- The tie-break rule of the specification: "when `swapped = false`, prefer ALIGN > DELETE >
INSERT; when `swapped = true`, prefer ALIGN > INSERT > DELETE"; the first step of that order whose
flag is set in the direction value `d`. -/
def preferred_step (swapped : Int) (d : Nat) : Option Step :=
  (if swapped = 0 then [Step.align, Step.delete, Step.insert]
   else [Step.align, Step.insert, Step.delete]).find? (fun s => d &&& s.flag ≠ 0)

/-- The column that a step emits, as the specification words it: ALIGN emits the two symbols,
DELETE the symbol of `S1` with a gap, INSERT a gap with the symbol of `S2`; with the move of `end`
and of the two indices. -/
def emit_step (seq1 seq2 : seq) (c : cost_matrices_2d) (l : Nat) (st : bt_state) :
    Step → Nat × Nat × bt_state
  | Step.align =>
    (my_get seq1 (st.idx_seq1 - 1), my_get seq2 (st.idx_seq2 - 1),
      { st with end_ := st.end_ - (l + 1), idx_seq1 := st.idx_seq1 - 1,
                idx_seq2 := st.idx_seq2 - 1 })
  | Step.delete =>
    (my_get seq1 (st.idx_seq1 - 1), c.gap,
      { st with end_ := st.end_ - l, idx_seq1 := st.idx_seq1 - 1 })
  | Step.insert =>
    (c.gap, my_get seq2 (st.idx_seq2 - 1),
      { st with end_ := st.end_ - 1, idx_seq2 := st.idx_seq2 - 1 })

/-- Taking a step in the backtrace, as the specification words it: the column of the step is
prepended to the two output streams (which fails on a full stream) and `end` and the indices
move. -/
def take_step (seq1 seq2 : seq) (c : cost_matrices_2d) (l : Nat) (st : bt_state)
    (step : Step) : Option bt_state :=
  (my_prepend st.ret_seq1 (emit_step seq1 seq2 c l st step).1).bind fun ret_seq1 =>
  (my_prepend st.ret_seq2 (emit_step seq1 seq2 c l st step).2.1).bind fun ret_seq2 =>
  some { (emit_step seq1 seq2 c l st step).2.2 with ret_seq1 := ret_seq1, ret_seq2 := ret_seq2 }

/-- The stream of capacity `cap` with no symbol. -/
def empty_seq (cap : Nat) : seq := { cap := cap, elems := [] }

/-! ## `algn.c`: `backtrace_affine` -/

/-- The constant `TMPGAP`. -/
def TMPGAP : Nat := 16

/-- The constant `NTMPGAP`. -/
def NTMPGAP : Nat := 15

/-- The flag `ALIGN_TO_ALIGN`. -/
def ALIGN_TO_ALIGN : Nat := 1

/-- The flag `ALIGN_TO_VERTICAL`. -/
def ALIGN_TO_VERTICAL : Nat := 2

/-- The flag `ALIGN_TO_HORIZONTAL`. -/
def ALIGN_TO_HORIZONTAL : Nat := 4

/-- The flag `ALIGN_TO_DIAGONAL`. -/
def ALIGN_TO_DIAGONAL : Nat := 8

/-- The flag `BEGIN_BLOCK`. -/
def BEGIN_BLOCK : Nat := 16

/-- The flag `END_BLOCK`. -/
def END_BLOCK : Nat := 32

/-- The flag `BEGIN_VERTICAL`. -/
def BEGIN_VERTICAL : Nat := 64

/-- The flag `END_VERTICAL`. -/
def END_VERTICAL : Nat := 128

/-- The flag `BEGIN_HORIZONTAL`. -/
def BEGIN_HORIZONTAL : Nat := 256

/-- The flag `END_HORIZONTAL`. -/
def END_HORIZONTAL : Nat := 512

/-- The flag `DO_ALIGN`. -/
def DO_ALIGN : Nat := 1024

/-- The flag `DO_VERTICAL`. -/
def DO_VERTICAL : Nat := 2048

/-- The flag `DO_HORIZONTAL`. -/
def DO_HORIZONTAL : Nat := 4096

/-- The flag `DO_DIAGONAL`. -/
def DO_DIAGONAL : Nat := 8192

/-- The loop of `algn_fill_first_row`: `curRow[i] = curRow[i - 1] + gap_row[i]`,
`dirMtx[i] = INSERT`. -/
def algn_fill_first_row_loop (w : Int → Int) (precalc : Nat → Int) (curRow dirMtx gap_row : Nat) :
    Nat → Nat → nw_buffers → nw_buffers
  | 0, _, s => s
  | fuel + 1, i, s =>
    algn_fill_first_row_loop w precalc curRow dirMtx gap_row fuel (i + 1)
      { mtx := wr s.mtx (curRow + i) (w (s.mtx (curRow + (i - 1)) + precalc (gap_row + i))),
        dir := wr s.dir (dirMtx + i) INSERT }

/-- The function `algn_fill_first_row (curRow, dirMtx, len, gap_row)`. -/
def algn_fill_first_row (w : Int → Int) (precalc : Nat → Int) (s : nw_buffers) (curRow dirMtx len gap_row : Nat) :
    nw_buffers :=
  algn_fill_first_row_loop w precalc curRow dirMtx gap_row (len - 1) 1
    { mtx := wr s.mtx curRow 0, dir := wr s.dir dirMtx ALIGN }

/-- The function `algn_fill_first_cell (curRow, prevRow, dirMtx, gap)`; `prevRow` is a value. -/
def algn_fill_first_cell (w : Int → Int) (s : nw_buffers) (curRow : Nat) (prevRow : Int) (dirMtx : Nat)
    (gap : Int) : nw_buffers :=
  { mtx := wr s.mtx curRow (w (prevRow + gap)), dir := wr s.dir dirMtx DELETE }

/-- The function `algn_fill_ukk_right_cell (curRow, prevRow, gap_row, alg_row, dirMtx, c, pos)`. -/
def algn_fill_ukk_right_cell (w : Int → Int) (precalc : Nat → Int) (s : nw_buffers)
    (curRow prevRow gap_row alg_row dirMtx : Nat) (pos : Nat) : nw_buffers :=
  let tmp2 := w (s.mtx (curRow + (pos - 1)) + precalc (gap_row + pos))
  let tmp3 := w (s.mtx (prevRow + (pos - 1)) + precalc (alg_row + pos))
  if tmp2 < tmp3 then
    { mtx := wr s.mtx (curRow + pos) tmp2, dir := wr s.dir (dirMtx + pos) INSERT }
  else if tmp3 < tmp2 then
    { mtx := wr s.mtx (curRow + pos) tmp3, dir := wr s.dir (dirMtx + pos) ALIGN }
  else
    { mtx := wr s.mtx (curRow + pos) tmp3, dir := wr s.dir (dirMtx + pos) (INSERT ||| ALIGN) }

/-- The function `algn_fill_ukk_left_cell (curRow, prevRow, gap_row, alg_row, dirMtx, c, pos)`. -/
def algn_fill_ukk_left_cell (w : Int → Int) (precalc : Nat → Int) (s : nw_buffers)
    (curRow prevRow alg_row dirMtx : Nat) (c : Int) (pos : Nat) : nw_buffers :=
  let tmp1 := w (s.mtx (prevRow + pos) + c)
  let tmp3 := w (s.mtx (prevRow + (pos - 1)) + precalc (alg_row + pos))
  if tmp1 < tmp3 then
    { mtx := wr s.mtx (curRow + pos) tmp1, dir := wr s.dir (dirMtx + pos) DELETE }
  else if tmp3 < tmp1 then
    { mtx := wr s.mtx (curRow + pos) tmp3, dir := wr s.dir (dirMtx + pos) ALIGN }
  else
    { mtx := wr s.mtx (curRow + pos) tmp1, dir := wr s.dir (dirMtx + pos) (ALIGN ||| DELETE) }

/-- The state of the row loops of the banded fill: the two row pointers, the direction pointer and
the buffers. -/
structure row_state where
  curRow : Nat
  prevRow : Nat
  dirMtx : Nat
  s : nw_buffers

/-- The loop of `algn_fill_extending_right`; `i` is the row and `len` the number of cells of the
row. -/
def algn_fill_extending_right_loop (w : Int → Int) (seq1 : seq) (precalc : Nat → Int)
    (precalcMtx seq2_len : Nat) (c : cost_matrices_2d) (gap_row : Nat) :
    Nat → Nat → Nat → row_state → row_state
  | 0, _, _, r => r
  | fuel + 1, i, len, r =>
    let cur_seq1 := my_get seq1 i
    let const_val := cm_calc_cost c.cost cur_seq1 c.gap c.lcm
    let alg_row := precalcMtx + (cur_seq1 * seq2_len)
    let s1 := algn_fill_first_cell w r.s r.curRow (r.s.mtx r.prevRow) r.dirMtx (precalc alg_row)
    let s2 := algn_fill_row w precalc s1 r.curRow r.prevRow gap_row alg_row r.dirMtx const_val 1
      (len - 2)
    let s3 := algn_fill_ukk_right_cell w precalc s2 r.curRow r.prevRow gap_row alg_row r.dirMtx
      (len - 1)
    algn_fill_extending_right_loop w seq1 precalc precalcMtx seq2_len c gap_row fuel (i + 1)
      (len + 1)
      { curRow := r.prevRow, prevRow := r.curRow, dirMtx := r.dirMtx + seq2_len, s := s3 }

/-- The function `algn_fill_extending_right`; the result is the returned `curRow` and the
buffers. -/
def algn_fill_extending_right (w : Int → Int) (seq1 : seq) (precalc : Nat → Int) (precalcMtx seq2_len : Nat)
    (s : nw_buffers) (curRow prevRow dirMtx : Nat) (c : cost_matrices_2d)
    (start_row end_row len : Nat) : Nat × nw_buffers :=
  let gap_row := precalcMtx + (c.gap * seq2_len)
  let r := algn_fill_extending_right_loop w seq1 precalc precalcMtx seq2_len c gap_row
    (end_row - start_row) start_row len
    { curRow := curRow, prevRow := prevRow, dirMtx := dirMtx, s := s }
  (r.curRow, r.s)

/-- The loop of `algn_fill_extending_left_right`. -/
def algn_fill_extending_left_right_loop (w : Int → Int) (seq1 : seq) (precalc : Nat → Int)
    (precalcMtx seq2_len : Nat) (c : cost_matrices_2d) (gap_row len : Nat) :
    Nat → Nat → Nat → row_state → row_state
  | 0, _, _, r => r
  | fuel + 1, i, start_column, r =>
    let cur_seq1 := my_get seq1 i
    let const_val := cm_calc_cost c.cost cur_seq1 c.gap c.lcm
    let alg_row := precalcMtx + (cur_seq1 * seq2_len)
    let s1 := algn_fill_ukk_left_cell w precalc r.s r.curRow r.prevRow alg_row r.dirMtx const_val
      start_column
    let s2 := algn_fill_row w precalc s1 r.curRow r.prevRow gap_row alg_row r.dirMtx const_val
      (start_column + 1) (start_column + (len - 2))
    let s3 := algn_fill_ukk_right_cell w precalc s2 r.curRow r.prevRow gap_row alg_row r.dirMtx
      (start_column + len - 1)
    algn_fill_extending_left_right_loop w seq1 precalc precalcMtx seq2_len c gap_row len fuel
      (i + 1) (start_column + 1)
      { curRow := r.prevRow, prevRow := r.curRow, dirMtx := r.dirMtx + seq2_len, s := s3 }

/-- The function `algn_fill_extending_left_right`; `len--` comes before the loop. -/
def algn_fill_extending_left_right (w : Int → Int) (seq1 : seq) (precalc : Nat → Int)
    (precalcMtx seq2_len : Nat) (s : nw_buffers) (curRow prevRow dirMtx : Nat)
    (c : cost_matrices_2d) (start_row end_row start_column len : Nat) : Nat × nw_buffers :=
  let gap_row := precalcMtx + (c.gap * seq2_len)
  let r := algn_fill_extending_left_right_loop w seq1 precalc precalcMtx seq2_len c gap_row
    (len - 1) (end_row - start_row) start_row start_column
    { curRow := curRow, prevRow := prevRow, dirMtx := dirMtx, s := s }
  (r.curRow, r.s)

/-- The loop of `algn_fill_extending_left`. -/
def algn_fill_extending_left_loop (w : Int → Int) (seq1 : seq) (precalc : Nat → Int)
    (precalcMtx seq2_len : Nat) (c : cost_matrices_2d) (gap_row : Nat) :
    Nat → Nat → Nat → Nat → row_state → row_state
  | 0, _, _, _, r => r
  | fuel + 1, i, start_column, len, r =>
    let cur_seq1 := my_get seq1 i
    let const_val := cm_calc_cost c.cost cur_seq1 c.gap c.lcm
    let const_val_tail := (cm_get_tail_cost c) cur_seq1
    let alg_row := precalcMtx + (cur_seq1 * seq2_len)
    let s1 := algn_fill_ukk_left_cell w precalc r.s r.curRow r.prevRow alg_row r.dirMtx const_val
      start_column
    let s2 := algn_fill_row w precalc s1 r.curRow r.prevRow gap_row alg_row r.dirMtx const_val
      (start_column + 1) (start_column + len - 1)
    let s3 := algn_fill_last_column w s2 r.curRow r.prevRow const_val_tail
      (start_column + len - 1) r.dirMtx
    algn_fill_extending_left_loop w seq1 precalc precalcMtx seq2_len c gap_row fuel
      (i + 1) (start_column + 1) (len - 1)
      { curRow := r.prevRow, prevRow := r.curRow, dirMtx := r.dirMtx + seq2_len, s := s3 }

/-- The function `algn_fill_extending_left`. -/
def algn_fill_extending_left (w : Int → Int) (seq1 : seq) (precalc : Nat → Int)
    (precalcMtx seq2_len : Nat) (s : nw_buffers) (curRow prevRow dirMtx : Nat)
    (c : cost_matrices_2d) (start_row end_row start_column len : Nat) : Nat × nw_buffers :=
  let gap_row := precalcMtx + (c.gap * seq2_len)
  let r := algn_fill_extending_left_loop w seq1 precalc precalcMtx seq2_len c gap_row
    (end_row - start_row) start_row start_column len
    { curRow := curRow, prevRow := prevRow, dirMtx := dirMtx, s := s }
  (r.curRow, r.s)

/-- The loop of `algn_fill_no_extending`. -/
def algn_fill_no_extending_loop (w : Int → Int) (seq1 : seq) (precalc : Nat → Int)
    (precalcMtx seq2_len : Nat) (c : cost_matrices_2d) (gap_row : Nat) :
    Nat → Nat → row_state → row_state
  | 0, _, r => r
  | fuel + 1, i, r =>
    let cur_seq1 := my_get seq1 i
    let const_val := cm_calc_cost c.cost cur_seq1 c.gap c.lcm
    let const_val_tail := (cm_get_tail_cost c) cur_seq1
    let alg_row := precalcMtx + (cur_seq1 * seq2_len)
    let s1 := algn_fill_first_cell w r.s r.curRow (r.s.mtx r.prevRow) r.dirMtx (precalc alg_row)
    let s2 := algn_fill_row w precalc s1 r.curRow r.prevRow gap_row alg_row r.dirMtx const_val 1
      (seq2_len - 1)
    let s3 := algn_fill_last_column w s2 r.curRow r.prevRow const_val_tail (seq2_len - 1) r.dirMtx
    algn_fill_no_extending_loop w seq1 precalc precalcMtx seq2_len c gap_row fuel (i + 1)
      { curRow := r.prevRow, prevRow := r.curRow, dirMtx := r.dirMtx + seq2_len, s := s3 }

/-- The function `algn_fill_no_extending`. -/
def algn_fill_no_extending (w : Int → Int) (seq1 : seq) (precalc : Nat → Int)
    (precalcMtx seq2_len : Nat) (s : nw_buffers) (curRow prevRow dirMtx : Nat)
    (c : cost_matrices_2d) (start_row end_row : Nat) : Nat × nw_buffers :=
  let gap_row := precalcMtx + (c.gap * seq2_len)
  let r := algn_fill_no_extending_loop w seq1 precalc precalcMtx seq2_len c gap_row
    (end_row - start_row) start_row
    { curRow := curRow, prevRow := prevRow, dirMtx := dirMtx, s := s }
  (r.curRow, r.s)

/-- The function `choose_other (compare, a, b)`. -/
def choose_other (compare a b : Nat) : Nat := if a = compare then b else a

/-- The function `algn_fill_plane_2 (seq1, precalcMtx, seq1_len, seq2_len, curRow, dirMtx, c,
width, height, dwidth_height)`; the result is the returned cost and the buffers it leaves. The
test `seq1_len >= 1.5 * seq2_len` is `2 * seq1_len ≥ 3 * seq2_len`. -/
def algn_fill_plane_2 (w : Int → Int) (seq1 : seq) (precalc : Nat → Int) (precalcMtx seq1_len seq2_len : Nat)
    (s : nw_buffers) (curRow dirMtx : Nat) (c : cost_matrices_2d)
    (width height dwidth_height : Nat) : Int × nw_buffers :=
  let width := if width + dwidth_height > seq2_len then seq2_len else width + dwidth_height
  let height := if height + dwidth_height > seq1_len then seq1_len else height + dwidth_height
  let a := curRow
  let b := curRow + seq2_len
  let gap_row := cm_get_precal_row precalcMtx 0 seq2_len
  if 2 * seq1_len ≥ 3 * seq2_len then
    algn_fill_plane w seq1 precalc precalcMtx seq1_len seq2_len s curRow dirMtx c
  else if 2 * height < seq1_len then
    let s0 := algn_fill_first_row w precalc s a dirMtx width gap_row
    let r1 := algn_fill_extending_right w seq1 precalc precalcMtx seq2_len s0 b a
      (dirMtx + 1 * seq2_len) c 1 height (width + 1)
    let next_prevRow1 := choose_other r1.1 a b
    let final_row2 := seq1_len - (height - 1)
    let r2 := algn_fill_extending_left_right w seq1 precalc precalcMtx seq2_len r1.2 r1.1
      next_prevRow1 (dirMtx + height * seq2_len) c height final_row2 1 (width + height)
    let next_prevRow2 := choose_other r2.1 a b
    let length := width + height - 2
    let r3 := algn_fill_extending_left w seq1 precalc precalcMtx seq2_len r2.2 r2.1
      next_prevRow2 (dirMtx + final_row2 * seq2_len) c final_row2 seq1_len
      (seq2_len - length) length
    let next_prevRow3 := choose_other r3.1 a b
    (r3.2.mtx (next_prevRow3 + (seq2_len - 1)), r3.2)
  else if 8 ≥ seq1_len - height then
    algn_fill_plane w seq1 precalc precalcMtx seq1_len seq2_len s curRow dirMtx c
  else
    let s0 := algn_fill_first_row w precalc s curRow dirMtx width gap_row
    let final_row1 := (seq2_len - width) + 1
    let r1 := algn_fill_extending_right w seq1 precalc precalcMtx seq2_len s0 b a
      (dirMtx + seq2_len * 1) c 1 final_row1 (width + 1)
    let next_prevRow1 := choose_other r1.1 a b
    let final_row2 := seq1_len - (seq2_len - width) + 1
    let r2 := algn_fill_no_extending w seq1 precalc precalcMtx seq2_len r1.2 r1.1
      next_prevRow1 (dirMtx + seq2_len * final_row1) c final_row1 final_row2
    let next_prevRow2 := choose_other r2.1 a b
    let r3 := algn_fill_extending_left w seq1 precalc precalcMtx seq2_len r2.2 r2.1
      next_prevRow2 (dirMtx + seq2_len * final_row2) c final_row2 seq1_len 1 (seq2_len - 1)
    let next_prevRow3 := choose_other r3.1 a b
    (r3.2.mtx (next_prevRow3 + (seq2_len - 1)), r3.2)

/-! ## Streams on which the band of `algn_fill_plane_2` is too narrow -/

/-- A base table over `A, C, G, T, -` (row-major, `5 × 5`): a symbol against itself costs `0`, a
symbol against the gap costs `1`, two different symbols cost `2`. -/
def indel1_sub2_tcm : Nat → Int := fun i =>
  if i / 5 = i % 5 then 0 else if i / 5 = 4 ∨ i % 5 = 4 then 1 else 2

/-- The stream `C⁸ G⁵⁰` with its leading gap (`59` symbols). -/
def band_seq1 : seq := { cap := 59, elems := 16 :: (List.replicate 8 2 ++ List.replicate 50 4) }

/-- The stream `A⁵⁰ C⁸` with its leading gap (`59` symbols). -/
def band_seq2 : seq := { cap := 59, elems := 16 :: (List.replicate 50 1 ++ List.replicate 8 2) }

/-- The alignment of `band_seq1` with `band_seq2` that inserts `A⁵⁰`, pairs `C⁸` with `C⁸` and
deletes `G⁵⁰`, listed from the last column to the first one. -/
def band_path : List Step :=
  List.replicate 50 Step.delete ++ List.replicate 8 Step.align ++ List.replicate 50 Step.insert

/-- The value that `algn_fill_row` writes to cell `j` of the row of `seq1[i]` when the cells around
it hold the values of the table `T`. -/
def fill_row_value (w : Int → Int) (seq1 : seq) (precalc : Nat → Int) (precalcMtx seq2_len : Nat)
    (c : cost_matrices_2d) (T : Nat → Nat → Int) (i j : Nat) : Int :=
  (algn_fill_row_cell
    (w (T (i - 1) j + cm_calc_cost c.cost (my_get seq1 i) c.gap c.lcm))
    (w (T i (j - 1) + precalc (precalcMtx + c.gap * seq2_len + j)))
    (w (T (i - 1) (j - 1) + precalc (precalcMtx + my_get seq1 i * seq2_len + j)))).1

/-- The table `T` holds in row `0`, columns `0 .. width - 1`, what `algn_fill_first_row` writes. -/
def first_row_ok (w : Int → Int) (precalc : Nat → Int) (precalcMtx seq2_len : Nat)
    (T : Nat → Nat → Int) (width : Nat) : Prop :=
  T 0 0 = 0 ∧
  ∀ j, j < width → 1 ≤ j →
    T 0 j = w (T 0 (j - 1) + precalc (cm_get_precal_row precalcMtx 0 seq2_len + j))

/-- The table `T` holds in row `i`, columns `0 .. len - 1`, what one iteration of
`algn_fill_extending_right` writes from row `i - 1` of `T`. -/
def extending_right_row_ok (w : Int → Int) (seq1 : seq) (precalc : Nat → Int)
    (precalcMtx seq2_len : Nat) (c : cost_matrices_2d) (T : Nat → Nat → Int) (i len : Nat) :
    Prop :=
  T i 0 = w (T (i - 1) 0 + precalc (precalcMtx + my_get seq1 i * seq2_len)) ∧
  (∀ j, j < len - 1 → 1 ≤ j →
    T i j = fill_row_value w seq1 precalc precalcMtx seq2_len c T i j) ∧
  T i (len - 1) =
    min (w (T i (len - 1 - 1) + precalc (precalcMtx + c.gap * seq2_len + (len - 1))))
      (w (T (i - 1) (len - 1 - 1) +
        precalc (precalcMtx + my_get seq1 i * seq2_len + (len - 1))))

/-- The table `T` holds in row `i` what one iteration of `algn_fill_no_extending` writes from row
`i - 1` of `T`. -/
def no_extending_row_ok (w : Int → Int) (seq1 : seq) (precalc : Nat → Int)
    (precalcMtx seq2_len : Nat) (c : cost_matrices_2d) (T : Nat → Nat → Int) (i : Nat) : Prop :=
  T i 0 = w (T (i - 1) 0 + precalc (precalcMtx + my_get seq1 i * seq2_len)) ∧
  (∀ j, j < seq2_len - 1 → 1 ≤ j →
    T i j = fill_row_value w seq1 precalc precalcMtx seq2_len c T i j) ∧
  T i (seq2_len - 1) =
    min (w (cm_get_tail_cost c (my_get seq1 i) + T (i - 1) (seq2_len - 1)))
      (fill_row_value w seq1 precalc precalcMtx seq2_len c T i (seq2_len - 1))

/-- The table `T` holds in row `i`, columns `start_column .. seq2_len - 1`, what one iteration of
`algn_fill_extending_left` writes from row `i - 1` of `T`. -/
def extending_left_row_ok (w : Int → Int) (seq1 : seq) (precalc : Nat → Int)
    (precalcMtx seq2_len : Nat) (c : cost_matrices_2d) (T : Nat → Nat → Int)
    (i start_column : Nat) : Prop :=
  T i start_column =
    min (w (T (i - 1) start_column + cm_calc_cost c.cost (my_get seq1 i) c.gap c.lcm))
      (w (T (i - 1) (start_column - 1) +
        precalc (precalcMtx + my_get seq1 i * seq2_len + start_column))) ∧
  (∀ j, j < seq2_len - 1 → start_column + 1 ≤ j →
    T i j = fill_row_value w seq1 precalc precalcMtx seq2_len c T i j) ∧
  T i (seq2_len - 1) =
    min (w (cm_get_tail_cost c (my_get seq1 i) + T (i - 1) (seq2_len - 1)))
      (fill_row_value w seq1 precalc precalcMtx seq2_len c T i (seq2_len - 1))

instance (w : Int → Int) (precalc : Nat → Int) (precalcMtx seq2_len : Nat)
    (T : Nat → Nat → Int) (width : Nat) :
    Decidable (first_row_ok w precalc precalcMtx seq2_len T width) := by
  unfold first_row_ok; infer_instance

instance (w : Int → Int) (seq1 : seq) (precalc : Nat → Int) (precalcMtx seq2_len : Nat)
    (c : cost_matrices_2d) (T : Nat → Nat → Int) (i len : Nat) :
    Decidable (extending_right_row_ok w seq1 precalc precalcMtx seq2_len c T i len) := by
  unfold extending_right_row_ok; infer_instance

instance (w : Int → Int) (seq1 : seq) (precalc : Nat → Int) (precalcMtx seq2_len : Nat)
    (c : cost_matrices_2d) (T : Nat → Nat → Int) (i : Nat) :
    Decidable (no_extending_row_ok w seq1 precalc precalcMtx seq2_len c T i) := by
  unfold no_extending_row_ok; infer_instance

instance (w : Int → Int) (seq1 : seq) (precalc : Nat → Int) (precalcMtx seq2_len : Nat)
    (c : cost_matrices_2d) (T : Nat → Nat → Int) (i start_column : Nat) :
    Decidable (extending_left_row_ok w seq1 precalc precalcMtx seq2_len c T i start_column) := by
  unfold extending_left_row_ok; infer_instance

/-- The two row pointers `cur`, `prev` of the banded fill are the two rows `a` and `a + seq2_len`
of the cost buffer, in either order. -/
def row_pair (a seq2_len cur prev : Nat) : Prop :=
  (cur = a ∧ prev = a + seq2_len) ∨ (cur = a + seq2_len ∧ prev = a)

/-- The expanded cost matrix over `A, C, G, T, -` (gap `16`) in closed form: a symbol against
itself costs `0`, a symbol against the gap costs `1`, two different symbols cost `2`; the prepend
and tail costs are the costs against the gap. -/
def band_costs : cost_matrices_2d :=
  { zero_mtx_2d with
    alphSize := 5, lcm := 5, gap := 16, combinations := 1, is_metric := 1, all_elements := 31,
    cost := fun idx => if idx / 32 = idx % 32 then 0
      else if idx / 32 = 16 ∨ idx % 32 = 16 then 1 else 2,
    prepend_cost := fun x => if x = 16 then 0 else 1,
    tail_cost := fun x => if x = 16 then 0 else 1 }

/-- The cells that the banded fill computes for `band_seq1`, `band_seq2` under `band_costs`, in
closed form: `i + j` less twice the number of `C`s that an alignment inside the band can pair. -/
def band_table (i j : Nat) : Int :=
  ((i + j - 2 * min (min i 8 - 1) (j - 50) : Nat) : Int)

/-- The Needleman-Wunsch table of `band_seq1`, `band_seq2` under `band_costs`, in closed form:
`i + j` less twice the number of `C`s that an alignment can pair. -/
def full_table (i j : Nat) : Int :=
  ((i + j - 2 * min (min i 8) (j - 50) : Nat) : Int)

/-! ## `algn.c`: medians and union of two aligned streams -/

/-- Modelled from the spec: `seq_get_cap`, declared in the absent `seq.h`; the capacity of the
stream. -/
def seq_get_cap (s : seq) : Nat := s.cap

/-- The loop `for (i = seq_get_len (seq1) - 1; i >= 0; i--)` of `algn_get_median_2d_with_gaps`;
the first argument is `i + 1`. A failed prepend is `none`. -/
def algn_get_median_2d_with_gaps_loop (seq1 seq2 : seq) (m : cost_matrices_2d) :
    Nat → seq → Option seq
  | 0, sm => some sm
  | i + 1, sm =>
    (seq_prepend sm (cm_get_median m (seq_get_element seq1 i) (seq_get_element seq2 i))).bind
      (algn_get_median_2d_with_gaps_loop seq1 seq2 m i)

/-- The function `algn_get_median_2d_with_gaps (seq1, seq2, m, sm)`; the result is the stream
`sm`. -/
def algn_get_median_2d_with_gaps (seq1 seq2 : seq) (m : cost_matrices_2d) (sm : seq) :
    Option seq :=
  algn_get_median_2d_with_gaps_loop seq1 seq2 m (seq_get_len seq1) sm

/-- The loop of `algn_get_median_2d_no_gaps`; the first argument is `i + 1`. -/
def algn_get_median_2d_no_gaps_loop (seq1 seq2 : seq) (m : cost_matrices_2d) :
    Nat → seq → Option seq
  | 0, sm => some sm
  | i + 1, sm =>
    let interm := cm_get_median m (seq_get_element seq1 i) (seq_get_element seq2 i)
    if interm ≠ cm_get_gap_2d m then
      (seq_prepend sm interm).bind (algn_get_median_2d_no_gaps_loop seq1 seq2 m i)
    else algn_get_median_2d_no_gaps_loop seq1 seq2 m i sm

/-- The function `algn_get_median_2d_no_gaps (seq1, seq2, m, sm)`; the result is the stream
`sm`. -/
def algn_get_median_2d_no_gaps (seq1 seq2 : seq) (m : cost_matrices_2d) (sm : seq) :
    Option seq :=
  (algn_get_median_2d_no_gaps_loop seq1 seq2 m (seq_get_len seq1) sm).bind
    (fun s => seq_prepend s (cm_get_gap_2d m))

/-- The loop `for (i = len - 1; i >= 0; i--)` of `algn_union`; the first argument is `i + 1`. -/
def algn_union_loop (seq1 seq2 : seq) : Nat → seq → Option seq
  | 0, su => some su
  | i + 1, su =>
    (seq_prepend su (seq_get_element seq1 i ||| seq_get_element seq2 i)).bind
      (algn_union_loop seq1 seq2 i)

/-- The function `algn_union (seq1, seq2, su)`; the result is the stream `su`, and a failed
assertion is `none`. -/
def algn_union (seq1 seq2 su : seq) : Option seq :=
  if seq_get_len seq1 = seq_get_len seq2 then
    if seq_get_cap seq1 ≥ seq_get_len seq2 then
      algn_union_loop seq1 seq2 (seq_get_len seq1) su
    else none
  else none

/-- The gapped median of column `k` of two aligned streams. -/
def median_column (m : cost_matrices_2d) (seq1 seq2 : seq) (k : Nat) : Nat :=
  cm_get_median m (seq_get_element seq1 k) (seq_get_element seq2 k)

/-- The aligned streams `- A C G T` and `- A - G T`. -/
def sACGT_AGT_1 : seq := { cap := 5, elems := [16, 1, 2, 4, 8] }

/-- The aligned stream `- A - G T`. -/
def sACGT_AGT_2 : seq := { cap := 5, elems := [16, 1, 16, 4, 8] }

/-! ## `matrices.c`: the sizes of the alignment buffers -/

/-- The value of a 32 bit `int` computation whose exact result is `x` (two's complement). -/
def wrap32 (x : Int) : Int := (x + 2147483648) % 4294967296 - 2147483648

/-- The recorded capacities of `struct matrices`: `len_eff` of the cost buffer (`cube` /
`nw_costMtx`), `len` of the direction buffer (`cube_d` / `dir_mtx_2d`) and `len_pre` of the
precalculated table (`precalc`). The buffers themselves are not part of this model. -/
structure nw_matrices where
  len : Int
  len_eff : Int
  len_pre : Int

/-- The function `mat_size_of_3d_matrix (w, d, h, k)`. -/
def mat_size_of_3d_matrix (w d h _k : Int) : Int := wrap32 (wrap32 (w * d) * h)

/-- The function `mat_size_of_2d_matrix (w, h)`. -/
def mat_size_of_2d_matrix (w h : Int) : Int :=
  if w > h then wrap32 (w * 12) else wrap32 (h * 12)

/-- The function `mat_setup_size (m, len_seq1, len_seq2, len_seq3, is_ukk, lcm)`, as far as the
recorded capacities go; every `realloc` is taken to succeed. -/
def mat_setup_size (m : nw_matrices) (len_seq1 len_seq2 len_seq3 is_ukk : Int) (lcm : Nat) :
    nw_matrices :=
  let len := if len_seq3 = 0 then mat_size_of_2d_matrix len_seq1 len_seq2
    else mat_size_of_3d_matrix len_seq1 len_seq2 len_seq3 is_ukk
  let len_precalc := if len_seq3 = 0 then wrap32 (wrap32 (1 <<< lcm : Nat) * len_seq1)
    else wrap32 (wrap32 (wrap32 (1 <<< lcm : Nat) * wrap32 (1 <<< lcm : Nat)) * len_seq2)
  let len_2d := if len_seq3 = 0 then 0 else wrap32 (len_seq1 * len_seq2)
  let len_dir := if len_seq3 = 0 then wrap32 (wrap32 (len_seq1 + 1) * wrap32 (len_seq2 + 1))
    else wrap32 (len_2d * len_seq3)
  { len_eff := if m.len_eff < len then len else m.len_eff,
    len := if m.len < len_dir then len_dir else m.len,
    len_pre := if m.len_pre < len_precalc then len_precalc else m.len_pre }

/-- The capacities of a pool whose buffers are all empty. -/
def empty_matrices : nw_matrices := { len := 0, len_eff := 0, len_pre := 0 }

/-! ## `algn.c`: the cost of an alignment, `algn_calculate_from_2_aligned` -/

/-- Modelled from the spec: `cm_get_gap_opening_parameter (c)`, the "gap-open G" recorded in the
expanded matrix; the body is in the absent `cm.c`. -/
def cm_get_gap_opening_parameter (c : cost_matrices_2d) : Int := c.gap_open

/-- The test `(c->combinations && (x & gap) && !(y & gap)) || ((!c->combinations) && (x == gap))`
of `algn_calculate_from_2_aligned`. -/
def opens_gap_block (c : cost_matrices_2d) (gap x y : Nat) : Bool :=
  (c.combinations ≠ 0 && x &&& gap ≠ 0 && !(y &&& gap ≠ 0)) || (c.combinations = 0 && x = gap)

/-- The body of the loop of `algn_calculate_from_2_aligned` up to the last statement: the new
values of `res` and `gap_row`; a failed assertion is `none`. Every `int` sum is passed through the
reduction `w`. -/
def algn_calculate_gap_row (w : Int → Int) (c : cost_matrices_2d) (gap : Nat) (gap_opening : Int)
    (seq1b seq2b : Nat) (res : Int) (gap_row : Int) : Option (Int × Int) :=
  if 0 = gap_row then
    if opens_gap_block c gap seq1b seq2b then some (w (res + gap_opening), 1)
    else if opens_gap_block c gap seq2b seq1b then some (w (res + gap_opening), 2)
    else some (res, gap_row)
  else if 1 = gap_row then
    if (c.combinations ≠ 0 && !(seq1b &&& gap ≠ 0)) || (c.combinations = 0 && seq1b ≠ gap) then
      if opens_gap_block c gap seq2b seq1b then some (w (res + gap_opening), 2)
      else some (res, 0)
    else some (res, gap_row)
  else if 2 = gap_row then
    if (c.combinations ≠ 0 && !(seq2b &&& gap ≠ 0)) || (c.combinations = 0 && seq2b ≠ gap) then
      if (c.combinations ≠ 0 && seq1b &&& gap ≠ 0) || (c.combinations = 0 && seq1b = gap) then
        some (w (res + gap_opening), 1)
      else some (res, 0)
    else some (res, gap_row)
  else none

/-- The loop `for (; i < seq_get_len (seq1); i++)` of `algn_calculate_from_2_aligned`. -/
def algn_calculate_from_2_aligned_loop (w : Int → Int) (seq1 seq2 : seq) (c : cost_matrices_2d)
    (matrix : Nat → Int) (gap : Nat) (gap_opening : Int) :
    Nat → Nat → Int → Int → Option Int
  | 0, _, res, _ => some res
  | fuel + 1, i, res, gap_row =>
    (algn_calculate_gap_row w c gap gap_opening (seq_get_element seq1 i) (seq_get_element seq2 i)
      res gap_row).bind fun r =>
    algn_calculate_from_2_aligned_loop w seq1 seq2 c matrix gap gap_opening fuel (i + 1)
      (w (r.1 + cm_calc_cost matrix (seq_get_element seq1 i) (seq_get_element seq2 i) c.lcm))
      r.2

/-- The function `algn_calculate_from_2_aligned (seq1, seq2, c, matrix)`; a failed assertion is
`none`. -/
def algn_calculate_from_2_aligned (w : Int → Int) (seq1 seq2 : seq) (c : cost_matrices_2d)
    (matrix : Nat → Int) : Option Int :=
  let gap := cm_get_gap_2d c
  let seq1b := seq_get_element seq1 0
  let seq2b := seq_get_element seq2 0
  let i : Nat :=
    if (c.combinations ≠ 0 && gap &&& seq1b ≠ 0 && gap &&& seq2b ≠ 0) ||
        (c.combinations = 0 && gap = seq1b && gap = seq2b) then 1 else 0
  let gap_opening := cm_get_gap_opening_parameter c
  if seq_get_len seq1 = seq_get_len seq2 then
    algn_calculate_from_2_aligned_loop w seq1 seq2 c matrix gap gap_opening
      (seq_get_len seq1 - i) i 0 0
  else none

/-- The function `algn_verify_2 (seq1, seq2, c)`. -/
def algn_verify_2 (w : Int → Int) (seq1 seq2 : seq) (c : cost_matrices_2d) : Option Int :=
  algn_calculate_from_2_aligned w seq1 seq2 c c.cost

/-! ## `algn.c`: the entry points `algn_nw_limit_2d` and `algn_nw_2d` of the 2-D engine -/

/-- The branch `!(cm_get_affine_flag (costMtx))` of `algn_nw_limit_2d (seq1, seq2, costMtx,
nw_mtxs, deltawh, st_seq1, len_seq1, st_seq2, len_seq2)`: the call of `algn_fill_plane_2` with
width `50` and height `(len_seq1 - len_seq2) + 50`. `precalc` is the table that
`cm_precalc_4algn (costMtx, nw_mtxs, seq2)` has left at `precalcMtx`, `curRow` and `dirMtx` are
the pointers `mat_get_2d_nwMtx (nw_mtxs)` and `mat_get_2d_direct (nw_mtxs)`. -/
def algn_nw_limit_2d_linear (w : Int → Int) (seq1 seq2 : seq) (c : cost_matrices_2d) (precalc : Nat → Int)
    (precalcMtx : Nat) (s : nw_buffers) (curRow dirMtx : Nat) (deltawh : Nat)
    (len_seq1 len_seq2 : Nat) : Int × nw_buffers :=
  let seq1_len := seq_get_len seq1
  let seq2_len := seq_get_len seq2
  algn_fill_plane_2 w seq1 precalc precalcMtx seq1_len seq2_len s curRow dirMtx c 50
    ((len_seq1 - len_seq2) + 50) deltawh

/-- The function `algn_nw_2d (seq1, seq2, costMtx, nw_mtxs, deltawh)` for a matrix without the
affine flag; the failed assertion `seq1_len >= seq2_len` is `none`. -/
def algn_nw_2d_linear (w : Int → Int) (seq1 seq2 : seq) (c : cost_matrices_2d) (precalc : Nat → Int)
    (precalcMtx : Nat) (s : nw_buffers) (curRow dirMtx : Nat) (deltawh : Nat) :
    Option (Int × nw_buffers) :=
  let seq1_len := seq_get_len seq1
  let seq2_len := seq_get_len seq2
  if seq1_len ≥ seq2_len then
    some (algn_nw_limit_2d_linear w seq1 seq2 c precalc precalcMtx s curRow dirMtx deltawh
      seq1_len seq2_len)
  else none

/-! ## `c_alignment_interface.c`: the entry point `align2d` -/

/-- The structure `struct alignIO`, with the fields that `c_alignment_interface.c` uses:
`character` is the array of `capacity` cells, `length` the number of symbols. -/
structure alignIO where
  character : List Nat
  length : Nat
  capacity : Nat
  deriving DecidableEq, Repr

/-- The function `initializeChar (retChar, allocSize)` of `c_code_alloc_setup.c`: an empty stream
of capacity `allocSize`. -/
def initializeChar (allocSize : Nat) : seq := { cap := allocSize, elems := [] }

/-- The function `alignIOtoChar (input, retChar, alphabetSize)`: the stream is the last `length`
cells of the array of `input`, with the gap `1 << (alphabetSize - 1)` written into the cell before
them. -/
def alignIOtoChar (input : alignIO) (alphabetSize : Nat) : seq :=
  { cap := input.capacity,
    elems := (1 <<< (alphabetSize - 1)) ::
      (List.range input.length).map
        (fun i => input.character.getD (input.capacity - input.length + i) 0) }

/-- The function `charToAlignIO (input, output)`. It moves `input->seq_begin` one cell up and
leaves `input->len` alone; `shift` is the number of earlier calls on the same stream, `output` is
the cells `0 .. input->cap - 1` of the array it writes. A read past the end of the stream is taken
as `0`. -/
def charToAlignIO (input : seq) (shift : Nat) : alignIO :=
  { length := input.len - 1,
    capacity := input.cap,
    character := (List.range (max (input.len - 1) input.cap)).map
      (fun i => if i < input.len - 1 then input.elems.getD (shift + 1 + i) 0 else 0) }

/-- What a call of `align2d` leaves: the returned cost and the four `alignIO` arguments. -/
structure align2d_result where
  algnCost : Int
  inputChar1_aio : alignIO
  inputChar2_aio : alignIO
  gappedOutput_aio : alignIO
  ungappedOutput_aio : alignIO
  deriving DecidableEq, Repr

/-- The value `deltawh` that `align2d` passes to `algn_nw_2d`. The product `.1 * longChar->len`,
truncated to `int`, is `longChar->len / 10`. -/
def align2d_deltawh (longChar shortChar : seq) : Int :=
  let deltawh : Int := 0
  let diff : Int := (longChar.len : Int) - (shortChar.len : Int)
  let lower_limit : Int := ((longChar.len / 10 : Nat) : Int)
  if deltawh ≠ 0 then (if diff < lower_limit then lower_limit else deltawh)
  else (if diff < lower_limit then lower_limit / 2 else 2)

/-- The block of `align2d` under `if (getGapped || getUngapped || getUnion)`, after the backtrace:
the medians and the copies of the aligned streams into the `alignIO` arguments. `shift` counts the
calls of `charToAlignIO` on `retLongChar` and on `retShortChar`. A failed assertion is `none`. -/
def align2d_outputs (retShortChar retLongChar : seq) (costMtx2d : cost_matrices_2d)
    (CHAR_CAPACITY : Nat) ( longIO shortIO gappedOutput_aio ungappedOutput_aio : alignIO)
    (getUngapped getGapped getUnion : Int) :
    Option ( alignIO × alignIO × alignIO × alignIO) :=
  let st0 : Option ( alignIO × alignIO × alignIO × alignIO × Nat) :=
    some ( longIO, shortIO, gappedOutput_aio, ungappedOutput_aio, 0)
  let st1 := st0.bind fun st =>
    if getUngapped ≠ 0 then
      (algn_get_median_2d_no_gaps retShortChar retLongChar costMtx2d
        (initializeChar CHAR_CAPACITY)).map fun ungappedMedianChar =>
        ( charToAlignIO retLongChar st.2.2.2.2, charToAlignIO retShortChar st.2.2.2.2, st.2.2.1,
          charToAlignIO ungappedMedianChar 0, st.2.2.2.2 + 1)
    else some st
  let st2 := st1.bind fun st =>
    if getGapped ≠ 0 ∧ ¬ getUnion ≠ 0 then
      (algn_get_median_2d_with_gaps retShortChar retLongChar costMtx2d
        (initializeChar CHAR_CAPACITY)).map fun gappedMedianChar =>
        ( charToAlignIO retLongChar st.2.2.2.2, charToAlignIO retShortChar st.2.2.2.2,
          charToAlignIO gappedMedianChar 0, st.2.2.2.1, st.2.2.2.2 + 1)
    else some st
  let st3 := st2.bind fun st =>
    if getUnion ≠ 0 then
      (algn_union retShortChar retLongChar (initializeChar CHAR_CAPACITY)).map
        fun gappedMedianChar =>
        ( charToAlignIO retLongChar st.2.2.2.2, charToAlignIO retShortChar st.2.2.2.2,
          charToAlignIO gappedMedianChar 0, st.2.2.2.1, st.2.2.2.2 + 1)
    else some st
  st3.map fun st => (st.1, st.2.1, st.2.2.1, st.2.2.2.1)

/-- The function `align2d (inputChar1_aio, inputChar2_aio, gappedOutput_aio, ungappedOutput_aio,
costMtx2d, getUngapped, getGapped, getUnion)`, over the two entry points of the engine that it
calls: `nw s1 s2 costMtx deltawh` is `algn_nw_2d (s1, s2, costMtx, nw_mtxs, deltawh)` on the
matrices that `initializeNWMtx` allocates, with the returned cost and the matrices it leaves, and
`bt s1 s2 r1 r2 m costMtx` is `algn_backtrace_2d (s1, s2, r1, r2, m, costMtx, 0, 0, swapped)` with
`swapped = 0`. The alphabet size `costMtx2d->costMatrixDimension` is the field `alphSize`. A failed
assertion is `none`. -/
def align2d_with (nw : seq → seq → cost_matrices_2d → Int → Option (Int × nw_buffers))
    (bt : seq → seq → seq → seq → nw_buffers → cost_matrices_2d → Option (seq × seq))
    (inputChar1_aio inputChar2_aio gappedOutput_aio ungappedOutput_aio : alignIO)
    (costMtx2d : cost_matrices_2d) (getUngapped getGapped getUnion : Int) :
    Option align2d_result :=
  let CHAR_CAPACITY := inputChar1_aio.length + inputChar2_aio.length
  let retLongChar := initializeChar CHAR_CAPACITY
  let retShortChar := initializeChar CHAR_CAPACITY
  let alphabetSize := costMtx2d.alphSize
  let first_long : Bool := decide (inputChar1_aio.length ≥ inputChar2_aio.length)
  let longIO := if first_long then inputChar1_aio else inputChar2_aio
  let shortIO := if first_long then inputChar2_aio else inputChar1_aio
  let longChar := alignIOtoChar longIO alphabetSize
  let shortChar := alignIOtoChar shortIO alphabetSize
  let deltawh := align2d_deltawh longChar shortChar
  (nw shortChar longChar costMtx2d deltawh).bind fun r =>
    let algnCost := r.1
    if getGapped ≠ 0 ∨ getUngapped ≠ 0 ∨ getUnion ≠ 0 then
      (bt shortChar longChar retShortChar retLongChar r.2 costMtx2d).bind fun ret =>
        (align2d_outputs ret.1 ret.2 costMtx2d CHAR_CAPACITY longIO shortIO gappedOutput_aio
          ungappedOutput_aio getUngapped getGapped getUnion).map fun o =>
          { algnCost := algnCost,
            inputChar1_aio := if first_long then o.1 else o.2.1,
            inputChar2_aio := if first_long then o.2.1 else o.1,
            gappedOutput_aio := o.2.2.1,
            ungappedOutput_aio := o.2.2.2 }
    else
      some { algnCost := algnCost, inputChar1_aio := inputChar1_aio,
             inputChar2_aio := inputChar2_aio, gappedOutput_aio := gappedOutput_aio,
             ungappedOutput_aio := ungappedOutput_aio }

/-- The entry point `algn_nw_2d` of `algn.c` for a matrix without the affine flag, on zero-filled
matrices with the table of `cm_precalc_4algn` for `seq2`. -/
def nw_2d_entry (w : Int → Int) (seq1 seq2 : seq) (c : cost_matrices_2d) (deltawh : Int) :
    Option (Int × nw_buffers) :=
  algn_nw_2d_linear w seq1 seq2 c (precalc_of c seq2.elems) 0 zero_buffers 0 0 deltawh.toNat

/-- The entry point `algn_backtrace_2d` of `algn.c` for a matrix without the affine flag, with
`st_seq1 = st_seq2 = 0` and `swapped = 0`. -/
def backtrace_2d_entry (seq1 seq2 ret_seq1 ret_seq2 : seq) (m : nw_buffers)
    (c : cost_matrices_2d) : Option (seq × seq) :=
  algn_backtrace_2d_linear seq1 seq2 ret_seq1 ret_seq2 m.dir 0 c 0 0 0

/-- The function `align2d` with the 2-D engine of `algn.c`; `w` is the reduction of the `int` sums
of the fill. -/
def align2d (w : Int → Int)
    (inputChar1_aio inputChar2_aio gappedOutput_aio ungappedOutput_aio : alignIO)
    (costMtx2d : cost_matrices_2d) (getUngapped getGapped getUnion : Int) :
    Option align2d_result :=
  align2d_with (nw_2d_entry w) backtrace_2d_entry inputChar1_aio inputChar2_aio gappedOutput_aio
    ungappedOutput_aio costMtx2d getUngapped getGapped getUnion

/-- The result of `align2d` with the roles of the two input arguments exchanged. -/
def align2d_result.swap (r : align2d_result) : align2d_result :=
  { r with inputChar1_aio := r.inputChar2_aio, inputChar2_aio := r.inputChar1_aio }

/-- An `alignIO` that holds the symbols `xs` in the last cells of an array with one spare cell. -/
def alignIO_of (xs : List Nat) : alignIO :=
  { character := 0 :: xs, length := xs.length, capacity := xs.length + 1 }

/-- An `alignIO` with no cells, for an output that is not asked for. -/
def alignIO_none : alignIO := { character := [], length := 0, capacity := 0 }

/-! ## Two streams of equal length that `align2d` aligns at different costs in the two orders -/

/-- The symbols `C⁸ G⁵³`. -/
def asym_A : List Nat := List.replicate 8 2 ++ List.replicate 53 4

/-- The symbols `A⁵³ C⁸`. -/
def asym_B : List Nat := List.replicate 53 1 ++ List.replicate 8 2

/-- The stream `C⁸ G⁵³` with its leading gap (`62` symbols), as `alignIOtoChar` builds it. -/
def asym_seqA : seq := { cap := 62, elems := 16 :: asym_A }

/-- The stream `A⁵³ C⁸` with its leading gap (`62` symbols), as `alignIOtoChar` builds it. -/
def asym_seqB : seq := { cap := 62, elems := 16 :: asym_B }

/-- The cells that the banded fill computes for `seq1 = asym_seqA`, `seq2 = asym_seqB` under
`band_costs` with `deltawh = 3`, in closed form. -/
def asym_table_AB (i j : Nat) : Int :=
  ((i + j - 2 * min (min i 8 - 1) (j - 53) : Nat) : Int)

/-- The cells that the banded fill computes for `seq1 = asym_seqB`, `seq2 = asym_seqA` under
`band_costs` with `deltawh = 3`, in closed form. -/
def asym_table_BA (i j : Nat) : Int :=
  ((i + j - 2 * min (i - 53) (min j 8) : Nat) : Int)

/-! ## `algn.c`: the affine 2-D engine, `initialize_matrices_affine` and
`algn_fill_plane_3_affine`

The planes of the engine live in the cost buffer `mtx` at the offsets that the caller passes, the
direction matrix in `dir`. Every `int` addition of the source is followed by the reduction `w` of
its result: `w = wrap32` for the 32 bit `int` of the source, `w = id` for unbounded integers. -/

/-- The function `HAS_GAP_EXTENSION (base, c)`. -/
def HAS_GAP_EXTENSION (base : Nat) (c : cost_matrices_2d) : Int :=
  cm_calc_cost c.cost base c.gap c.lcm

/-- The function `HAS_GAP_OPENING (prev, curr, gap, gap_open)`. -/
def HAS_GAP_OPENING (prev curr gap : Nat) (gap_open : Int) : Int :=
  if gap &&& prev = 0 ∧ gap &&& curr ≠ 0 then 0 else gap_open

/-- The function `FILL_EXTEND_HORIZONTAL`: the new cost buffer and the new direction value. -/
def FILL_EXTEND_HORIZONTAL (w : Int → Int)
    (sj_horizontal_extension sj_gap_extension sj_gap_opening : Int) (j : Nat)
    (extend_horizontal close_block_diagonal : Nat) (direction_matrix : Nat) (mtx : Nat → Int) :
    (Nat → Int) × Nat :=
  let ext_cost := w (mtx (extend_horizontal + (j - 1)) + sj_horizontal_extension)
  let open_cost := w (w (mtx (close_block_diagonal + (j - 1)) + sj_gap_opening) + sj_gap_extension)
  if ext_cost < open_cost then
    (wr mtx (extend_horizontal + j) ext_cost, direction_matrix ||| BEGIN_HORIZONTAL)
  else (wr mtx (extend_horizontal + j) open_cost, direction_matrix ||| END_HORIZONTAL)

/-- The function `FILL_EXTEND_VERTICAL`. -/
def FILL_EXTEND_VERTICAL (w : Int → Int)
    (si_vertical_extension si_gap_extension si_gap_opening : Int) (j : Nat)
    (extend_vertical prev_extend_vertical prev_close_block_diagonal : Nat)
    (direction_matrix : Nat) (mtx : Nat → Int) : (Nat → Int) × Nat :=
  let ext_cost := w (mtx (prev_extend_vertical + j) + si_vertical_extension)
  let open_cost := w (w (mtx (prev_close_block_diagonal + j) + si_gap_opening) + si_gap_extension)
  if ext_cost < open_cost then
    (wr mtx (extend_vertical + j) ext_cost, direction_matrix ||| BEGIN_VERTICAL)
  else (wr mtx (extend_vertical + j) open_cost, direction_matrix ||| END_VERTICAL)

/-- The function `FILL_EXTEND_BLOCK_DIAGONAL`; its local `open_diag` is computed and not used
(`open_cost` adds `diag`). -/
def FILL_EXTEND_BLOCK_DIAGONAL (w : Int → Int) (si_base sj_base : Nat) (j : Nat)
    (extend_block_diagonal prev_extend_block_diagonal prev_close_block_diagonal : Nat)
    (direction_matrix : Nat) (mtx : Nat → Int) : (Nat → Int) × Nat :=
  let diag : Int := if TMPGAP &&& si_base ≠ 0 ∧ TMPGAP &&& sj_base ≠ 0 then 0 else INT_MAX
  let ext_cost := w (mtx (prev_extend_block_diagonal + (j - 1)) + diag)
  let open_cost := w (mtx (prev_close_block_diagonal + (j - 1)) + diag)
  if ext_cost < open_cost then
    (wr mtx (extend_block_diagonal + j) ext_cost, direction_matrix ||| BEGIN_BLOCK)
  else (wr mtx (extend_block_diagonal + j) open_cost, direction_matrix ||| END_BLOCK)

/-- The three tests of `FILL_CLOSE_BLOCK_DIAGONAL` and of `ASSIGN_MINIMUM`: the running minimum `v`
with its mask `m` against the candidate `x` with the flag `f`. -/
def affine_min_step (v : Int) (m : Nat) (x : Int) (f : Nat) : Int × Nat :=
  if v ≥ x then (if v > x then (x, f) else (v, m ||| f)) else (v, m)

/-- The function `FILL_CLOSE_BLOCK_DIAGONAL`; `cost` is the table `c->cost` and `si_no_gap_vector`
the offset `si_no_gap << c->lcm` into it. -/
def FILL_CLOSE_BLOCK_DIAGONAL (w : Int → Int) (si_base sj_base si_no_gap sj_no_gap : Nat)
    (si_gap_opening sj_gap_opening : Int) (j : Nat) (cost : Nat → Int) (si_no_gap_vector : Nat)
    (close_block_diagonal prev_close_block_diagonal prev_extend_vertical prev_extend_horizontal
      prev_extend_block_diagonal : Nat)
    (direction_matrix : Nat) (mtx : Nat → Int) : (Nat → Int) × Nat :=
  let diag := cost (si_no_gap_vector + sj_no_gap)
  let extra_gap_opening := if sj_gap_opening < si_gap_opening then si_gap_opening
    else sj_gap_opening
  let algn := w (mtx (prev_close_block_diagonal + (j - 1)) + diag)
  let from_vertical :=
    if si_base = si_no_gap then w (mtx (prev_extend_vertical + (j - 1)) + diag)
    else w (w (mtx (prev_extend_vertical + (j - 1)) + diag) + sj_gap_opening)
  let from_horizontal :=
    if sj_base = sj_no_gap then w (mtx (prev_extend_horizontal + (j - 1)) + diag)
    else w (w (mtx (prev_extend_horizontal + (j - 1)) + diag) + si_gap_opening)
  let from_diagonal := w (w (mtx (prev_extend_block_diagonal + (j - 1)) + diag) + extra_gap_opening)
  let r1 := affine_min_step algn ALIGN_TO_ALIGN from_vertical ALIGN_TO_VERTICAL
  let r2 := affine_min_step r1.1 r1.2 from_horizontal ALIGN_TO_HORIZONTAL
  let r3 := affine_min_step r2.1 r2.2 from_diagonal ALIGN_TO_DIAGONAL
  (wr mtx (close_block_diagonal + j) r3.1, direction_matrix ||| r3.2)

/-- The function `ASSIGN_MINIMUM`: the value stored to `*final_cost_matrix` and the new direction
value. -/
def ASSIGN_MINIMUM (extend_horizontal extend_vertical extend_block_diagonal
    close_block_diagonal : Int) (direction_matrix : Nat) : Int × Nat :=
  let r1 := affine_min_step extend_horizontal DO_HORIZONTAL extend_vertical DO_VERTICAL
  let r2 := affine_min_step r1.1 r1.2 extend_block_diagonal DO_DIAGONAL
  let r3 := affine_min_step r2.1 r2.2 close_block_diagonal DO_ALIGN
  (r3.1, direction_matrix ||| r3.2)

/-- The first loop `for (; j <= lenj; j++)` of `initialize_matrices_affine`. -/
def initialize_matrices_affine_row (w : Int → Int) (precalc : Nat → Int) (gap_row : Nat)
    (close_block_diagonal extend_block_diagonal extend_vertical extend_horizontal
      final_cost_matrix direction_matrix : Nat) : Nat → Nat → nw_buffers → nw_buffers
  | 0, _, s => s
  | fuel + 1, j, s =>
    let r := w (s.mtx (extend_horizontal + (j - 1)) + precalc (gap_row + j))
    let m1 := wr s.mtx (extend_horizontal + j) r
    let m2 := wr m1 (close_block_diagonal + j) r
    let m3 := wr m2 (final_cost_matrix + j) r
    let m4 := wr m3 (extend_block_diagonal + j) INT_MAX
    let m5 := wr m4 (extend_vertical + j) INT_MAX
    initialize_matrices_affine_row w precalc gap_row close_block_diagonal extend_block_diagonal
      extend_vertical extend_horizontal final_cost_matrix direction_matrix fuel (j + 1)
      { mtx := m5, dir := wr s.dir (direction_matrix + j) (DO_HORIZONTAL ||| END_HORIZONTAL) }

/-- The function `initialize_matrices_affine (go, si, sj, c, close_block_diagonal,
extend_block_diagonal, extend_vertical, extend_horizontal, final_cost_matrix, direction_matrix,
precalcMtx)`. -/
def initialize_matrices_affine (w : Int → Int) (go : Int) (si sj : seq) (c : cost_matrices_2d)
    (close_block_diagonal extend_block_diagonal extend_vertical extend_horizontal
      final_cost_matrix direction_matrix : Nat) (precalc : Nat → Int) (precalcMtx : Nat)
    (s : nw_buffers) : nw_buffers :=
  let lenj := seq_get_len sj - 1
  let m1 := wr s.mtx final_cost_matrix 0
  let m2 := wr m1 close_block_diagonal 0
  let m3 := wr m2 extend_block_diagonal 0
  let m4 := wr m3 extend_horizontal go
  let m5 := wr m4 extend_vertical go
  let s0 : nw_buffers := { mtx := m5, dir := wr s.dir direction_matrix 0xFFFF }
  let gap_row := cm_get_precal_row precalcMtx 0 lenj
  let s1 := initialize_matrices_affine_row w precalc gap_row close_block_diagonal
    extend_block_diagonal extend_vertical extend_horizontal final_cost_matrix direction_matrix
    lenj 1 s0
  let prev_extend_vertical := extend_vertical
  let extend_vertical := extend_vertical + (1 + lenj)
  let close_block_diagonal := close_block_diagonal + (1 + lenj)
  let final_cost_matrix := final_cost_matrix + (1 + lenj)
  let extend_block_diagonal := extend_block_diagonal + (1 + lenj)
  let extend_horizontal := extend_horizontal + (1 + lenj)
  let direction_matrix := direction_matrix + (1 + lenj)
  let ic := seq_get_element si 1
  let r := w (s1.mtx prev_extend_vertical + HAS_GAP_EXTENSION ic c)
  let n1 := wr s1.mtx extend_horizontal INT_MAX
  let n2 := wr n1 close_block_diagonal r
  let n3 := wr n2 final_cost_matrix r
  let n4 := wr n3 extend_block_diagonal INT_MAX
  let n5 := wr n4 extend_vertical r
  { mtx := n5, dir := wr s1.dir direction_matrix (DO_VERTICAL ||| END_VERTICAL) }

/-- The loop `for (j = 1; j <= lenj; j++)` of `algn_fill_plane_3_affine` that fills
`gap_open_prec` and `sj_horizontal_extension`. -/
def affine_gap_open_prec_loop (w : Int → Int) (sj : seq) (gap : Nat) (gap_open : Int)
    (precalc : Nat → Int) (gap_row gap_open_prec sj_horizontal_extension : Nat) :
    Nat → Nat → (Nat → Int) → (Nat → Int)
  | 0, _, mtx => mtx
  | fuel + 1, j, mtx =>
    let g := HAS_GAP_OPENING (my_get sj (j - 1 : Nat)) (my_get sj j) gap gap_open
    let m1 := wr mtx (gap_open_prec + j) g
    let m2 :=
      if gap &&& my_get sj (j - 1 : Nat) ≠ 0 ∧ ¬ (gap &&& my_get sj j ≠ 0) then
        wr m1 (sj_horizontal_extension + j) (w (m1 (gap_open_prec + j) + precalc (gap_row + j)))
      else wr m1 (sj_horizontal_extension + j) (precalc (gap_row + j))
    affine_gap_open_prec_loop w sj gap gap_open precalc gap_row gap_open_prec
      sj_horizontal_extension fuel (j + 1) m2

/-- The loop `for (j = start_pos; j <= end_pos; j++)` of `algn_fill_plane_3_affine` for the row
of `ic`. -/
def affine_fill_cells (w : Int → Int) (sj : seq) (c : cost_matrices_2d) (precalc : Nat → Int)
    (gap_row gap_open_prec sj_horizontal_extension : Nat) (ic si_no_gap : Nat)
    (si_vertical_extension si_gap_extension si_gap_opening : Int) (si_no_gap_vector : Nat)
    (extend_horizontal extend_vertical extend_block_diagonal close_block_diagonal
      prev_extend_horizontal prev_extend_vertical prev_extend_block_diagonal
      prev_close_block_diagonal final_cost_matrix direction_matrix : Nat) :
    Nat → Nat → nw_buffers → nw_buffers
  | 0, _, s => s
  | fuel + 1, j, s =>
    let jc := my_get sj j
    let sj_no_gap := NTMPGAP &&& jc
    let sj_gap_extension := precalc (gap_row + j)
    let sj_gap_opening := s.mtx (gap_open_prec + j)
    let r1 := FILL_EXTEND_HORIZONTAL w (s.mtx (sj_horizontal_extension + j)) sj_gap_extension
      sj_gap_opening j extend_horizontal close_block_diagonal 0 s.mtx
    let r2 := FILL_EXTEND_VERTICAL w si_vertical_extension si_gap_extension si_gap_opening j
      extend_vertical prev_extend_vertical prev_close_block_diagonal r1.2 r1.1
    let r3 := FILL_EXTEND_BLOCK_DIAGONAL w ic jc j extend_block_diagonal
      prev_extend_block_diagonal prev_close_block_diagonal r2.2 r2.1
    let r4 := FILL_CLOSE_BLOCK_DIAGONAL w ic jc si_no_gap sj_no_gap si_gap_opening sj_gap_opening
      j c.cost si_no_gap_vector close_block_diagonal prev_close_block_diagonal
      prev_extend_vertical prev_extend_horizontal prev_extend_block_diagonal r3.2 r3.1
    let r5 := ASSIGN_MINIMUM (r4.1 (extend_horizontal + j)) (r4.1 (extend_vertical + j))
      (r4.1 (extend_block_diagonal + j)) (r4.1 (close_block_diagonal + j)) r4.2
    affine_fill_cells w sj c precalc gap_row gap_open_prec sj_horizontal_extension ic si_no_gap
      si_vertical_extension si_gap_extension si_gap_opening si_no_gap_vector extend_horizontal
      extend_vertical extend_block_diagonal close_block_diagonal prev_extend_horizontal
      prev_extend_vertical prev_extend_block_diagonal prev_close_block_diagonal
      final_cost_matrix direction_matrix fuel (j + 1)
      { mtx := wr r4.1 (final_cost_matrix + j) r5.1, dir := wr s.dir (direction_matrix + j) r5.2 }

/-- The loop `for (; i <= leni; i++)` of `algn_fill_plane_3_affine`; the arguments after `i` are
`ic`, `start_pos`, `end_pos` and the pointer `direction_matrix`. -/
def affine_fill_rows (w : Int → Int) (si sj : seq) (lenj : Nat) (c : cost_matrices_2d)
    (precalc : Nat → Int) (gap_row gap_open_prec sj_horizontal_extension : Nat)
    (init_extend_horizontal init_extend_vertical init_extend_block_diagonal
      init_close_block_diagonal final_cost_matrix : Nat) (start_v : Nat) :
    Nat → Nat → Nat → Nat → Nat → Nat → nw_buffers → nw_buffers
  | 0, _, _, _, _, _, s => s
  | fuel + 1, i, ic, start_pos, end_pos, direction_matrix, s =>
    let gap := c.gap
    let gap_open := c.gap_open
    let prev_extend_horizontal := init_extend_horizontal + ((i - 1) % 2) * (lenj + 1)
    let prev_extend_vertical := init_extend_vertical + (lenj + 1) * ((i - 1) % 2)
    let prev_extend_block_diagonal := init_extend_block_diagonal + (lenj + 1) * ((i - 1) % 2)
    let prev_close_block_diagonal := init_close_block_diagonal + (lenj + 1) * ((i - 1) % 2)
    let extend_horizontal := init_extend_horizontal + (i % 2) * (lenj + 1)
    let extend_vertical := init_extend_vertical + (lenj + 1) * (i % 2)
    let extend_block_diagonal := init_extend_block_diagonal + (lenj + 1) * (i % 2)
    let close_block_diagonal := init_close_block_diagonal + (lenj + 1) * (i % 2)
    let direction_matrix := direction_matrix + (lenj + 1)
    let start_pos := if i > start_v then start_pos + 1 else start_pos
    let ip := ic
    let ic := my_get si i
    let si_gap_extension := HAS_GAP_EXTENSION ic c
    let si_gap_opening := HAS_GAP_OPENING ip ic gap gap_open
    let si_no_gap := NTMPGAP &&& ic
    let si_vertical_extension :=
      if i > 1 ∧ (ip &&& gap ≠ 0 ∧ ¬ (ic &&& gap ≠ 0)) then w (si_gap_opening + si_gap_extension)
      else si_gap_extension
    let r := w (s.mtx (prev_extend_vertical + (start_pos - 1)) + si_vertical_extension)
    let m1 := wr s.mtx (extend_horizontal + (start_pos - 1)) INT_MAX
    let m2 := wr m1 (close_block_diagonal + (start_pos - 1)) r
    let m3 := wr m2 (final_cost_matrix + (start_pos - 1)) r
    let m4 := wr m3 (extend_block_diagonal + (start_pos - 1)) INT_MAX
    let m5 := wr m4 (extend_vertical + (start_pos - 1)) r
    let m6 := wr m5 (close_block_diagonal + (start_pos - 1)) INT_MAX
    let s1 : nw_buffers :=
      { mtx := m6,
        dir := wr s.dir (direction_matrix + (start_pos - 1)) (DO_VERTICAL ||| END_VERTICAL) }
    let si_no_gap_vector := si_no_gap <<< c.lcm
    let s2 := affine_fill_cells w sj c precalc gap_row gap_open_prec sj_horizontal_extension ic
      si_no_gap si_vertical_extension si_gap_extension si_gap_opening si_no_gap_vector
      extend_horizontal extend_vertical extend_block_diagonal close_block_diagonal
      prev_extend_horizontal prev_extend_vertical prev_extend_block_diagonal
      prev_close_block_diagonal final_cost_matrix direction_matrix
      (end_pos + 1 - start_pos) start_pos s1
    let s3 : nw_buffers :=
      if end_pos < lenj then
        { mtx := wr (wr (wr (wr s2.mtx (extend_vertical + (end_pos + 1)) INT_MAX)
            (close_block_diagonal + (end_pos + 1)) INT_MAX)
            (extend_horizontal + (end_pos + 1)) INT_MAX)
            (extend_block_diagonal + (end_pos + 1)) INT_MAX,
          dir := wr s2.dir (direction_matrix + (end_pos + 1))
            (DO_HORIZONTAL ||| END_HORIZONTAL) }
      else s2
    let end_pos := if end_pos < lenj then end_pos + 1 else end_pos
    affine_fill_rows w si sj lenj c precalc gap_row gap_open_prec sj_horizontal_extension
      init_extend_horizontal init_extend_vertical init_extend_block_diagonal
      init_close_block_diagonal final_cost_matrix start_v fuel (i + 1) ic start_pos end_pos
      direction_matrix s3

/-- The function `algn_fill_plane_3_affine (si, sj, leni, lenj, final_cost_matrix,
direction_matrix, c, extend_horizontal, extend_vertical, close_block_diagonal,
extend_block_diagonal, precalcMtx, gap_open_prec, sj_horizontal_extension)`: the returned cost
`final_cost_matrix[lenj]` and the buffers it leaves; the failed assertion `lenj >= leni` is
`none`. -/
def algn_fill_plane_3_affine (w : Int → Int) (si sj : seq) (leni lenj : Nat)
    (final_cost_matrix direction_matrix : Nat) (c : cost_matrices_2d)
    (extend_horizontal extend_vertical close_block_diagonal extend_block_diagonal : Nat)
    (precalc : Nat → Int) (precalcMtx gap_open_prec sj_horizontal_extension : Nat)
    (s : nw_buffers) : Option (Int × nw_buffers) :=
  let start_v := 40
  let gap := c.gap
  let gap_open := c.gap_open
  if lenj ≥ leni then
    let gap_row := cm_get_precal_row precalcMtx 0 lenj
    let end_pos := (lenj - leni) + 8
    let end_pos := if end_pos < 40 then 40 else end_pos
    let end_pos := if end_pos > lenj then lenj else end_pos
    let ic := my_get si 0
    let m1 := affine_gap_open_prec_loop w sj gap gap_open precalc gap_row gap_open_prec
      sj_horizontal_extension lenj 1 s.mtx
    let m2 := wr m1 (sj_horizontal_extension + 1) (precalc (gap_row + 1))
    let s1 := affine_fill_rows w si sj lenj c precalc gap_row gap_open_prec
      sj_horizontal_extension extend_horizontal extend_vertical extend_block_diagonal
      close_block_diagonal final_cost_matrix start_v leni 1 ic 1 end_pos direction_matrix
      { s with mtx := m2 }
    some (s1.mtx (final_cost_matrix + lenj), s1)
  else none

/-- The cost that `align2dAffine (inputChar1_aio, inputChar2_aio, gappedOutput_aio,
ungappedOutput_aio, costMtx2d_affine, getMedians)` returns: the streams are ordered by
`length1 > length2`, the planes are laid out in the cost buffer of a fresh pool at the offsets
`0, 2, 4, 6, 8, 10, 11` times the length of the longer stream, the table of `cm_precalc_4algn` is
built for the longer stream, and the two functions of the affine engine are called with the
shorter stream as `si`. The block under `getMedians` does not change the returned cost. -/
def align2dAffine (w : Int → Int) (inputChar1_aio inputChar2_aio : alignIO)
    (costMtx2d_affine : cost_matrices_2d) : Option Int :=
  let alphabetSize := costMtx2d_affine.alphSize
  let first_long : Bool := decide (inputChar1_aio.length > inputChar2_aio.length)
  let longChar := alignIOtoChar (if first_long then inputChar1_aio else inputChar2_aio)
    alphabetSize
  let shortChar := alignIOtoChar (if first_long then inputChar2_aio else inputChar1_aio)
    alphabetSize
  let lenLongerChar := longChar.len
  let close_block_diagonal := 0
  let extend_block_diagonal := 2 * lenLongerChar
  let extend_vertical := 4 * lenLongerChar
  let extend_horizontal := 6 * lenLongerChar
  let final_cost_matrix := 8 * lenLongerChar
  let gap_open_prec := 10 * lenLongerChar
  let s_horizontal_gap_extension := 11 * lenLongerChar
  let direction_matrix := 0
  let precalc := precalc_of costMtx2d_affine longChar.elems
  let s1 := initialize_matrices_affine w costMtx2d_affine.gap_open shortChar longChar
    costMtx2d_affine close_block_diagonal extend_block_diagonal extend_vertical
    extend_horizontal final_cost_matrix direction_matrix precalc 0 zero_buffers
  (algn_fill_plane_3_affine w shortChar longChar (shortChar.len - 1) (longChar.len - 1)
    final_cost_matrix direction_matrix costMtx2d_affine extend_horizontal extend_vertical
    close_block_diagonal extend_block_diagonal precalc 0 gap_open_prec
    s_horizontal_gap_extension s1).map fun r => r.1

/-- The expanded matrix of the data model for unit costs over `A, C, G, T, -` with the gap-opening
parameter `go`, with the cost model that `setup2dCostMtx` records for it. -/
def unit5_affine (go : Int) : cost_matrices_2d :=
  { expanded_2d (unit_tcm 5) 5 with
    gap_open := go, cost_model_type := if go = 0 then 0 else 3 }

/-! ## `matrices.c`: repeated calls of `mat_setup_size` -/

/-- A sequence of calls `mat_setup_size (m, len_seq1, len_seq2, len_seq3, is_ukk, lcm)` on the same
pool, one for each element of `calls`. -/
def mat_setup_size_calls (m : nw_matrices) (calls : List (Int × Int × Int × Int × Nat)) :
    nw_matrices :=
  calls.foldl (fun m a => mat_setup_size m a.1 a.2.1 a.2.2.1 a.2.2.2.1 a.2.2.2.2) m

/-! ## Streams with their pointers: `my_prepend`, `initializeChar`, `resetCharValues` -/

/-- The structure `struct seq` with its pointers: `mem` is the memory that holds the array,
`seq_begin` and `end_` are addresses of cells, `array_head` the address of the first cell of the
array. -/
structure seq_ptr where
  cap : Nat
  len : Nat
  array_head : Int
  seq_begin : Int
  end_ : Int
  mem : Int → Nat

/-- The macro `my_prepend (a, b)` on a stream with its pointers: `assert (a->cap > a->len)`,
`a->begin = (a->begin) - 1`, `a->len = 1 + a->len`, `*(a->begin) = b`. A failed assertion is
`none`. -/
def my_prepend_ptr (a : seq_ptr) (b : Nat) : Option seq_ptr :=
  if a.cap > a.len then
    some { a with seq_begin := a.seq_begin - 1, len := 1 + a.len,
                  mem := fun k => if k = a.seq_begin - 1 then b else a.mem k }
  else none

/-- The function `initializeChar (retChar, allocSize)` on a stream with its pointers; `head` is
the address that `calloc` returns and the cells of the array are zero. -/
def initializeChar_ptr (mem : Int → Nat) (head : Int) (allocSize : Nat) : seq_ptr :=
  { cap := allocSize,
    array_head := head,
    end_ := head + allocSize,
    seq_begin := head + allocSize,
    len := 0,
    mem := fun k => if head ≤ k ∧ k < head + allocSize then 0 else mem k }

/-- The function `resetCharValues (retChar)`. -/
def resetCharValues (retChar : seq_ptr) : seq_ptr :=
  { retChar with seq_begin := retChar.end_, len := 0 }

/-- The element `i` of a stream with its pointers, `seq_begin[i]`. -/
def seq_ptr.get (s : seq_ptr) (i : Nat) : Nat := s.mem (s.seq_begin + i)

/-- The stream that a stream with its pointers holds: its capacity and its `len` symbols from
`seq_begin` on. -/
def seq_ptr.view (s : seq_ptr) : seq :=
  { cap := s.cap, elems := (List.range s.len).map s.get }

/-! ## `algn.c`: `algn_get_median_3d` -/

/-- Modelled from the spec: `cm_get_median_3d (t, a, b, c)`, "the median between three alphabet
elements" (`cm.h`); the body is in the absent `cm.c`, it reads the table `median` at the triple. -/
def cm_get_median_3d (t : cost_matrices_3d) (a b c : Nat) : Nat :=
  t.median (cm_calc_cost_position_3d a b c t.lcm)

/-- Modelled from the spec: `seq_get_end (s)`, declared in the absent `seq.h`; the pointer to the
last symbol of the stream, read here (`*end`). The stream without symbols reads a cell that no
operation of the model writes, taken as `0`. -/
def seq_get_end (s : seq) : Nat := s.elems.getLastD 0

/-- The loop `for (i = seq_get_len (seq1) - 1; i >= 0; i--)` of `algn_get_median_3d`; the first
argument is `i + 1`. The pointers `end1`, `end2`, `end3` are not moved by the loop. -/
def algn_get_median_3d_loop (end1 end2 end3 : Nat) (m : cost_matrices_3d) :
    Nat → seq → Option seq
  | 0, sm => some sm
  | i + 1, sm =>
    (seq_prepend sm (cm_get_median_3d m end1 end2 end3)).bind
      (algn_get_median_3d_loop end1 end2 end3 m i)

/-- The function `algn_get_median_3d (seq1, seq2, seq3, m, sm)`; the result is the stream `sm`. -/
def algn_get_median_3d (seq1 seq2 seq3 : seq) (m : cost_matrices_3d) (sm : seq) : Option seq :=
  let end1 := seq_get_end seq1
  let end2 := seq_get_end seq2
  let end3 := seq_get_end seq3
  algn_get_median_3d_loop end1 end2 end3 m (seq_get_len seq1) sm

/-- A table of medians of triples over `A, C, G, T, -` (stride `2^5`): the union of the three
symbols. -/
def union_mtx_3d : cost_matrices_3d :=
  { zero_mtx_3d with
    alphSize := 5, lcm := 5, gap := 16,
    median := fun idx => (idx / 1024) ||| ((idx / 32) % 32) ||| (idx % 32) }

/-! ## `ukkCheckPoint.c`: `powell_3D_align` and the cost that `doUkk` returns -/

/-- What a call of `powell_3D_align` does: its assertion fails, or `setup` and `doUkk` run. -/
inductive powell_outcome (α : Type) where
  | assertion_failed : powell_outcome α
  | ran : α → powell_outcome α

/-- The function `powell_3D_align (lesserChar, middleChar, longerChar, retLesserChar,
retMiddleChar, retLongerChar, mismatchCost, gapOpenCost, gapExtendCost)`:
`assert (mismatchCost != 0 && gapExtendCost != 0)`, then `setup` and `doUkk`, which are
`run`. The three costs are `unsigned int`. -/
def powell_3D_align {α : Type} (mismatchCost gapOpenCost gapExtendCost : Nat)
    (run : Nat → Nat → Nat → α) : powell_outcome α :=
  if mismatchCost ≠ 0 ∧ gapExtendCost ≠ 0 then
    powell_outcome.ran (run mismatchCost gapOpenCost gapExtendCost)
  else powell_outcome.assertion_failed

/-- The test `are_equal` of `doUkk` at position `d`: the three input strings hold the same
character there. A read past the end of a string is taken as `0`. -/
def doUkk_are_equal (lesserStr longerStr middleStr : List Nat) (d : Nat) : Bool :=
  lesserStr.getD d 0 = longerStr.getD d 0 && lesserStr.getD d 0 = middleStr.getD d 0

/-- The loop `while (cur_editDist < inputChars->lesserLen && are_equal)` of `doUkk`: the value of
`cur_editDist` after the loop. -/
def doUkk_start (lesserStr longerStr middleStr : List Nat) (lesserLen : Nat) : Nat → Nat → Nat
  | 0, cur_editDist => cur_editDist
  | fuel + 1, cur_editDist =>
    if cur_editDist < lesserLen ∧ doUkk_are_equal lesserStr longerStr middleStr cur_editDist
    then doUkk_start lesserStr longerStr middleStr lesserLen fuel (cur_editDist + 1)
    else cur_editDist

/-- The loop `do { cur_editDist++; Ukk (...); ... } while (find_bestDist (...) < lesserLen)` of
`doUkk`: the value of `cur_editDist` after the loop, `none` if it has not ended after `fuel`
iterations. `best d` is the value of `find_bestDist (final_lessLong_idx_diff,
final_lessMidd_idx_diff, d, numStates)` after the call of `Ukk` for `cur_editDist = d`. -/
def doUkk_cost_loop (best : Nat → Int) (lesserLen : Nat) : Nat → Nat → Option Nat
  | 0, _ => none
  | fuel + 1, cur_editDist =>
    let cur_editDist := cur_editDist + 1
    if best cur_editDist < (lesserLen : Int) then
      doUkk_cost_loop best lesserLen fuel cur_editDist
    else some cur_editDist

/-- The value of `cur_editDist` at the statement `finalCost = cur_editDist` of `doUkk`, which is
the value that `doUkk` returns (`return (int) cur_editDist`) when the assertions and the traceback
after that statement pass. -/
def doUkk_finalCost (lesserStr longerStr middleStr : List Nat) (best : Nat → Int)
    (fuel : Nat) : Option Nat :=
  let lesserLen := lesserStr.length
  let cur_editDist := doUkk_start lesserStr longerStr middleStr lesserLen lesserLen 0
  doUkk_cost_loop best lesserLen fuel cur_editDist

/-! ## Inputs for the capacity of the output streams of `align2d` -/

/-- A base table over `A, C, G, T, -` (row-major, `5 × 5`) that is not metric: `0` on the diagonal
and for the pairs `(A, G)`, `(-, G)`, `(-, T)`, `(C, T)` in both orders, `5` elsewhere. Its
expansion has `best_cost[A, C] = 5` and `best_cost[A, -] = best_cost[-, C] = 0`. -/
def nonmetric_tcm : Nat → Int := fun i =>
  if i / 5 = i % 5 then 0
  else if (i / 5, i % 5) ∈ [(0, 2), (2, 0), (4, 2), (2, 4), (4, 3), (3, 4), (1, 3), (3, 1)] then 0
  else 5

/-! ## An example row for `algn_fill_row` -/

/-- A precalculated table with the gap row at `0` (costs `1`) and the alignment row at `10` (costs
`0, 1, 0`). -/
def row_example_precalc : Nat → Int := fun k => if k = 11 then 1 else if k < 10 then 1 else 0

/-- Buffers with the previous row `0, 1, 2` at `0` and the first cell `1` of the current row at
`3`. -/
def row_example_buffers : nw_buffers :=
  { mtx := fun k => if k < 3 then (k : Int) else if k = 3 then 1 else 0, dir := fun _ => 0 }

/-! ## `ukkCheckPoint.c`: the copy of the alignment in `printTraceBack` -/

/-- Modelled from the spec: `dyn_char_prepend (character, value)`, declared in `dyn_character.h`
("Adds value to the front of character. Increments the length of a and decrements the head of
the character."); its body is absent. "prepend fails when `begin == buffer_start`". -/
def dyn_char_prepend (character : seq) (value : Nat) : Option seq :=
  if character.cap > character.len then some { character with elems := value :: character.elems }
  else none

/-- The fields of `characters_t` that the copy loop of `printTraceBack` reads: the three result
strings (arrays of `char`) and their indices. -/
structure characters_t where
  lesserStr : Nat → Nat
  longerStr : Nat → Nat
  middleStr : Nat → Nat
  lesserIdx : Int
  longerIdx : Int
  middleIdx : Int

/-- The value of `x - 1` for a `size_t` (64 bit) value `x`. -/
def size_t_pred (x : Nat) : Nat := (x + 18446744073709551615) % 18446744073709551616

/-- One of the three `if`/`else` statements of the body of the copy loop of `printTraceBack`,
for the result string `str`, the output stream `ret`, the input stream `original` and its index
`orig_idx` (a `size_t`): `if (str[j] == '-') dyn_char_prepend (ret, 16); else
{ dyn_char_prepend (ret, original->char_begin[orig_idx]); orig_idx--; }`. -/
def printTraceBack_copy_step (str : Nat → Nat) (original : seq) (j : Nat) (ret : seq)
    (orig_idx : Nat) : Option (seq × Nat) :=
  if str j = 45 then
    match dyn_char_prepend ret 16 with
    | some r => some (r, orig_idx)
    | none => none
  else
    match dyn_char_prepend ret (seq_get_element original orig_idx) with
    | some r => some (r, size_t_pred orig_idx)
    | none => none

/-- The state of the copy loop of `printTraceBack`: the three output streams and the three indices
into the input streams. -/
structure printTraceBack_state where
  retLesserChar : seq
  retMiddleChar : seq
  retLongerChar : seq
  orig_lessIdx : Nat
  orig_longIdx : Nat
  orig_middIdx : Nat

/-- The loop `for (int j = resultChars->lesserIdx - 1; j >= 0; j--)` of `printTraceBack`; the
first argument is `j + 1`. The body handles the lesser, the longer and the middle stream, in this
order. -/
def printTraceBack_copy_loop (original_lesserChar original_middleChar original_longerChar : seq)
    (resultChars : characters_t) : Nat → printTraceBack_state → Option printTraceBack_state
  | 0, st => some st
  | j + 1, st =>
    match printTraceBack_copy_step resultChars.lesserStr original_lesserChar j
        st.retLesserChar st.orig_lessIdx with
    | none => none
    | some (rl, il) =>
      match printTraceBack_copy_step resultChars.longerStr original_longerChar j
          st.retLongerChar st.orig_longIdx with
      | none => none
      | some (rg, ig) =>
        match printTraceBack_copy_step resultChars.middleStr original_middleChar j
            st.retMiddleChar st.orig_middIdx with
        | none => none
        | some (rm, im) =>
          printTraceBack_copy_loop original_lesserChar original_middleChar original_longerChar
            resultChars j
            { retLesserChar := rl, retMiddleChar := rm, retLongerChar := rg,
              orig_lessIdx := il, orig_longIdx := ig, orig_middIdx := im }

/-- The part of `printTraceBack` that writes the output streams (from the declaration of
`orig_lessIdx` to the three last calls of `dyn_char_prepend`), on the result strings as they are
after `revCharArray`: the indices start at `len - 1` (as `size_t`), the copy loop runs for
`j = lesserIdx - 1` down to `0` (`lesserIdx.toNat` values of `j`), and a gap
`16` is prepended to the lesser, the middle and the longer stream. The result is the three
output streams `(retLesserChar, retMiddleChar, retLongerChar)`. -/
def printTraceBack (retLesserChar retMiddleChar retLongerChar : seq)
    (original_lesserChar original_middleChar original_longerChar : seq)
    (resultChars : characters_t) : Option (seq × seq × seq) :=
  match printTraceBack_copy_loop original_lesserChar original_middleChar original_longerChar
      resultChars resultChars.lesserIdx.toNat
      { retLesserChar := retLesserChar, retMiddleChar := retMiddleChar,
        retLongerChar := retLongerChar,
        orig_lessIdx := size_t_pred original_lesserChar.len,
        orig_longIdx := size_t_pred original_longerChar.len,
        orig_middIdx := size_t_pred original_middleChar.len } with
  | none => none
  | some st =>
    match dyn_char_prepend st.retLesserChar 16 with
    | none => none
    | some rl =>
      match dyn_char_prepend st.retMiddleChar 16 with
      | none => none
      | some rm =>
        match dyn_char_prepend st.retLongerChar 16 with
        | none => none
        | some rg => some (rl, rm, rg)

/-- The number of positions `i` with `lo ≤ i < hi` at which the result string `str` holds a
character other than `'-'` (45). -/
def nongap_count (str : Nat → Nat) (lo : Nat) : Nat → Nat
  | 0 => 0
  | hi + 1 => nongap_count str lo hi + (if lo ≤ hi ∧ str hi ≠ 45 then 1 else 0)

/-- The relation between an output stream before (`ret0`) and after (`ret1`) `printTraceBack`,
in the spec's words, for the result string `str` of `n` characters and the input stream
`original`: `n + 1` symbols were prepended, the first is the gap `16`, column `k` holds the gap
where `str[k]` is `'-'` and otherwise the next symbol of `original` from the end backwards, and
the prepended symbols without the gaps are the symbols other than `16` among the last
`nongap_count str 0 n` symbols of `original` (the whole of `original` when it has that many
symbols and no `16`). -/
def printTraceBack_post (str : Nat → Nat) (n : Nat) (original ret0 ret1 : seq) : Prop :=
  ret1.cap = ret0.cap ∧
  ret1.elems.length = ret0.elems.length + (n + 1) ∧
  ret1.elems.drop (n + 1) = ret0.elems ∧
  ret1.elems.head? = some 16 ∧
  (∀ k, k < n → ret1.elems.getD (k + 1) 0 =
    if str k = 45 then 16
    else original.elems.getD (original.len - 1 - nongap_count str (k + 1) n) 0) ∧
  (ret1.elems.take (n + 1)).filter (fun x => x ≠ 16) =
    (original.elems.drop (original.len - nongap_count str 0 n)).filter (fun x => x ≠ 16) ∧
  (nongap_count str 0 n = original.len → 16 ∉ original.elems →
    (ret1.elems.take (n + 1)).filter (fun x => x ≠ 16) = original.elems)

/-- The relation between an output stream before (`r0`) and after (`r1`) the copy loop of
`printTraceBack` that starts at `j - 1` when `c` symbols of `original` are consumed. -/
def copy_stream_inv (str : Nat → Nat) (original : seq) (j c : Nat) (r0 r1 : seq) : Prop :=
  r1.cap = r0.cap ∧
  ∃ cols : List Nat, r1.elems = cols ++ r0.elems ∧ cols.length = j ∧
    (∀ k, k < j → cols.getD k 0 =
      if str k = 45 then 16
      else original.elems.getD (original.len - 1 - c - nongap_count str (k + 1) j) 0) ∧
    cols.filter (fun x => x ≠ 16) =
      (((original.elems.drop (original.len - c - nongap_count str 0 j)).take
        (nongap_count str 0 j))).filter (fun x => x ≠ 16)

/-- The result strings `A-CG`, `ACGT`, `AC-T` with the indices `4`. -/
def trace_example_result : characters_t :=
  { lesserStr := fun i => [65, 45, 67, 71].getD i 0,
    longerStr := fun i => [65, 67, 71, 84].getD i 0,
    middleStr := fun i => [65, 67, 45, 84].getD i 0,
    lesserIdx := 4, longerIdx := 4, middleIdx := 4 }

/-- The input streams `A C G`, `A C T` and `A C G T` of the result strings of
`trace_example_result`. -/
def trace_example_lesser : seq := { cap := 3, elems := [1, 2, 4] }

/-- The middle input stream `A C T`. -/
def trace_example_middle : seq := { cap := 3, elems := [1, 2, 8] }

/-- The longer input stream `A C G T`. -/
def trace_example_longer : seq := { cap := 4, elems := [1, 2, 4, 8] }

/-- An empty output stream of capacity `5`. -/
def trace_example_ret : seq := { cap := 5, elems := [] }

/-! ## `algn.c`: a row of the cube of `algn_fill_cube` -/

/-- The cost cube and the direction cube of the three dimensional alignment, as memory indexed by
an address: `fill_moved` is called with pointers moved one cell down, so addresses are
integers. -/
structure cube_buffers where
  mtx : Int → Int
  dir : Int → Nat

/-- The memory `m` after the value `v` is stored at the address `i`. -/
def wr_at {α : Type} (m : Int → α) (i : Int) (v : α) : Int → α :=
  fun k => if k = i then v else m k

/-- Modelled from the spec: the direction `GAP23` ("seq1, gap, gap"), whose definition is in the
absent `matrices.h`; the value is that of `A_G_G` of `nwMatrices.h`. The seven directions are
seven different bits. -/
def GAP23 : Nat := 4

/-- Modelled from the spec: the direction `GAP13` ("gap, seq2, gap"), with the value of `G_A_G` of
`nwMatrices.h`. -/
def GAP13 : Nat := 1

/-- Modelled from the spec: the direction `ALIGN12` ("seq1, seq2, gap"), with the value of `A_A_G`
of `nwMatrices.h`. -/
def ALIGN12 : Nat := 2

/-- Modelled from the spec: the direction `ALIGN13` ("seq1, gap, seq3"), with the value of `A_G_A`
of `nwMatrices.h`. -/
def ALIGN13 : Nat := 32

/-- Modelled from the spec: the direction `ALIGN23` ("gap, seq2, seq3"), with the value of `G_A_A`
of `nwMatrices.h`. -/
def ALIGN23 : Nat := 8

/-- Modelled from the spec: the direction `ALIGNALL` ("seq1, seq2, seq3"), with the value of
`A_A_A` of `nwMatrices.h`. -/
def ALIGNALL : Nat := 16

/-- Modelled from the spec: the direction `GAP12` ("gap, gap, seq3"), with the value of `G_G_A` of
`nwMatrices.h`. -/
def GAP12 : Nat := 64

/-- A loop `for (k = k0; k < ...; k++) body`: `fuel` iterations are left and `k` is the loop
counter. -/
def for_loop (body : Nat → cube_buffers → cube_buffers) : Nat → Nat → cube_buffers → cube_buffers
  | 0, _, s => s
  | fuel + 1, k, s => for_loop body fuel (k + 1) (body k s)

/-- The body of the loop of `fill_parallel`: `curRow[k] = upper_m[k] + seq1_gap_gap` with `GAP23`,
then the candidates `prev_m[k] + gap_seq2_gap` (`GAP13`) and `diag_m[k] + seq1_seq2_gap`
(`ALIGN12`), each taken when it is smaller than `curRow[k]`. Every `int` sum is passed through the
reduction `w` (`wrap32` for the 32 bit `int` of the source). -/
def fill_parallel_body (w : Int → Int) (prev_m upper_m diag_m : Int)
    (seq1_gap_gap gap_seq2_gap seq1_seq2_gap : Int) (curRow dirMtx : Int) (k : Nat)
    (s : cube_buffers) : cube_buffers :=
  let s1 : cube_buffers :=
    { mtx := wr_at s.mtx (curRow + k) (w (s.mtx (upper_m + k) + seq1_gap_gap)),
      dir := wr_at s.dir (dirMtx + k) GAP23 }
  let tmp := w (s1.mtx (prev_m + k) + gap_seq2_gap)
  let s2 : cube_buffers :=
    if tmp < s1.mtx (curRow + k) then
      { mtx := wr_at s1.mtx (curRow + k) tmp, dir := wr_at s1.dir (dirMtx + k) GAP13 }
    else s1
  let tmp1 := w (s2.mtx (diag_m + k) + seq1_seq2_gap)
  if tmp1 < s2.mtx (curRow + k) then
    { mtx := wr_at s2.mtx (curRow + k) tmp1, dir := wr_at s2.dir (dirMtx + k) ALIGN12 }
  else s2

/-- The function `fill_parallel (seq3_len, prev_m, upper_m, diag_m, seq1_gap_gap, gap_seq2_gap,
seq1_seq2_gap, curRow, dirMtx)`: the loop `for (k = 0; k < seq3_len; k++)`. -/
def fill_parallel (w : Int → Int) (seq3_len : Nat) (prev_m upper_m diag_m : Int)
    (seq1_gap_gap gap_seq2_gap seq1_seq2_gap : Int) (curRow dirMtx : Int)
    (s : cube_buffers) : cube_buffers :=
  for_loop (fill_parallel_body w prev_m upper_m diag_m seq1_gap_gap gap_seq2_gap seq1_seq2_gap
    curRow dirMtx) seq3_len 0 s

/-- The body of the loop of `fill_moved`: the candidates `upper_m[k] + seq1_gap_seq3[k]`
(`ALIGN13`), `prev_m[k] + gap_seq2_seq3[k]` (`ALIGN23`) and `diag_m[k] + seq1_seq2_seq3[k]`
(`ALIGNALL`), each taken when it is smaller than `curRow[k]`. The three vectors are rows of the
precalculated table. -/
def fill_moved_body (w : Int → Int) (prev_m upper_m diag_m : Int)
    (seq1_gap_seq3 gap_seq2_seq3 seq1_seq2_seq3 : Nat → Int) (curRow dirMtx : Int) (k : Nat)
    (s : cube_buffers) : cube_buffers :=
  let tmp0 := w (s.mtx (upper_m + k) + seq1_gap_seq3 k)
  let s1 : cube_buffers :=
    if tmp0 < s.mtx (curRow + k) then
      { mtx := wr_at s.mtx (curRow + k) tmp0, dir := wr_at s.dir (dirMtx + k) ALIGN13 }
    else s
  let tmp := w (s1.mtx (prev_m + k) + gap_seq2_seq3 k)
  let s2 : cube_buffers :=
    if tmp < s1.mtx (curRow + k) then
      { mtx := wr_at s1.mtx (curRow + k) tmp, dir := wr_at s1.dir (dirMtx + k) ALIGN23 }
    else s1
  let tmp1 := w (s2.mtx (diag_m + k) + seq1_seq2_seq3 k)
  if tmp1 < s2.mtx (curRow + k) then
    { mtx := wr_at s2.mtx (curRow + k) tmp1, dir := wr_at s2.dir (dirMtx + k) ALIGNALL }
  else s2

/-- The function `fill_moved (seq3_len, prev_m, upper_m, diag_m, seq1_gap_seq3, gap_seq2_seq3,
seq1_seq2_seq3, curRow, dirMtx)`: the loop `for (k = 1; k < seq3_len; k++)`. -/
def fill_moved (w : Int → Int) (seq3_len : Nat) (prev_m upper_m diag_m : Int)
    (seq1_gap_seq3 gap_seq2_seq3 seq1_seq2_seq3 : Nat → Int) (curRow dirMtx : Int)
    (s : cube_buffers) : cube_buffers :=
  for_loop (fill_moved_body w prev_m upper_m diag_m seq1_gap_seq3 gap_seq2_seq3 seq1_seq2_seq3
    curRow dirMtx) (seq3_len - 1) 1 s

/-- The body of the last loop over a row of `algn_fill_cube`: the candidate
`curRow[k - 1] + gap_gap_seq3[k]` (`GAP12`) is taken when it is smaller than `curRow[k]`. -/
def algn_fill_cube_gap12_body (w : Int → Int) (gap_gap_seq3 : Nat → Int) (curRow dirMtx : Int) (k : Nat)
    (s : cube_buffers) : cube_buffers :=
  let tmp := w (s.mtx (curRow + (k - 1 : Int)) + gap_gap_seq3 k)
  if tmp < s.mtx (curRow + k) then
    { mtx := wr_at s.mtx (curRow + k) tmp, dir := wr_at s.dir (dirMtx + k) GAP12 }
  else s

/-- The body of the loop over `j` of `algn_fill_cube` for the planes `i ≥ 1`, on the vectors of
the precalculated table: `fill_parallel` with the first entries of the vectors, `fill_moved` with
`prev_m - 1`, `upper_m - 1`, `diag_m - 1`, and the loop `for (k = 1; k < seq3_len; k++)` of the
candidate `GAP12`. -/
def algn_fill_cube_row (w : Int → Int) (seq3_len : Nat) (prev_m upper_m diag_m : Int)
    (seq1_gap_seq3 gap_seq2_seq3 seq1_seq2_seq3 gap_gap_seq3 : Nat → Int) (curRow dirMtx : Int)
    (s : cube_buffers) : cube_buffers :=
  let s1 := fill_parallel w seq3_len prev_m upper_m diag_m (seq1_gap_seq3 0) (gap_seq2_seq3 0)
    (seq1_seq2_seq3 0) curRow dirMtx s
  let s2 := fill_moved w seq3_len (prev_m - 1) (upper_m - 1) (diag_m - 1) seq1_gap_seq3
    gap_seq2_seq3 seq1_seq2_seq3 curRow dirMtx s1
  for_loop (algn_fill_cube_gap12_body w gap_gap_seq3 curRow dirMtx) (seq3_len - 1) 1 s2

/-- A cube with the rows `diag_m` at `0` (`0, 1, 2`), `upper_m` at `3` (`1, 1, 2`) and `prev_m` at
`6` (`1, 2, 2`); the row that is filled is at `9`. -/
def cube_example_buffers : cube_buffers :=
  { mtx := fun x => if x = 0 then 0 else if x = 1 then 1 else if x = 2 then 2
      else if x = 3 then 1 else if x = 4 then 1 else if x = 5 then 2
      else if x = 6 then 1 else if x = 7 then 2 else if x = 8 then 2 else 0,
    dir := fun _ => 0 }

/-- A vector of the precalculated table with the entry `0` at `2` and `1` elsewhere. -/
def cube_example_row : Nat → Int := fun k => if k = 2 then 0 else 1

/-- A vector of the precalculated table with the entry `2` everywhere. -/
def cube_example_gap : Nat → Int := fun _ => 2

/-! ## Inputs for `FILL_CLOSE_BLOCK_DIAGONAL` -/

/-- A cost buffer with the previous rows of the planes `close_block_diagonal` at `0`,
`extend_vertical` at `10`, `extend_horizontal` at `20` (the value `100` in their first cell) and
`extend_block_diagonal` at `30` (the value `0`). -/
def close_example_mtx : Nat → Int := fun k => if k = 0 ∨ k = 10 ∨ k = 20 then 100 else 0

/-! ## Row `0` of the plane `extend_horizontal` -/

/-- The trajectory that the first loop of `initialize_matrices_affine` writes to row `0` of the
plane `extend_horizontal`, in the spec's words "go + sum of gap_row[1..j]", with the reduction `w`
after every addition. -/
def affine_row0 (w : Int → Int) (go : Int) (precalc : Nat → Int) (gap_row : Nat) : Nat → Int
  | 0 => go
  | j + 1 => w (affine_row0 w go precalc gap_row j + precalc (gap_row + (j + 1)))

/-! ## `ukkCheckPoint.c`: `withinMatrix`, `Ukk` and `calcUkk`

`Ukk` and `calcUkk` call each other. The embedding passes the callee to the body: `calcUkk` and
`Ukk_body` take the function `rec` that stands for the calls of `Ukk` inside them, and `Ukk` is
their iteration over a fuel. Arithmetic is unbounded. -/

/-- The value of `-INFINITY`, which is `-INT_MAX / 2` with `INFINITY` defined as `INT_MAX / 2`
(`ukkCommon.h`). -/
def NEG_INFINITY : Int := -1073741823

/-- The constant `MAX_STATES` (`ukkCommon.h`). -/
def MAX_STATES : Nat := 27

/-- The type `from_t`: the fields that `calcUkk` stores. -/
structure from_t where
  lessLong_idx_diff : Int
  lessMidd_idx_diff : Int
  cost : Int
  fsm_state : Int

/-- The type `ukk_cell_t`: the fields `editDist`, `computed` and `from` of a cell. -/
structure ukk_cell_t where
  editDist : Int
  computed : Int
  from_ : from_t

/-- The type `checkPoint_cell_t`: the fields `editDist` and `cost` of a cell. -/
structure checkPoint_cell_t where
  editDist : Int
  cost : Int

/-- The global variables of `ukkCheckPoint.c` that `Ukk`, `calcUkk` and `withinMatrix` read and
do not write. -/
structure ukk_globals where
  costOffset : Int
  checkPoint_cost : Int
  checkPoint_width : Int
  completeFromInfo : Int
  end_lesserChar : Int
  end_longerChar : Int
  end_middleChar : Int
  start_lessLong_idx_diff_global : Int
  start_lessMidd_idx_diff_global : Int
  startCost_global : Int
  startState_global : Int

/-- What `Ukk` and `calcUkk` use of the absent `ukkCommon.c` and of their arguments `globalCosts`,
`inputChars`, `globalCostArrays`: the address that `getPtr` returns for each of the two
allocations (taken as a function of its arguments), `step`, `okIndex`, `whichCharCost`, the
tables of the state machine, the three costs, the three strings and the number of states. -/
structure ukk_env where
  getPtr_Ukk : Int → Int → Int → Int → Nat → Nat
  getPtr_CheckPt : Int → Int → Int → Int → Nat → Nat
  step : Int → Int × Int × Int
  okIndex : Int → Int → Int → Bool
  whichCharCost : Nat → Nat → Nat → Int
  neighbours : Nat → Int
  transitionCost : Nat → Int
  fsmState_continuationCost : Nat → Int
  secondCost : Nat → Int
  mismatchCost : Int
  gapOpenCost : Int
  gapExtendCost : Int
  lesserStr : Int → Nat
  longerStr : Int → Nat
  middleStr : Int → Nat
  numStates : Nat

/-- The memory that `Ukk` and `calcUkk` write: the cells of the two allocations, the global
`furthestReached` and the two counters of `counts`. -/
structure ukk_state where
  cells : Nat → ukk_cell_t
  checkPt : Nat → checkPoint_cell_t
  furthestReached : Int
  counts_cells : Nat
  counts_innerLoop : Nat

/-- The function `get_ukk_cell`: the address of the cell in the allocation `myUkk_allocInfo`. -/
def get_ukk_cell (e : ukk_env) (lessLong_idx_diff lessMidd_idx_diff editDistance : Int)
    (fsm_state : Int) (numStates : Nat) : Nat :=
  e.getPtr_Ukk lessLong_idx_diff lessMidd_idx_diff editDistance fsm_state numStates

/-- The function `get_checkPoint_cell`: the address of the cell in the allocation
`myCheckPt_allocInfo`. -/
def get_checkPoint_cell (e : ukk_env) (lessLong_idx_diff lessMidd_idx_diff editDistance : Int)
    (fsm_state : Int) (numStates : Nat) : Nat :=
  e.getPtr_CheckPt lessLong_idx_diff lessMidd_idx_diff editDistance fsm_state numStates

/-- The inner loop `for (size_t j = i + 1; j < len; j++)` of `sort`: the index `minI`. -/
def sort_inner (values : Nat → Int) : Nat → Nat → Nat → Nat
  | 0, _, minI => minI
  | fuel + 1, j, minI =>
    sort_inner values fuel (j + 1) (if values j < values minI then j else minI)

/-- The outer loop `for (size_t i = 0; i < len; i++)` of `sort`. -/
def sort_outer (len : Nat) : Nat → Nat → (Nat → Int) → (Nat → Int)
  | 0, _, values => values
  | fuel + 1, i, values =>
    let minI := sort_inner values (len - (i + 1)) (i + 1) i
    let tempVal := values i
    let v1 := wr values i (values minI)
    let v2 := wr v1 minI tempVal
    sort_outer len fuel (i + 1) v2

/-- The function `sort (values, len)`, a selection sort. -/
def sort (values : Nat → Int) (len : Nat) : Nat → Int := sort_outer len len 0 values

/-- The function `withinMatrix (lessLong_idx_diff, lessMidd_idx_diff, distance, globalCosts)`. -/
def withinMatrix (e : ukk_env) (g : ukk_globals) (lessLong_idx_diff lessMidd_idx_diff : Int)
    (distance : Int) : Int :=
  let longMidd_idx_diff := lessMidd_idx_diff - lessLong_idx_diff
  if distance < 0 then 0
  else
    let aval : Nat → Int := fun i =>
      if i = 0 then Int.natAbs (g.start_lessLong_idx_diff_global - lessLong_idx_diff)
      else if i = 1 then Int.natAbs (g.start_lessMidd_idx_diff_global - lessMidd_idx_diff)
      else Int.natAbs (g.start_lessMidd_idx_diff_global - g.start_lessLong_idx_diff_global
        - longMidd_idx_diff)
    let aval := sort aval 3
    let g_ := aval 0
    let h := aval 1
    let cheapest :=
      if g.startState_global = 0 then
        (if g_ = 0 then 0 else e.gapOpenCost + g_ * e.gapExtendCost)
          + (if h = 0 then 0 else e.gapOpenCost + h * e.gapExtendCost)
      else
        (if g_ = 0 then 0 else g_ * e.gapExtendCost)
          + (if h = 0 then 0 else h * e.gapExtendCost)
    if cheapest + g.startCost_global > distance then 0 else 1

/-- The variables of `calcUkk` that its loops update: the memory, `best_editDist` and `from`. -/
structure calcUkk_vars where
  st : ukk_state
  best_editDist : Int
  from_ : from_t

/-- The statement `if (best_editDist < editDist) { ... }` at the end of the body of the loop over
`fromState` of `calcUkk`. -/
def calcUkk_improve (e : ukk_env) (g : ukk_globals) (input_editDist : Int)
    (lessLong_idx_diff1 lessMidd_idx_diff1 fromCost : Int) (fromState : Nat) (editDist : Int)
    (v : calcUkk_vars) : calcUkk_vars :=
  if v.best_editDist < editDist then
    if g.completeFromInfo ≠ 0 then
      { v with best_editDist := editDist,
               from_ := { lessLong_idx_diff := lessLong_idx_diff1,
                          lessMidd_idx_diff := lessMidd_idx_diff1,
                          cost := fromCost, fsm_state := fromState } }
    else if input_editDist ≥ g.checkPoint_cost + g.checkPoint_width then
      { v with best_editDist := editDist,
               from_ := (v.st.cells (get_ukk_cell e lessLong_idx_diff1 lessMidd_idx_diff1
                 fromCost fromState e.numStates)).from_ }
    else { v with best_editDist := editDist }
  else v

/-- The loop `for (size_t fromState = 0; fromState < inputChars->numStates; fromState++)` of
`calcUkk`; the first argument counts the iterations that are left. A call of `Ukk` that does not
return is `none`. -/
def calcUkk_from_loop (rec : Int → Int → Int → Nat → ukk_state → Option (Int × ukk_state))
    (e : ukk_env) (g : ukk_globals) (input_editDist : Int) (toState : Nat)
    (da db dc lessLong_idx_diff1 lessMidd_idx_diff1 : Int) :
    Nat → Nat → calcUkk_vars → Option calcUkk_vars
  | 0, _, v => some v
  | n + 1, fromState, v =>
    let start_transitionCost := e.transitionCost (fromState * MAX_STATES + toState)
    let curCost := input_editDist - start_transitionCost - e.fsmState_continuationCost toState
    match rec lessLong_idx_diff1 lessMidd_idx_diff1 curCost fromState v.st with
    | none => none
    | some (a1, st1) =>
      if e.okIndex a1 da g.end_lesserChar
          && e.okIndex (a1 - lessLong_idx_diff1) db g.end_longerChar
          && e.okIndex (a1 - lessMidd_idx_diff1) dc g.end_middleChar
          && decide (e.whichCharCost (if da ≠ 0 then e.lesserStr a1 else 45)
              (if db ≠ 0 then e.longerStr (a1 - lessLong_idx_diff1) else 45)
              (if dc ≠ 0 then e.middleStr (a1 - lessMidd_idx_diff1) else 45) = 1) then
        calcUkk_from_loop rec e g input_editDist toState da db dc lessLong_idx_diff1
          lessMidd_idx_diff1 n (fromState + 1)
          (calcUkk_improve e g input_editDist lessLong_idx_diff1 lessMidd_idx_diff1 curCost
            fromState (a1 + da) { v with st := st1 })
      else if e.secondCost toState = 0 then
        calcUkk_from_loop rec e g input_editDist toState da db dc lessLong_idx_diff1
          lessMidd_idx_diff1 n (fromState + 1) { v with st := st1 }
      else
        match rec lessLong_idx_diff1 lessMidd_idx_diff1 (curCost - e.mismatchCost) fromState
            st1 with
        | none => none
        | some (a2, st2) =>
          if e.okIndex a2 da g.end_lesserChar
              && e.okIndex (a2 - lessLong_idx_diff1) db g.end_longerChar
              && e.okIndex (a2 - lessMidd_idx_diff1) dc g.end_middleChar then
            calcUkk_from_loop rec e g input_editDist toState da db dc lessLong_idx_diff1
              lessMidd_idx_diff1 n (fromState + 1)
              (calcUkk_improve e g input_editDist lessLong_idx_diff1 lessMidd_idx_diff1
                (curCost - e.mismatchCost) fromState (a2 + da) { v with st := st2 })
          else
            calcUkk_from_loop rec e g input_editDist toState da db dc lessLong_idx_diff1
              lessMidd_idx_diff1 n (fromState + 1)
              (calcUkk_improve e g input_editDist lessLong_idx_diff1 lessMidd_idx_diff1
                NEG_INFINITY fromState NEG_INFINITY { v with st := st2 })

/-- The loop `for (size_t curState = 0; curState < inputChars->numStates; curState++)` of
`calcUkk` under `toState == 0`: the memory, `editDist` and `from_fsm_state`. -/
def calcUkk_furthest_loop (rec : Int → Int → Int → Nat → ukk_state → Option (Int × ukk_state))
    (lessLong_idx_diff lessMidd_idx_diff input_editDist best_editDist : Int) :
    Nat → Nat → ukk_state × Int × Int → Option (ukk_state × Int × Int)
  | 0, _, r => some r
  | n + 1, curState, (st, editDist, from_fsm_state) =>
    if curState = 0 then
      calcUkk_furthest_loop rec lessLong_idx_diff lessMidd_idx_diff input_editDist best_editDist
        n (curState + 1)
        (if best_editDist > editDist then (st, best_editDist, (curState : Int))
         else (st, editDist, from_fsm_state))
    else
      match rec lessLong_idx_diff lessMidd_idx_diff input_editDist curState st with
      | none => none
      | some (this_editDist, st1) =>
        calcUkk_furthest_loop rec lessLong_idx_diff lessMidd_idx_diff input_editDist
          best_editDist n (curState + 1)
          (if this_editDist > editDist then (st1, this_editDist, (curState : Int))
           else (st1, editDist, from_fsm_state))

/-- The loop `while (okIndex (...) && ... ) { editDist++; counts.innerLoop++; }` of `calcUkk`:
`editDist` and `counts.innerLoop`; `none` when the fuel runs out. -/
def calcUkk_extend_loop (e : ukk_env) (g : ukk_globals) (lessLong_idx_diff lessMidd_idx_diff : Int) :
    Nat → Int → Nat → Option (Int × Nat)
  | 0, _, _ => none
  | fuel + 1, editDist, innerLoop =>
    if e.okIndex editDist 1 g.end_lesserChar
        && e.okIndex (editDist - lessLong_idx_diff) 1 g.end_longerChar
        && e.okIndex (editDist - lessMidd_idx_diff) 1 g.end_middleChar
        && (decide (e.lesserStr editDist = e.longerStr (editDist - lessLong_idx_diff))
          && decide (e.lesserStr editDist = e.middleStr (editDist - lessMidd_idx_diff))) then
      calcUkk_extend_loop e g lessLong_idx_diff lessMidd_idx_diff fuel (editDist + 1)
        (innerLoop + 1)
    else some (editDist, innerLoop)

/-- The first part of `calcUkk`: the initial value of `from` (the fields that the source leaves
without a value are taken as `0`), the call of `step`, and the loop over `fromState` when the
neighbour is a valid diagonal. -/
def calcUkk_from (rec : Int → Int → Int → Nat → ukk_state → Option (Int × ukk_state))
    (e : ukk_env) (g : ukk_globals)
    (lessLong_idx_diff lessMidd_idx_diff input_editDist : Int) (toState : Nat)
    (st : ukk_state) : Option calcUkk_vars :=
  let neighbour := e.neighbours toState
  let from0 : from_t :=
    if input_editDist ≥ g.checkPoint_cost
        ∧ input_editDist < g.checkPoint_cost + g.checkPoint_width then
      { lessLong_idx_diff := lessLong_idx_diff, lessMidd_idx_diff := lessMidd_idx_diff,
        cost := input_editDist, fsm_state := toState }
    else { lessLong_idx_diff := 0, lessMidd_idx_diff := 0, cost := -1, fsm_state := 0 }
  let da := (e.step neighbour).1
  let db := (e.step neighbour).2.1
  let dc := (e.step neighbour).2.2
  let lessLong_idx_diff1 := lessLong_idx_diff - da + db
  let lessMidd_idx_diff1 := lessMidd_idx_diff - da + dc
  let v0 : calcUkk_vars := { st := st, best_editDist := NEG_INFINITY, from_ := from0 }
  if lessLong_idx_diff1 ≥ -g.end_longerChar ∧ lessLong_idx_diff1 ≤ g.end_lesserChar
      ∧ lessMidd_idx_diff1 ≥ -g.end_middleChar ∧ lessMidd_idx_diff1 ≤ g.end_lesserChar then
    calcUkk_from_loop rec e g input_editDist toState da db dc lessLong_idx_diff1
      lessMidd_idx_diff1 e.numStates 0 v0
  else some v0

/-- The second part of `calcUkk`, "insure that we have how we can reach for AT MOST cost
input_editDist": the call `Ukk (..., input_editDist - 1, toState, ...)` and the update of
`best_editDist` and `from`. -/
def calcUkk_atmost (rec : Int → Int → Int → Nat → ukk_state → Option (Int × ukk_state))
    (e : ukk_env) (g : ukk_globals)
    (lessLong_idx_diff lessMidd_idx_diff input_editDist : Int) (toState : Nat)
    (v1 : calcUkk_vars) : Option calcUkk_vars :=
  match rec lessLong_idx_diff lessMidd_idx_diff (input_editDist - 1) toState v1.st with
  | none => none
  | some (editDist, st2) =>
    if e.okIndex editDist 0 g.end_lesserChar
        && e.okIndex (editDist - lessLong_idx_diff) 0 g.end_longerChar
        && e.okIndex (editDist - lessMidd_idx_diff) 0 g.end_middleChar
        && decide (v1.best_editDist < editDist) then
      if g.completeFromInfo ≠ 0 then
        some { st := st2, best_editDist := editDist,
               from_ := { lessLong_idx_diff := lessLong_idx_diff,
                          lessMidd_idx_diff := lessMidd_idx_diff,
                          cost := input_editDist - 1, fsm_state := toState } }
      else if input_editDist ≥ g.checkPoint_cost + g.checkPoint_width then
        some { st := st2, best_editDist := editDist,
               from_ := (st2.cells (get_ukk_cell e lessLong_idx_diff lessMidd_idx_diff
                 (input_editDist - 1) toState e.numStates)).from_ }
      else some { st := st2, best_editDist := editDist, from_ := v1.from_ }
    else some { v1 with st := st2 }

/-- The third part of `calcUkk`, under `toState == 0`: the furthest of the states of this cost,
the extension along a run of matches, and the update of `best_editDist` and `from`. The argument
`fuel` bounds the `while` loop. -/
def calcUkk_extend (rec : Int → Int → Int → Nat → ukk_state → Option (Int × ukk_state))
    (fuel : Nat) (e : ukk_env) (g : ukk_globals)
    (lessLong_idx_diff lessMidd_idx_diff input_editDist : Int)
    (v2 : calcUkk_vars) : Option calcUkk_vars :=
  match calcUkk_furthest_loop rec lessLong_idx_diff lessMidd_idx_diff input_editDist
      v2.best_editDist e.numStates 0 (v2.st, NEG_INFINITY, -1) with
  | none => none
  | some (st3, editDist0, from_fsm_state) =>
    match calcUkk_extend_loop e g lessLong_idx_diff lessMidd_idx_diff fuel editDist0
        st3.counts_innerLoop with
    | none => none
    | some (editDist1, innerLoop) =>
      if editDist1 > v2.best_editDist then
        if from_fsm_state ≠ 0 then
          if g.completeFromInfo ≠ 0 then
            some { st := { st3 with counts_innerLoop := innerLoop }, best_editDist := editDist1,
                   from_ := { lessLong_idx_diff := lessLong_idx_diff,
                              lessMidd_idx_diff := lessMidd_idx_diff,
                              cost := input_editDist, fsm_state := from_fsm_state } }
          else if input_editDist ≥ g.checkPoint_cost + g.checkPoint_width then
            some { st := { st3 with counts_innerLoop := innerLoop }, best_editDist := editDist1,
                   from_ := (st3.cells (get_ukk_cell e lessLong_idx_diff lessMidd_idx_diff
                     input_editDist from_fsm_state e.numStates)).from_ }
          else some { st := { st3 with counts_innerLoop := innerLoop },
                      best_editDist := editDist1, from_ := v2.from_ }
        else some { st := { st3 with counts_innerLoop := innerLoop },
                    best_editDist := editDist1, from_ := v2.from_ }
      else some { v2 with st := { st3 with counts_innerLoop := innerLoop } }

/-- The part of `calcUkk` between its two assertions: the memory, `best_editDist` and `from` that
it computes. -/
def calcUkk_best (rec : Int → Int → Int → Nat → ukk_state → Option (Int × ukk_state))
    (fuel : Nat) (e : ukk_env) (g : ukk_globals)
    (lessLong_idx_diff lessMidd_idx_diff input_editDist : Int) (toState : Nat)
    (st : ukk_state) : Option calcUkk_vars :=
  match calcUkk_from rec e g lessLong_idx_diff lessMidd_idx_diff input_editDist toState st with
  | none => none
  | some v1 =>
    match calcUkk_atmost rec e g lessLong_idx_diff lessMidd_idx_diff input_editDist toState
        v1 with
    | none => none
    | some v2 =>
      if toState = 0 then
        calcUkk_extend rec fuel e g lessLong_idx_diff lessMidd_idx_diff input_editDist v2
      else some v2

/-- The function `calcUkk (lessLong_idx_diff, lessMidd_idx_diff, input_editDist, toState,
globalCosts, inputChars, globalCostArrays)`: the memory that it leaves. The two assertions
`computed < input_editDist + costOffset` fail with `none`; after the second one the fields
`editDist`, `computed` and `from` of the cell are stored. -/
def calcUkk (rec : Int → Int → Int → Nat → ukk_state → Option (Int × ukk_state))
    (fuel : Nat) (e : ukk_env) (g : ukk_globals)
    (lessLong_idx_diff lessMidd_idx_diff input_editDist : Int) (toState : Nat)
    (st : ukk_state) : Option ukk_state :=
  let cell := get_ukk_cell e lessLong_idx_diff lessMidd_idx_diff input_editDist toState
    e.numStates
  if (st.cells cell).computed < input_editDist + g.costOffset then
    match calcUkk_best rec fuel e g lessLong_idx_diff lessMidd_idx_diff input_editDist toState
        st with
    | none => none
    | some v =>
      if (v.st.cells cell).computed < input_editDist + g.costOffset then
        some { v.st with
          cells := wr v.st.cells cell
            { editDist := v.best_editDist, computed := input_editDist + g.costOffset,
              from_ := v.from_ } }
      else none
  else none

/-- The statement "store away check point from info if necessary" of `Ukk`: inside the window of
the check point the fields `editDist` and `cost` of the check point cell are stored. -/
def Ukk_checkPoint (e : ukk_env) (g : ukk_globals)
    (lessLong_idx_diff lessMidd_idx_diff editDistance : Int) (fsm_state : Nat)
    (st : ukk_state) : ukk_state :=
  if editDistance ≥ g.checkPoint_cost
      ∧ editDistance < g.checkPoint_cost + g.checkPoint_width then
    { st with
      checkPt := wr st.checkPt
        (get_checkPoint_cell e lessLong_idx_diff lessMidd_idx_diff editDistance fsm_state
          e.numStates)
        { editDist := (st.cells (get_ukk_cell e lessLong_idx_diff lessMidd_idx_diff editDistance
            fsm_state e.numStates)).editDist,
          cost := editDistance + 1 } }
  else st

/-- The statement `if (cell->editDist > furthestReached) furthestReached = cell->editDist` of
`Ukk`. -/
def Ukk_furthest (cell : Nat) (st : ukk_state) : ukk_state :=
  if (st.cells cell).editDist > st.furthestReached then
    { st with furthestReached := (st.cells cell).editDist }
  else st

/-- The body of `Ukk (lessLong_idx_diff, lessMidd_idx_diff, editDistance, fsm_state, globalCosts,
inputChars, globalCostArrays)`: the returned value and the memory. -/
def Ukk_body (rec : Int → Int → Int → Nat → ukk_state → Option (Int × ukk_state))
    (fuel : Nat) (e : ukk_env) (g : ukk_globals)
    (lessLong_idx_diff lessMidd_idx_diff editDistance : Int) (fsm_state : Nat)
    (st : ukk_state) : Option (Int × ukk_state) :=
  if withinMatrix e g lessLong_idx_diff lessMidd_idx_diff editDistance = 0 then
    some (NEG_INFINITY, st)
  else if (st.cells (get_ukk_cell e lessLong_idx_diff lessMidd_idx_diff editDistance fsm_state
      e.numStates)).computed = editDistance + g.costOffset then
    some ((st.cells (get_ukk_cell e lessLong_idx_diff lessMidd_idx_diff editDistance fsm_state
      e.numStates)).editDist, st)
  else
    match calcUkk rec fuel e g lessLong_idx_diff lessMidd_idx_diff editDistance fsm_state
        { st with counts_cells := st.counts_cells + 1 } with
    | none => none
    | some st2 =>
      some (((Ukk_furthest (get_ukk_cell e lessLong_idx_diff lessMidd_idx_diff editDistance
                fsm_state e.numStates)
              (Ukk_checkPoint e g lessLong_idx_diff lessMidd_idx_diff editDistance fsm_state
                st2)).cells
            (get_ukk_cell e lessLong_idx_diff lessMidd_idx_diff editDistance fsm_state
              e.numStates)).editDist,
        Ukk_furthest (get_ukk_cell e lessLong_idx_diff lessMidd_idx_diff editDistance fsm_state
            e.numStates)
          (Ukk_checkPoint e g lessLong_idx_diff lessMidd_idx_diff editDistance fsm_state st2))

/-- The function `Ukk` with the recursion through `calcUkk` bounded by a fuel: `none` when the
fuel runs out or an assertion of `calcUkk` fails. -/
def Ukk (e : ukk_env) (g : ukk_globals) :
    Nat → Int → Int → Int → Nat → ukk_state → Option (Int × ukk_state)
  | 0 => fun _ _ _ _ _ => none
  | fuel + 1 => Ukk_body (Ukk e g fuel) fuel e g

/-- A function that stands for `Ukk` does not lower `furthestReached`. -/
def UkkMono (rec : Int → Int → Int → Nat → ukk_state → Option (Int × ukk_state)) : Prop :=
  ∀ a b c s st v st1, rec a b c s st = some (v, st1) → st.furthestReached ≤ st1.furthestReached

/-- A state machine with one state and no neighbour inside the matrix, for the strings `A`, `A`,
`A`: `getPtr` addresses the cells by the cost, `okIndex (a, da, end)` is `0 ≤ a ∧ a + da ≤ end`. -/
def ukk_example_env : ukk_env :=
  { getPtr_Ukk := fun _ _ d _ _ => d.toNat,
    getPtr_CheckPt := fun _ _ d _ _ => d.toNat,
    step := fun _ => (1, 1, 1),
    okIndex := fun a da e => decide (0 ≤ a ∧ a + da ≤ e),
    whichCharCost := fun a b c => if a = b ∧ b = c then 1 else 2,
    neighbours := fun _ => 0,
    transitionCost := fun _ => 1,
    fsmState_continuationCost := fun _ => 0,
    secondCost := fun _ => 0,
    mismatchCost := 1, gapOpenCost := 1, gapExtendCost := 1,
    lesserStr := fun _ => 65, longerStr := fun _ => 65, middleStr := fun _ => 65,
    numStates := 1 }

/-- The globals at the start of an alignment of strings of length `1`. -/
def ukk_example_globals : ukk_globals :=
  { costOffset := 1, checkPoint_cost := 100, checkPoint_width := 3, completeFromInfo := 0,
    end_lesserChar := 1, end_longerChar := 1, end_middleChar := 1,
    start_lessLong_idx_diff_global := 0, start_lessMidd_idx_diff_global := 0,
    startCost_global := 0, startState_global := 0 }

/-- A memory in which the cell of cost `0` is computed, with the edit distance `1`, and no
other cell is. -/
def ukk_example_state : ukk_state :=
  { cells := fun k => { editDist := if k = 0 then 1 else 0, computed := if k = 0 then 1 else 0,
                        from_ := { lessLong_idx_diff := 0, lessMidd_idx_diff := 0, cost := 0,
                                   fsm_state := 0 } },
    checkPt := fun _ => { editDist := 0, cost := 0 },
    furthestReached := -1, counts_cells := 0, counts_innerLoop := 0 }

/-! ## `ukkCheckPoint.c`: the epoch `costOffset` in `doUkkInLimits` -/

/-- The value of a 64 bit `long` after an addition whose unbounded result is `x`. -/
def wrap64 (x : Int) : Int := (x + 9223372036854775808) % 18446744073709551616 - 9223372036854775808

/-- The statements of `doUkkInLimits` that concern the global `costOffset` (a `long`):
`assert (startCost >= 0 && finalCost >= 0)`, `costOffset += finalCost + 1` with the `int` sum
`finalCost + 1` converted to `long`, and `assert (costOffset > 0 && "Oops, overflow in
costOffset")`. The result is the new value of `costOffset`; a failed assertion is `none`. No other
statement of the file assigns `costOffset`, apart from `costOffset = 1` at the start of
`doUkk`. -/
def doUkkInLimits_costOffset (costOffset : Int) (startCost finalCost : Int) : Option Int :=
  if startCost ≥ 0 ∧ finalCost ≥ 0 then
    if wrap64 (costOffset + wrap32 (finalCost + 1)) > 0 then
      some (wrap64 (costOffset + wrap32 (finalCost + 1)))
    else none
  else none

/-- The value of `costOffset` after the calls of `doUkkInLimits` of a check point recursion,
given by the pairs `(startCost, finalCost)` of the calls in the order in which they start. -/
def doUkkInLimits_costOffsets : List (Int × Int) → Int → Option Int
  | [], costOffset => some costOffset
  | (startCost, finalCost) :: calls, costOffset =>
    match doUkkInLimits_costOffset costOffset startCost finalCost with
    | none => none
    | some c => doUkkInLimits_costOffsets calls c

/-! ## A base table that is not symmetric -/

/-- A base table over `A, C, G, T, -` (row-major, `5 × 5`) that is not symmetric: `0` on the
diagonal, `1` above it and `2` below it. -/
def asym_tcm : Nat → Int := fun i => if i / 5 = i % 5 then 0 else if i / 5 < i % 5 then 1 else 2

/-! ## `algn.c`: `algn_remove_gaps` -/

/-- Modelled from the spec: `seq_prepend (s, v)` on a stream with its pointers, declared in the
absent `seq.h`; it is the operation of the macro `my_prepend` of `algn.c`. "prepend fails when
`begin == buffer_start`". -/
def seq_prepend_ptr (s : seq_ptr) (v : Nat) : Option seq_ptr := my_prepend_ptr s v

/-- The loop `for (i = len - 1; i >= 0; i--)` of `algn_remove_gaps`; the first argument is
`i + 1`. The state is `source`, `destination`, `newlen` and the memory; the result is
`destination`, `newlen` and the memory. -/
def algn_remove_gaps_loop (gap : Nat) :
    Nat → Int → Int → Nat → (Int → Nat) → Int × Nat × (Int → Nat)
  | 0, _, destination, newlen, mem => (destination, newlen, mem)
  | i + 1, source, destination, newlen, mem =>
    if gap ≠ mem source then
      algn_remove_gaps_loop gap i (source - 1) (destination - 1) (newlen + 1)
        (fun k => if k = destination then mem source else mem k)
    else algn_remove_gaps_loop gap i (source - 1) destination newlen mem

/-- The function `algn_remove_gaps (gap, s)`: the loop from `source = destination = s->end`,
then `s->len = newlen`, `s->begin = destination + 1` and `seq_prepend (s, gap)`. -/
def algn_remove_gaps (gap : Nat) (s : seq_ptr) : Option seq_ptr :=
  let len := s.len
  let r := algn_remove_gaps_loop gap len s.end_ s.end_ 0 s.mem
  seq_prepend_ptr { s with len := r.2.1, seq_begin := r.1 + 1, mem := r.2.2 } gap

/-- The function `alignIOtoChar (input, retChar, alphabetSize)` of `c_alignment_interface.c` on a
stream with its pointers: `character` is the address `input->character` of an array of
`capacity` cells in the memory `mem` whose last `length` cells hold the symbols. The field `end`
is set to the address of the last symbol, then the gap `1 << (alphabetSize - 1)` is stored in the
cell before the first symbol. -/
def alignIOtoChar_ptr (mem : Int → Nat) (character : Int) (length capacity alphabetSize : Nat) :
    seq_ptr :=
  let len := length
  let cap := capacity
  let array_head := character
  let seq_begin : Int := array_head + cap - len
  let end_ : Int := seq_begin + len - 1
  let seq_begin := seq_begin - 1
  { cap := cap, len := len + 1, array_head := array_head, seq_begin := seq_begin, end_ := end_,
    mem := fun k => if k = seq_begin then 1 <<< (alphabetSize - 1) else mem k }

/-- The stream `- A - C` that `alignIOtoChar` builds over five states from an input of capacity
`4` at address `0` whose last three cells hold `A - C`; `end` is the address of its last
symbol. -/
def gaps_example : seq_ptr :=
  alignIOtoChar_ptr (fun k => if k = 1 then 1 else if k = 2 then 16 else if k = 3 then 2 else 0)
    0 3 4 5

/-- The stream `A C` built by `initializeChar` for four cells at address `0` and the prepends of
`C` and of `A`, in a memory whose cells outside the array hold `x`; `end` is the address
`array_head + allocSize`, one cell past the array. -/
def prepended_AC (x : Nat) : Option seq_ptr :=
  (my_prepend_ptr (initializeChar_ptr (fun _ => x) 0 4) 2).bind fun s => my_prepend_ptr s 1

/-! ## `algn.c`: `FILL_EXTEND_BLOCK_DIAGONAL_NOBT` -/

/-- The function `FILL_EXTEND_BLOCK_DIAGONAL_NOBT`: the new cost buffer. Its `open_cost` adds
`open_diag`, which is `2 * gap_open` when both bases carry the gap bit (`flag2` asks for no gap bit
in `sj_base`, so it is false whenever `flag` holds); the argument `sj_prev_base` is not used. -/
def FILL_EXTEND_BLOCK_DIAGONAL_NOBT (w : Int → Int)
    (si_base sj_base si_prev_base _sj_prev_base : Nat) (gap_open : Int) (j : Nat)
    (extend_block_diagonal prev_extend_block_diagonal prev_close_block_diagonal : Nat)
    (mtx : Nat → Int) : Nat → Int :=
  let flag : Bool := decide (TMPGAP &&& si_base ≠ 0) && decide (TMPGAP &&& sj_base ≠ 0)
  let flag2 : Bool := !decide (TMPGAP &&& si_prev_base ≠ 0) && !decide (TMPGAP &&& sj_base ≠ 0)
  let diag : Int := if flag then 0 else INT_MAX
  let open_diag : Int := if flag then (if flag2 then 0 else w (2 * gap_open)) else INT_MAX
  let ext_cost := w (mtx (prev_extend_block_diagonal + (j - 1)) + diag)
  let open_cost := w (mtx (prev_close_block_diagonal + (j - 1)) + open_diag)
  if ext_cost < open_cost then wr mtx (extend_block_diagonal + j) ext_cost
  else wr mtx (extend_block_diagonal + j) open_cost

/-- A cost buffer with the previous rows of the planes `close_block_diagonal` at `0` (the value
`0` in its first cell) and `extend_block_diagonal` at `30` (the value `10`). -/
def block_example_mtx : Nat → Int := fun k => if k = 30 then 10 else 0

/-! ## The cost-matrix expander: `distance`, `setup2dCostMtx`, `setup3dCostMtx` -/

theorem wr_same {α : Type} (m : Nat → α) (i : Nat) (v : α) : wr m i v i = v := by
  simp [wr]

theorem wr_other {α : Type} (m : Nat → α) (i k : Nat) (v : α) (h : k ≠ i) :
    wr m i v k = m k := by
  simp [wr, h]

theorem bit_mask_ne_zero (pos s : Nat) : ((1 <<< pos) &&& s ≠ 0) ↔ s.testBit pos = true := by
  rw [Nat.one_shiftLeft, Nat.and_comm, Nat.and_two_pow]
  cases h : s.testBit pos <;> simp [Nat.pos_iff_ne_zero.mp, Nat.two_pow_pos]

/-- Loop invariant of `distance`. -/
theorem distance_loop_spec (tcm : Nat → Int) (K z s : Nat) (fuel : Nat) :
    ∀ (pos : Nat) (min : Int),
      distance_loop tcm K z s fuel pos min ≤ min ∧
      (∀ i, pos ≤ i → i < pos + fuel → s.testBit i = true →
        distance_loop tcm K z s fuel pos min ≤ tcm (i * K + z - 1)) ∧
      (distance_loop tcm K z s fuel pos min = min ∨
        ∃ i, pos ≤ i ∧ i < pos + fuel ∧ s.testBit i = true ∧
          distance_loop tcm K z s fuel pos min = tcm (i * K + z - 1)) := by
  induction fuel with
  | zero =>
    intro pos min
    refine ⟨le_refl _, ?_, Or.inl rfl⟩
    intro i h1 h2; omega
  | succ n ih =>
    intro pos min
    simp only [distance_loop]
    by_cases hb : ((1 <<< pos) &&& s ≠ 0)
    · have hbit : s.testBit pos = true := (bit_mask_ne_zero pos s).mp hb
      rw [if_pos hb]
      by_cases hlt : tcm (pos * K + z - 1) < min
      · simp only [hlt, if_true]
        obtain ⟨h1, h2, h3⟩ := ih (pos + 1) (tcm (pos * K + z - 1))
        refine ⟨le_trans h1 (le_of_lt hlt), ?_, ?_⟩
        · intro i hi1 hi2 hi3
          by_cases hip : i = pos
          · subst hip; exact h1
          · exact h2 i (by omega) (by omega) hi3
        · right
          rcases h3 with h3 | ⟨i, hi1, hi2, hi3, hi4⟩
          · exact ⟨pos, le_refl _, by omega, hbit, h3⟩
          · exact ⟨i, by omega, by omega, hi3, hi4⟩
      · simp only [hlt, if_false]
        obtain ⟨h1, h2, h3⟩ := ih (pos + 1) min
        refine ⟨h1, ?_, ?_⟩
        · intro i hi1 hi2 hi3
          by_cases hip : i = pos
          · subst hip; exact le_trans h1 (not_lt.mp hlt)
          · exact h2 i (by omega) (by omega) hi3
        · rcases h3 with h3 | ⟨i, hi1, hi2, hi3, hi4⟩
          · exact Or.inl h3
          · exact Or.inr ⟨i, by omega, by omega, hi3, hi4⟩
    · have hbit : ¬ s.testBit pos = true := fun h => hb ((bit_mask_ne_zero pos s).mpr h)
      rw [if_neg hb]
      obtain ⟨h1, h2, h3⟩ := ih (pos + 1) min
      refine ⟨h1, ?_, ?_⟩
      · intro i hi1 hi2 hi3
        by_cases hip : i = pos
        · subst hip; exact absurd hi3 hbit
        · exact h2 i (by omega) (by omega) hi3
      · rcases h3 with h3 | ⟨i, hi1, hi2, hi3, hi4⟩
        · exact Or.inl h3
        · exact Or.inr ⟨i, by omega, by omega, hi3, hi4⟩

/-- A symbol in `[1, 2^K - 1]` has one of its `K` low bits set. -/
theorem exists_bit_of_symbol (K s : Nat) (h1 : 1 ≤ s) (h2 : s ≤ 2 ^ K - 1) :
    ∃ i, i < K ∧ s.testBit i = true := by
  have hs : s ≠ 0 := by omega
  obtain ⟨i, hi⟩ := Nat.ne_zero_implies_bit_true hs
  refine ⟨i, ?_, hi⟩
  by_contra hK
  have hlt : s < 2 ^ K := by
    have := Nat.two_pow_pos K
    omega
  have : s < 2 ^ i := lt_of_lt_of_le hlt (Nat.pow_le_pow_right (by norm_num) (not_lt.mp hK))
  rw [Nat.testBit_lt_two_pow this] at hi
  exact Bool.false_ne_true hi

theorem testBit_one_shiftLeft (n p : Nat) : (1 <<< n).testBit p = true ↔ p = n := by
  rw [Nat.one_shiftLeft, Nat.testBit_two_pow]
  simp [eq_comm]

theorem pivot_loop_inv (f : Nat → Int) (fuel : Nat) :
    ∀ (nuc : Nat) (minCost : Int) (median : Nat), 1 ≤ nuc →
      PivotInv f nuc minCost median →
      PivotInv f (nuc + fuel) (pivot_loop f fuel nuc minCost median).1
        (pivot_loop f fuel nuc minCost median).2 := by
  induction fuel with
  | zero => intro nuc minCost median _ h; simpa [pivot_loop] using h
  | succ n ih =>
    intro nuc minCost median hn ⟨h1, h2, h3⟩
    simp only [pivot_loop]
    have hadd : nuc + (n + 1) = (nuc + 1) + n := by omega
    rw [hadd]
    by_cases hlt : f nuc < minCost
    · rw [if_pos hlt]
      apply ih (nuc + 1) _ _ (by omega)
      refine ⟨?_, ?_, ?_⟩
      · intro z hz1 hz2
        by_cases hz : z = nuc
        · subst hz; exact le_refl _
        · exact le_trans (le_of_lt hlt) (h1 z hz1 (by omega))
      · intro p
        rw [testBit_one_shiftLeft]
        constructor
        · intro hp; subst hp
          have : nuc - 1 + 1 = nuc := by omega
          rw [this]; exact ⟨by omega, rfl⟩
        · rintro ⟨hp1, hp2⟩
          by_contra hne
          have hlt2 : p + 1 < nuc := by omega
          have := h1 (p + 1) (by omega) hlt2
          rw [hp2] at this
          exact absurd hlt (not_lt.mpr this)
      · exact Or.inr ⟨nuc, hn, by omega, rfl⟩
    · rw [if_neg hlt]
      by_cases heq : f nuc = minCost
      · rw [if_pos heq]
        apply ih (nuc + 1) _ _ (by omega)
        refine ⟨?_, ?_, ?_⟩
        · intro z hz1 hz2
          by_cases hz : z = nuc
          · subst hz; exact le_of_eq heq.symm
          · exact h1 z hz1 (by omega)
        · intro p
          rw [Nat.testBit_or, Bool.or_eq_true, h2 p, testBit_one_shiftLeft]
          constructor
          · rintro (⟨hp1, hp2⟩ | hp)
            · exact ⟨by omega, hp2⟩
            · subst hp
              have : nuc - 1 + 1 = nuc := by omega
              rw [this]; exact ⟨by omega, heq⟩
          · rintro ⟨hp1, hp2⟩
            by_cases hp : p = nuc - 1
            · exact Or.inr hp
            · exact Or.inl ⟨by omega, hp2⟩
        · exact Or.inr ⟨nuc, hn, by omega, heq⟩
      · rw [if_neg heq]
        apply ih (nuc + 1) _ _ (by omega)
        refine ⟨?_, ?_, ?_⟩
        · intro z hz1 hz2
          by_cases hz : z = nuc
          · subst hz; exact not_lt.mp hlt
          · exact h1 z hz1 (by omega)
        · intro p
          rw [h2 p]
          constructor
          · rintro ⟨hp1, hp2⟩; exact ⟨by omega, hp2⟩
          · rintro ⟨hp1, hp2⟩
            refine ⟨?_, hp2⟩
            by_contra hne
            have : p + 1 = nuc := by omega
            rw [this] at hp2
            exact heq hp2
        · rcases h3 with h3 | ⟨z, hz1, hz2, hz3⟩
          · exact Or.inl h3
          · exact Or.inr ⟨z, hz1, by omega, hz3⟩

/-- Result of the pivot loop run from pivot `1` to `K` with `minCost = INT_MAX`, `median = 0`: the
minimum of `f` over the pivots, and the bit-set of the pivots that attain it. -/
theorem pivot_loop_spec (f : Nat → Int) (K : Nat) (hK : 1 ≤ K)
    (hf : ∀ z, 1 ≤ z → z ≤ K → f z ≤ INT_MAX) :
    IsLeast (f '' Set.Icc 1 K) (pivot_loop f K 1 INT_MAX 0).1 ∧
    (∀ p, (pivot_loop f K 1 INT_MAX 0).2.testBit p = true ↔
      (p + 1 ≤ K ∧ f (p + 1) = (pivot_loop f K 1 INT_MAX 0).1)) ∧
    (pivot_loop f K 1 INT_MAX 0).2 ≠ 0 := by
  have hinit : PivotInv f 1 INT_MAX 0 := by
    refine ⟨?_, ?_, Or.inl rfl⟩
    · intro z h1 h2; omega
    · intro p; simp
  obtain ⟨h1, h2, h3⟩ := pivot_loop_inv f K 1 INT_MAX 0 (le_refl _) hinit
  have hmem : ∃ z, 1 ≤ z ∧ z ≤ K ∧ f z = (pivot_loop f K 1 INT_MAX 0).1 := by
    rcases h3 with h3 | ⟨z, hz1, hz2, hz3⟩
    · refine ⟨1, le_refl _, hK, ?_⟩
      have ha := h1 1 (le_refl _) (by omega)
      have hb := hf 1 (le_refl _) hK
      rw [h3] at ha ⊢
      exact le_antisymm hb ha
    · exact ⟨z, hz1, by omega, hz3⟩
  refine ⟨⟨?_, ?_⟩, ?_, ?_⟩
  · obtain ⟨z, hz1, hz2, hz3⟩ := hmem
    exact ⟨z, ⟨hz1, hz2⟩, hz3⟩
  · rintro _ ⟨z, ⟨hz1, hz2⟩, rfl⟩
    exact h1 z hz1 (by omega)
  · intro p
    rw [h2 p]
    constructor
    · rintro ⟨hp1, hp2⟩; exact ⟨by omega, hp2⟩
    · rintro ⟨hp1, hp2⟩; exact ⟨by omega, hp2⟩
  · obtain ⟨z, hz1, hz2, hz3⟩ := hmem
    intro h0
    have hb : (pivot_loop f K 1 INT_MAX 0).2.testBit (z - 1) = true := by
      rw [h2 (z - 1)]
      have : z - 1 + 1 = z := by omega
      rw [this]; exact ⟨by omega, hz3⟩
    rw [h0] at hb
    simp at hb

theorem setup2d_nucleotide_loop_eq (tcm : Nat → Int) (K a b : Nat) (fuel : Nat) :
    ∀ (nuc : Nat) (minCost : Int) (median : Nat),
      setup2d_nucleotide_loop tcm K a b fuel nuc minCost median =
        pivot_loop (fun z => distance tcm K z a + distance tcm K z b) fuel nuc minCost median := by
  induction fuel with
  | zero => intro nuc minCost median; rfl
  | succ n ih =>
    intro nuc minCost median
    simp only [setup2d_nucleotide_loop, pivot_loop, ih]

theorem setup3d_nucleotide_loop_eq (tcm : Nat → Int) (K a b c : Nat) (fuel : Nat) :
    ∀ (nuc : Nat) (minCost : Int) (median : Nat),
      setup3d_nucleotide_loop tcm K a b c fuel nuc minCost median =
        pivot_loop (fun z => distance tcm K z a + distance tcm K z b + distance tcm K z c)
          fuel nuc minCost median := by
  induction fuel with
  | zero => intro nuc minCost median; rfl
  | succ n ih =>
    intro nuc minCost median
    simp only [setup3d_nucleotide_loop, pivot_loop, ih]

theorem pos_inj (a b a' b' n : Nat) (hb : b < 2 ^ n) (hb' : b' < 2 ^ n)
    (h : cm_calc_cost_position a b n = cm_calc_cost_position a' b' n) : a = a' ∧ b = b' := by
  simp only [cm_calc_cost_position, Nat.shiftLeft_eq] at h
  have hpos := Nat.two_pow_pos n
  have h1 : (a * 2 ^ n + b) / 2 ^ n = a := by
    rw [Nat.add_comm, Nat.add_mul_div_right _ _ hpos, Nat.div_eq_of_lt hb, Nat.zero_add]
  have h2 : (a' * 2 ^ n + b') / 2 ^ n = a' := by
    rw [Nat.add_comm, Nat.add_mul_div_right _ _ hpos, Nat.div_eq_of_lt hb', Nat.zero_add]
  have ha : a = a' := by rw [← h1, ← h2, h]
  subst ha
  exact ⟨rfl, by omega⟩

theorem setup2d_cell_frame (tcm : Nat → Int) (K a b : Nat) (m : cost_matrices_2d) :
    SameFrame2d m (setup2d_cell tcm K a b m) := by
  simp [SameFrame2d, setup2d_cell, cm_set_median_2d, cm_set_cost_2d]

theorem setup2d_cell_cost (tcm : Nat → Int) (K a b : Nat) (m : cost_matrices_2d) :
    (setup2d_cell tcm K a b m).cost =
      wr m.cost (cm_calc_cost_position a b m.lcm) (setup2d_value tcm K a b).1 := by
  simp [setup2d_cell, cm_set_median_2d, cm_set_cost_2d, setup2d_value]

theorem setup2d_cell_median (tcm : Nat → Int) (K a b : Nat) (m : cost_matrices_2d) :
    (setup2d_cell tcm K a b m).median =
      wr m.median (cm_calc_cost_position a b m.lcm) (setup2d_value tcm K a b).2 := by
  simp [setup2d_cell, cm_set_median_2d, cm_set_cost_2d, setup2d_value]

theorem setup2d_loop2_spec (tcm : Nat → Int) (K a : Nat) (fuel : Nat) :
    ∀ (b0 : Nat) (m : cost_matrices_2d),
      SameFrame2d m (setup2d_loop2 tcm K a fuel b0 m) ∧
      (∀ b, b0 ≤ b → b < b0 + fuel →
        (setup2d_loop2 tcm K a fuel b0 m).cost (cm_calc_cost_position a b m.lcm) =
          (setup2d_value tcm K a b).1 ∧
        (setup2d_loop2 tcm K a fuel b0 m).median (cm_calc_cost_position a b m.lcm) =
          (setup2d_value tcm K a b).2) ∧
      (∀ idx, (∀ b, b0 ≤ b → b < b0 + fuel → idx ≠ cm_calc_cost_position a b m.lcm) →
        (setup2d_loop2 tcm K a fuel b0 m).cost idx = m.cost idx ∧
        (setup2d_loop2 tcm K a fuel b0 m).median idx = m.median idx) := by
  induction fuel with
  | zero =>
    intro b0 m
    refine ⟨by simp [SameFrame2d, setup2d_loop2], ?_, ?_⟩
    · intro b h1 h2; omega
    · intro idx _; simp [setup2d_loop2]
  | succ n ih =>
    intro b0 m
    simp only [setup2d_loop2]
    obtain ⟨hf, hin, hout⟩ := ih (b0 + 1) (setup2d_cell tcm K a b0 m)
    have hcf := setup2d_cell_frame tcm K a b0 m
    have hlcm : (setup2d_cell tcm K a b0 m).lcm = m.lcm := hcf.1
    rw [hlcm] at hin hout
    refine ⟨?_, ?_, ?_⟩
    · obtain ⟨a1, a2, a3, a4, a5, a6⟩ := hf
      obtain ⟨b1, b2, b3, b4, b5, b6⟩ := hcf
      exact ⟨a1.trans b1, a2.trans b2, a3.trans b3, a4.trans b4, a5.trans b5, a6.trans b6⟩
    · intro b hb1 hb2
      by_cases hb : b = b0
      · subst hb
        have := hout (cm_calc_cost_position a b m.lcm) (by
          intro b' h1 h2 h3
          simp only [cm_calc_cost_position] at h3
          omega)
        rw [this.1, this.2, setup2d_cell_cost, setup2d_cell_median, wr_same, wr_same]
        exact ⟨rfl, rfl⟩
      · exact hin b (by omega) (by omega)
    · intro idx hidx
      have := hout idx (fun b h1 h2 => hidx b (by omega) (by omega))
      rw [this.1, this.2, setup2d_cell_cost, setup2d_cell_median,
        wr_other _ _ _ _ (hidx b0 (le_refl _) (by omega)),
        wr_other _ _ _ _ (hidx b0 (le_refl _) (by omega))]
      exact ⟨rfl, rfl⟩

theorem setup2d_loop1_spec (tcm : Nat → Int) (K all : Nat) (fuel : Nat) :
    ∀ (a0 : Nat) (m : cost_matrices_2d), all < 2 ^ m.lcm →
      SameFrame2d m (setup2d_loop1 tcm K all fuel a0 m) ∧
      (∀ a b, a0 ≤ a → a < a0 + fuel → 1 ≤ b → b ≤ all →
        (setup2d_loop1 tcm K all fuel a0 m).cost (cm_calc_cost_position a b m.lcm) =
          (setup2d_value tcm K a b).1 ∧
        (setup2d_loop1 tcm K all fuel a0 m).median (cm_calc_cost_position a b m.lcm) =
          (setup2d_value tcm K a b).2) ∧
      (∀ idx, (∀ a b, a0 ≤ a → a < a0 + fuel → 1 ≤ b → b ≤ all →
          idx ≠ cm_calc_cost_position a b m.lcm) →
        (setup2d_loop1 tcm K all fuel a0 m).cost idx = m.cost idx ∧
        (setup2d_loop1 tcm K all fuel a0 m).median idx = m.median idx) := by
  induction fuel with
  | zero =>
    intro a0 m _
    refine ⟨by simp [SameFrame2d, setup2d_loop1], ?_, ?_⟩
    · intro a b h1 h2; omega
    · intro idx _; simp [setup2d_loop1]
  | succ n ih =>
    intro a0 m hall
    simp only [setup2d_loop1]
    obtain ⟨hf2, hin2, hout2⟩ := setup2d_loop2_spec tcm K a0 all 1 m
    have hlcm : (setup2d_loop2 tcm K a0 all 1 m).lcm = m.lcm := hf2.1
    obtain ⟨hf, hin, hout⟩ := ih (a0 + 1) (setup2d_loop2 tcm K a0 all 1 m) (by rw [hlcm]; exact hall)
    rw [hlcm] at hin hout
    refine ⟨?_, ?_, ?_⟩
    · obtain ⟨a1, a2, a3, a4, a5, a6⟩ := hf
      obtain ⟨b1, b2, b3, b4, b5, b6⟩ := hf2
      exact ⟨a1.trans b1, a2.trans b2, a3.trans b3, a4.trans b4, a5.trans b5, a6.trans b6⟩
    · intro a b ha1 ha2 hb1 hb2
      by_cases ha : a = a0
      · subst ha
        have := hout (cm_calc_cost_position a b m.lcm) (by
          intro a' b' h1 h2 h3 h4 h5
          have := pos_inj a b a' b' m.lcm (by omega) (by omega) h5
          omega)
        rw [this.1, this.2]
        exact hin2 b (by omega) (by omega)
      · exact hin a b (by omega) (by omega) hb1 hb2
    · intro idx hidx
      have h1 := hout idx (fun a b h1 h2 h3 h4 => hidx a b (by omega) (by omega) h3 h4)
      have h2 := hout2 idx (fun b h1 h2 => hidx a0 b (le_refl _) (by omega) (by omega) (by omega))
      rw [h1.1, h1.2]
      exact h2

theorem setup2d_prepend_tail_loop_frame (gap : Nat) (fuel : Nat) :
    ∀ (i : Nat) (m : cost_matrices_2d),
      (setup2d_prepend_tail_loop gap fuel i m).cost = m.cost ∧
      (setup2d_prepend_tail_loop gap fuel i m).median = m.median ∧
      (setup2d_prepend_tail_loop gap fuel i m).lcm = m.lcm ∧
      (setup2d_prepend_tail_loop gap fuel i m).gap = m.gap := by
  induction fuel with
  | zero => intro i m; simp [setup2d_prepend_tail_loop]
  | succ n ih =>
    intro i m
    simp only [setup2d_prepend_tail_loop]
    obtain ⟨h1, h2, h3, h4⟩ := ih (i + 1)
      (cm_set_tail_2d (cm_get_cost i gap (cm_set_prepend_2d (↑i) (cm_get_cost gap i m) m)) (↑i)
        (cm_set_prepend_2d (↑i) (cm_get_cost gap i m) m))
    rw [h1, h2, h3, h4]
    simp [cm_set_tail_2d, cm_set_prepend_2d]

theorem tcm_index_lt (K i z : Nat) (hi : i < K) (hz1 : 1 ≤ z) (hz2 : z ≤ K) :
    i * K + z - 1 < K * K := by
  have h1 : i * K ≤ (K - 1) * K := Nat.mul_le_mul_right K (by omega)
  have h2 : (K - 1) * K + K = K * K := by
    cases K with
    | zero => omega
    | succ n => simp [Nat.succ_mul]
  omega

/-- The value of `distance` is the least entry `tcm[i * K + z - 1]` over the bits `i` of `s`. -/
theorem distance_isLeast (tcm : Nat → Int) (K z s : Nat)
    (hle : ∀ i, i < K → tcm (i * K + z - 1) ≤ INT_MAX)
    (hs1 : 1 ≤ s) (hs2 : s ≤ 2 ^ K - 1) :
    IsLeast ((fun i => tcm (i * K + z - 1)) '' {i | i < K ∧ s.testBit i = true})
      (distance tcm K z s) := by
  obtain ⟨h1, h2, h3⟩ := distance_loop_spec tcm K z s K 0 INT_MAX
  obtain ⟨i0, hi0, hb0⟩ := exists_bit_of_symbol K s hs1 hs2
  constructor
  · rcases h3 with h3 | ⟨i, _, hi2, hi3, hi4⟩
    · refine ⟨i0, ⟨hi0, hb0⟩, ?_⟩
      have ha := h2 i0 (Nat.zero_le _) (by omega) hb0
      have hb := hle i0 hi0
      show tcm (i0 * K + z - 1) = distance tcm K z s
      unfold distance
      rw [h3] at ha ⊢
      exact le_antisymm hb ha
    · exact ⟨i, ⟨by omega, hi3⟩, hi4.symm⟩
  · rintro _ ⟨i, ⟨hi1, hi2⟩, rfl⟩
    exact h2 i (Nat.zero_le _) (by omega) hi2

theorem distance_mem (tcm : Nat → Int) (K z s : Nat)
    (hle : ∀ i, i < K → tcm (i * K + z - 1) ≤ INT_MAX)
    (hs1 : 1 ≤ s) (hs2 : s ≤ 2 ^ K - 1) :
    ∃ i, i < K ∧ distance tcm K z s = tcm (i * K + z - 1) := by
  obtain ⟨⟨i, ⟨hi, _⟩, h⟩, _⟩ := distance_isLeast tcm K z s hle hs1 hs2
  exact ⟨i, hi, h.symm⟩

theorem tcm_le_of_inRange2 (tcm : Nat → Int) (K : Nat) (h : TcmInRange2 tcm K)
    (i : Nat) (hi : i < K * K) : tcm i ≤ INT_MAX := by
  have := (h i i hi hi).2
  unfold INT_MAX at *
  omega

theorem setup2dCostMtx_ok (tcm : Nat → Int) (K : Nat) (gap_open : Int)
    (retMtx : cost_matrices_2d) (hK : K ≤ 31) :
    ∃ m, setup2dCostMtx tcm K gap_open retMtx = .ok m ∧ m.lcm = K ∧ m.gap = 1 <<< (K - 1) ∧
      ∀ a b, 1 ≤ a → a ≤ 2 ^ K - 1 → 1 ≤ b → b ≤ 2 ^ K - 1 →
        cm_get_cost a b m = (setup2d_value tcm K a b).1 ∧
        cm_get_median m a b = (setup2d_value tcm K a b).2 := by
  have hnot : ¬ K > 31 := by omega
  simp only [setup2dCostMtx, cm_alloc_set_costs_2d, if_neg hnot]
  refine ⟨_, rfl, ?_⟩
  set m0 : cost_matrices_2d := { retMtx with
    alphSize := K, lcm := K, gap := 1 <<< (K - 1),
    cost_model_type := if gap_open = 0 then 0 else 3, combinations := 1, gap_open := gap_open,
    is_metric := 1, all_elements := (((1 <<< K) - 1 : Nat) : Int) } with hm0
  have hall : (1 <<< K) - 1 < 2 ^ m0.lcm := by
    have := Nat.two_pow_pos K
    simp only [hm0, Nat.one_shiftLeft]
    omega
  obtain ⟨hf, hin, _⟩ := setup2d_loop1_spec tcm K ((1 <<< K) - 1) ((1 <<< K) - 1) 1 m0 hall
  obtain ⟨h1, h2, h3, h4⟩ := setup2d_prepend_tail_loop_frame (1 <<< (K - 1)) ((1 <<< K) - 1) 1
    (setup2d_loop1 tcm K ((1 <<< K) - 1) ((1 <<< K) - 1) 1 m0)
  refine ⟨by rw [h3, hf.1], by rw [h4, hf.2.1], ?_⟩
  intro a b ha1 ha2 hb1 hb2
  simp only [cm_get_cost, cm_calc_cost, cm_get_median]
  rw [h1, h2, h3, hf.1]
  have := hin a b ha1 (by rw [Nat.one_shiftLeft]; omega) hb1 (by rw [Nat.one_shiftLeft]; omega)
  exact this

theorem setup2d_value_spec (tcm : Nat → Int) (K a b : Nat) (h : TcmInRange2 tcm K)
    (ha1 : 1 ≤ a) (ha2 : a ≤ 2 ^ K - 1) (hb1 : 1 ≤ b) (hb2 : b ≤ 2 ^ K - 1) :
    IsLeast ((fun z => distance tcm K z a + distance tcm K z b) '' Set.Icc 1 K)
      (setup2d_value tcm K a b).1 ∧
    (∀ p, (setup2d_value tcm K a b).2.testBit p = true ↔
      (p + 1 ≤ K ∧ distance tcm K (p + 1) a + distance tcm K (p + 1) b =
        (setup2d_value tcm K a b).1)) ∧
    (setup2d_value tcm K a b).2 ≠ 0 := by
  have hK : 1 ≤ K := by
    by_contra hk
    have : K = 0 := by omega
    subst this
    simp at ha2
    omega
  unfold setup2d_value
  rw [setup2d_nucleotide_loop_eq]
  apply pivot_loop_spec _ K hK
  intro z hz1 hz2
  have hle : ∀ i, i < K → tcm (i * K + z - 1) ≤ INT_MAX := fun i hi =>
    tcm_le_of_inRange2 tcm K h _ (tcm_index_lt K i z hi hz1 hz2)
  obtain ⟨i, hi, hia⟩ := distance_mem tcm K z a hle ha1 ha2
  obtain ⟨j, hj, hjb⟩ := distance_mem tcm K z b hle hb1 hb2
  show distance tcm K z a + distance tcm K z b ≤ INT_MAX
  rw [hia, hjb]
  exact (h _ _ (tcm_index_lt K i z hi hz1 hz2) (tcm_index_lt K j z hj hz1 hz2)).2

theorem pos3_eq (a b c n : Nat) :
    cm_calc_cost_position_3d a b c n =
      cm_calc_cost_position (cm_calc_cost_position a b n) c n := rfl

theorem pos3_inj (a b c a' b' c' n : Nat) (hb : b < 2 ^ n) (hb' : b' < 2 ^ n)
    (hc : c < 2 ^ n) (hc' : c' < 2 ^ n)
    (h : cm_calc_cost_position_3d a b c n = cm_calc_cost_position_3d a' b' c' n) :
    a = a' ∧ b = b' ∧ c = c' := by
  rw [pos3_eq, pos3_eq] at h
  obtain ⟨h1, h2⟩ := pos_inj _ _ _ _ n hc hc' h
  obtain ⟨h3, h4⟩ := pos_inj _ _ _ _ n hb hb' h1
  exact ⟨h3, h4, h2⟩

theorem setup3d_cell_lcm (tcm : Nat → Int) (K a b c : Nat) (m : cost_matrices_3d) :
    (setup3d_cell tcm K a b c m).lcm = m.lcm := by
  simp [setup3d_cell, cm_set_median_3d, cm_set_cost_3d]

theorem setup3d_cell_cost (tcm : Nat → Int) (K a b c : Nat) (m : cost_matrices_3d) :
    (setup3d_cell tcm K a b c m).cost =
      wr m.cost (cm_calc_cost_position_3d a b c m.lcm) (setup3d_value tcm K a b c).1 := by
  simp [setup3d_cell, cm_set_median_3d, cm_set_cost_3d, setup3d_value]

theorem setup3d_cell_median (tcm : Nat → Int) (K a b c : Nat) (m : cost_matrices_3d) :
    (setup3d_cell tcm K a b c m).median =
      wr m.median (cm_calc_cost_position_3d a b c m.lcm) (setup3d_value tcm K a b c).2 := by
  simp [setup3d_cell, cm_set_median_3d, cm_set_cost_3d, setup3d_value]

theorem setup3d_loop3_spec (tcm : Nat → Int) (K a b : Nat) (fuel : Nat) :
    ∀ (c0 : Nat) (m : cost_matrices_3d),
      (setup3d_loop3 tcm K a b fuel c0 m).lcm = m.lcm ∧
      (∀ c, c0 ≤ c → c < c0 + fuel →
        (setup3d_loop3 tcm K a b fuel c0 m).cost (cm_calc_cost_position_3d a b c m.lcm) =
          (setup3d_value tcm K a b c).1 ∧
        (setup3d_loop3 tcm K a b fuel c0 m).median (cm_calc_cost_position_3d a b c m.lcm) =
          (setup3d_value tcm K a b c).2) ∧
      (∀ idx, (∀ c, c0 ≤ c → c < c0 + fuel → idx ≠ cm_calc_cost_position_3d a b c m.lcm) →
        (setup3d_loop3 tcm K a b fuel c0 m).cost idx = m.cost idx ∧
        (setup3d_loop3 tcm K a b fuel c0 m).median idx = m.median idx) := by
  induction fuel with
  | zero =>
    intro c0 m
    refine ⟨by simp [setup3d_loop3], ?_, ?_⟩
    · intro c h1 h2; omega
    · intro idx _; simp [setup3d_loop3]
  | succ n ih =>
    intro c0 m
    simp only [setup3d_loop3]
    obtain ⟨hf, hin, hout⟩ := ih (c0 + 1) (setup3d_cell tcm K a b c0 m)
    have hlcm : (setup3d_cell tcm K a b c0 m).lcm = m.lcm := setup3d_cell_lcm _ _ _ _ _ _
    rw [hlcm] at hin hout hf
    refine ⟨hf, ?_, ?_⟩
    · intro c hc1 hc2
      by_cases hc : c = c0
      · subst hc
        have := hout (cm_calc_cost_position_3d a b c m.lcm) (by
          intro c' h1 h2 h3
          simp only [cm_calc_cost_position_3d] at h3
          omega)
        rw [this.1, this.2, setup3d_cell_cost, setup3d_cell_median, wr_same, wr_same]
        exact ⟨rfl, rfl⟩
      · exact hin c (by omega) (by omega)
    · intro idx hidx
      have := hout idx (fun c h1 h2 => hidx c (by omega) (by omega))
      rw [this.1, this.2, setup3d_cell_cost, setup3d_cell_median,
        wr_other _ _ _ _ (hidx c0 (le_refl _) (by omega)),
        wr_other _ _ _ _ (hidx c0 (le_refl _) (by omega))]
      exact ⟨rfl, rfl⟩

theorem setup3d_loop2_spec (tcm : Nat → Int) (K all a : Nat) (fuel : Nat) :
    ∀ (b0 : Nat) (m : cost_matrices_3d), all < 2 ^ m.lcm →
      (setup3d_loop2 tcm K all a fuel b0 m).lcm = m.lcm ∧
      (∀ b c, b0 ≤ b → b < b0 + fuel → 1 ≤ c → c ≤ all →
        (setup3d_loop2 tcm K all a fuel b0 m).cost (cm_calc_cost_position_3d a b c m.lcm) =
          (setup3d_value tcm K a b c).1 ∧
        (setup3d_loop2 tcm K all a fuel b0 m).median (cm_calc_cost_position_3d a b c m.lcm) =
          (setup3d_value tcm K a b c).2) ∧
      (∀ idx, (∀ b c, b0 ≤ b → b < b0 + fuel → 1 ≤ c → c ≤ all →
          idx ≠ cm_calc_cost_position_3d a b c m.lcm) →
        (setup3d_loop2 tcm K all a fuel b0 m).cost idx = m.cost idx ∧
        (setup3d_loop2 tcm K all a fuel b0 m).median idx = m.median idx) := by
  induction fuel with
  | zero =>
    intro b0 m _
    refine ⟨by simp [setup3d_loop2], ?_, ?_⟩
    · intro b c h1 h2; omega
    · intro idx _; simp [setup3d_loop2]
  | succ n ih =>
    intro b0 m hall
    simp only [setup3d_loop2]
    obtain ⟨hf3, hin3, hout3⟩ := setup3d_loop3_spec tcm K a b0 all 1 m
    obtain ⟨hf, hin, hout⟩ := ih (b0 + 1) (setup3d_loop3 tcm K a b0 all 1 m)
      (by rw [hf3]; exact hall)
    rw [hf3] at hin hout hf
    refine ⟨hf, ?_, ?_⟩
    · intro b c hb1 hb2 hc1 hc2
      by_cases hb : b = b0
      · subst hb
        have := hout (cm_calc_cost_position_3d a b c m.lcm) (by
          intro b' c' h1 h2 h3 h4 h5
          rw [pos3_eq, pos3_eq] at h5
          have h6 := (pos_inj _ _ _ _ m.lcm (by omega) (by omega) h5).1
          simp only [cm_calc_cost_position] at h6
          omega)
        rw [this.1, this.2]
        exact hin3 c (by omega) (by omega)
      · exact hin b c (by omega) (by omega) hc1 hc2
    · intro idx hidx
      have h1 := hout idx (fun b c h1 h2 h3 h4 => hidx b c (by omega) (by omega) h3 h4)
      have h2 := hout3 idx (fun c h1 h2 => hidx b0 c (le_refl _) (by omega) (by omega) (by omega))
      rw [h1.1, h1.2]
      exact h2

theorem setup3d_loop1_spec (tcm : Nat → Int) (K all : Nat) (fuel : Nat) :
    ∀ (a0 : Nat) (m : cost_matrices_3d), all < 2 ^ m.lcm →
      (setup3d_loop1 tcm K all fuel a0 m).lcm = m.lcm ∧
      (∀ a b c, a0 ≤ a → a < a0 + fuel → 1 ≤ b → b ≤ all → 1 ≤ c → c ≤ all →
        (setup3d_loop1 tcm K all fuel a0 m).cost (cm_calc_cost_position_3d a b c m.lcm) =
          (setup3d_value tcm K a b c).1 ∧
        (setup3d_loop1 tcm K all fuel a0 m).median (cm_calc_cost_position_3d a b c m.lcm) =
          (setup3d_value tcm K a b c).2) ∧
      (∀ idx, (∀ a b c, a0 ≤ a → a < a0 + fuel → 1 ≤ b → b ≤ all → 1 ≤ c → c ≤ all →
          idx ≠ cm_calc_cost_position_3d a b c m.lcm) →
        (setup3d_loop1 tcm K all fuel a0 m).cost idx = m.cost idx ∧
        (setup3d_loop1 tcm K all fuel a0 m).median idx = m.median idx) := by
  induction fuel with
  | zero =>
    intro a0 m _
    refine ⟨by simp [setup3d_loop1], ?_, ?_⟩
    · intro a b c h1 h2; omega
    · intro idx _; simp [setup3d_loop1]
  | succ n ih =>
    intro a0 m hall
    simp only [setup3d_loop1]
    obtain ⟨hf2, hin2, hout2⟩ := setup3d_loop2_spec tcm K all a0 all 1 m hall
    obtain ⟨hf, hin, hout⟩ := ih (a0 + 1) (setup3d_loop2 tcm K all a0 all 1 m)
      (by rw [hf2]; exact hall)
    rw [hf2] at hin hout hf
    refine ⟨hf, ?_, ?_⟩
    · intro a b c ha1 ha2 hb1 hb2 hc1 hc2
      by_cases ha : a = a0
      · subst ha
        have := hout (cm_calc_cost_position_3d a b c m.lcm) (by
          intro a' b' c' h1 h2 h3 h4 h5 h6 h7
          have := pos3_inj a b c a' b' c' m.lcm (by omega) (by omega) (by omega) (by omega) h7
          omega)
        rw [this.1, this.2]
        exact hin2 b c (by omega) (by omega) hc1 hc2
      · exact hin a b c (by omega) (by omega) hb1 hb2 hc1 hc2
    · intro idx hidx
      have h1 := hout idx (fun a b c h1 h2 h3 h4 h5 h6 =>
        hidx a b c (by omega) (by omega) h3 h4 h5 h6)
      have h2 := hout2 idx (fun b c h1 h2 h3 h4 =>
        hidx a0 b c (le_refl _) (by omega) (by omega) (by omega) h3 h4)
      rw [h1.1, h1.2]
      exact h2

theorem setup3dCostMtx_ok (tcm : Nat → Int) (K : Nat) (gap_open : Int)
    (retMtx : cost_matrices_3d) (hK : K ≤ 31) :
    ∃ m, setup3dCostMtx tcm K gap_open retMtx = .ok m ∧ m.lcm = K ∧
      ∀ a b c, 1 ≤ a → a ≤ 2 ^ K - 1 → 1 ≤ b → b ≤ 2 ^ K - 1 → 1 ≤ c → c ≤ 2 ^ K - 1 →
        m.cost (cm_calc_cost_position_3d a b c m.lcm) = (setup3d_value tcm K a b c).1 ∧
        m.median (cm_calc_cost_position_3d a b c m.lcm) = (setup3d_value tcm K a b c).2 := by
  have hnot : ¬ K > 31 := by omega
  simp only [setup3dCostMtx, cm_alloc_set_costs_3d, if_neg hnot]
  refine ⟨_, rfl, ?_⟩
  set m0 : cost_matrices_3d := { retMtx with
    alphSize := K, lcm := K, gap := 1 <<< (K - 1),
    cost_model_type := if gap_open = 0 then 0 else 3, combinations := 1, gap_open := gap_open,
    all_elements := (((1 <<< K) - 1 : Nat) : Int) } with hm0
  have hall : (1 <<< K) - 1 < 2 ^ m0.lcm := by
    have := Nat.two_pow_pos K
    simp only [hm0, Nat.one_shiftLeft]
    omega
  obtain ⟨hf, hin, _⟩ := setup3d_loop1_spec tcm K ((1 <<< K) - 1) ((1 <<< K) - 1) 1 m0 hall
  refine ⟨by rw [hf], ?_⟩
  intro a b c ha1 ha2 hb1 hb2 hc1 hc2
  rw [hf]
  exact hin a b c ha1 (by rw [Nat.one_shiftLeft]; omega) hb1 (by rw [Nat.one_shiftLeft]; omega)
    hc1 (by rw [Nat.one_shiftLeft]; omega)

theorem setup3d_value_spec (tcm : Nat → Int) (K a b c : Nat) (h : TcmInRange3 tcm K)
    (ha1 : 1 ≤ a) (ha2 : a ≤ 2 ^ K - 1) (hb1 : 1 ≤ b) (hb2 : b ≤ 2 ^ K - 1)
    (hc1 : 1 ≤ c) (hc2 : c ≤ 2 ^ K - 1) :
    IsLeast ((fun z => distance tcm K z a + distance tcm K z b + distance tcm K z c) ''
        Set.Icc 1 K) (setup3d_value tcm K a b c).1 ∧
    (∀ p, (setup3d_value tcm K a b c).2.testBit p = true ↔
      (p + 1 ≤ K ∧ distance tcm K (p + 1) a + distance tcm K (p + 1) b
        + distance tcm K (p + 1) c = (setup3d_value tcm K a b c).1)) ∧
    (setup3d_value tcm K a b c).2 ≠ 0 := by
  have hK : 1 ≤ K := by
    by_contra hk
    have : K = 0 := by omega
    subst this
    simp at ha2
    omega
  unfold setup3d_value
  rw [setup3d_nucleotide_loop_eq]
  apply pivot_loop_spec _ K hK
  intro z hz1 hz2
  have hle : ∀ i, i < K → tcm (i * K + z - 1) ≤ INT_MAX := fun i hi => by
    have hi' := tcm_index_lt K i z hi hz1 hz2
    have := (h _ _ _ hi' hi' hi').2.1
    unfold INT_MAX at *
    omega
  obtain ⟨i, hi, hia⟩ := distance_mem tcm K z a hle ha1 ha2
  obtain ⟨j, hj, hjb⟩ := distance_mem tcm K z b hle hb1 hb2
  obtain ⟨k, hk, hkc⟩ := distance_mem tcm K z c hle hc1 hc2
  show distance tcm K z a + distance tcm K z b + distance tcm K z c ≤ INT_MAX
  rw [hia, hjb, hkc]
  exact (h _ _ _ (tcm_index_lt K i z hi hz1 hz2) (tcm_index_lt K j z hj hz1 hz2)
    (tcm_index_lt K k z hk hz1 hz2)).2.2.2

theorem unit_tcm_inRange2 (K : Nat) : TcmInRange2 (unit_tcm K) K := by
  intro i j _ _
  unfold unit_tcm INT_MIN INT_MAX
  constructor <;> split_ifs <;> norm_num

theorem unit_tcm_inRange3 (K : Nat) : TcmInRange3 (unit_tcm K) K := by
  intro i j k _ _ _
  unfold unit_tcm INT_MIN INT_MAX
  refine ⟨?_, ?_, ?_, ?_⟩ <;> split_ifs <;> norm_num

theorem setup2d_prepend_tail_loop_prepend (gap : Nat) (fuel : Nat) :
    ∀ (i : Nat) (m : cost_matrices_2d) (x : Nat),
      (setup2d_prepend_tail_loop gap fuel i m).prepend_cost x =
        if i ≤ x ∧ x < i + fuel then cm_get_cost gap x m else m.prepend_cost x := by
  induction fuel with
  | zero =>
    intro i m x
    have : ¬ (i ≤ x ∧ x < i + 0) := by omega
    rw [if_neg this]
    rfl
  | succ n ih =>
    intro i m x
    simp only [setup2d_prepend_tail_loop]
    rw [ih]
    by_cases hx : x = i
    · subst hx
      have h1 : ¬ (x + 1 ≤ x ∧ x < x + 1 + n) := by omega
      have h2 : (x ≤ x ∧ x < x + (n + 1)) := by omega
      rw [if_neg h1, if_pos h2]
      simp [cm_set_tail_2d, cm_set_prepend_2d, wr]
    · by_cases hr : i + 1 ≤ x ∧ x < i + 1 + n
      · have h2 : (i ≤ x ∧ x < i + (n + 1)) := by omega
        rw [if_pos hr, if_pos h2]
        simp [cm_set_tail_2d, cm_set_prepend_2d, cm_get_cost]
      · have h2 : ¬ (i ≤ x ∧ x < i + (n + 1)) := by omega
        rw [if_neg hr, if_neg h2]
        simp [cm_set_tail_2d, cm_set_prepend_2d, wr, hx]

/-- The half of the prepend/tail loop of `setup2dCostMtx` that stores what it is meant to store:
`prepend_cost[x] = best_cost[gap, x]` for every symbol `x` in `[1, 2^K - 1]`. -/
theorem setup2dCostMtx_prepend_cost (tcm : Nat → Int) (K : Nat) (gap_open : Int)
    (retMtx : cost_matrices_2d) (hK : K ≤ 31) :
    ∃ m, setup2dCostMtx tcm K gap_open retMtx = .ok m ∧
      ∀ x, 1 ≤ x → x ≤ 2 ^ K - 1 → m.prepend_cost x = cm_get_cost (1 <<< (K - 1)) x m := by
  have hnot : ¬ K > 31 := by omega
  simp only [setup2dCostMtx, cm_alloc_set_costs_2d, if_neg hnot]
  refine ⟨_, rfl, ?_⟩
  intro x hx1 hx2
  rw [setup2d_prepend_tail_loop_prepend]
  have hr : 1 ≤ x ∧ x < 1 + ((1 <<< K) - 1) := by
    rw [Nat.one_shiftLeft]; omega
  rw [if_pos hr]
  obtain ⟨h1, _, h3, _⟩ := setup2d_prepend_tail_loop_frame (1 <<< (K - 1)) ((1 <<< K) - 1) 1
    (setup2d_loop1 tcm K ((1 <<< K) - 1) ((1 <<< K) - 1) 1 { retMtx with
      alphSize := K, lcm := K, gap := 1 <<< (K - 1),
      cost_model_type := if gap_open = 0 then 0 else 3, combinations := 1, gap_open := gap_open,
      is_metric := 1, all_elements := (((1 <<< K) - 1 : Nat) : Int) })
  simp only [cm_get_cost, h1, h3]

/-- Claim C1. For every base table (without `int` overflow in the sum of two entries), alphabet size
`K ≤ 31` and symbols `a, b` in `[1, 2^K - 1]`, `setup2dCostMtx` builds a table whose entry
`best_cost[a, b]` is the least value of `distance (z, a) + distance (z, b)` over the pivots
`z` in `[1, K]`, and `distance (z, s)` is the least `tcm[i * K + z - 1]` over the bits `i` set in
`s`. -/
theorem setup2dCostMtx_best_cost (tcm : Nat → Int) (K : Nat) (gap_open : Int)
    (retMtx : cost_matrices_2d) (hK : K ≤ 31) (h : TcmInRange2 tcm K) :
    ∃ m, setup2dCostMtx tcm K gap_open retMtx = .ok m ∧
      (∀ a b, 1 ≤ a → a ≤ 2 ^ K - 1 → 1 ≤ b → b ≤ 2 ^ K - 1 →
        IsLeast ((fun z => distance tcm K z a + distance tcm K z b) '' Set.Icc 1 K)
          (cm_get_cost a b m)) ∧
      (∀ z s, 1 ≤ z → z ≤ K → 1 ≤ s → s ≤ 2 ^ K - 1 →
        IsLeast ((fun i => tcm (i * K + z - 1)) '' {i | i < K ∧ s.testBit i = true})
          (distance tcm K z s)) := by
  obtain ⟨m, hm, _, _, hv⟩ := setup2dCostMtx_ok tcm K gap_open retMtx hK
  refine ⟨m, hm, ?_, ?_⟩
  · intro a b ha1 ha2 hb1 hb2
    rw [(hv a b ha1 ha2 hb1 hb2).1]
    exact (setup2d_value_spec tcm K a b h ha1 ha2 hb1 hb2).1
  · intro z s hz1 hz2 hs1 hs2
    exact distance_isLeast tcm K z s
      (fun i hi => tcm_le_of_inRange2 tcm K h _ (tcm_index_lt K i z hi hz1 hz2)) hs1 hs2

/-- Witness of C1: the unit-cost table over the five states `A, C, G, T, -`. -/
theorem setup2dCostMtx_best_cost_witness :
    ∃ m, setup2dCostMtx (unit_tcm 5) 5 0 zero_mtx_2d = .ok m ∧
      (∀ a b, 1 ≤ a → a ≤ 2 ^ 5 - 1 → 1 ≤ b → b ≤ 2 ^ 5 - 1 →
        IsLeast ((fun z => distance (unit_tcm 5) 5 z a + distance (unit_tcm 5) 5 z b) ''
          Set.Icc 1 5) (cm_get_cost a b m)) ∧
      (∀ z s, 1 ≤ z → z ≤ 5 → 1 ≤ s → s ≤ 2 ^ 5 - 1 →
        IsLeast ((fun i => unit_tcm 5 (i * 5 + z - 1)) '' {i | i < 5 ∧ s.testBit i = true})
          (distance (unit_tcm 5) 5 z s)) :=
  setup2dCostMtx_best_cost (unit_tcm 5) 5 0 zero_mtx_2d (by decide) (unit_tcm_inRange2 5)

/-- Claim C2. For every pair of symbols `a, b` in `[1, 2^K - 1]` the median stored by
`setup2dCostMtx` is exactly the bit-set of the pivots that attain the stored best cost: bit
`z - 1` is set iff `distance (z, a) + distance (z, b) = best_cost[a, b]`, no bit at or above `K`
is set, and the median is not zero. -/
theorem setup2dCostMtx_median (tcm : Nat → Int) (K : Nat) (gap_open : Int)
    (retMtx : cost_matrices_2d) (hK : K ≤ 31) (h : TcmInRange2 tcm K) :
    ∃ m, setup2dCostMtx tcm K gap_open retMtx = .ok m ∧
      ∀ a b, 1 ≤ a → a ≤ 2 ^ K - 1 → 1 ≤ b → b ≤ 2 ^ K - 1 →
        (∀ z, 1 ≤ z → z ≤ K →
          ((cm_get_median m a b).testBit (z - 1) = true ↔
            distance tcm K z a + distance tcm K z b = cm_get_cost a b m)) ∧
        (∀ p, K ≤ p → (cm_get_median m a b).testBit p = false) ∧
        cm_get_median m a b ≠ 0 := by
  obtain ⟨m, hm, _, _, hv⟩ := setup2dCostMtx_ok tcm K gap_open retMtx hK
  refine ⟨m, hm, ?_⟩
  intro a b ha1 ha2 hb1 hb2
  rw [(hv a b ha1 ha2 hb1 hb2).1, (hv a b ha1 ha2 hb1 hb2).2]
  obtain ⟨_, h2, h3⟩ := setup2d_value_spec tcm K a b h ha1 ha2 hb1 hb2
  refine ⟨?_, ?_, h3⟩
  · intro z hz1 hz2
    rw [h2 (z - 1)]
    have : z - 1 + 1 = z := by omega
    rw [this]
    exact ⟨fun hh => hh.2, fun hh => ⟨hz2, hh⟩⟩
  · intro p hp
    by_contra hne
    have hb : (setup2d_value tcm K a b).2.testBit p = true := by
      cases hq : (setup2d_value tcm K a b).2.testBit p
      · exact absurd hq hne
      · rfl
    have := ((h2 p).mp hb).1
    omega

/-- Witness of C2: the unit-cost table over the five states `A, C, G, T, -`. -/
theorem setup2dCostMtx_median_witness :
    ∃ m, setup2dCostMtx (unit_tcm 5) 5 0 zero_mtx_2d = .ok m ∧
      ∀ a b, 1 ≤ a → a ≤ 2 ^ 5 - 1 → 1 ≤ b → b ≤ 2 ^ 5 - 1 →
        (∀ z, 1 ≤ z → z ≤ 5 →
          ((cm_get_median m a b).testBit (z - 1) = true ↔
            distance (unit_tcm 5) 5 z a + distance (unit_tcm 5) 5 z b = cm_get_cost a b m)) ∧
        (∀ p, 5 ≤ p → (cm_get_median m a b).testBit p = false) ∧
        cm_get_median m a b ≠ 0 :=
  setup2dCostMtx_median (unit_tcm 5) 5 0 zero_mtx_2d (by decide) (unit_tcm_inRange2 5)

set_option maxRecDepth 100000 in
/-- Claim C3 (the code at the failing input). For the unit-cost table over `A, C, G, T, -` and a
zero-filled fresh matrix, `setup2dCostMtx` leaves `tail_cost[C] = 0` although
`best_cost[C, gap] = 1`: the call `cm_set_tail_2d (cm_get_cost (i, gap), i)` passes the cost as
the index and the symbol as the value, so it writes `tail_cost[0] = 31` and `tail_cost[1] = 15`
and nothing else. -/
theorem setup2dCostMtx_tail_cost_unit5 :
    tail_cost_of (setup2dCostMtx (unit_tcm 5) 5 0 zero_mtx_2d) 2 = some 0 ∧
    best_cost_of (setup2dCostMtx (unit_tcm 5) 5 0 zero_mtx_2d) 2 16 = some 1 ∧
    tail_cost_of (setup2dCostMtx (unit_tcm 5) 5 0 zero_mtx_2d) 0 = some 31 ∧
    tail_cost_of (setup2dCostMtx (unit_tcm 5) 5 0 zero_mtx_2d) 1 = some 15 := by
  decide

/-- Claim C4. Whenever the alphabet size `K` exceeds 31, `setup2dCostMtx` and `setup3dCostMtx`
refuse with the alphabet-too-large error and build no table. -/
theorem setup_refuses_large_alphabet (tcm : Nat → Int) (K : Nat) (gap_open : Int)
    (retMtx2 : cost_matrices_2d) (retMtx3 : cost_matrices_3d) (hK : 31 < K) :
    setup2dCostMtx tcm K gap_open retMtx2 = .error .alphabet_too_large ∧
    setup3dCostMtx tcm K gap_open retMtx3 = .error .alphabet_too_large := by
  have hgt : K > 31 := hK
  constructor
  · simp only [setup2dCostMtx, cm_alloc_set_costs_2d, if_pos hgt]
  · simp only [setup3dCostMtx, cm_alloc_set_costs_3d, if_pos hgt]

/-- Witness of C4: alphabet size 32. -/
theorem setup_refuses_large_alphabet_witness :
    31 < 32 ∧
    setup2dCostMtx (unit_tcm 32) 32 0 zero_mtx_2d = .error .alphabet_too_large ∧
    setup3dCostMtx (unit_tcm 32) 32 0 zero_mtx_3d = .error .alphabet_too_large :=
  ⟨by decide, setup_refuses_large_alphabet (unit_tcm 32) 32 0 zero_mtx_2d zero_mtx_3d (by decide)⟩

/-- Claim C5. For every triple of symbols `a, b, c` in `[1, 2^K - 1]`, `setup3dCostMtx` stores as
`cost[a, b, c]` the least value of `distance (z, a) + distance (z, b) + distance (z, c)` over the
pivots `z` in `[1, K]`, and as `median[a, b, c]` exactly the bit-set of the pivots that attain
it. -/
theorem setup3dCostMtx_cost_median (tcm : Nat → Int) (K : Nat) (gap_open : Int)
    (retMtx : cost_matrices_3d) (hK : K ≤ 31) (h : TcmInRange3 tcm K) :
    ∃ m, setup3dCostMtx tcm K gap_open retMtx = .ok m ∧
      ∀ a b c, 1 ≤ a → a ≤ 2 ^ K - 1 → 1 ≤ b → b ≤ 2 ^ K - 1 → 1 ≤ c → c ≤ 2 ^ K - 1 →
        IsLeast ((fun z => distance tcm K z a + distance tcm K z b + distance tcm K z c) ''
          Set.Icc 1 K) (m.cost (cm_calc_cost_position_3d a b c m.lcm)) ∧
        (∀ z, 1 ≤ z → z ≤ K →
          ((m.median (cm_calc_cost_position_3d a b c m.lcm)).testBit (z - 1) = true ↔
            distance tcm K z a + distance tcm K z b + distance tcm K z c =
              m.cost (cm_calc_cost_position_3d a b c m.lcm))) ∧
        (∀ p, K ≤ p → (m.median (cm_calc_cost_position_3d a b c m.lcm)).testBit p = false) := by
  obtain ⟨m, hm, _, hv⟩ := setup3dCostMtx_ok tcm K gap_open retMtx hK
  refine ⟨m, hm, ?_⟩
  intro a b c ha1 ha2 hb1 hb2 hc1 hc2
  rw [(hv a b c ha1 ha2 hb1 hb2 hc1 hc2).1, (hv a b c ha1 ha2 hb1 hb2 hc1 hc2).2]
  obtain ⟨h1, h2, _⟩ := setup3d_value_spec tcm K a b c h ha1 ha2 hb1 hb2 hc1 hc2
  refine ⟨h1, ?_, ?_⟩
  · intro z hz1 hz2
    rw [h2 (z - 1)]
    have : z - 1 + 1 = z := by omega
    rw [this]
    exact ⟨fun hh => hh.2, fun hh => ⟨hz2, hh⟩⟩
  · intro p hp
    by_contra hne
    have hb : (setup3d_value tcm K a b c).2.testBit p = true := by
      cases hq : (setup3d_value tcm K a b c).2.testBit p
      · exact absurd hq hne
      · rfl
    have := ((h2 p).mp hb).1
    omega

/-- Witness of C5: the unit-cost table over the five states `A, C, G, T, -`. -/
theorem setup3dCostMtx_cost_median_witness :
    ∃ m, setup3dCostMtx (unit_tcm 5) 5 0 zero_mtx_3d = .ok m ∧
      ∀ a b c, 1 ≤ a → a ≤ 2 ^ 5 - 1 → 1 ≤ b → b ≤ 2 ^ 5 - 1 → 1 ≤ c → c ≤ 2 ^ 5 - 1 →
        IsLeast ((fun z => distance (unit_tcm 5) 5 z a + distance (unit_tcm 5) 5 z b
          + distance (unit_tcm 5) 5 z c) '' Set.Icc 1 5)
          (m.cost (cm_calc_cost_position_3d a b c m.lcm)) ∧
        (∀ z, 1 ≤ z → z ≤ 5 →
          ((m.median (cm_calc_cost_position_3d a b c m.lcm)).testBit (z - 1) = true ↔
            distance (unit_tcm 5) 5 z a + distance (unit_tcm 5) 5 z b
              + distance (unit_tcm 5) 5 z c = m.cost (cm_calc_cost_position_3d a b c m.lcm))) ∧
        (∀ p, 5 ≤ p → (m.median (cm_calc_cost_position_3d a b c m.lcm)).testBit p = false) :=
  setup3dCostMtx_cost_median (unit_tcm 5) 5 0 zero_mtx_3d (by decide) (unit_tcm_inRange3 5)

/-! ## The linear fill: `algn_fill_row`, `algn_fill_full_row`, `algn_fill_plane` -/


theorem algn_fill_row_cell_fst (t1 t2 t3 : Int) :
    (algn_fill_row_cell t1 t2 t3).1 = min (min t3 t2) t1 := by
  unfold algn_fill_row_cell
  split_ifs <;> simp only [] <;> omega

theorem algn_fill_row_cell_or_delete (t1 t2 t3 : Int)
    (h : (algn_fill_row_cell t1 t2 t3).1 = t1) :
    (algn_fill_row_cell t1 t2 t3).2 ||| DELETE = (algn_fill_row_cell t1 t2 t3).2 := by
  unfold algn_fill_row_cell at h ⊢
  split_ifs at h ⊢ <;> simp only [] at h ⊢ <;> first | rfl | omega

/-- The direction written by `algn_fill_row` is a non-empty set of the three flags. -/
theorem algn_fill_row_cell_snd (t1 t2 t3 : Int) :
    1 ≤ (algn_fill_row_cell t1 t2 t3).2 ∧ (algn_fill_row_cell t1 t2 t3).2 ≤ 7 := by
  unfold algn_fill_row_cell
  split_ifs <;> simp only [] <;> decide

/-- Loop invariant of `algn_fill_row`: with row `P` at `prevRow` and the cell left of `i` holding
`V (i - 1)`, the loop writes `V j`, `D j` to every cell `j` it visits and nothing else. -/
theorem algn_fill_row_loop_spec (w : Int → Int) (precalc : Nat → Int)
    (curRow prevRow gap_row alg_row dirMtx : Nat) (c : Int) (N : Nat) (P V : Nat → Int)
    (D : Nat → Nat)
    (hdisj : ∀ j k, j < N → k < N → prevRow + j ≠ curRow + k)
    (hV : ∀ j, 1 ≤ j → j < N →
      V j = (algn_fill_row_cell (w (P j + c)) (w (V (j - 1) + precalc (gap_row + j)))
        (w (P (j - 1) + precalc (alg_row + j)))).1 ∧
      D j = (algn_fill_row_cell (w (P j + c)) (w (V (j - 1) + precalc (gap_row + j)))
        (w (P (j - 1) + precalc (alg_row + j)))).2)
    (fuel : Nat) :
    ∀ (i : Nat) (s : nw_buffers), 1 ≤ i → i + fuel ≤ N →
      (∀ j, j < N → s.mtx (prevRow + j) = P j) → s.mtx (curRow + (i - 1)) = V (i - 1) →
      (∀ j, i ≤ j → j < i + fuel →
        (algn_fill_row_loop w precalc curRow prevRow gap_row alg_row dirMtx c fuel i s).mtx
          (curRow + j) = V j ∧
        (algn_fill_row_loop w precalc curRow prevRow gap_row alg_row dirMtx c fuel i s).dir
          (dirMtx + j) = D j) ∧
      (∀ k, (k < curRow + i ∨ curRow + i + fuel ≤ k) →
        (algn_fill_row_loop w precalc curRow prevRow gap_row alg_row dirMtx c fuel i s).mtx k
          = s.mtx k) ∧
      (∀ k, (k < dirMtx + i ∨ dirMtx + i + fuel ≤ k) →
        (algn_fill_row_loop w precalc curRow prevRow gap_row alg_row dirMtx c fuel i s).dir k
          = s.dir k) := by
  induction fuel with
  | zero =>
    intro i s _ _ _ _
    refine ⟨?_, ?_, ?_⟩
    · intro j h1 h2; omega
    · intro k _; rfl
    · intro k _; rfl
  | succ n ih =>
    intro i s hi hN hP hcur
    simp only [algn_fill_row_loop]
    have hPi : s.mtx (prevRow + i) = P i := hP i (by omega)
    have hPi1 : s.mtx (prevRow + (i - 1)) = P (i - 1) := hP (i - 1) (by omega)
    rw [hPi, hPi1, hcur]
    obtain ⟨hVi, hDi⟩ := hV i hi (by omega)
    rw [← hVi, ← hDi]
    obtain ⟨h1, h2, h3⟩ := ih (i + 1)
      { mtx := wr s.mtx (curRow + i) (V i), dir := wr s.dir (dirMtx + i) (D i) }
      (by omega) (by omega)
      (by
        intro j hj
        show wr s.mtx (curRow + i) (V i) (prevRow + j) = P j
        rw [wr_other _ _ _ _ (hdisj j i hj (by omega))]
        exact hP j hj)
      (by
        show wr s.mtx (curRow + i) (V i) (curRow + (i + 1 - 1)) = V (i + 1 - 1)
        have : i + 1 - 1 = i := by omega
        rw [this, wr_same])
    refine ⟨?_, ?_, ?_⟩
    · intro j hj1 hj2
      by_cases hji : j = i
      · subst hji
        rw [h2 (curRow + j) (Or.inl (by omega)), h3 (dirMtx + j) (Or.inl (by omega))]
        exact ⟨wr_same _ _ _, wr_same _ _ _⟩
      · exact h1 j (by omega) (by omega)
    · intro k hk
      rw [h2 k (by omega)]
      exact wr_other _ _ _ _ (by omega)
    · intro k hk
      rw [h3 k (by omega)]
      exact wr_other _ _ _ _ (by omega)

/-- Effect of `algn_fill_full_row` when the tail cost equals the delete cost: the row at `curRow`
holds `V`, the direction row at `dirMtx` holds `D`, and nothing else changes. -/
theorem algn_fill_full_row_spec (w : Int → Int) (precalc : Nat → Int)
    (curRow prevRow gap_row alg_row dirMtx : Nat) (c : Int) (N : Nat) (P V : Nat → Int)
    (D : Nat → Nat) (s : nw_buffers) (hN : 1 ≤ N)
    (hdisj : ∀ j k, j < N → k < N → prevRow + j ≠ curRow + k)
    (hV0 : V 0 = w (c + P 0)) (hD0 : D 0 = DELETE)
    (hV : ∀ j, 1 ≤ j → j < N →
      V j = (algn_fill_row_cell (w (P j + c)) (w (V (j - 1) + precalc (gap_row + j)))
        (w (P (j - 1) + precalc (alg_row + j)))).1 ∧
      D j = (algn_fill_row_cell (w (P j + c)) (w (V (j - 1) + precalc (gap_row + j)))
        (w (P (j - 1) + precalc (alg_row + j)))).2)
    (hP : ∀ j, j < N → s.mtx (prevRow + j) = P j) :
    (∀ j, j < N →
      (algn_fill_full_row w precalc s curRow prevRow gap_row alg_row dirMtx c c N).mtx
        (curRow + j) = V j ∧
      (algn_fill_full_row w precalc s curRow prevRow gap_row alg_row dirMtx c c N).dir
        (dirMtx + j) = D j) ∧
    (∀ k, (k < curRow ∨ curRow + N ≤ k) →
      (algn_fill_full_row w precalc s curRow prevRow gap_row alg_row dirMtx c c N).mtx k
        = s.mtx k) ∧
    (∀ k, (k < dirMtx ∨ dirMtx + N ≤ k) →
      (algn_fill_full_row w precalc s curRow prevRow gap_row alg_row dirMtx c c N).dir k
        = s.dir k) := by
  set s1 : nw_buffers :=
    { mtx := wr s.mtx curRow (w (c + s.mtx prevRow)), dir := wr s.dir dirMtx DELETE } with hs1
  have hP0 : s.mtx prevRow = P 0 := hP 0 (by omega)
  have hs1P : ∀ j, j < N → s1.mtx (prevRow + j) = P j := by
    intro j hj
    show wr s.mtx curRow (w (c + s.mtx prevRow)) (prevRow + j) = P j
    rw [wr_other _ _ _ _ (by have := hdisj j 0 hj (by omega); omega)]
    exact hP j hj
  have hs1c : s1.mtx (curRow + (1 - 1)) = V (1 - 1) := by
    show wr s.mtx curRow (w (c + s.mtx prevRow)) (curRow + 0) = V 0
    rw [Nat.add_zero, wr_same, hP0, hV0]
  obtain ⟨h1, h2, h3⟩ := algn_fill_row_loop_spec w precalc curRow prevRow gap_row alg_row dirMtx c
    N P V D hdisj hV (N - 1 + 1 - 1) 1 s1 (le_refl _) (by omega) hs1P hs1c
  set s2 := algn_fill_row_loop w precalc curRow prevRow gap_row alg_row dirMtx c (N - 1 + 1 - 1) 1 s1
    with hs2
  have hs2v : ∀ j, j < N → s2.mtx (curRow + j) = V j ∧ s2.dir (dirMtx + j) = D j := by
    intro j hj
    by_cases hj0 : j = 0
    · subst hj0
      rw [h2 (curRow + 0) (Or.inl (by omega)), h3 (dirMtx + 0) (Or.inl (by omega))]
      constructor
      · show wr s.mtx curRow (w (c + s.mtx prevRow)) (curRow + 0) = V 0
        rw [Nat.add_zero, wr_same, hP0, hV0]
      · show wr s.dir dirMtx DELETE (dirMtx + 0) = D 0
        rw [Nat.add_zero, wr_same, hD0]
    · exact h1 j (by omega) (by omega)
  have hs2f : ∀ k, (k < curRow ∨ curRow + N ≤ k) → s2.mtx k = s.mtx k := by
    intro k hk
    rw [h2 k (by omega)]
    exact wr_other _ _ _ _ (by omega)
  have hs2d : ∀ k, (k < dirMtx ∨ dirMtx + N ≤ k) → s2.dir k = s.dir k := by
    intro k hk
    rw [h3 k (by omega)]
    exact wr_other _ _ _ _ (by omega)
  have hs2P : ∀ j, j < N → s2.mtx (prevRow + j) = P j := by
    intro j hj
    have hne : prevRow + j < curRow ∨ curRow + N ≤ prevRow + j := by
      by_contra hcon
      have : ∃ k, k < N ∧ prevRow + j = curRow + k := ⟨prevRow + j - curRow, by omega, by omega⟩
      obtain ⟨k, hk, hk2⟩ := this
      exact hdisj j k hj hk hk2
    rw [hs2f _ hne]
    exact hP j hj
  have hfull : algn_fill_full_row w precalc s curRow prevRow gap_row alg_row dirMtx c c N =
      algn_fill_last_column w s2 curRow prevRow c (N - 1) dirMtx := rfl
  rw [hfull]
  unfold algn_fill_last_column
  by_cases hl : N - 1 > 0
  · rw [if_pos hl]
    simp only []
    have hcur := (hs2v (N - 1) (by omega)).1
    have hdir := (hs2v (N - 1) (by omega)).2
    have hprev := hs2P (N - 1) (by omega)
    obtain ⟨hVl, hDl⟩ := hV (N - 1) (by omega) (by omega)
    rw [hprev, hcur]
    have hcomm : c + P (N - 1) = P (N - 1) + c := by ring
    rw [hcomm]
    have hle : V (N - 1) ≤ w (P (N - 1) + c) := by
      rw [hVl, algn_fill_row_cell_fst]
      exact min_le_right _ _
    rw [if_neg (not_lt.mpr hle)]
    by_cases heq : w (P (N - 1) + c) = V (N - 1)
    · rw [if_pos heq]
      have hor : s2.dir (dirMtx + (N - 1)) ||| DELETE = s2.dir (dirMtx + (N - 1)) := by
        rw [hdir, hDl]
        apply algn_fill_row_cell_or_delete
        rw [← hVl, ← heq]
      refine ⟨?_, hs2f, ?_⟩
      · intro j hj
        refine ⟨(hs2v j hj).1, ?_⟩
        show wr s2.dir (dirMtx + (N - 1)) (s2.dir (dirMtx + (N - 1)) ||| DELETE) (dirMtx + j) = D j
        rw [hor]
        by_cases hjl : j = N - 1
        · subst hjl; rw [wr_same]; exact hdir
        · rw [wr_other _ _ _ _ (by omega)]; exact (hs2v j hj).2
      · intro k hk
        show wr s2.dir (dirMtx + (N - 1)) (s2.dir (dirMtx + (N - 1)) ||| DELETE) k = s.dir k
        rw [wr_other _ _ _ _ (by omega)]
        exact hs2d k hk
    · rw [if_neg heq]
      exact ⟨hs2v, hs2f, hs2d⟩
  · rw [if_neg hl]
    exact ⟨hs2v, hs2f, hs2d⟩


theorem row_index_lt (i' i j N : Nat) (hi : i' < i) (hj : j < N) : i' * N + j < i * N := by
  have h1 : (i' + 1) * N ≤ i * N := Nat.mul_le_mul_right N hi
  have h2 : (i' + 1) * N = i' * N + N := by ring
  omega

theorem algn_fill_plane_first_row_spec (w : Int → Int) (precalc : Nat → Int) (curRow first_gap_row dirMtx : Nat)
    (N : Nat) (F : Nat → Int)
    (hF : ∀ j, 1 ≤ j → j < N → F j = w (F (j - 1) + precalc (first_gap_row + j))) (fuel : Nat) :
    ∀ (i : Nat) (s : nw_buffers), 1 ≤ i → i + fuel ≤ N → s.mtx (curRow + (i - 1)) = F (i - 1) →
      (∀ j, i ≤ j → j < i + fuel →
        (algn_fill_plane_first_row w precalc curRow first_gap_row dirMtx fuel i s).mtx (curRow + j)
          = F j ∧
        (algn_fill_plane_first_row w precalc curRow first_gap_row dirMtx fuel i s).dir (dirMtx + j)
          = INSERT) ∧
      (∀ k, (k < curRow + i ∨ curRow + i + fuel ≤ k) →
        (algn_fill_plane_first_row w precalc curRow first_gap_row dirMtx fuel i s).mtx k = s.mtx k) ∧
      (∀ k, (k < dirMtx + i ∨ dirMtx + i + fuel ≤ k) →
        (algn_fill_plane_first_row w precalc curRow first_gap_row dirMtx fuel i s).dir k
          = s.dir k) := by
  induction fuel with
  | zero =>
    intro i s _ _ _
    refine ⟨?_, ?_, ?_⟩
    · intro j h1 h2; omega
    · intro k _; rfl
    · intro k _; rfl
  | succ n ih =>
    intro i s hi hN hcur
    simp only [algn_fill_plane_first_row]
    rw [hcur, ← hF i hi (by omega)]
    obtain ⟨h1, h2, h3⟩ := ih (i + 1)
      { mtx := wr s.mtx (curRow + i) (F i), dir := wr s.dir (dirMtx + i) INSERT }
      (by omega) (by omega)
      (by
        show wr s.mtx (curRow + i) (F i) (curRow + (i + 1 - 1)) = F (i + 1 - 1)
        have : i + 1 - 1 = i := by omega
        rw [this, wr_same])
    refine ⟨?_, ?_, ?_⟩
    · intro j hj1 hj2
      by_cases hji : j = i
      · subst hji
        rw [h2 (curRow + j) (Or.inl (by omega)), h3 (dirMtx + j) (Or.inl (by omega))]
        exact ⟨wr_same _ _ _, wr_same _ _ _⟩
      · exact h1 j (by omega) (by omega)
    · intro k hk
      rw [h2 k (by omega)]
      exact wr_other _ _ _ _ (by omega)
    · intro k hk
      rw [h3 k (by omega)]
      exact wr_other _ _ _ _ (by omega)

theorem seq_get_element_mem (s : seq) (i : Nat) (h : i < s.len) :
    seq_get_element s i ∈ s.elems := by
  unfold seq_get_element
  unfold seq.len at h
  rw [List.getD_eq_getElem _ _ h]
  exact List.getElem_mem h

theorem nw_cost_succ_zero (best : Nat → Nat → Int) (gap : Nat) (s1 s2 : List Nat) (i : Nat) :
    nw_cost best gap s1 s2 (i + 1) 0 =
      nw_cost best gap s1 s2 i 0 + best (s1.getD (i + 1) 0) gap := rfl

theorem nw_cost_succ_succ (best : Nat → Nat → Int) (gap : Nat) (s1 s2 : List Nat) (i j : Nat) :
    nw_cost best gap s1 s2 (i + 1) (j + 1) =
      min (min (nw_cost best gap s1 s2 i j + best (s1.getD (i + 1) 0) (s2.getD (j + 1) 0))
               (nw_cost best gap s1 s2 (i + 1) j + best gap (s2.getD (j + 1) 0)))
          (nw_cost best gap s1 s2 i (j + 1) + best (s1.getD (i + 1) 0) gap) := rfl

theorem nw_cost_zero_succ (best : Nat → Nat → Int) (gap : Nat) (s1 s2 : List Nat) (j : Nat) :
    nw_cost best gap s1 s2 0 (j + 1) =
      nw_cost best gap s1 s2 0 j + best gap (s2.getD (j + 1) 0) := rfl

theorem nw_cost_zero_zero (best : Nat → Nat → Int) (gap : Nat) (s1 s2 : List Nat) :
    nw_cost best gap s1 s2 0 0 = 0 := rfl

theorem nw_cost_w_succ_zero (w : Int → Int) (best : Nat → Nat → Int) (gap : Nat)
    (s1 s2 : List Nat) (i : Nat) :
    nw_cost_w w best gap s1 s2 (i + 1) 0 =
      w (best (s1.getD (i + 1) 0) gap + nw_cost_w w best gap s1 s2 i 0) := rfl

theorem nw_cost_w_succ_succ (w : Int → Int) (best : Nat → Nat → Int) (gap : Nat)
    (s1 s2 : List Nat) (i j : Nat) :
    nw_cost_w w best gap s1 s2 (i + 1) (j + 1) =
      min (min (w (nw_cost_w w best gap s1 s2 i j + best (s1.getD (i + 1) 0) (s2.getD (j + 1) 0)))
               (w (nw_cost_w w best gap s1 s2 (i + 1) j + best gap (s2.getD (j + 1) 0))))
          (w (nw_cost_w w best gap s1 s2 i (j + 1) + best (s1.getD (i + 1) 0) gap)) := rfl

theorem nw_cost_w_zero_succ (w : Int → Int) (best : Nat → Nat → Int) (gap : Nat)
    (s1 s2 : List Nat) (j : Nat) :
    nw_cost_w w best gap s1 s2 0 (j + 1) =
      w (nw_cost_w w best gap s1 s2 0 j + best gap (s2.getD (j + 1) 0)) := rfl

theorem nw_cost_w_zero_zero (w : Int → Int) (best : Nat → Nat → Int) (gap : Nat)
    (s1 s2 : List Nat) : nw_cost_w w best gap s1 s2 0 0 = 0 := rfl

/-- Invariant of the row loop of `algn_fill_plane`: before the iteration of row `i` the row at
`newNWMtx` holds row `i - 1` of the table `nw_cost_w` and the direction rows above `i` hold
`nw_dir_w`. -/
theorem algn_fill_plane_rows_spec (w : Int → Int) (c : cost_matrices_2d) (seq1 seq2 : seq)
    (precalc : Nat → Int) (precalcMtx : Nat) (rowA rowB dir0 : Nat)
    (hN : 1 ≤ seq2.len)
    (hrows : rowA + seq2.len ≤ rowB ∨ rowB + seq2.len ≤ rowA)
    (hsym : ∀ x ∈ seq1.elems, 1 ≤ x)
    (hpre : IsPrecalc c seq2 precalc precalcMtx)
    (hg1 : GapCostsAgree c seq1) (fuel : Nat) :
    ∀ (i curRow newNWMtx : Nat) (s : nw_buffers), 1 ≤ i → i + fuel ≤ seq1.len →
      ((curRow = rowA ∧ newNWMtx = rowB) ∨ (curRow = rowB ∧ newNWMtx = rowA)) →
      (∀ j, j < seq2.len →
        s.mtx (newNWMtx + j) = nw_cost_w w (best_cost c) c.gap seq1.elems seq2.elems (i - 1) j) →
      (∀ i' j, i' < i → j < seq2.len →
        s.dir (dir0 + i' * seq2.len + j) = nw_dir_w w (best_cost c) c.gap seq1.elems seq2.elems i' j) →
      (∀ j, j < seq2.len →
        (algn_fill_plane_rows w seq1 precalc precalcMtx seq2.len c
          (cm_get_precal_row precalcMtx c.gap seq2.len) fuel i curRow newNWMtx
          (dir0 + i * seq2.len) s).2.mtx
          ((algn_fill_plane_rows w seq1 precalc precalcMtx seq2.len c
            (cm_get_precal_row precalcMtx c.gap seq2.len) fuel i curRow newNWMtx
            (dir0 + i * seq2.len) s).1 + j)
          = nw_cost_w w (best_cost c) c.gap seq1.elems seq2.elems (i + fuel - 1) j) ∧
      (∀ i' j, i' < i + fuel → j < seq2.len →
        (algn_fill_plane_rows w seq1 precalc precalcMtx seq2.len c
          (cm_get_precal_row precalcMtx c.gap seq2.len) fuel i curRow newNWMtx
          (dir0 + i * seq2.len) s).2.dir (dir0 + i' * seq2.len + j)
          = nw_dir_w w (best_cost c) c.gap seq1.elems seq2.elems i' j) := by
  induction fuel with
  | zero =>
    intro i curRow newNWMtx s _ _ _ hP hD
    exact ⟨hP, hD⟩
  | succ n ih =>
    intro i curRow newNWMtx s hi hlen hptr hP hD
    simp only [algn_fill_plane_rows]
    obtain ⟨i0, rfl⟩ : ∃ i0, i = i0 + 1 := ⟨i - 1, by omega⟩
    have hmem : seq_get_element seq1 (i0 + 1) ∈ seq1.elems :=
      seq_get_element_mem seq1 (i0 + 1) (by omega)
    have hx1 : 1 ≤ seq_get_element seq1 (i0 + 1) := hsym _ hmem
    have htail : cm_get_tail_cost c (seq_get_element seq1 (i0 + 1)) =
        cm_calc_cost c.cost (seq_get_element seq1 (i0 + 1)) c.gap c.lcm := (hg1.2 _ hmem).2
    rw [htail]
    have hdisj : ∀ j k, j < seq2.len → k < seq2.len → newNWMtx + j ≠ curRow + k := by
      intro j k hj hk
      rcases hptr with ⟨h1, h2⟩ | ⟨h1, h2⟩ <;> subst h1 <;> subst h2 <;> omega
    have hgapsym : 1 ≤ c.gap := hg1.1
    have hspec := algn_fill_full_row_spec w precalc curRow newNWMtx
      (cm_get_precal_row precalcMtx c.gap seq2.len)
      (cm_get_precal_row precalcMtx (seq_get_element seq1 (i0 + 1)) seq2.len)
      (dir0 + (i0 + 1) * seq2.len)
      (cm_calc_cost c.cost (seq_get_element seq1 (i0 + 1)) c.gap c.lcm) seq2.len
      (nw_cost_w w (best_cost c) c.gap seq1.elems seq2.elems i0)
      (nw_cost_w w (best_cost c) c.gap seq1.elems seq2.elems (i0 + 1))
      (nw_dir_w w (best_cost c) c.gap seq1.elems seq2.elems (i0 + 1)) s hN hdisj
      rfl
      (by simp [nw_dir_w])
      (by
        intro j hj1 hj2
        obtain ⟨j0, rfl⟩ : ∃ j0, j = j0 + 1 := ⟨j - 1, by omega⟩
        have ha := hpre.1 (seq_get_element seq1 (i0 + 1)) (j0 + 1) hx1 hj2
        have hb := hpre.1 c.gap (j0 + 1) hgapsym hj2
        simp only [cm_get_precal_row, Nat.add_sub_cancel]
        rw [ha, hb]
        constructor
        · rw [nw_cost_w_succ_succ, algn_fill_row_cell_fst]
          unfold best_cost seq_get_element
          rfl
        · simp only [nw_dir_w, Nat.add_sub_cancel]
          rw [if_neg (by omega), if_neg (by omega)]
          unfold best_cost seq_get_element
          rfl)
      (by simpa using hP)
    obtain ⟨hv, hfm, hfd⟩ := hspec
    have hstep : dir0 + (i0 + 1) * seq2.len + seq2.len = dir0 + (i0 + 1 + 1) * seq2.len := by ring
    rw [hstep]
    have hres := ih (i0 + 1 + 1) newNWMtx curRow
      (algn_fill_full_row w precalc s curRow newNWMtx (cm_get_precal_row precalcMtx c.gap seq2.len)
        (cm_get_precal_row precalcMtx (seq_get_element seq1 (i0 + 1)) seq2.len)
        (dir0 + (i0 + 1) * seq2.len)
        (cm_calc_cost c.cost (seq_get_element seq1 (i0 + 1)) c.gap c.lcm)
        (cm_calc_cost c.cost (seq_get_element seq1 (i0 + 1)) c.gap c.lcm) seq2.len)
      (by omega) (by omega) (by tauto)
      (by
        intro j hj
        simpa using (hv j hj).1)
      (by
        intro i' j hi' hj
        by_cases hlast : i' = i0 + 1
        · subst hlast
          exact (hv j hj).2
        · have hlt : i' < i0 + 1 := by omega
          have := row_index_lt i' (i0 + 1) j seq2.len hlt hj
          rw [hfd _ (Or.inl (by omega))]
          exact hD i' j hlt hj)
    have hidx : i0 + 1 + 1 + n - 1 = i0 + 1 + (n + 1) - 1 := by omega
    have hidx2 : i0 + 1 + 1 + n = i0 + 1 + (n + 1) := by omega
    rw [hidx, hidx2] at hres
    exact hres


/-- What `algn_fill_plane` computes on a precalculated table of an expanded matrix, for any
reduction `w` of the sums: the returned cost is the entry `(M - 1, N - 1)` of the table
`nw_cost_w` and the direction matrix holds `nw_dir_w` at every cell. -/
theorem algn_fill_plane_spec (w : Int → Int) (c : cost_matrices_2d) (seq1 seq2 : seq)
    (precalc : Nat → Int) (precalcMtx : Nat) (s : nw_buffers) (curRow dirMtx : Nat)
    (hN : 1 ≤ seq2.len) (hM : 1 ≤ seq1.len)
    (hsym : ∀ x ∈ seq1.elems, 1 ≤ x)
    (hpre : IsPrecalc c seq2 precalc precalcMtx)
    (hg1 : GapCostsAgree c seq1) (hg2 : GapCostsAgree c seq2) :
    (algn_fill_plane w seq1 precalc precalcMtx seq1.len seq2.len s curRow dirMtx c).1 =
      nw_cost_w w (best_cost c) c.gap seq1.elems seq2.elems (seq1.len - 1) (seq2.len - 1) ∧
    (∀ i j, i < seq1.len → j < seq2.len →
      (algn_fill_plane w seq1 precalc precalcMtx seq1.len seq2.len s curRow dirMtx c).2.dir
        (dirMtx + i * seq2.len + j) = nw_dir_w w (best_cost c) c.gap seq1.elems seq2.elems i j) := by
  unfold algn_fill_plane
  simp only [cm_get_gap_2d]
  set s0 : nw_buffers := { mtx := wr s.mtx curRow 0, dir := wr s.dir dirMtx ALIGN } with hs0
  obtain ⟨hf1, hf2, hf3⟩ := algn_fill_plane_first_row_spec w precalc curRow
    (cm_get_precal_row precalcMtx 0 seq2.len) dirMtx seq2.len
    (nw_cost_w w (best_cost c) c.gap seq1.elems seq2.elems 0)
    (by
      intro j hj1 hj2
      obtain ⟨j0, rfl⟩ : ∃ j0, j = j0 + 1 := ⟨j - 1, by omega⟩
      rw [nw_cost_w_zero_succ]
      have h1 := hpre.2 (j0 + 1) hj2
      have h2 := (hg2.2 _ (seq_get_element_mem seq2 (j0 + 1) hj2)).1
      simp only [cm_get_precal_row, Nat.add_sub_cancel]
      rw [h1, h2]
      rfl)
    (seq2.len - 1) 1 s0 (le_refl _) (by omega)
    (by
      show wr s.mtx curRow 0 (curRow + 0) = _
      rw [Nat.add_zero, wr_same]; rfl)
  set s1 := algn_fill_plane_first_row w precalc curRow (cm_get_precal_row precalcMtx 0 seq2.len)
    dirMtx (seq2.len - 1) 1 s0 with hs1
  have hrow0 : ∀ j, j < seq2.len →
      s1.mtx (curRow + j) = nw_cost_w w (best_cost c) c.gap seq1.elems seq2.elems (1 - 1) j := by
    intro j hj
    by_cases hj0 : j = 0
    · subst hj0
      rw [hf2 _ (Or.inl (by omega))]
      show wr s.mtx curRow 0 (curRow + 0) = _
      rw [Nat.add_zero, wr_same]; rfl
    · exact (hf1 j (by omega) (by omega)).1
  have hdir0 : ∀ i' j, i' < 1 → j < seq2.len →
      s1.dir (dirMtx + i' * seq2.len + j) =
        nw_dir_w w (best_cost c) c.gap seq1.elems seq2.elems i' j := by
    intro i' j hi' hj
    have : i' = 0 := by omega
    subst this
    simp only [Nat.zero_mul, Nat.add_zero, nw_dir_w, if_true]
    by_cases hj0 : j = 0
    · subst hj0
      rw [hf3 _ (Or.inl (by omega))]
      show wr s.dir dirMtx ALIGN (dirMtx + 0) = _
      rw [Nat.add_zero, wr_same]; rfl
    · rw [if_neg hj0]
      exact (hf1 j (by omega) (by omega)).2
  have hrows := algn_fill_plane_rows_spec w c seq1 seq2 precalc precalcMtx (curRow + seq2.len)
    curRow dirMtx hN (Or.inr (le_refl _)) hsym hpre hg1 (seq1.len - 1) 1 (curRow + seq2.len)
    curRow s1 (le_refl _) (by omega) (Or.inl ⟨rfl, rfl⟩) hrow0 hdir0
  rw [Nat.one_mul] at hrows
  obtain ⟨hA, hB⟩ := hrows
  have hM1 : 1 + (seq1.len - 1) - 1 = seq1.len - 1 := by omega
  have hM2 : 1 + (seq1.len - 1) = seq1.len := by omega
  rw [hM1] at hA
  rw [hM2] at hB
  exact ⟨hA (seq2.len - 1) (by omega), hB⟩

/-- Every alignment costs at least `C[i, j]`. -/
theorem nw_cost_le_alignment_cost (best : Nat → Nat → Int) (gap : Nat) (s1 s2 : List Nat)
    (p : List Step) :
    ∀ (i j : Nat) (v : Int), alignment_cost best gap s1 s2 p i j = some v →
      nw_cost best gap s1 s2 i j ≤ v := by
  induction p with
  | nil =>
    intro i j v h
    cases i <;> cases j <;> simp [alignment_cost] at h
    subst h
    exact le_of_eq (nw_cost_zero_zero best gap s1 s2)
  | cons st p ih =>
    intro i j v h
    cases st with
    | align =>
      cases i with
      | zero => simp [alignment_cost] at h
      | succ i =>
        cases j with
        | zero => simp [alignment_cost] at h
        | succ j =>
          simp only [alignment_cost, Option.map_eq_some'] at h
          obtain ⟨w, hw, rfl⟩ := h
          have := ih i j w hw
          rw [nw_cost_succ_succ]
          exact le_trans (min_le_left _ _) (le_trans (min_le_left _ _) (by omega))
    | delete =>
      cases i with
      | zero => cases j <;> simp [alignment_cost] at h
      | succ i =>
        cases j with
        | zero =>
          simp only [alignment_cost, Option.map_eq_some'] at h
          obtain ⟨w, hw, rfl⟩ := h
          have := ih i 0 w hw
          rw [nw_cost_succ_zero]
          omega
        | succ j =>
          simp only [alignment_cost, Option.map_eq_some'] at h
          obtain ⟨w, hw, rfl⟩ := h
          have := ih i (j + 1) w hw
          rw [nw_cost_succ_succ]
          exact le_trans (min_le_right _ _) (by omega)
    | insert =>
      cases j with
      | zero => cases i <;> simp [alignment_cost] at h
      | succ j =>
        cases i with
        | zero =>
          simp only [alignment_cost, Option.map_eq_some'] at h
          obtain ⟨w, hw, rfl⟩ := h
          have := ih 0 j w hw
          rw [nw_cost_zero_succ]
          omega
        | succ i =>
          simp only [alignment_cost, Option.map_eq_some'] at h
          obtain ⟨w, hw, rfl⟩ := h
          have := ih (i + 1) j w hw
          rw [nw_cost_succ_succ]
          exact le_trans (min_le_left _ _) (le_trans (min_le_right _ _) (by omega))

/-- Some alignment costs exactly `C[i, j]`. -/
theorem exists_alignment_cost_eq (best : Nat → Nat → Int) (gap : Nat) (s1 s2 : List Nat) :
    ∀ (i j : Nat), ∃ p, alignment_cost best gap s1 s2 p i j = some (nw_cost best gap s1 s2 i j) := by
  intro i
  induction i with
  | zero =>
    intro j
    induction j with
    | zero => exact ⟨[], rfl⟩
    | succ j ih =>
      obtain ⟨p, hp⟩ := ih
      refine ⟨Step.insert :: p, ?_⟩
      simp only [alignment_cost, hp, Option.map_some', nw_cost_zero_succ]
  | succ i ihi =>
    intro j
    induction j with
    | zero =>
      obtain ⟨p, hp⟩ := ihi 0
      refine ⟨Step.delete :: p, ?_⟩
      simp only [alignment_cost, hp, Option.map_some', nw_cost_succ_zero]
    | succ j ihj =>
      rw [nw_cost_succ_succ]
      rcases min_choice (min (nw_cost best gap s1 s2 i j + best (s1.getD (i + 1) 0) (s2.getD (j + 1) 0))
               (nw_cost best gap s1 s2 (i + 1) j + best gap (s2.getD (j + 1) 0)))
          (nw_cost best gap s1 s2 i (j + 1) + best (s1.getD (i + 1) 0) gap) with h | h
      · rw [h]
        rcases min_choice (nw_cost best gap s1 s2 i j + best (s1.getD (i + 1) 0) (s2.getD (j + 1) 0))
               (nw_cost best gap s1 s2 (i + 1) j + best gap (s2.getD (j + 1) 0)) with h2 | h2
        · rw [h2]
          obtain ⟨p, hp⟩ := ihi j
          refine ⟨Step.align :: p, ?_⟩
          simp only [alignment_cost, hp, Option.map_some']
        · rw [h2]
          obtain ⟨p, hp⟩ := ihj
          refine ⟨Step.insert :: p, ?_⟩
          simp only [alignment_cost, hp, Option.map_some']
      · rw [h]
        obtain ⟨p, hp⟩ := ihi (j + 1)
        refine ⟨Step.delete :: p, ?_⟩
        simp only [alignment_cost, hp, Option.map_some']

/-- The table entry `C[i, j]` is the minimum total column cost over all alignments. -/
theorem nw_cost_isLeast (best : Nat → Nat → Int) (gap : Nat) (s1 s2 : List Nat) (i j : Nat) :
    IsLeast {v | ∃ p, alignment_cost best gap s1 s2 p i j = some v}
      (nw_cost best gap s1 s2 i j) :=
  ⟨exists_alignment_cost_eq best gap s1 s2 i j,
   fun _ ⟨p, hp⟩ => nw_cost_le_alignment_cost best gap s1 s2 p i j _ hp⟩


theorem pos_div_mod (a b n : Nat) (hb : b < 2 ^ n) :
    cm_calc_cost_position a b n / 2 ^ n = a ∧ cm_calc_cost_position a b n % 2 ^ n = b := by
  simp only [cm_calc_cost_position, Nat.shiftLeft_eq]
  have hpos := Nat.two_pow_pos n
  constructor
  · rw [Nat.add_comm, Nat.add_mul_div_right _ _ hpos, Nat.div_eq_of_lt hb, Nat.zero_add]
  · rw [Nat.add_comm, Nat.add_mul_mod_self_right, Nat.mod_eq_of_lt hb]

theorem expanded_2d_best_cost (tcm : Nat → Int) (K a b : Nat) (hb : b < 2 ^ K) :
    best_cost (expanded_2d tcm K) a b = (setup2d_value tcm K a b).1 := by
  obtain ⟨h1, h2⟩ := pos_div_mod a b K hb
  show (setup2d_value tcm K (cm_calc_cost_position a b K / 2 ^ K)
    (cm_calc_cost_position a b K % 2 ^ K)).1 = _
  rw [h1, h2]

/-- The tables of `expanded_2d` agree with the ones that `setup2dCostMtx` builds for the best
cost, the median and the prepend cost of all symbols. -/
theorem expanded_2d_agrees (tcm : Nat → Int) (K : Nat) (gap_open : Int)
    (retMtx : cost_matrices_2d) (hK : K ≤ 31) :
    ∃ m, setup2dCostMtx tcm K gap_open retMtx = .ok m ∧
      m.lcm = (expanded_2d tcm K).lcm ∧ m.gap = (expanded_2d tcm K).gap ∧
      ∀ a b, 1 ≤ a → a ≤ 2 ^ K - 1 → 1 ≤ b → b ≤ 2 ^ K - 1 →
        cm_get_cost a b m = cm_get_cost a b (expanded_2d tcm K) ∧
        cm_get_median m a b = cm_get_median (expanded_2d tcm K) a b := by
  obtain ⟨m, hm, hl, hg, hv⟩ := setup2dCostMtx_ok tcm K gap_open retMtx hK
  refine ⟨m, hm, hl, hg, ?_⟩
  intro a b ha1 ha2 hb1 hb2
  have hb : b < 2 ^ K := by
    have := Nat.two_pow_pos K
    omega
  obtain ⟨h1, h2⟩ := pos_div_mod a b K hb
  rw [(hv a b ha1 ha2 hb1 hb2).1, (hv a b ha1 ha2 hb1 hb2).2]
  constructor
  · exact (expanded_2d_best_cost tcm K a b hb).symm
  · show _ = (setup2d_value tcm K (cm_calc_cost_position a b K / 2 ^ K)
      (cm_calc_cost_position a b K % 2 ^ K)).2
    rw [h1, h2]

theorem expanded_2d_gapCostsAgree (tcm : Nat → Int) (K : Nat) (s : seq) (hK : 1 ≤ K)
    (hs : ∀ x ∈ s.elems, x < 2 ^ K) : GapCostsAgree (expanded_2d tcm K) s := by
  have hgap : (1 : Nat) <<< (K - 1) < 2 ^ K := by
    rw [Nat.one_shiftLeft]
    exact Nat.pow_lt_pow_right (by norm_num) (by omega)
  refine ⟨?_, ?_⟩
  · show 1 ≤ 1 <<< (K - 1)
    rw [Nat.one_shiftLeft]
    exact Nat.two_pow_pos _
  · intro x hx
    constructor
    · show (setup2d_value tcm K (1 <<< (K - 1)) x).1 = best_cost (expanded_2d tcm K) (1 <<< (K - 1)) x
      rw [expanded_2d_best_cost tcm K _ x (hs x hx)]
    · show (setup2d_value tcm K x (1 <<< (K - 1))).1 = best_cost (expanded_2d tcm K) x (1 <<< (K - 1))
      rw [expanded_2d_best_cost tcm K x _ hgap]

theorem precalc_of_isPrecalc (c : cost_matrices_2d) (s2 : seq) :
    IsPrecalc c s2 (precalc_of c s2.elems) 0 := by
  constructor
  · intro a j ha hj
    have hlen : 0 < s2.elems.length := by unfold seq.len at hj; omega
    have h1 : (0 + a * s2.len + j) / s2.elems.length = a := by
      unfold seq.len at hj ⊢
      rw [Nat.zero_add, Nat.add_comm, Nat.add_mul_div_right _ _ hlen, Nat.div_eq_of_lt hj,
        Nat.zero_add]
    have h2 : (0 + a * s2.len + j) % s2.elems.length = j := by
      unfold seq.len at hj ⊢
      rw [Nat.zero_add, Nat.add_comm, Nat.add_mul_mod_self_right, Nat.mod_eq_of_lt hj]
    unfold precalc_of
    rw [h1, h2, if_neg (by omega)]
    rfl
  · intro j hj
    have h1 : (0 + 0 * s2.len + j) / s2.elems.length = 0 := by
      unfold seq.len at hj ⊢
      rw [Nat.zero_mul, Nat.zero_add, Nat.div_eq_of_lt hj]
    have h2 : (0 + 0 * s2.len + j) % s2.elems.length = j := by
      unfold seq.len at hj ⊢
      rw [Nat.zero_mul, Nat.zero_add, Nat.mod_eq_of_lt hj]
    unfold precalc_of
    rw [h1, h2, if_pos rfl]
    rfl

theorem getD_mem_cons (gap : Nat) (xs : List Nat) (i : Nat) (h : i < xs.length) :
    xs.getD i 0 ∈ gap :: xs := by
  rw [List.getD_eq_getElem _ _ h]
  exact List.mem_cons_of_mem _ (List.getElem_mem h)

/-- Under costs between `0` and `B`, the entry `C[i, j]` of the recurrence lies between `0` and
`(i + j) * B`. -/
theorem nw_cost_bounds (best : Nat → Nat → Int) (gap : Nat) (s1 s2 : List Nat) (B : Int)
    (hb : CostsBounded best gap s1 s2 B) :
    ∀ i, i < s1.length → ∀ j, j < s2.length →
      0 ≤ nw_cost best gap s1 s2 i j ∧ nw_cost best gap s1 s2 i j ≤ ((i + j : Nat) : Int) * B := by
  have hgg := hb gap (List.mem_cons_self _ _)
  intro i
  induction i with
  | zero =>
    intro _ j
    induction j with
    | zero => intro _; rw [nw_cost_zero_zero]; simp
    | succ j ih =>
      intro hj
      obtain ⟨h1, h2⟩ := ih (by omega)
      obtain ⟨g1, g2⟩ := hgg _ (getD_mem_cons gap s2 (j + 1) hj)
      rw [nw_cost_zero_succ]
      push_cast at h2 ⊢
      constructor
      · omega
      · nlinarith
  | succ i ihi =>
    intro hi j
    have hx := hb _ (getD_mem_cons gap s1 (i + 1) hi)
    induction j with
    | zero =>
      intro hj
      obtain ⟨h1, h2⟩ := ihi (by omega) 0 hj
      obtain ⟨g1, g2⟩ := hx gap (List.mem_cons_self _ _)
      rw [nw_cost_succ_zero]
      push_cast at h2 ⊢
      constructor
      · omega
      · nlinarith
    | succ j ih =>
      intro hj
      obtain ⟨h1, h2⟩ := ihi (by omega) (j + 1) hj
      obtain ⟨h3, h4⟩ := ihi (by omega) j (by omega)
      obtain ⟨h5, h6⟩ := ih (by omega)
      obtain ⟨g1, g2⟩ := hx gap (List.mem_cons_self _ _)
      obtain ⟨g3, g4⟩ := hx _ (getD_mem_cons gap s2 (j + 1) hj)
      obtain ⟨g5, g6⟩ := hgg _ (getD_mem_cons gap s2 (j + 1) hj)
      rw [nw_cost_succ_succ]
      push_cast at h2 ⊢
      constructor
      · exact le_min (le_min (by omega) (by omega)) (by omega)
      · exact le_trans (min_le_right _ _) (by nlinarith)

/-- The reduction `wrap32` leaves every value of the range of `int` as it is. -/
theorem wrap32_intFixed : IntFixed wrap32 := by
  intro x h1 h2
  unfold INT_MIN at h1
  unfold INT_MAX at h2
  unfold wrap32
  omega

/-- The identity leaves every value as it is. -/
theorem id_intFixed : IntFixed id := fun _ _ _ => rfl

/-- A sum of a table entry and a cost that stays below `L * B ≤ INT_MAX` is left as it is by a
reduction that fixes the range of `int`. -/
theorem intFixed_sum (w : Int → Int) (hw : IntFixed w) (x c B : Int) (k L : Nat)
    (hx0 : 0 ≤ x) (hx : x ≤ (k : Int) * B) (hc0 : 0 ≤ c) (hc : c ≤ B) (hk : k + 1 ≤ L)
    (hL : (L : Int) * B ≤ INT_MAX) : w (x + c) = x + c := by
  apply hw
  · unfold INT_MIN; omega
  · have hB0 : 0 ≤ B := le_trans hc0 hc
    have h1 : ((k : Int) + 1) * B ≤ (L : Int) * B :=
      mul_le_mul_of_nonneg_right (by exact_mod_cast hk) hB0
    have h2 : x + c ≤ ((k : Int) + 1) * B := by nlinarith
    exact le_trans h2 (le_trans h1 hL)

/-- Under costs between `0` and `B` with `(M + N) * B ≤ INT_MAX`, a reduction that fixes the range
of `int` does not change the table: the fill computes the entries of `nw_cost`. -/
theorem nw_cost_w_eq (w : Int → Int) (best : Nat → Nat → Int) (gap : Nat) (s1 s2 : List Nat)
    (B : Int) (hw : IntFixed w) (hb : CostsBounded best gap s1 s2 B)
    (hB : ((s1.length + s2.length : Nat) : Int) * B ≤ INT_MAX) :
    ∀ i, i < s1.length → ∀ j, j < s2.length →
      nw_cost_w w best gap s1 s2 i j = nw_cost best gap s1 s2 i j := by
  have hgg := hb gap (List.mem_cons_self _ _)
  have hbd := nw_cost_bounds best gap s1 s2 B hb
  intro i
  induction i with
  | zero =>
    intro _ j
    induction j with
    | zero => intro _; rfl
    | succ j ih =>
      intro hj
      obtain ⟨h1, h2⟩ := hbd 0 (by omega) j (by omega)
      obtain ⟨g1, g2⟩ := hgg _ (getD_mem_cons gap s2 (j + 1) hj)
      rw [nw_cost_w_zero_succ, nw_cost_zero_succ, ih (by omega)]
      exact intFixed_sum w hw _ _ B (0 + j) _ h1 h2 g1 g2 (by omega) hB
  | succ i ihi =>
    intro hi j
    have hx := hb _ (getD_mem_cons gap s1 (i + 1) hi)
    induction j with
    | zero =>
      intro hj
      obtain ⟨h1, h2⟩ := hbd i (by omega) 0 hj
      obtain ⟨g1, g2⟩ := hx gap (List.mem_cons_self _ _)
      rw [nw_cost_w_succ_zero, nw_cost_succ_zero, ihi (by omega) 0 hj, add_comm]
      exact intFixed_sum w hw _ _ B (i + 0) _ h1 h2 g1 g2 (by omega) hB
    | succ j ih =>
      intro hj
      obtain ⟨h1, h2⟩ := hbd i (by omega) (j + 1) hj
      obtain ⟨h3, h4⟩ := hbd i (by omega) j (by omega)
      obtain ⟨h5, h6⟩ := hbd (i + 1) hi j (by omega)
      obtain ⟨g1, g2⟩ := hx gap (List.mem_cons_self _ _)
      obtain ⟨g3, g4⟩ := hx _ (getD_mem_cons gap s2 (j + 1) hj)
      obtain ⟨g5, g6⟩ := hgg _ (getD_mem_cons gap s2 (j + 1) hj)
      rw [nw_cost_w_succ_succ, nw_cost_succ_succ, ihi (by omega) j (by omega),
        ihi (by omega) (j + 1) hj, ih (by omega),
        intFixed_sum w hw _ _ B (i + j) _ h3 h4 g3 g4 (by omega) hB,
        intFixed_sum w hw _ _ B (i + 1 + j) _ h5 h6 g5 g6 (by omega) hB,
        intFixed_sum w hw _ _ B (i + (j + 1)) _ h1 h2 g1 g2 (by omega) hB]

/-- A reduction that changes no value does not change the table. -/
theorem nw_cost_w_of_id (w : Int → Int) (best : Nat → Nat → Int) (gap : Nat)
    (s1 s2 : List Nat) (h : ∀ x, w x = x) :
    ∀ i j, nw_cost_w w best gap s1 s2 i j = nw_cost best gap s1 s2 i j := by
  intro i
  induction i with
  | zero =>
    intro j
    induction j with
    | zero => rfl
    | succ j ih => rw [nw_cost_w_zero_succ, nw_cost_zero_succ, ih, h]
  | succ i ihi =>
    intro j
    induction j with
    | zero => rw [nw_cost_w_succ_zero, nw_cost_succ_zero, ihi 0, h, add_comm]
    | succ j ih =>
      rw [nw_cost_w_succ_succ, nw_cost_succ_succ, ihi j, ihi (j + 1), ih, h, h, h]

/-- Under the same bounds the directions of the fill are those of the table `nw_cost`. -/
theorem nw_dir_w_eq (w : Int → Int) (best : Nat → Nat → Int) (gap : Nat) (s1 s2 : List Nat)
    (B : Int) (hw : IntFixed w) (hb : CostsBounded best gap s1 s2 B)
    (hB : ((s1.length + s2.length : Nat) : Int) * B ≤ INT_MAX) (i j : Nat)
    (hi : i < s1.length) (hj : j < s2.length) :
    nw_dir_w w best gap s1 s2 i j = nw_dir best gap s1 s2 i j := by
  have hgg := hb gap (List.mem_cons_self _ _)
  have hbd := nw_cost_bounds best gap s1 s2 B hb
  have heq := nw_cost_w_eq w best gap s1 s2 B hw hb hB
  unfold nw_dir_w nw_dir
  by_cases hi0 : i = 0
  · rw [if_pos hi0, if_pos hi0]
  · rw [if_neg hi0, if_neg hi0]
    by_cases hj0 : j = 0
    · rw [if_pos hj0, if_pos hj0]
    · rw [if_neg hj0, if_neg hj0]
      have hx := hb _ (getD_mem_cons gap s1 i hi)
      obtain ⟨h1, h2⟩ := hbd (i - 1) (by omega) j hj
      obtain ⟨h3, h4⟩ := hbd (i - 1) (by omega) (j - 1) (by omega)
      obtain ⟨h5, h6⟩ := hbd i hi (j - 1) (by omega)
      obtain ⟨g1, g2⟩ := hx gap (List.mem_cons_self _ _)
      obtain ⟨g3, g4⟩ := hx _ (getD_mem_cons gap s2 j hj)
      obtain ⟨g5, g6⟩ := hgg _ (getD_mem_cons gap s2 j hj)
      rw [heq (i - 1) (by omega) j hj, heq i hi (j - 1) (by omega),
        heq (i - 1) (by omega) (j - 1) (by omega),
        intFixed_sum w hw _ _ B (i - 1 + j) _ h1 h2 g1 g2 (by omega) hB,
        intFixed_sum w hw _ _ B (i + (j - 1)) _ h5 h6 g5 g6 (by omega) hB,
        intFixed_sum w hw _ _ B (i - 1 + (j - 1)) _ h3 h4 g3 g4 (by omega) hB]

/-- The linear fill under costs between `0` and `B` with `(M + N) * B ≤ INT_MAX`, for a reduction
that fixes the range of `int`: no sum leaves the range, the returned cost is `C[M-1, N-1]` of the
Needleman-Wunsch recurrence and the direction matrix holds `nw_dir` at every cell. -/
theorem algn_fill_plane_exact (w : Int → Int) (c : cost_matrices_2d) (seq1 seq2 : seq)
    (precalc : Nat → Int) (precalcMtx : Nat) (s : nw_buffers) (curRow dirMtx : Nat) (B : Int)
    (hN : 1 ≤ seq2.len) (hM : 1 ≤ seq1.len)
    (hsym : ∀ x ∈ seq1.elems, 1 ≤ x)
    (hpre : IsPrecalc c seq2 precalc precalcMtx)
    (hg1 : GapCostsAgree c seq1) (hg2 : GapCostsAgree c seq2)
    (hw : IntFixed w) (hb : CostsBounded (best_cost c) c.gap seq1.elems seq2.elems B)
    (hB : ((seq1.len + seq2.len : Nat) : Int) * B ≤ INT_MAX) :
    (algn_fill_plane w seq1 precalc precalcMtx seq1.len seq2.len s curRow dirMtx c).1 =
      nw_cost (best_cost c) c.gap seq1.elems seq2.elems (seq1.len - 1) (seq2.len - 1) ∧
    (∀ i j, i < seq1.len → j < seq2.len →
      (algn_fill_plane w seq1 precalc precalcMtx seq1.len seq2.len s curRow dirMtx c).2.dir
        (dirMtx + i * seq2.len + j) = nw_dir (best_cost c) c.gap seq1.elems seq2.elems i j) := by
  obtain ⟨h1, h2⟩ := algn_fill_plane_spec w c seq1 seq2 precalc precalcMtx s curRow dirMtx hN hM
    hsym hpre hg1 hg2
  refine ⟨?_, ?_⟩
  · rw [h1]
    exact nw_cost_w_eq w _ _ _ _ B hw hb hB _ (by unfold seq.len at hM ⊢; omega) _
      (by unfold seq.len at hN ⊢; omega)
  · intro i j hi hj
    rw [h2 i j hi hj]
    exact nw_dir_w_eq w _ _ _ _ B hw hb hB i j hi hj

set_option maxRecDepth 100000 in
/-- Downstream of the swapped arguments of `cm_set_tail_2d` (C3): with the matrix that
`setup2dCostMtx` builds for unit costs, `algn_fill_plane` returns `0` for `AC` against `A`, because
the last column adds `tail_cost[C] = 0` for the deletion of `C`; with the tail costs of the data
model it returns `1`. -/
theorem algn_fill_plane_setup_unit5 :
    (algn_fill_plane wrap32 sAC (precalc_of setup_unit5 sA.elems) 0 sAC.len sA.len zero_buffers 0 0
      setup_unit5).1 = 0 ∧
    (algn_fill_plane wrap32 sAC (precalc_of (expanded_2d (unit_tcm 5) 5) sA.elems) 0 sAC.len sA.len
      zero_buffers 0 0 (expanded_2d (unit_tcm 5) 5)).1 = 1 := by
  decide

set_option maxRecDepth 1000000 in
/-- Claim C6 (failing input). For the streams `- A C` and `- G A` with the matrix that
`setup2dCostMtx` builds for the unit costs of five states, `algn_fill_plane` (sums of C `int`)
returns `1`, while `C[2,2]` of the recurrence of the claim is `2`: the last column adds
`tail_cost[C] = 0` for the deletion of `C`, where the recurrence adds `best_cost[C, gap] = 1`
(the swapped arguments of `cm_set_tail_2d`, C3). The pair reaches the fill through
`align2d (GA, AC)`, which returns the cost `1`. With the tail costs of the data model the fill
returns `2`, and for `ACGT` against `AGT` it returns `1` with both matrices. -/
theorem algn_fill_plane_below_recurrence_setup_unit5 :
    (algn_fill_plane wrap32 sAC (precalc_of setup_unit5 sGA.elems) 0 sAC.len sGA.len zero_buffers
      0 0 setup_unit5).1 = 1 ∧
    nw_cost (best_cost setup_unit5) setup_unit5.gap sAC.elems sGA.elems (sAC.len - 1)
      (sGA.len - 1) = 2 ∧
    setup_unit5.tail_cost 2 = 0 ∧ best_cost setup_unit5 2 setup_unit5.gap = 1 ∧
    (align2d wrap32 (alignIO_of [4, 1]) (alignIO_of [1, 2]) alignIO_none alignIO_none setup_unit5
      0 0 0).map (fun r => r.algnCost) = some 1 ∧
    (algn_fill_plane wrap32 sAC (precalc_of (expanded_2d (unit_tcm 5) 5) sGA.elems) 0 sAC.len
      sGA.len zero_buffers 0 0 (expanded_2d (unit_tcm 5) 5)).1 = 2 ∧
    (algn_fill_plane wrap32 sACGT (precalc_of setup_unit5 sAGT.elems) 0 sACGT.len sAGT.len
      zero_buffers 0 0 setup_unit5).1 = 1 ∧
    (algn_fill_plane wrap32 sACGT (precalc_of (expanded_2d (unit_tcm 5) 5) sAGT.elems) 0 sACGT.len
      sAGT.len zero_buffers 0 0 (expanded_2d (unit_tcm 5) 5)).1 = 1 := by
  refine ⟨?_, ?_, ?_, ?_, ?_, ?_, ?_, ?_⟩ <;> decide!


/-! ## The linear backtrace: `algn_backtrace_2d` -/

theorem find_first (p : Step → Bool) (a b c : Step) (ha : p a = true) :
    [a, b, c].find? p = some a := by
  simp [List.find?, ha]

theorem find_second (p : Step → Bool) (a b c : Step) (ha : p a = false) (hb : p b = true) :
    [a, b, c].find? p = some b := by
  simp [List.find?, ha, hb]

theorem find_third (p : Step → Bool) (a b c : Step) (ha : p a = false) (hb : p b = false)
    (hc : p c = true) : [a, b, c].find? p = some c := by
  simp [List.find?, ha, hb, hc]

theorem find_none (p : Step → Bool) (a b c : Step) (ha : p a = false) (hb : p b = false)
    (hc : p c = false) : [a, b, c].find? p = none := by
  simp [List.find?, ha, hb, hc]

theorem flag_test_true (d : Nat) (s : Step) (h : d &&& s.flag ≠ 0) :
    (fun s => decide (d &&& s.flag ≠ 0)) s = true := by
  simp [h]

theorem flag_test_false (d : Nat) (s : Step) (h : ¬ d &&& s.flag ≠ 0) :
    (fun s => decide (d &&& s.flag ≠ 0)) s = false := by
  simpa using h

/-- The loop body of the linear branch takes the preferred step of the direction value. -/
theorem algn_backtrace_2d_step_eq (dir : Nat → Nat) (seq1 seq2 : seq)
    (c : cost_matrices_2d) (l : Nat) (swapped : Int) (st : bt_state) :
    algn_backtrace_2d_step dir seq1 seq2 c l swapped st =
      (preferred_step swapped (dir st.end_.toNat)).bind (take_step seq1 seq2 c l st) := by
  unfold algn_backtrace_2d_step preferred_step
  by_cases hs : swapped = 0
  · rw [if_neg (not_not.mpr hs), if_pos hs]
    by_cases ha : dir st.end_.toNat &&& ALIGN ≠ 0
    · rw [if_pos ha, find_first _ _ _ _ (flag_test_true _ Step.align ha)]
      rfl
    · rw [if_neg ha]
      by_cases hd : dir st.end_.toNat &&& DELETE ≠ 0
      · rw [if_pos hd, find_second _ _ _ _ (flag_test_false _ Step.align ha)
          (flag_test_true _ Step.delete hd)]
        rfl
      · rw [if_neg hd]
        by_cases hi : dir st.end_.toNat &&& INSERT ≠ 0
        · rw [if_pos hi, find_third _ _ _ _ (flag_test_false _ Step.align ha)
            (flag_test_false _ Step.delete hd) (flag_test_true _ Step.insert hi)]
          rfl
        · rw [if_neg hi, find_none _ _ _ _ (flag_test_false _ Step.align ha)
            (flag_test_false _ Step.delete hd) (flag_test_false _ Step.insert hi)]
          rfl
  · rw [if_pos hs, if_neg hs]
    by_cases ha : dir st.end_.toNat &&& ALIGN ≠ 0
    · rw [if_pos ha, find_first _ _ _ _ (flag_test_true _ Step.align ha)]
      rfl
    · rw [if_neg ha]
      by_cases hi : dir st.end_.toNat &&& INSERT ≠ 0
      · rw [if_pos hi, find_second _ _ _ _ (flag_test_false _ Step.align ha)
          (flag_test_true _ Step.insert hi)]
        rfl
      · rw [if_neg hi]
        by_cases hd : dir st.end_.toNat &&& DELETE ≠ 0
        · rw [if_pos hd, find_third _ _ _ _ (flag_test_false _ Step.align ha)
            (flag_test_false _ Step.insert hi) (flag_test_true _ Step.delete hd)]
          rfl
        · rw [if_neg hd, find_none _ _ _ _ (flag_test_false _ Step.align ha)
            (flag_test_false _ Step.insert hi) (flag_test_false _ Step.delete hd)]
          rfl


theorem seq_prepend_some (a : seq) (b : Nat) (h : a.len < a.cap) :
    seq_prepend a b = some { a with elems := b :: a.elems } := by
  unfold seq_prepend
  rw [if_pos h]

theorem len_cons (a : seq) (b : Nat) : ({ a with elems := b :: a.elems } : seq).len = a.len + 1 := by
  unfold seq.len
  simp

/-- Claim C8. In the linear branch of `algn_backtrace_2d` the step taken at a cell is the first
step, in the order ALIGN > DELETE > INSERT when `swapped = 0` and ALIGN > INSERT > DELETE when
`swapped ≠ 0`, whose flag is set in the direction value, whatever other flags are set: with ALIGN
set it is ALIGN; with ALIGN clear and both DELETE and INSERT set it is DELETE when `swapped = 0`
and INSERT otherwise. ALIGN prepends (symbol of `S1`, symbol of `S2`), DELETE (symbol of `S1`,
gap), INSERT (gap, symbol of `S2`). -/
theorem algn_backtrace_2d_priority (dir : Nat → Nat) (seq1 seq2 : seq)
    (c : cost_matrices_2d) (l : Nat) (swapped : Int) (st : bt_state) :
    algn_backtrace_2d_step dir seq1 seq2 c l swapped st =
      (preferred_step swapped (dir st.end_.toNat)).bind (take_step seq1 seq2 c l st) ∧
    (dir st.end_.toNat &&& ALIGN ≠ 0 →
      algn_backtrace_2d_step dir seq1 seq2 c l swapped st = bt_align seq1 seq2 l st) ∧
    (dir st.end_.toNat &&& ALIGN = 0 → dir st.end_.toNat &&& DELETE ≠ 0 →
      dir st.end_.toNat &&& INSERT ≠ 0 →
      algn_backtrace_2d_step dir seq1 seq2 c l swapped st =
        if swapped = 0 then bt_delete seq1 c l st else bt_insert seq2 c st) ∧
    (emit_step seq1 seq2 c l st Step.align).1 = my_get seq1 (st.idx_seq1 - 1) ∧
    (emit_step seq1 seq2 c l st Step.align).2.1 = my_get seq2 (st.idx_seq2 - 1) ∧
    (emit_step seq1 seq2 c l st Step.delete).1 = my_get seq1 (st.idx_seq1 - 1) ∧
    (emit_step seq1 seq2 c l st Step.delete).2.1 = c.gap ∧
    (emit_step seq1 seq2 c l st Step.insert).1 = c.gap ∧
    (emit_step seq1 seq2 c l st Step.insert).2.1 = my_get seq2 (st.idx_seq2 - 1) := by
  refine ⟨algn_backtrace_2d_step_eq dir seq1 seq2 c l swapped st, ?_, ?_, rfl, rfl, rfl, rfl,
    rfl, rfl⟩
  · intro ha
    unfold algn_backtrace_2d_step
    split_ifs <;> rfl
  · intro ha hd hi
    unfold algn_backtrace_2d_step
    have ha' : ¬ dir st.end_.toNat &&& ALIGN ≠ 0 := not_not.mpr ha
    by_cases hs : swapped = 0
    · rw [if_neg (not_not.mpr hs), if_neg ha', if_pos hd, if_pos hs]
    · rw [if_pos hs, if_neg ha', if_pos hi, if_neg hs]

/-- Witness of C8: a cell that holds `DELETE | INSERT`, visited with `swapped = 0` and with
`swapped = 1`. -/
theorem algn_backtrace_2d_priority_witness :
    (algn_backtrace_2d_step (fun _ => DELETE ||| INSERT) sAC sA zero_mtx_2d 2 0
        { end_ := 3, idx_seq1 := 2, idx_seq2 := 2, ret_seq1 := empty_seq 4,
          ret_seq2 := empty_seq 4 } =
      if (0 : Int) = 0 then
        bt_delete sAC zero_mtx_2d 2
          { end_ := 3, idx_seq1 := 2, idx_seq2 := 2, ret_seq1 := empty_seq 4,
            ret_seq2 := empty_seq 4 }
      else
        bt_insert sA zero_mtx_2d
          { end_ := 3, idx_seq1 := 2, idx_seq2 := 2, ret_seq1 := empty_seq 4,
            ret_seq2 := empty_seq 4 }) ∧
    (algn_backtrace_2d_step (fun _ => DELETE ||| INSERT) sAC sA zero_mtx_2d 2 1
        { end_ := 3, idx_seq1 := 2, idx_seq2 := 2, ret_seq1 := empty_seq 4,
          ret_seq2 := empty_seq 4 } =
      if (1 : Int) = 0 then
        bt_delete sAC zero_mtx_2d 2
          { end_ := 3, idx_seq1 := 2, idx_seq2 := 2, ret_seq1 := empty_seq 4,
            ret_seq2 := empty_seq 4 }
      else
        bt_insert sA zero_mtx_2d
          { end_ := 3, idx_seq1 := 2, idx_seq2 := 2, ret_seq1 := empty_seq 4,
            ret_seq2 := empty_seq 4 }) :=
  ⟨(algn_backtrace_2d_priority (fun _ => DELETE ||| INSERT) sAC sA zero_mtx_2d 2 0 _).2.2.1
      (by decide) (by decide) (by decide),
   (algn_backtrace_2d_priority (fun _ => DELETE ||| INSERT) sAC sA zero_mtx_2d 2 1 _).2.2.1
      (by decide) (by decide) (by decide)⟩

/-- With the width `50` and the height `(len1 - len2) + 50` of `algn_nw_limit_2d`, the banded fill
takes one of its two branches that call `algn_fill_plane` when `len1 ≥ 1.5 * len2` or
`len2 ≤ 58 + deltawh`. -/
theorem algn_fill_plane_2_eq_fill_plane (w : Int → Int) (seq1 : seq) (precalc : Nat → Int)
    (precalcMtx seq1_len seq2_len : Nat) (s : nw_buffers) (curRow dirMtx : Nat)
    (c : cost_matrices_2d) (deltawh : Nat) (hNM : seq2_len ≤ seq1_len)
    (hshort : 3 * seq2_len ≤ 2 * seq1_len ∨ seq2_len ≤ 58 + deltawh) :
    algn_fill_plane_2 w seq1 precalc precalcMtx seq1_len seq2_len s curRow dirMtx c 50
        (seq1_len - seq2_len + 50) deltawh =
      algn_fill_plane w seq1 precalc precalcMtx seq1_len seq2_len s curRow dirMtx c := by
  unfold algn_fill_plane_2
  by_cases h1 : 2 * seq1_len ≥ 3 * seq2_len
  · simp only [h1, if_true]
  · have h58 : seq2_len ≤ 58 + deltawh := by omega
    simp only [h1, if_false]
    by_cases hcl : seq1_len - seq2_len + 50 + deltawh > seq1_len
    · simp only [hcl, if_true]
      rw [if_neg (by omega), if_pos (by omega)]
    · simp only [hcl, if_false]
      rw [if_neg (by omega), if_pos (by omega)]

theorem wr_self {α : Type} (m : Nat → α) (i : Nat) : wr m i (m i) = m := by
  funext k
  unfold wr
  split_ifs with h
  · rw [h]
  · rfl

theorem algn_fill_ukk_right_cell_mtx (w : Int → Int) (precalc : Nat → Int) (s : nw_buffers)
    (curRow prevRow gap_row alg_row dirMtx pos : Nat) :
    (algn_fill_ukk_right_cell w precalc s curRow prevRow gap_row alg_row dirMtx pos).mtx =
      wr s.mtx (curRow + pos)
        (min (w (s.mtx (curRow + (pos - 1)) + precalc (gap_row + pos)))
          (w (s.mtx (prevRow + (pos - 1)) + precalc (alg_row + pos)))) := by
  unfold algn_fill_ukk_right_cell
  simp only []
  split_ifs with h1 h2
  · rw [min_eq_left (le_of_lt h1)]
  · rw [min_eq_right (le_of_lt h2)]
  · rw [min_eq_right (by omega)]

theorem algn_fill_ukk_left_cell_mtx (w : Int → Int) (precalc : Nat → Int) (s : nw_buffers)
    (curRow prevRow alg_row dirMtx : Nat) (c : Int) (pos : Nat) :
    (algn_fill_ukk_left_cell w precalc s curRow prevRow alg_row dirMtx c pos).mtx =
      wr s.mtx (curRow + pos)
        (min (w (s.mtx (prevRow + pos) + c))
          (w (s.mtx (prevRow + (pos - 1)) + precalc (alg_row + pos)))) := by
  unfold algn_fill_ukk_left_cell
  simp only []
  split_ifs with h1 h2
  · rw [min_eq_left (le_of_lt h1)]
  · rw [min_eq_right (le_of_lt h2)]
  · rw [min_eq_left (by omega)]

theorem algn_fill_last_column_mtx (w : Int → Int) (s : nw_buffers) (curRow prevRow : Nat) (tlc : Int)
    (l dirMtx : Nat) (hl : 0 < l) :
    (algn_fill_last_column w s curRow prevRow tlc l dirMtx).mtx =
      wr s.mtx (curRow + l) (min (w (tlc + s.mtx (prevRow + l))) (s.mtx (curRow + l))) := by
  unfold algn_fill_last_column
  simp only [gt_iff_lt, hl, if_true]
  split_ifs with h1 h2
  · rw [min_eq_left (le_of_lt h1)]
  · rw [min_eq_right (by omega), wr_self]
  · rw [min_eq_right (by omega), wr_self]

/-- Loop invariant of `algn_fill_row` for the cost buffer alone: with the cells `i - 1 ..` of the
previous row holding `P` and the cell left of `i` holding `V (i - 1)`, the loop writes `V j` to
every cell `j` it visits and nothing else. -/
theorem algn_fill_row_loop_mtx (w : Int → Int) (precalc : Nat → Int)
    (curRow prevRow gap_row alg_row dirMtx : Nat) (c : Int) (N : Nat) (P V : Nat → Int)
    (hdisj : ∀ j k, j < N → k < N → prevRow + j ≠ curRow + k)
    (fuel : Nat) :
    ∀ (i : Nat) (s : nw_buffers), 1 ≤ i → i + fuel ≤ N →
      (∀ j, i - 1 ≤ j → j < i + fuel → s.mtx (prevRow + j) = P j) →
      s.mtx (curRow + (i - 1)) = V (i - 1) →
      (∀ j, i ≤ j → j < i + fuel →
        V j = (algn_fill_row_cell (w (P j + c)) (w (V (j - 1) + precalc (gap_row + j)))
          (w (P (j - 1) + precalc (alg_row + j)))).1) →
      (∀ j, i ≤ j → j < i + fuel →
        (algn_fill_row_loop w precalc curRow prevRow gap_row alg_row dirMtx c fuel i s).mtx
          (curRow + j) = V j) ∧
      (∀ k, (k < curRow + i ∨ curRow + i + fuel ≤ k) →
        (algn_fill_row_loop w precalc curRow prevRow gap_row alg_row dirMtx c fuel i s).mtx k
          = s.mtx k) := by
  induction fuel with
  | zero =>
    intro i s _ _ _ _ _
    refine ⟨?_, ?_⟩
    · intro j h1 h2; omega
    · intro k _; rfl
  | succ n ih =>
    intro i s hi hN hP hcur hV
    simp only [algn_fill_row_loop]
    have hPi : s.mtx (prevRow + i) = P i := hP i (by omega) (by omega)
    have hPi1 : s.mtx (prevRow + (i - 1)) = P (i - 1) := hP (i - 1) (by omega) (by omega)
    rw [hPi, hPi1, hcur, ← hV i (le_refl i) (by omega)]
    obtain ⟨h1, h2⟩ := ih (i + 1)
      { mtx := wr s.mtx (curRow + i) (V i),
        dir := wr s.dir (dirMtx + i) (algn_fill_row_cell (w (P i + c))
          (w (V (i - 1) + precalc (gap_row + i))) (w (P (i - 1) + precalc (alg_row + i)))).2 }
      (by omega) (by omega)
      (by
        intro j hj1 hj2
        show wr s.mtx (curRow + i) (V i) (prevRow + j) = P j
        rw [wr_other _ _ _ _ (hdisj j i (by omega) (by omega))]
        exact hP j (by omega) (by omega))
      (by
        show wr s.mtx (curRow + i) (V i) (curRow + (i + 1 - 1)) = V (i + 1 - 1)
        have : i + 1 - 1 = i := by omega
        rw [this, wr_same])
      (by
        intro j hj1 hj2
        exact hV j (by omega) (by omega))
    refine ⟨?_, ?_⟩
    · intro j hj1 hj2
      by_cases hji : j = i
      · subst hji
        rw [h2 (curRow + j) (Or.inl (by omega))]
        exact wr_same _ _ _
      · exact h1 j (by omega) (by omega)
    · intro k hk
      rw [h2 k (by omega)]
      exact wr_other _ _ _ _ (by omega)


theorem row_pair_disj (a N cur prev : Nat) (hp : row_pair a N cur prev) :
    ∀ j k, j < N → k < N → prev + j ≠ cur + k := by
  intro j k hj hk
  rcases hp with ⟨h1, h2⟩ | ⟨h1, h2⟩ <;> omega

theorem row_pair_swap (a N cur prev : Nat) (hp : row_pair a N cur prev) :
    row_pair a N prev cur := by
  rcases hp with ⟨h1, h2⟩ | ⟨h1, h2⟩
  · exact Or.inr ⟨h2, h1⟩
  · exact Or.inl ⟨h2, h1⟩

theorem choose_other_row_pair (a N cur prev : Nat) (hN : 1 ≤ N) (hp : row_pair a N cur prev) :
    choose_other cur a (a + N) = prev := by
  unfold choose_other
  rcases hp with ⟨h1, h2⟩ | ⟨h1, h2⟩
  · rw [if_pos h1.symm, h2]
  · rw [if_neg (by omega), h2]

/-- One iteration of `algn_fill_extending_right`: the row of `len` cells at `curRow` holds row `i`
of the table `T`. -/
theorem algn_fill_extending_right_row (w : Int → Int) (seq1 : seq) (precalc : Nat → Int) (precalcMtx N : Nat)
    (c : cost_matrices_2d) (a : Nat) (T : Nat → Nat → Int) (i len : Nat) (r : row_state)
    (hL : 2 ≤ len) (hLN : len ≤ N)
    (hp : row_pair a N r.curRow r.prevRow)
    (hprev : ∀ j, j < len - 1 → r.s.mtx (r.prevRow + j) = T (i - 1) j)
    (hok : extending_right_row_ok w seq1 precalc precalcMtx N c T i len) :
    ∀ j, j < len →
      (algn_fill_ukk_right_cell w precalc
        (algn_fill_row w precalc
          (algn_fill_first_cell w r.s r.curRow (r.s.mtx r.prevRow) r.dirMtx
            (precalc (precalcMtx + my_get seq1 i * N)))
          r.curRow r.prevRow (precalcMtx + c.gap * N) (precalcMtx + my_get seq1 i * N) r.dirMtx
          (cm_calc_cost c.cost (my_get seq1 i) c.gap c.lcm) 1 (len - 2))
        r.curRow r.prevRow (precalcMtx + c.gap * N) (precalcMtx + my_get seq1 i * N) r.dirMtx
        (len - 1)).mtx (r.curRow + j) = T i j := by
  obtain ⟨h0, hmid, hlast⟩ := hok
  have hdisj := row_pair_disj a N _ _ hp
  have hP0 : r.s.mtx r.prevRow = T (i - 1) 0 := hprev 0 (by omega)
  obtain ⟨hA, hB⟩ := algn_fill_row_loop_mtx w precalc r.curRow r.prevRow (precalcMtx + c.gap * N)
    (precalcMtx + my_get seq1 i * N) r.dirMtx (cm_calc_cost c.cost (my_get seq1 i) c.gap c.lcm)
    N (T (i - 1)) (T i) hdisj (len - 2 + 1 - 1) 1
    (algn_fill_first_cell w r.s r.curRow (r.s.mtx r.prevRow) r.dirMtx
      (precalc (precalcMtx + my_get seq1 i * N)))
    (le_refl 1) (by omega)
    (by
      intro j _ hj
      show wr r.s.mtx r.curRow _ (r.prevRow + j) = T (i - 1) j
      rw [wr_other _ _ _ _ (by have := hdisj j 0 (by omega) (by omega); omega)]
      exact hprev j (by omega))
    (by
      show wr r.s.mtx r.curRow _ (r.curRow + (1 - 1)) = T i (1 - 1)
      rw [Nat.sub_self, Nat.add_zero, wr_same, hP0, h0])
    (by
      intro j hj1 hj2
      exact hmid j (by omega) hj1)
  have hcur : ∀ j, j < len - 1 →
      (algn_fill_row w precalc
        (algn_fill_first_cell w r.s r.curRow (r.s.mtx r.prevRow) r.dirMtx
          (precalc (precalcMtx + my_get seq1 i * N)))
        r.curRow r.prevRow (precalcMtx + c.gap * N) (precalcMtx + my_get seq1 i * N) r.dirMtx
        (cm_calc_cost c.cost (my_get seq1 i) c.gap c.lcm) 1 (len - 2)).mtx (r.curRow + j)
        = T i j := by
    intro j hj
    by_cases hj0 : j = 0
    · subst hj0
      unfold algn_fill_row
      rw [hB _ (Or.inl (by omega))]
      show wr r.s.mtx r.curRow _ (r.curRow + 0) = T i 0
      rw [Nat.add_zero, wr_same, hP0, h0]
    · exact hA j (by omega) (by omega)
  have hprev2 : ∀ j, j < len - 1 →
      (algn_fill_row w precalc
        (algn_fill_first_cell w r.s r.curRow (r.s.mtx r.prevRow) r.dirMtx
          (precalc (precalcMtx + my_get seq1 i * N)))
        r.curRow r.prevRow (precalcMtx + c.gap * N) (precalcMtx + my_get seq1 i * N) r.dirMtx
        (cm_calc_cost c.cost (my_get seq1 i) c.gap c.lcm) 1 (len - 2)).mtx (r.prevRow + j)
        = T (i - 1) j := by
    intro j hj
    unfold algn_fill_row
    rw [hB _ (by rcases hp with ⟨h1, h2⟩ | ⟨h1, h2⟩ <;> omega)]
    show wr r.s.mtx r.curRow _ (r.prevRow + j) = T (i - 1) j
    rw [wr_other _ _ _ _ (by have := hdisj j 0 (by omega) (by omega); omega)]
    exact hprev j hj
  intro j hj
  rw [algn_fill_ukk_right_cell_mtx]
  by_cases hjl : j = len - 1
  · subst hjl
    rw [wr_same, hcur _ (by omega), hprev2 _ (by omega), hlast]
  · rw [wr_other _ _ _ _ (by omega)]
    exact hcur j (by omega)

/-- Loop invariant of `algn_fill_extending_right`: after the rows `i .. i + fuel - 1`, the row at
`prevRow` holds row `i + fuel - 1` of the table `T`. -/
theorem algn_fill_extending_right_loop_mtx (w : Int → Int) (seq1 : seq) (precalc : Nat → Int)
    (precalcMtx N : Nat) (c : cost_matrices_2d) (a : Nat) (T : Nat → Nat → Int) (fuel : Nat) :
    ∀ (i len : Nat) (r : row_state), 1 ≤ i → 2 ≤ len → len + fuel ≤ N + 1 →
      row_pair a N r.curRow r.prevRow →
      (∀ j, j < len - 1 → r.s.mtx (r.prevRow + j) = T (i - 1) j) →
      (∀ k, k < fuel → extending_right_row_ok w seq1 precalc precalcMtx N c T (i + k) (len + k)) →
      row_pair a N
        (algn_fill_extending_right_loop w seq1 precalc precalcMtx N c (precalcMtx + c.gap * N)
          fuel i len r).curRow
        (algn_fill_extending_right_loop w seq1 precalc precalcMtx N c (precalcMtx + c.gap * N)
          fuel i len r).prevRow ∧
      ∀ j, j < len + fuel - 1 →
        (algn_fill_extending_right_loop w seq1 precalc precalcMtx N c (precalcMtx + c.gap * N)
          fuel i len r).s.mtx
          ((algn_fill_extending_right_loop w seq1 precalc precalcMtx N c (precalcMtx + c.gap * N)
            fuel i len r).prevRow + j) = T (i + fuel - 1) j := by
  induction fuel with
  | zero =>
    intro i len r _ _ _ hp hprev _
    exact ⟨hp, fun j hj => hprev j hj⟩
  | succ n ih =>
    intro i len r hi hL hLN hp hprev hok
    simp only [algn_fill_extending_right_loop]
    have hrow := algn_fill_extending_right_row w seq1 precalc precalcMtx N c a T i len r hL
      (by omega) hp hprev (hok 0 (by omega))
    rw [show i + (n + 1) - 1 = i + 1 + n - 1 by omega,
      show len + (n + 1) - 1 = len + 1 + n - 1 by omega]
    refine ih (i + 1) (len + 1) _ (by omega) (by omega) (by omega) ?_ ?_ ?_
    · exact row_pair_swap a N _ _ hp
    · intro j hj
      have hj2 := hrow j (by omega)
      rw [show i + 1 - 1 = i by omega]
      exact hj2
    · intro k hk
      have := hok (k + 1) (by omega)
      rw [show i + (k + 1) = i + 1 + k by omega, show len + (k + 1) = len + 1 + k by omega]
        at this
      exact this


/-- One iteration of `algn_fill_no_extending`: the row at `curRow` holds row `i` of the table
`T`. -/
theorem algn_fill_no_extending_row (w : Int → Int) (seq1 : seq) (precalc : Nat → Int) (precalcMtx N : Nat)
    (c : cost_matrices_2d) (a : Nat) (T : Nat → Nat → Int) (i : Nat) (r : row_state)
    (hN : 2 ≤ N)
    (hp : row_pair a N r.curRow r.prevRow)
    (hprev : ∀ j, j < N → r.s.mtx (r.prevRow + j) = T (i - 1) j)
    (hok : no_extending_row_ok w seq1 precalc precalcMtx N c T i) :
    ∀ j, j < N →
      (algn_fill_last_column w
        (algn_fill_row w precalc
          (algn_fill_first_cell w r.s r.curRow (r.s.mtx r.prevRow) r.dirMtx
            (precalc (precalcMtx + my_get seq1 i * N)))
          r.curRow r.prevRow (precalcMtx + c.gap * N) (precalcMtx + my_get seq1 i * N) r.dirMtx
          (cm_calc_cost c.cost (my_get seq1 i) c.gap c.lcm) 1 (N - 1))
        r.curRow r.prevRow (cm_get_tail_cost c (my_get seq1 i)) (N - 1) r.dirMtx).mtx
        (r.curRow + j) = T i j := by
  obtain ⟨h0, hmid, hlast⟩ := hok
  have hdisj := row_pair_disj a N _ _ hp
  have hP0 : r.s.mtx r.prevRow = T (i - 1) 0 := hprev 0 (by omega)
  obtain ⟨hA, hB⟩ := algn_fill_row_loop_mtx w precalc r.curRow r.prevRow (precalcMtx + c.gap * N)
    (precalcMtx + my_get seq1 i * N) r.dirMtx (cm_calc_cost c.cost (my_get seq1 i) c.gap c.lcm)
    N (T (i - 1))
    (fun j => if j = N - 1 then fill_row_value w seq1 precalc precalcMtx N c T i (N - 1) else T i j)
    hdisj (N - 1 + 1 - 1) 1
    (algn_fill_first_cell w r.s r.curRow (r.s.mtx r.prevRow) r.dirMtx
      (precalc (precalcMtx + my_get seq1 i * N)))
    (le_refl 1) (by omega)
    (by
      intro j _ hj
      show wr r.s.mtx r.curRow _ (r.prevRow + j) = T (i - 1) j
      rw [wr_other _ _ _ _ (by have := hdisj j 0 (by omega) (by omega); omega)]
      exact hprev j (by omega))
    (by
      show wr r.s.mtx r.curRow _ (r.curRow + (1 - 1)) = _
      beta_reduce
      rw [Nat.sub_self, Nat.add_zero, wr_same, hP0, if_neg (by omega), h0])
    (by
      intro j hj1 hj2
      beta_reduce
      rw [if_neg (show ¬ j - 1 = N - 1 by omega)]
      by_cases hjN : j = N - 1
      · rw [if_pos hjN, hjN]
        rfl
      · rw [if_neg hjN]
        exact hmid j (by omega) hj1)
  have hcur : ∀ j, j < N - 1 →
      (algn_fill_row w precalc
        (algn_fill_first_cell w r.s r.curRow (r.s.mtx r.prevRow) r.dirMtx
          (precalc (precalcMtx + my_get seq1 i * N)))
        r.curRow r.prevRow (precalcMtx + c.gap * N) (precalcMtx + my_get seq1 i * N) r.dirMtx
        (cm_calc_cost c.cost (my_get seq1 i) c.gap c.lcm) 1 (N - 1)).mtx (r.curRow + j)
        = T i j := by
    intro j hj
    by_cases hj0 : j = 0
    · subst hj0
      unfold algn_fill_row
      rw [hB _ (Or.inl (by omega))]
      show wr r.s.mtx r.curRow _ (r.curRow + 0) = T i 0
      rw [Nat.add_zero, wr_same, hP0, h0]
    · have := hA j (by omega) (by omega)
      beta_reduce at this
      rw [if_neg (by omega)] at this
      exact this
  have hprev2 : ∀ j, j < N →
      (algn_fill_row w precalc
        (algn_fill_first_cell w r.s r.curRow (r.s.mtx r.prevRow) r.dirMtx
          (precalc (precalcMtx + my_get seq1 i * N)))
        r.curRow r.prevRow (precalcMtx + c.gap * N) (precalcMtx + my_get seq1 i * N) r.dirMtx
        (cm_calc_cost c.cost (my_get seq1 i) c.gap c.lcm) 1 (N - 1)).mtx (r.prevRow + j)
        = T (i - 1) j := by
    intro j hj
    unfold algn_fill_row
    rw [hB _ (by rcases hp with ⟨h1, h2⟩ | ⟨h1, h2⟩ <;> omega)]
    show wr r.s.mtx r.curRow _ (r.prevRow + j) = T (i - 1) j
    rw [wr_other _ _ _ _ (by have := hdisj j 0 (by omega) (by omega); omega)]
    exact hprev j hj
  intro j hj
  rw [algn_fill_last_column_mtx w _ _ _ _ _ _ (by omega)]
  by_cases hjl : j = N - 1
  · subst hjl
    have hlastcell := hA (N - 1) (by omega) (by omega)
    beta_reduce at hlastcell
    rw [if_pos rfl] at hlastcell
    rw [wr_same, hprev2 _ (by omega)]
    unfold algn_fill_row
    rw [hlastcell, hlast]
  · rw [wr_other _ _ _ _ (by omega)]
    exact hcur j (by omega)

/-- Loop invariant of `algn_fill_no_extending`. -/
theorem algn_fill_no_extending_loop_mtx (w : Int → Int) (seq1 : seq) (precalc : Nat → Int)
    (precalcMtx N : Nat) (c : cost_matrices_2d) (a : Nat) (T : Nat → Nat → Int) (fuel : Nat) :
    ∀ (i : Nat) (r : row_state), 1 ≤ i → 2 ≤ N →
      row_pair a N r.curRow r.prevRow →
      (∀ j, j < N → r.s.mtx (r.prevRow + j) = T (i - 1) j) →
      (∀ k, k < fuel → no_extending_row_ok w seq1 precalc precalcMtx N c T (i + k)) →
      row_pair a N
        (algn_fill_no_extending_loop w seq1 precalc precalcMtx N c (precalcMtx + c.gap * N)
          fuel i r).curRow
        (algn_fill_no_extending_loop w seq1 precalc precalcMtx N c (precalcMtx + c.gap * N)
          fuel i r).prevRow ∧
      ∀ j, j < N →
        (algn_fill_no_extending_loop w seq1 precalc precalcMtx N c (precalcMtx + c.gap * N)
          fuel i r).s.mtx
          ((algn_fill_no_extending_loop w seq1 precalc precalcMtx N c (precalcMtx + c.gap * N)
            fuel i r).prevRow + j) = T (i + fuel - 1) j := by
  induction fuel with
  | zero =>
    intro i r _ _ hp hprev _
    exact ⟨hp, fun j hj => hprev j hj⟩
  | succ n ih =>
    intro i r hi hN hp hprev hok
    simp only [algn_fill_no_extending_loop]
    have hrow := algn_fill_no_extending_row w seq1 precalc precalcMtx N c a T i r hN hp hprev
      (hok 0 (by omega))
    rw [show i + (n + 1) - 1 = i + 1 + n - 1 by omega]
    refine ih (i + 1) _ (by omega) hN ?_ ?_ ?_
    · exact row_pair_swap a N _ _ hp
    · intro j hj
      have hj2 := hrow j hj
      rw [show i + 1 - 1 = i by omega]
      exact hj2
    · intro k hk
      have := hok (k + 1) (by omega)
      rw [show i + (k + 1) = i + 1 + k by omega] at this
      exact this

/-- One iteration of `algn_fill_extending_left`: the cells `start_column .. N - 1` of the row at
`curRow` hold row `i` of the table `T`. -/
theorem algn_fill_extending_left_row (w : Int → Int) (seq1 : seq) (precalc : Nat → Int) (precalcMtx N : Nat)
    (c : cost_matrices_2d) (a : Nat) (T : Nat → Nat → Int) (i st len : Nat) (r : row_state)
    (hst : 1 ≤ st) (hstN : st + 2 ≤ N) (hlen : st + len = N)
    (hp : row_pair a N r.curRow r.prevRow)
    (hprev : ∀ j, st - 1 ≤ j → j < N → r.s.mtx (r.prevRow + j) = T (i - 1) j)
    (hok : extending_left_row_ok w seq1 precalc precalcMtx N c T i st) :
    ∀ j, st ≤ j → j < N →
      (algn_fill_last_column w
        (algn_fill_row w precalc
          (algn_fill_ukk_left_cell w precalc r.s r.curRow r.prevRow
            (precalcMtx + my_get seq1 i * N) r.dirMtx
            (cm_calc_cost c.cost (my_get seq1 i) c.gap c.lcm) st)
          r.curRow r.prevRow (precalcMtx + c.gap * N) (precalcMtx + my_get seq1 i * N) r.dirMtx
          (cm_calc_cost c.cost (my_get seq1 i) c.gap c.lcm) (st + 1) (st + len - 1))
        r.curRow r.prevRow (cm_get_tail_cost c (my_get seq1 i)) (st + len - 1) r.dirMtx).mtx
        (r.curRow + j) = T i j := by
  obtain ⟨h0, hmid, hlast⟩ := hok
  have hdisj := row_pair_disj a N _ _ hp
  have hl : st + len - 1 = N - 1 := by omega
  rw [hl]
  have hs1 : (algn_fill_ukk_left_cell w precalc r.s r.curRow r.prevRow
      (precalcMtx + my_get seq1 i * N) r.dirMtx
      (cm_calc_cost c.cost (my_get seq1 i) c.gap c.lcm) st).mtx =
      wr r.s.mtx (r.curRow + st) (T i st) := by
    rw [algn_fill_ukk_left_cell_mtx, hprev st (by omega) (by omega),
      hprev (st - 1) (by omega) (by omega), h0]
  obtain ⟨hA, hB⟩ := algn_fill_row_loop_mtx w precalc r.curRow r.prevRow (precalcMtx + c.gap * N)
    (precalcMtx + my_get seq1 i * N) r.dirMtx (cm_calc_cost c.cost (my_get seq1 i) c.gap c.lcm)
    N (T (i - 1))
    (fun j => if j = N - 1 then fill_row_value w seq1 precalc precalcMtx N c T i (N - 1) else T i j)
    hdisj (N - 1 + 1 - (st + 1)) (st + 1)
    (algn_fill_ukk_left_cell w precalc r.s r.curRow r.prevRow
      (precalcMtx + my_get seq1 i * N) r.dirMtx
      (cm_calc_cost c.cost (my_get seq1 i) c.gap c.lcm) st)
    (by omega) (by omega)
    (by
      intro j hj1 hj
      rw [hs1, wr_other _ _ _ _ (by have := hdisj j st (by omega) (by omega); omega)]
      exact hprev j (by omega) (by omega))
    (by
      beta_reduce
      rw [hs1, show st + 1 - 1 = st by omega, wr_same, if_neg (by omega)])
    (by
      intro j hj1 hj2
      beta_reduce
      rw [if_neg (show ¬ j - 1 = N - 1 by omega)]
      by_cases hjN : j = N - 1
      · rw [if_pos hjN, hjN]
        rfl
      · rw [if_neg hjN]
        exact hmid j (by omega) hj1)
  have hprev2 : ∀ j, st - 1 ≤ j → j < N →
      (algn_fill_row w precalc
        (algn_fill_ukk_left_cell w precalc r.s r.curRow r.prevRow
          (precalcMtx + my_get seq1 i * N) r.dirMtx
          (cm_calc_cost c.cost (my_get seq1 i) c.gap c.lcm) st)
        r.curRow r.prevRow (precalcMtx + c.gap * N) (precalcMtx + my_get seq1 i * N) r.dirMtx
        (cm_calc_cost c.cost (my_get seq1 i) c.gap c.lcm) (st + 1) (N - 1)).mtx (r.prevRow + j)
        = T (i - 1) j := by
    intro j hj1 hj
    unfold algn_fill_row
    rw [hB _ (by rcases hp with ⟨h1, h2⟩ | ⟨h1, h2⟩ <;> omega), hs1,
      wr_other _ _ _ _ (by have := hdisj j st (by omega) (by omega); omega)]
    exact hprev j hj1 hj
  have hcur : ∀ j, st ≤ j → j < N - 1 →
      (algn_fill_row w precalc
        (algn_fill_ukk_left_cell w precalc r.s r.curRow r.prevRow
          (precalcMtx + my_get seq1 i * N) r.dirMtx
          (cm_calc_cost c.cost (my_get seq1 i) c.gap c.lcm) st)
        r.curRow r.prevRow (precalcMtx + c.gap * N) (precalcMtx + my_get seq1 i * N) r.dirMtx
        (cm_calc_cost c.cost (my_get seq1 i) c.gap c.lcm) (st + 1) (N - 1)).mtx (r.curRow + j)
        = T i j := by
    intro j hj1 hj
    by_cases hj0 : j = st
    · subst hj0
      unfold algn_fill_row
      rw [hB _ (Or.inl (by omega)), hs1, wr_same]
    · have := hA j (by omega) (by omega)
      beta_reduce at this
      rw [if_neg (by omega)] at this
      exact this
  intro j hj1 hj
  rw [algn_fill_last_column_mtx w _ _ _ _ _ _ (by omega)]
  by_cases hjl : j = N - 1
  · subst hjl
    have hlastcell := hA (N - 1) (by omega) (by omega)
    beta_reduce at hlastcell
    rw [if_pos rfl] at hlastcell
    rw [wr_same, hprev2 _ (by omega) (by omega)]
    unfold algn_fill_row
    rw [hlastcell, hlast]
  · rw [wr_other _ _ _ _ (by omega)]
    exact hcur j hj1 (by omega)

/-- Loop invariant of `algn_fill_extending_left`. -/
theorem algn_fill_extending_left_loop_mtx (w : Int → Int) (seq1 : seq) (precalc : Nat → Int)
    (precalcMtx N : Nat) (c : cost_matrices_2d) (a : Nat) (T : Nat → Nat → Int) (fuel : Nat) :
    ∀ (i st len : Nat) (r : row_state), 1 ≤ i → 1 ≤ st → st + fuel + 1 ≤ N → st + len = N →
      row_pair a N r.curRow r.prevRow →
      (∀ j, st - 1 ≤ j → j < N → r.s.mtx (r.prevRow + j) = T (i - 1) j) →
      (∀ k, k < fuel → extending_left_row_ok w seq1 precalc precalcMtx N c T (i + k) (st + k)) →
      row_pair a N
        (algn_fill_extending_left_loop w seq1 precalc precalcMtx N c (precalcMtx + c.gap * N)
          fuel i st len r).curRow
        (algn_fill_extending_left_loop w seq1 precalc precalcMtx N c (precalcMtx + c.gap * N)
          fuel i st len r).prevRow ∧
      ∀ j, st + fuel - 1 ≤ j → j < N →
        (algn_fill_extending_left_loop w seq1 precalc precalcMtx N c (precalcMtx + c.gap * N)
          fuel i st len r).s.mtx
          ((algn_fill_extending_left_loop w seq1 precalc precalcMtx N c (precalcMtx + c.gap * N)
            fuel i st len r).prevRow + j) = T (i + fuel - 1) j := by
  induction fuel with
  | zero =>
    intro i st len r _ _ _ _ hp hprev _
    exact ⟨hp, fun j hj1 hj => hprev j hj1 hj⟩
  | succ n ih =>
    intro i st len r hi hst hstN hlen hp hprev hok
    simp only [algn_fill_extending_left_loop]
    have hrow := algn_fill_extending_left_row w seq1 precalc precalcMtx N c a T i st len r hst
      (by omega) hlen hp hprev (hok 0 (by omega))
    rw [show i + (n + 1) - 1 = i + 1 + n - 1 by omega,
      show st + (n + 1) - 1 = st + 1 + n - 1 by omega]
    refine ih (i + 1) (st + 1) (len - 1) _ (by omega) (by omega) (by omega) (by omega) ?_ ?_ ?_
    · exact row_pair_swap a N _ _ hp
    · intro j hj1 hj
      have hj2 := hrow j (by omega) hj
      rw [show i + 1 - 1 = i by omega]
      exact hj2
    · intro k hk
      have := hok (k + 1) (by omega)
      rw [show i + (k + 1) = i + 1 + k by omega, show st + (k + 1) = st + 1 + k by omega]
        at this
      exact this

/-- Loop invariant of `algn_fill_first_row`. -/
theorem algn_fill_first_row_loop_mtx (w : Int → Int) (precalc : Nat → Int) (curRow dirMtx gap_row : Nat)
    (V : Nat → Int) (fuel : Nat) :
    ∀ (i : Nat) (s : nw_buffers), 1 ≤ i → s.mtx (curRow + (i - 1)) = V (i - 1) →
      (∀ j, i ≤ j → j < i + fuel → V j = w (V (j - 1) + precalc (gap_row + j))) →
      (∀ j, i ≤ j → j < i + fuel →
        (algn_fill_first_row_loop w precalc curRow dirMtx gap_row fuel i s).mtx (curRow + j)
          = V j) ∧
      (∀ k, k < curRow + i →
        (algn_fill_first_row_loop w precalc curRow dirMtx gap_row fuel i s).mtx k = s.mtx k) := by
  induction fuel with
  | zero =>
    intro i s _ _ _
    exact ⟨fun j h1 h2 => by omega, fun k _ => rfl⟩
  | succ n ih =>
    intro i s hi hcur hV
    simp only [algn_fill_first_row_loop]
    rw [hcur, ← hV i (le_refl i) (by omega)]
    obtain ⟨h1, h2⟩ := ih (i + 1)
      { mtx := wr s.mtx (curRow + i) (V i), dir := wr s.dir (dirMtx + i) INSERT }
      (by omega)
      (by
        show wr s.mtx (curRow + i) (V i) (curRow + (i + 1 - 1)) = V (i + 1 - 1)
        rw [show i + 1 - 1 = i by omega, wr_same])
      (fun j hj1 hj2 => hV j (by omega) (by omega))
    refine ⟨?_, ?_⟩
    · intro j hj1 hj2
      by_cases hji : j = i
      · subst hji
        rw [h2 (curRow + j) (by omega)]
        exact wr_same _ _ _
      · exact h1 j (by omega) (by omega)
    · intro k hk
      rw [h2 k (by omega)]
      exact wr_other _ _ _ _ (by omega)

/-- Effect of `algn_fill_first_row` on the cost buffer. -/
theorem algn_fill_first_row_mtx (w : Int → Int) (precalc : Nat → Int) (s : nw_buffers)
    (curRow dirMtx len gap_row : Nat) (V : Nat → Int) (h0 : V 0 = 0)
    (hV : ∀ j, j < len → 1 ≤ j → V j = w (V (j - 1) + precalc (gap_row + j))) :
    ∀ j, j < len →
      (algn_fill_first_row w precalc s curRow dirMtx len gap_row).mtx (curRow + j) = V j := by
  unfold algn_fill_first_row
  obtain ⟨h1, h2⟩ := algn_fill_first_row_loop_mtx w precalc curRow dirMtx gap_row V (len - 1) 1
    { mtx := wr s.mtx curRow 0, dir := wr s.dir dirMtx ALIGN } (le_refl 1)
    (by
      show wr s.mtx curRow 0 (curRow + (1 - 1)) = V (1 - 1)
      rw [Nat.sub_self, Nat.add_zero, wr_same, h0])
    (fun j hj1 hj2 => hV j (by omega) hj1)
  intro j hj
  by_cases hj0 : j = 0
  · subst hj0
    rw [h2 _ (by omega)]
    show wr s.mtx curRow 0 (curRow + 0) = V 0
    rw [Nat.add_zero, wr_same, h0]
  · exact h1 j (by omega) (by omega)


/-- Effect of `algn_fill_extending_right` on the cost buffer: the row that the caller takes as the
previous one holds row `end_row - 1` of the table `T`. -/
theorem algn_fill_extending_right_mtx (w : Int → Int) (seq1 : seq) (precalc : Nat → Int)
    (precalcMtx N : Nat) (c : cost_matrices_2d) (a : Nat) (T : Nat → Nat → Int)
    (s : nw_buffers) (curRow prevRow dirMtx start_row end_row len : Nat)
    (hi : 1 ≤ start_row) (hL : 2 ≤ len) (hLN : len + (end_row - start_row) ≤ N + 1)
    (hN1 : 1 ≤ N) (hp : row_pair a N curRow prevRow)
    (hprev : ∀ j, j < len - 1 → s.mtx (prevRow + j) = T (start_row - 1) j)
    (hok : ∀ k, k < end_row - start_row →
      extending_right_row_ok w seq1 precalc precalcMtx N c T (start_row + k) (len + k)) :
    row_pair a N
      (algn_fill_extending_right w seq1 precalc precalcMtx N s curRow prevRow dirMtx c
        start_row end_row len).1
      (choose_other (algn_fill_extending_right w seq1 precalc precalcMtx N s curRow prevRow dirMtx c
        start_row end_row len).1 a (a + N)) ∧
    ∀ j, j < len + (end_row - start_row) - 1 →
      (algn_fill_extending_right w seq1 precalc precalcMtx N s curRow prevRow dirMtx c
        start_row end_row len).2.mtx
        (choose_other (algn_fill_extending_right w seq1 precalc precalcMtx N s curRow prevRow
          dirMtx c start_row end_row len).1 a (a + N) + j) =
        T (start_row + (end_row - start_row) - 1) j := by
  obtain ⟨h1, h2⟩ := algn_fill_extending_right_loop_mtx w seq1 precalc precalcMtx N c a T
    (end_row - start_row) start_row len
    { curRow := curRow, prevRow := prevRow, dirMtx := dirMtx, s := s } hi hL hLN hp hprev hok
  unfold algn_fill_extending_right
  simp only []
  rw [choose_other_row_pair a N _ _ hN1 h1]
  exact ⟨h1, h2⟩

/-- Effect of `algn_fill_no_extending` on the cost buffer. -/
theorem algn_fill_no_extending_mtx (w : Int → Int) (seq1 : seq) (precalc : Nat → Int)
    (precalcMtx N : Nat) (c : cost_matrices_2d) (a : Nat) (T : Nat → Nat → Int)
    (s : nw_buffers) (curRow prevRow dirMtx start_row end_row : Nat)
    (hi : 1 ≤ start_row) (hN : 2 ≤ N) (hp : row_pair a N curRow prevRow)
    (hprev : ∀ j, j < N → s.mtx (prevRow + j) = T (start_row - 1) j)
    (hok : ∀ k, k < end_row - start_row →
      no_extending_row_ok w seq1 precalc precalcMtx N c T (start_row + k)) :
    row_pair a N
      (algn_fill_no_extending w seq1 precalc precalcMtx N s curRow prevRow dirMtx c
        start_row end_row).1
      (choose_other (algn_fill_no_extending w seq1 precalc precalcMtx N s curRow prevRow dirMtx c
        start_row end_row).1 a (a + N)) ∧
    ∀ j, j < N →
      (algn_fill_no_extending w seq1 precalc precalcMtx N s curRow prevRow dirMtx c
        start_row end_row).2.mtx
        (choose_other (algn_fill_no_extending w seq1 precalc precalcMtx N s curRow prevRow
          dirMtx c start_row end_row).1 a (a + N) + j) =
        T (start_row + (end_row - start_row) - 1) j := by
  obtain ⟨h1, h2⟩ := algn_fill_no_extending_loop_mtx w seq1 precalc precalcMtx N c a T
    (end_row - start_row) start_row
    { curRow := curRow, prevRow := prevRow, dirMtx := dirMtx, s := s } hi hN hp hprev hok
  unfold algn_fill_no_extending
  simp only []
  rw [choose_other_row_pair a N _ _ (by omega) h1]
  exact ⟨h1, h2⟩

/-- Effect of `algn_fill_extending_left` on the cost buffer. -/
theorem algn_fill_extending_left_mtx (w : Int → Int) (seq1 : seq) (precalc : Nat → Int)
    (precalcMtx N : Nat) (c : cost_matrices_2d) (a : Nat) (T : Nat → Nat → Int)
    (s : nw_buffers) (curRow prevRow dirMtx start_row end_row st len : Nat)
    (hi : 1 ≤ start_row) (hst : 1 ≤ st) (hstN : st + (end_row - start_row) + 1 ≤ N)
    (hlen : st + len = N) (hp : row_pair a N curRow prevRow)
    (hprev : ∀ j, st - 1 ≤ j → j < N → s.mtx (prevRow + j) = T (start_row - 1) j)
    (hok : ∀ k, k < end_row - start_row →
      extending_left_row_ok w seq1 precalc precalcMtx N c T (start_row + k) (st + k)) :
    row_pair a N
      (algn_fill_extending_left w seq1 precalc precalcMtx N s curRow prevRow dirMtx c
        start_row end_row st len).1
      (choose_other (algn_fill_extending_left w seq1 precalc precalcMtx N s curRow prevRow dirMtx c
        start_row end_row st len).1 a (a + N)) ∧
    ∀ j, st + (end_row - start_row) - 1 ≤ j → j < N →
      (algn_fill_extending_left w seq1 precalc precalcMtx N s curRow prevRow dirMtx c
        start_row end_row st len).2.mtx
        (choose_other (algn_fill_extending_left w seq1 precalc precalcMtx N s curRow prevRow
          dirMtx c start_row end_row st len).1 a (a + N) + j) =
        T (start_row + (end_row - start_row) - 1) j := by
  obtain ⟨h1, h2⟩ := algn_fill_extending_left_loop_mtx w seq1 precalc precalcMtx N c a T
    (end_row - start_row) start_row st len
    { curRow := curRow, prevRow := prevRow, dirMtx := dirMtx, s := s } hi hst hstN hlen hp hprev
    hok
  unfold algn_fill_extending_left
  simp only []
  rw [choose_other_row_pair a N _ _ (by omega) h1]
  exact ⟨h1, h2⟩

/-- The banded fill in its last case (a block of full rows in the middle, more than `8` rows
outside the band): if the table `T` satisfies, row after row, the equations of the cells that
`algn_fill_first_row`, `algn_fill_extending_right`, `algn_fill_no_extending` and
`algn_fill_extending_left` write, the returned cost is `T[M - 1, N - 1]`. `W` and `H` are the
clamped width and height. -/
theorem algn_fill_plane_2_of_table (w : Int → Int) (seq1 : seq) (precalc : Nat → Int)
    (precalcMtx M N : Nat) (s : nw_buffers) (a dirMtx : Nat) (c : cost_matrices_2d)
    (width height d W H : Nat) (T : Nat → Nat → Int)
    (hW : (if width + d > N then N else width + d) = W)
    (hH : (if height + d > M then M else height + d) = H)
    (h1 : ¬ 2 * M ≥ 3 * N) (h2 : ¬ 2 * H < M) (h3 : ¬ 8 ≥ M - H)
    (hW1 : 1 ≤ W) (hWN : W < N) (hM : 2 * (N - W) ≤ M)
    (c0 : first_row_ok w precalc precalcMtx N T W)
    (c1 : ∀ k, k < N - W →
      extending_right_row_ok w seq1 precalc precalcMtx N c T (1 + k) (W + 1 + k))
    (c2 : ∀ k, k < M - (N - W) + 1 - (N - W + 1) →
      no_extending_row_ok w seq1 precalc precalcMtx N c T (N - W + 1 + k))
    (c3 : ∀ k, k < M - (M - (N - W) + 1) →
      extending_left_row_ok w seq1 precalc precalcMtx N c T (M - (N - W) + 1 + k) (1 + k)) :
    (algn_fill_plane_2 w seq1 precalc precalcMtx M N s a dirMtx c width height d).1 =
      T (M - 1) (N - 1) := by
  have hN1 : 1 ≤ N := by omega
  unfold algn_fill_plane_2
  simp only [hW, hH, if_neg h1, if_neg h2, if_neg h3]
  have hF := algn_fill_first_row_mtx w precalc s a dirMtx W (cm_get_precal_row precalcMtx 0 N)
    (T 0) c0.1 c0.2
  generalize algn_fill_first_row w precalc s a dirMtx W (cm_get_precal_row precalcMtx 0 N) = s0
    at hF ⊢
  obtain ⟨hp1, hv1⟩ := algn_fill_extending_right_mtx w seq1 precalc precalcMtx N c a T s0
    (a + N) a (dirMtx + N * 1) 1 (N - W + 1) (W + 1) (le_refl 1) (by omega) (by omega) hN1
    (Or.inr ⟨rfl, rfl⟩) (fun j hj => hF j (by omega)) (fun k hk => c1 k (by omega))
  generalize algn_fill_extending_right w seq1 precalc precalcMtx N s0
    (a + N) a (dirMtx + N * 1) c 1 (N - W + 1) (W + 1) = R1 at hp1 hv1 ⊢
  obtain ⟨hp2, hv2⟩ := algn_fill_no_extending_mtx w seq1 precalc precalcMtx N c a T R1.2
    R1.1 (choose_other R1.1 a (a + N)) (dirMtx + N * (N - W + 1)) (N - W + 1)
    (M - (N - W) + 1) (by omega) (by omega) hp1
    (fun j hj => by
      have := hv1 j (by omega)
      rw [show 1 + (N - W + 1 - 1) - 1 = N - W + 1 - 1 by omega] at this
      exact this)
    (fun k hk => c2 k hk)
  generalize algn_fill_no_extending w seq1 precalc precalcMtx N R1.2
    R1.1 (choose_other R1.1 a (a + N)) (dirMtx + N * (N - W + 1)) c (N - W + 1)
    (M - (N - W) + 1) = R2 at hp2 hv2 ⊢
  obtain ⟨hp3, hv3⟩ := algn_fill_extending_left_mtx w seq1 precalc precalcMtx N c a T R2.2
    R2.1 (choose_other R2.1 a (a + N)) (dirMtx + N * (M - (N - W) + 1)) (M - (N - W) + 1) M
    1 (N - 1) (by omega) (le_refl 1) (by omega) (by omega) hp2
    (fun j _ hj => by
      have := hv2 j hj
      rw [show N - W + 1 + (M - (N - W) + 1 - (N - W + 1)) - 1 = M - (N - W) + 1 - 1 by omega]
        at this
      exact this)
    (fun k hk => c3 k hk)
  generalize algn_fill_extending_left w seq1 precalc precalcMtx N R2.2
    R2.1 (choose_other R2.1 a (a + N)) (dirMtx + N * (M - (N - W) + 1)) c (M - (N - W) + 1) M
    1 (N - 1) = R3 at hp3 hv3 ⊢
  have := hv3 (N - 1) (by omega) (by omega)
  rw [show M - (N - W) + 1 + (M - (M - (N - W) + 1)) - 1 = M - 1 by omega] at this
  exact this


/-- A table that satisfies the equations of the Needleman-Wunsch recurrence is the table
`nw_cost`. -/
theorem nw_cost_eq_of_table (best : Nat → Nat → Int) (gap : Nat) (s1 s2 : List Nat)
    (U : Nat → Nat → Int) (M N : Nat) (h00 : U 0 0 = 0)
    (h0 : ∀ j, j < N → 1 ≤ j → U 0 j = U 0 (j - 1) + best gap (s2.getD j 0))
    (hrow : ∀ i, i < M → 1 ≤ i →
      (U i 0 = U (i - 1) 0 + best (s1.getD i 0) gap ∧
       ∀ j, j < N → 1 ≤ j →
        U i j = min (min (U (i - 1) (j - 1) + best (s1.getD i 0) (s2.getD j 0))
                         (U i (j - 1) + best gap (s2.getD j 0)))
                    (U (i - 1) j + best (s1.getD i 0) gap))) :
    ∀ i, i < M → ∀ j, j < N → nw_cost best gap s1 s2 i j = U i j := by
  intro i
  induction i with
  | zero =>
    intro _ j
    induction j with
    | zero => intro _; rw [nw_cost_zero_zero, h00]
    | succ j ih =>
      intro hj
      rw [nw_cost_zero_succ, ih (by omega), h0 (j + 1) hj (by omega)]
      rfl
  | succ i ihi =>
    intro hi j
    induction j with
    | zero =>
      intro hj
      rw [nw_cost_succ_zero, ihi (by omega) 0 hj, (hrow (i + 1) hi (by omega)).1]
      rfl
    | succ j ih =>
      intro hj
      rw [nw_cost_succ_succ, ihi (by omega) j (by omega), ihi (by omega) (j + 1) hj,
        ih (by omega), (hrow (i + 1) hi (by omega)).2 (j + 1) hj (by omega)]
      rfl

set_option maxRecDepth 1000000 in
set_option maxHeartbeats 0 in
/-- The unbanded fill on `band_seq1`, `band_seq2` returns `100`. -/
theorem algn_fill_plane_band_seq :
    (algn_fill_plane wrap32 band_seq1 (precalc_of band_costs band_seq2.elems) 0
      band_seq1.len band_seq2.len zero_buffers 0 0 band_costs).1 = 100 := by
  rw [(algn_fill_plane_exact wrap32 band_costs band_seq1 band_seq2
    (precalc_of band_costs band_seq2.elems) 0 zero_buffers 0 0 2 (by decide) (by decide)
    (by decide) (precalc_of_isPrecalc _ _) (by unfold GapCostsAgree; decide)
    (by unfold GapCostsAgree; decide) wrap32_intFixed (by decide!) (by decide)).1]
  exact nw_cost_eq_of_table (best_cost band_costs) band_costs.gap band_seq1.elems
    band_seq2.elems full_table 59 59 (by decide!) (by decide!) (by decide!) 58 (by decide) 58
    (by decide)

set_option maxRecDepth 1000000 in
set_option maxHeartbeats 0 in
/-- The banded fill on `band_seq1`, `band_seq2` returns `102`. -/
theorem algn_fill_plane_2_band_seq :
    (algn_fill_plane_2 wrap32 band_seq1 (precalc_of band_costs band_seq2.elems) 0
      band_seq1.len band_seq2.len zero_buffers 0 0 band_costs 50
      (band_seq1.len - band_seq2.len + 50) 0).1 = 102 :=
  algn_fill_plane_2_of_table wrap32 band_seq1 (precalc_of band_costs band_seq2.elems) 0 59 59
    zero_buffers 0 0 band_costs 50 50 0 50 50 band_table (by decide) (by decide) (by decide)
    (by decide) (by decide) (by decide) (by decide) (by decide) (by decide!) (by decide!)
    (by decide!) (by decide!)


set_option maxRecDepth 1000000 in
/-- The alignment `band_path` of `band_seq1` with `band_seq2` costs `100`. -/
theorem alignment_cost_band_path :
    alignment_cost (best_cost band_costs) band_costs.gap band_seq1.elems band_seq2.elems
      band_path (band_seq1.len - 1) (band_seq2.len - 1) = some 100 := by
  decide!

/-- On the unambiguous symbols, `band_costs` holds the costs that the expansion of the base table
`indel1_sub2_tcm` gives. -/
theorem band_costs_agrees : ∀ a ∈ [1, 2, 4, 8, 16], ∀ b ∈ [1, 2, 4, 8, 16],
    best_cost band_costs a b = best_cost (expanded_2d indel1_sub2_tcm 5) a b ∧
    band_costs.prepend_cost a = (expanded_2d indel1_sub2_tcm 5).prepend_cost a ∧
    band_costs.tail_cost a = (expanded_2d indel1_sub2_tcm 5).tail_cost a := by
  decide

/-- Claim C7, counterexample. For `S1 = - C⁸ G⁵⁰` and `S2 = - A⁵⁰ C⁸` (both of length `59`), the
costs `0 / 1 / 2` for match / indel / substitution and `deltawh = 0`, the unbanded fill returns
`100`, the cost of the alignment that inserts `A⁵⁰`, pairs the `C`s and deletes `G⁵⁰`, and the
banded fill, called with width `50` and height `(len1 - len2) + 50`, returns `102`: cell
`(0, 50)` of that alignment lies outside the band. -/
theorem algn_fill_plane_2_band_too_narrow :
    (algn_fill_plane wrap32 band_seq1 (precalc_of band_costs band_seq2.elems) 0
      band_seq1.len band_seq2.len zero_buffers 0 0 band_costs).1 = 100 ∧
    (algn_fill_plane_2 wrap32 band_seq1 (precalc_of band_costs band_seq2.elems) 0
      band_seq1.len band_seq2.len zero_buffers 0 0 band_costs 50
      (band_seq1.len - band_seq2.len + 50) 0).1 = 102 ∧
    alignment_cost (best_cost band_costs) band_costs.gap band_seq1.elems band_seq2.elems
      band_path (band_seq1.len - 1) (band_seq2.len - 1) = some 100 :=
  ⟨algn_fill_plane_band_seq, algn_fill_plane_2_band_seq, alignment_cost_band_path⟩

/-- Claim C7, amended. For streams `S1` (length `M`) and `S2` (length `N`, `1 ≤ N ≤ M`) with
`M ≥ 1.5 * N` or `N ≤ 58 + deltawh`, the banded fill `algn_fill_plane_2`, called with width `50`
and height `(M - N) + 50`, is the unbanded fill `algn_fill_plane`; under the conditions of C6 on
the symbols, the precalculated table and the expanded matrix, the cost it returns is the minimum
total column cost over all alignments of the two streams. The sums of the fill are reduced by
`w`: either `w` changes no value (unbounded integers), or `w` fixes the range of `int` (as
`wrap32`, the 32 bit `int` of the source) and the costs lie between `0` and `B` with
`(M + N) * B ≤ INT_MAX`, so that no sum leaves the range. -/
theorem algn_fill_plane_2_cost_short (w : Int → Int) (c : cost_matrices_2d) (seq1 seq2 : seq)
    (precalc : Nat → Int) (precalcMtx : Nat) (s : nw_buffers) (curRow dirMtx deltawh : Nat)
    (B : Int)
    (hN : 1 ≤ seq2.len) (hNM : seq2.len ≤ seq1.len)
    (hshort : 3 * seq2.len ≤ 2 * seq1.len ∨ seq2.len ≤ 58 + deltawh)
    (hsym : ∀ x ∈ seq1.elems, 1 ≤ x)
    (hpre : IsPrecalc c seq2 precalc precalcMtx)
    (hg1 : GapCostsAgree c seq1) (hg2 : GapCostsAgree c seq2)
    (hw : (∀ x, w x = x) ∨
      (IntFixed w ∧ CostsBounded (best_cost c) c.gap seq1.elems seq2.elems B ∧
        ((seq1.len + seq2.len : Nat) : Int) * B ≤ INT_MAX)) :
    algn_fill_plane_2 w seq1 precalc precalcMtx seq1.len seq2.len s curRow dirMtx c 50
        (seq1.len - seq2.len + 50) deltawh =
      algn_fill_plane w seq1 precalc precalcMtx seq1.len seq2.len s curRow dirMtx c ∧
    IsLeast {v | ∃ p, alignment_cost (best_cost c) c.gap seq1.elems seq2.elems p
        (seq1.len - 1) (seq2.len - 1) = some v}
      (algn_fill_plane_2 w seq1 precalc precalcMtx seq1.len seq2.len s curRow dirMtx c 50
        (seq1.len - seq2.len + 50) deltawh).1 := by
  have heq := algn_fill_plane_2_eq_fill_plane w seq1 precalc precalcMtx seq1.len seq2.len s
    curRow dirMtx c deltawh hNM hshort
  refine ⟨heq, ?_⟩
  rcases hw with hid | ⟨hw, hb, hB⟩
  · rw [heq, (algn_fill_plane_spec w c seq1 seq2 precalc precalcMtx s curRow dirMtx hN
      (le_trans hN hNM) hsym hpre hg1 hg2).1, nw_cost_w_of_id w _ _ _ _ hid]
    exact nw_cost_isLeast _ _ _ _ _ _
  · rw [heq, (algn_fill_plane_exact w c seq1 seq2 precalc precalcMtx s curRow dirMtx B hN
      (le_trans hN hNM) hsym hpre hg1 hg2 hw hb hB).1]
    exact nw_cost_isLeast _ _ _ _ _ _

set_option maxRecDepth 100000 in
/-- Witness of the amended C7: `ACGT` against `AGT` under unit costs with `deltawh = 0` and the
32 bit `int` of the source; the banded fill returns the optimal cost `1`. -/
theorem algn_fill_plane_2_cost_short_witness :
    (algn_fill_plane_2 wrap32 sACGT (precalc_of (expanded_2d (unit_tcm 5) 5) sAGT.elems) 0
      sACGT.len sAGT.len zero_buffers 0 0 (expanded_2d (unit_tcm 5) 5) 50
      (sACGT.len - sAGT.len + 50) 0).1 = 1 ∧
    IsLeast {v | ∃ p, alignment_cost (best_cost (expanded_2d (unit_tcm 5) 5))
        (expanded_2d (unit_tcm 5) 5).gap sACGT.elems sAGT.elems p
        (sACGT.len - 1) (sAGT.len - 1) = some v} 1 := by
  have hval : (algn_fill_plane_2 wrap32 sACGT (precalc_of (expanded_2d (unit_tcm 5) 5) sAGT.elems)
      0 sACGT.len sAGT.len zero_buffers 0 0 (expanded_2d (unit_tcm 5) 5) 50
      (sACGT.len - sAGT.len + 50) 0).1 = 1 := by decide!
  have h := algn_fill_plane_2_cost_short wrap32 (expanded_2d (unit_tcm 5) 5) sACGT sAGT
    (precalc_of (expanded_2d (unit_tcm 5) 5) sAGT.elems) 0 zero_buffers 0 0 0 1
    (by decide) (by decide) (by decide) (by decide)
    (precalc_of_isPrecalc _ _)
    (expanded_2d_gapCostsAgree _ 5 sACGT (by decide) (by decide))
    (expanded_2d_gapCostsAgree _ 5 sAGT (by decide) (by decide))
    (Or.inr ⟨wrap32_intFixed, by decide!, by decide⟩)
  rw [hval] at h
  exact ⟨hval, h.2⟩

/-! ## Medians and union of two aligned streams -/

/-- Loop invariant of `algn_get_median_2d_with_gaps`. -/
theorem algn_get_median_2d_with_gaps_loop_spec (seq1 seq2 : seq) (m : cost_matrices_2d)
    (n : Nat) : ∀ (sm : seq), sm.len + n ≤ sm.cap →
      algn_get_median_2d_with_gaps_loop seq1 seq2 m n sm =
        some { sm with elems := (List.range n).map (median_column m seq1 seq2) ++ sm.elems } := by
  induction n with
  | zero => intro sm _; rfl
  | succ n ih =>
    intro sm h
    simp only [algn_get_median_2d_with_gaps_loop]
    rw [seq_prepend_some _ _ (by omega), Option.some_bind, ih _ (by rw [len_cons]; show sm.len + 1 + n ≤ sm.cap; omega)]
    simp only [List.range_succ, List.map_append, List.map_cons, List.map_nil,
      List.append_assoc, List.singleton_append]
    rfl

/-- Claim C11. For aligned streams `seq1`, `seq2` of the same length and an empty output stream of
capacity at least that length, `algn_get_median_2d_with_gaps` returns a stream of the same length
whose `k`-th element is `cm_get_median (m, seq1[k], seq2[k])` for every column `k`. -/
theorem algn_get_median_2d_with_gaps_columns (seq1 seq2 sm : seq) (m : cost_matrices_2d)
    (hlen : seq1.len = seq2.len) (hsm : sm.elems = []) (hcap : seq1.len ≤ sm.cap) :
    ∃ r, algn_get_median_2d_with_gaps seq1 seq2 m sm = some r ∧ r.len = seq1.len ∧
      r.len = seq2.len ∧
      ∀ k, k < seq1.len → seq_get_element r k =
        cm_get_median m (seq_get_element seq1 k) (seq_get_element seq2 k) := by
  have hl : sm.len = 0 := by unfold seq.len; rw [hsm]; rfl
  refine ⟨_, algn_get_median_2d_with_gaps_loop_spec seq1 seq2 m (seq_get_len seq1) sm
    (by unfold seq_get_len; omega), ?_, ?_, ?_⟩
  · unfold seq.len seq_get_len
    simp [hsm]
    rfl
  · rw [← hlen]
    unfold seq.len seq_get_len
    simp [hsm]
    rfl
  · intro k hk
    unfold seq_get_element seq_get_len
    simp only [hsm, List.append_nil]
    rw [List.getD_eq_getElem _ _ (by simpa using hk)]
    simp [median_column, seq_get_element]


set_option maxRecDepth 100000 in
/-- Witness of C11: the aligned streams `- A C G T`, `- A - G T` under unit costs; the gapped
median is `- A -|C G T`. -/
theorem algn_get_median_2d_with_gaps_columns_witness :
    ∃ r, algn_get_median_2d_with_gaps sACGT_AGT_1 sACGT_AGT_2 (expanded_2d (unit_tcm 5) 5)
        (empty_seq 5) = some r ∧ r.len = 5 ∧ r.elems = [16, 1, 18, 4, 8] := by
  obtain ⟨r, hr, h1, _, h3⟩ := algn_get_median_2d_with_gaps_columns sACGT_AGT_1 sACGT_AGT_2
    (empty_seq 5) (expanded_2d (unit_tcm 5) 5) (by decide) rfl (by decide)
  refine ⟨r, hr, h1, ?_⟩
  have hv : (algn_get_median_2d_with_gaps sACGT_AGT_1 sACGT_AGT_2 (expanded_2d (unit_tcm 5) 5)
      (empty_seq 5)).map (fun x => x.elems) = some [16, 1, 18, 4, 8] := by decide
  rw [hr] at hv
  exact Option.some.inj hv

/-- Loop invariant of `algn_get_median_2d_no_gaps`. -/
theorem algn_get_median_2d_no_gaps_loop_spec (seq1 seq2 : seq) (m : cost_matrices_2d)
    (n : Nat) : ∀ (sm : seq), sm.len + n ≤ sm.cap →
      algn_get_median_2d_no_gaps_loop seq1 seq2 m n sm =
        some { sm with elems := (List.filter (fun x => decide (x ≠ cm_get_gap_2d m))
          ((List.range n).map (median_column m seq1 seq2)) ++ sm.elems) } := by
  induction n with
  | zero => intro sm _; rfl
  | succ n ih =>
    intro sm h
    simp only [algn_get_median_2d_no_gaps_loop]
    by_cases hg : cm_get_median m (seq_get_element seq1 n) (seq_get_element seq2 n) ≠
        cm_get_gap_2d m
    · rw [if_pos hg, seq_prepend_some _ _ (by omega), Option.some_bind,
        ih _ (by rw [len_cons]; show sm.len + 1 + n ≤ sm.cap; omega)]
      simp only [List.range_succ, List.map_append, List.map_cons, List.map_nil,
        List.filter_append, List.append_assoc]
      have : List.filter (fun x => decide (x ≠ cm_get_gap_2d m)) [median_column m seq1 seq2 n] =
          [median_column m seq1 seq2 n] := by
        simp [median_column, hg]
      rw [this]
      rfl
    · rw [if_neg hg, ih _ (by omega)]
      simp only [List.range_succ, List.map_append, List.map_cons, List.map_nil,
        List.filter_append]
      have : List.filter (fun x => decide (x ≠ cm_get_gap_2d m)) [median_column m seq1 seq2 n] =
          [] := by
        simp only [ne_eq, not_not] at hg
        simp [median_column, hg]
      rw [this, List.append_nil]

/-- Claim C12. For aligned streams `seq1`, `seq2` of the same length and an empty output stream
with room for one symbol more, `algn_get_median_2d_no_gaps` returns the gap symbol followed by the
gapped medians `median[seq1[k], seq2[k]]`, in column order, that are not the gap symbol. -/
theorem algn_get_median_2d_no_gaps_columns (seq1 seq2 sm : seq) (m : cost_matrices_2d)
    (hlen : seq1.len = seq2.len) (hsm : sm.elems = []) (hcap : seq1.len + 1 ≤ sm.cap) :
    ∃ r, algn_get_median_2d_no_gaps seq1 seq2 m sm = some r ∧
      r.elems = cm_get_gap_2d m ::
        ((List.range seq2.len).map
          (fun k => cm_get_median m (seq_get_element seq1 k) (seq_get_element seq2 k))).filter
          (fun x => decide (x ≠ cm_get_gap_2d m)) := by
  have hl : sm.len = 0 := by unfold seq.len; rw [hsm]; rfl
  unfold algn_get_median_2d_no_gaps
  rw [algn_get_median_2d_no_gaps_loop_spec seq1 seq2 m (seq_get_len seq1) sm
    (by unfold seq_get_len; omega), Option.some_bind, seq_prepend_some]
  · refine ⟨_, rfl, ?_⟩
    show _ :: _ = _
    rw [hsm, List.append_nil, ← hlen]
    rfl
  · have hle : (List.filter (fun x => decide (x ≠ cm_get_gap_2d m))
        (List.map (median_column m seq1 seq2) (List.range (seq_get_len seq1)))).length ≤
        seq1.len := by
      refine le_trans (List.length_filter_le _ _) ?_
      simp [seq_get_len]
    show (List.filter _ _ ++ sm.elems).length < sm.cap
    rw [hsm, List.append_nil]
    omega

set_option maxRecDepth 100000 in
/-- Witness of C12: the aligned streams `- A C G T`, `- A - G T` under unit costs; the ungapped
median is `- A -|C G T` (no column has the gap alone as its median but the first). -/
theorem algn_get_median_2d_no_gaps_columns_witness :
    ∃ r, algn_get_median_2d_no_gaps sACGT_AGT_1 sACGT_AGT_2 (expanded_2d (unit_tcm 5) 5)
        (empty_seq 6) = some r ∧ r.elems = [16, 1, 18, 4, 8] := by
  obtain ⟨r, hr, _⟩ := algn_get_median_2d_no_gaps_columns sACGT_AGT_1 sACGT_AGT_2
    (empty_seq 6) (expanded_2d (unit_tcm 5) 5) (by decide) rfl (by decide)
  refine ⟨r, hr, ?_⟩
  have hv : (algn_get_median_2d_no_gaps sACGT_AGT_1 sACGT_AGT_2 (expanded_2d (unit_tcm 5) 5)
      (empty_seq 6)).map (fun x => x.elems) = some [16, 1, 18, 4, 8] := by decide
  rw [hr] at hv
  exact Option.some.inj hv

/-- Loop invariant of `algn_union`. -/
theorem algn_union_loop_spec (seq1 seq2 : seq) (n : Nat) :
    ∀ (su : seq), su.len + n ≤ su.cap →
      algn_union_loop seq1 seq2 n su =
        some { su with elems := (List.map
          (fun k => seq_get_element seq1 k ||| seq_get_element seq2 k) (List.range n) ++
          su.elems) } := by
  induction n with
  | zero => intro su _; rfl
  | succ n ih =>
    intro su h
    simp only [algn_union_loop]
    rw [seq_prepend_some _ _ (by omega), Option.some_bind,
      ih _ (by rw [len_cons]; show su.len + 1 + n ≤ su.cap; omega)]
    simp only [List.range_succ, List.map_append, List.map_cons, List.map_nil,
      List.append_assoc, List.singleton_append]

/-- Claim C13. For streams `seq1`, `seq2` of the same length (`seq1` within its capacity) and an
empty output stream of capacity at least that length, `algn_union` returns a stream of the same
length whose `k`-th element is `seq1[k] | seq2[k]`; if the lengths differ its first assertion
fails. -/
theorem algn_union_columns (seq1 seq2 su : seq) :
    (seq1.len = seq2.len → seq1.len ≤ seq1.cap → su.elems = [] → seq1.len ≤ su.cap →
      ∃ r, algn_union seq1 seq2 su = some r ∧ r.len = seq1.len ∧
        ∀ k, k < seq1.len →
          seq_get_element r k = seq_get_element seq1 k ||| seq_get_element seq2 k) ∧
    (seq1.len ≠ seq2.len → algn_union seq1 seq2 su = none) := by
  constructor
  · intro hlen hc1 hsu hcap
    have hl : su.len = 0 := by unfold seq.len; rw [hsu]; rfl
    unfold algn_union
    rw [if_pos (by unfold seq_get_len; exact hlen),
      if_pos (by unfold seq_get_len seq_get_cap; omega),
      algn_union_loop_spec seq1 seq2 (seq_get_len seq1) su (by unfold seq_get_len; omega)]
    refine ⟨_, rfl, ?_, ?_⟩
    · unfold seq.len seq_get_len
      simp [hsu]
      rfl
    · intro k hk
      unfold seq_get_element seq_get_len
      simp only [hsu, List.append_nil]
      rw [List.getD_eq_getElem _ _ (by simpa using hk)]
      simp [seq_get_element]
  · intro hne
    unfold algn_union
    rw [if_neg (by unfold seq_get_len; exact hne)]

set_option maxRecDepth 100000 in
/-- Witness of C13: the union of `- A C G T` and `- A - G T` is `- A -|C G T`, and the union of
`- A C G T` with `- A G T` is rejected. -/
theorem algn_union_columns_witness :
    (∃ r, algn_union sACGT_AGT_1 sACGT_AGT_2 (empty_seq 5) = some r ∧ r.len = 5 ∧
      r.elems = [16, 1, 18, 4, 8]) ∧
    algn_union sACGT sAGT (empty_seq 5) = none := by
  have h := algn_union_columns sACGT_AGT_1 sACGT_AGT_2 (empty_seq 5)
  obtain ⟨r, hr, h1, _⟩ := h.1 (by decide) (by decide) rfl (by decide)
  refine ⟨⟨r, hr, h1, ?_⟩, (algn_union_columns sACGT sAGT (empty_seq 5)).2 (by decide)⟩
  have hv : (algn_union sACGT_AGT_1 sACGT_AGT_2 (empty_seq 5)).map (fun x => x.elems) =
      some [16, 1, 18, 4, 8] := by decide
  rw [hr] at hv
  exact Option.some.inj hv


/-! ## The sizes of the alignment buffers -/

theorem wrap32_of_range (x : Int) (h0 : -2147483648 ≤ x) (h1 : x ≤ INT_MAX) : wrap32 x = x := by
  unfold wrap32
  unfold INT_MAX at h1
  omega

/-- Claim C20 (counterexample). On an empty pool, `mat_setup_size (m, 1, 2, 0, 0, 5)` records a
precalculated table of `2^5 * 1 = 32` cells, less than `2^5 * max (1, 2) = 64`. -/
theorem mat_setup_size_precalc_short :
    (mat_setup_size empty_matrices 1 2 0 0 5).len_pre = 32 ∧
    (mat_setup_size empty_matrices 1 2 0 0 5).len_pre < 2 ^ 5 * max 1 2 := by
  decide

/-- Claim C20 (amended). After `mat_setup_size (m, L1, L2, L3, is_ukk, K)` with lengths `≥ 0` and
sizes that fit an `int`: for a 2-D problem (`L3 = 0`) the recorded capacities are at least
`12 * max (L1, L2)` for the cost buffer, `(L1 + 1) * (L2 + 1)` for the direction buffer and
`2^K * L1` for the precalculated table (which is `2^K * max (L1, L2)` when `L2 ≤ L1`); for a 3-D
problem (`L3 > 0`) they are at least `L1 * L2 * L3`, `L1 * L2 * L3` and `2^(2K) * L2`. -/
theorem mat_setup_size_capacities (m : nw_matrices) (L1 L2 L3 is_ukk : Int) (K : Nat)
    (h1 : 0 ≤ L1) (h2 : 0 ≤ L2) (h3 : 0 ≤ L3)
    (hfit2 : L3 = 0 → 12 * max L1 L2 ≤ INT_MAX ∧ (L1 + 1) * (L2 + 1) ≤ INT_MAX ∧
      2 ^ K ≤ INT_MAX ∧ 2 ^ K * L1 ≤ INT_MAX)
    (hfit3 : 0 < L3 → L1 * L2 ≤ INT_MAX ∧ L1 * L2 * L3 ≤ INT_MAX ∧
      (2 : Int) ^ K * 2 ^ K ≤ INT_MAX ∧ 2 ^ K * 2 ^ K * L2 ≤ INT_MAX) :
    (L3 = 0 →
      12 * max L1 L2 ≤ (mat_setup_size m L1 L2 L3 is_ukk K).len_eff ∧
      (L1 + 1) * (L2 + 1) ≤ (mat_setup_size m L1 L2 L3 is_ukk K).len ∧
      2 ^ K * L1 ≤ (mat_setup_size m L1 L2 L3 is_ukk K).len_pre ∧
      (L2 ≤ L1 → 2 ^ K * max L1 L2 ≤ (mat_setup_size m L1 L2 L3 is_ukk K).len_pre)) ∧
    (0 < L3 →
      L1 * L2 * L3 ≤ (mat_setup_size m L1 L2 L3 is_ukk K).len_eff ∧
      L1 * L2 * L3 ≤ (mat_setup_size m L1 L2 L3 is_ukk K).len ∧
      2 ^ (2 * K) * L2 ≤ (mat_setup_size m L1 L2 L3 is_ukk K).len_pre) := by
  have hpow : ((1 <<< K : Nat) : Int) = 2 ^ K := by
    rw [Nat.one_shiftLeft]
    push_cast
    rfl
  have hp0 : (0 : Int) ≤ 2 ^ K := by positivity
  have hsel : ∀ (c x : Int), x ≤ (if c < x then x else c) := by
    intro c x
    split_ifs <;> omega
  constructor
  · intro h30
    obtain ⟨f1, f2, f3, f4⟩ := hfit2 h30
    have e1 : mat_size_of_2d_matrix L1 L2 = 12 * max L1 L2 := by
      unfold mat_size_of_2d_matrix
      by_cases hw : L1 > L2
      · rw [max_eq_left (le_of_lt hw)] at f1
        rw [if_pos hw, max_eq_left (le_of_lt hw), wrap32_of_range _ (by omega) (by omega)]
        ring
      · rw [max_eq_right (by omega)] at f1
        rw [if_neg hw, max_eq_right (by omega), wrap32_of_range _ (by omega) (by omega)]
        ring
    have e2 : wrap32 (wrap32 ((1 <<< K : Nat) : Int) * L1) = 2 ^ K * L1 := by
      rw [hpow, wrap32_of_range _ (by omega) f3,
        wrap32_of_range _ (by have := mul_nonneg hp0 h1; omega) f4]
    have e3 : wrap32 (wrap32 (L1 + 1) * wrap32 (L2 + 1)) = (L1 + 1) * (L2 + 1) := by
      have hA : 0 ≤ (L1 + 1) * (L2 + 1) := mul_nonneg (by omega) (by omega)
      have hL1 : L1 + 1 ≤ INT_MAX := by
        have : (L1 + 1) * 1 ≤ (L1 + 1) * (L2 + 1) :=
          mul_le_mul_of_nonneg_left (by omega) (by omega)
        omega
      have hL2 : L2 + 1 ≤ INT_MAX := by
        have : 1 * (L2 + 1) ≤ (L1 + 1) * (L2 + 1) :=
          mul_le_mul_of_nonneg_right (by omega) (by omega)
        omega
      rw [wrap32_of_range _ (by omega) hL1, wrap32_of_range _ (by omega) hL2,
        wrap32_of_range _ (by omega) f2]
    have hpre : 2 ^ K * L1 ≤ (mat_setup_size m L1 L2 L3 is_ukk K).len_pre := by
      show _ ≤ (if _ < (if L3 = 0 then _ else _) then (if L3 = 0 then _ else _) else _)
      rw [if_pos h30, e2]
      exact hsel _ _
    refine ⟨?_, ?_, hpre, ?_⟩
    · show _ ≤ (if _ < (if L3 = 0 then _ else _) then (if L3 = 0 then _ else _) else _)
      rw [if_pos h30, e1]
      exact hsel _ _
    · show _ ≤ (if _ < (if L3 = 0 then _ else _) then (if L3 = 0 then _ else _) else _)
      rw [if_pos h30, e3]
      exact hsel _ _
    · intro h21
      rw [max_eq_left h21]
      exact hpre
  · intro h30
    have hne : L3 ≠ 0 := by omega
    obtain ⟨f1, f2, f3, f4⟩ := hfit3 h30
    have h12 : 0 ≤ L1 * L2 := mul_nonneg h1 h2
    have h123 : 0 ≤ L1 * L2 * L3 := mul_nonneg h12 h3
    have hpp : (0 : Int) ≤ 2 ^ K * 2 ^ K := mul_nonneg hp0 hp0
    have hK : (2 : Int) ^ K ≤ INT_MAX := by
      have h1K : (1 : Int) ≤ 2 ^ K := one_le_pow₀ (by norm_num)
      have : (2 : Int) ^ K * 1 ≤ 2 ^ K * 2 ^ K := mul_le_mul_of_nonneg_left h1K hp0
      omega
    have e1 : mat_size_of_3d_matrix L1 L2 L3 is_ukk = L1 * L2 * L3 := by
      unfold mat_size_of_3d_matrix
      rw [wrap32_of_range _ (by omega) f1, wrap32_of_range _ (by omega) f2]
    have e2 : wrap32 (wrap32 (wrap32 ((1 <<< K : Nat) : Int) * wrap32 ((1 <<< K : Nat) : Int))
        * L2) = 2 ^ (2 * K) * L2 := by
      rw [hpow, wrap32_of_range _ (by omega) hK, wrap32_of_range _ (by omega) f3,
        wrap32_of_range _ (by have := mul_nonneg hpp h2; omega) f4]
      ring
    have e3 : wrap32 (wrap32 (L1 * L2) * L3) = L1 * L2 * L3 := by
      rw [wrap32_of_range _ (by omega) f1, wrap32_of_range _ (by omega) f2]
    refine ⟨?_, ?_, ?_⟩
    · show _ ≤ (if _ < (if L3 = 0 then _ else _) then (if L3 = 0 then _ else _) else _)
      rw [if_neg hne, e1]
      exact hsel _ _
    · show _ ≤ (if _ < (if L3 = 0 then _ else _) then (if L3 = 0 then _ else _) else _)
      rw [if_neg hne, if_neg hne, e3]
      exact hsel _ _
    · show _ ≤ (if _ < (if L3 = 0 then _ else _) then (if L3 = 0 then _ else _) else _)
      rw [if_neg hne, e2]
      exact hsel _ _

/-- Witness of the amended C20: an empty pool set up for streams of lengths `5` and `4` over `5`
states records `60`, `30` and `160` cells. -/
theorem mat_setup_size_capacities_witness :
    12 * max 5 4 ≤ (mat_setup_size empty_matrices 5 4 0 0 5).len_eff ∧
    (5 + 1) * (4 + 1) ≤ (mat_setup_size empty_matrices 5 4 0 0 5).len ∧
    2 ^ 5 * 5 ≤ (mat_setup_size empty_matrices 5 4 0 0 5).len_pre := by
  have h := (mat_setup_size_capacities empty_matrices 5 4 0 0 5 (by decide) (by decide)
    (by decide) (fun _ => by decide) (fun h => absurd h (by decide))).1 rfl
  exact ⟨h.1, h.2.1, h.2.2.1⟩


/-! ## The round trip through `algn_verify_2` -/

set_option maxRecDepth 1000000 in
/-- Claim C14 (failing input). For `AC` against `GA` with the matrix that `setup2dCostMtx` builds
for unit costs (`gap_open = 0`) and the 32 bit `int` of the source, the 2-D engine (`algn_nw_2d`
with `deltawh = 2`, the call that `align2d (GA, AC)` makes, then `algn_backtrace_2d`) returns the
cost `1` and the aligned streams `- - A C` and `- G A -`, and `algn_verify_2` of these two streams
is `2`: the last column of the fill adds `tail_cost[C] = 0` for the deletion of `C`, where
`algn_verify_2` reads `best_cost[C, -] = 1`. For `AC` against `A` the engine returns `0` and the
streams `- A C` and `- A -`, which `algn_verify_2` costs `1`. -/
theorem algn_verify_2_differs_setup_unit5 :
    ((nw_2d_entry wrap32 sAC sGA setup_unit5 2).bind fun r =>
      (backtrace_2d_entry sAC sGA (empty_seq 6) (empty_seq 6) r.2 setup_unit5).map fun a =>
        (r.1, a.1.elems, a.2.elems, algn_verify_2 wrap32 a.1 a.2 setup_unit5)) =
      some (1, [16, 16, 1, 2], [16, 4, 1, 16], some 2) ∧
    align2d_deltawh (alignIOtoChar (alignIO_of [4, 1]) 5) (alignIOtoChar (alignIO_of [1, 2]) 5)
      = 2 ∧
    ((nw_2d_entry wrap32 sAC sA setup_unit5 2).bind fun r =>
      (backtrace_2d_entry sAC sA (empty_seq 5) (empty_seq 5) r.2 setup_unit5).map fun a =>
        (r.1, a.1.elems, a.2.elems, algn_verify_2 wrap32 a.1 a.2 setup_unit5)) =
      some (0, [16, 1, 2], [16, 1, 16], some 1) ∧
    setup_unit5.tail_cost 2 = 0 ∧ best_cost setup_unit5 2 16 = 1 ∧ setup_unit5.gap_open = 0 := by
  refine ⟨?_, ?_, ?_, ?_, ?_, ?_⟩ <;> decide!

/-- The length of the stream that `alignIOtoChar` builds is `input->length + 1`. -/
theorem alignIOtoChar_len (input : alignIO) (alphabetSize : Nat) :
    (alignIOtoChar input alphabetSize).len = input.length + 1 := by
  unfold alignIOtoChar seq.len
  simp

/-- The cost that `align2d` returns when no output is asked for is the cost that the fill
entry point returns for the shorter stream and the longer stream, in this order. -/
theorem align2d_cost_only (w : Int → Int) (A B g u : alignIO) (c : cost_matrices_2d) :
    (align2d w A B g u c 0 0 0).map (fun r => r.algnCost) =
      (nw_2d_entry w
        (alignIOtoChar (if A.length ≥ B.length then B else A) c.alphSize)
        (alignIOtoChar (if A.length ≥ B.length then A else B) c.alphSize) c
        (align2d_deltawh (alignIOtoChar (if A.length ≥ B.length then A else B) c.alphSize)
          (alignIOtoChar (if A.length ≥ B.length then B else A) c.alphSize))).map
        (fun r => r.1) := by
  unfold align2d align2d_with
  by_cases h : A.length ≥ B.length
  · simp only [h, decide_True, if_true]
    cases nw_2d_entry w (alignIOtoChar B c.alphSize) (alignIOtoChar A c.alphSize) c
        (align2d_deltawh (alignIOtoChar A c.alphSize) (alignIOtoChar B c.alphSize)) with
    | none => rfl
    | some r => simp
  · simp only [h, decide_False, if_false, Bool.false_eq_true]
    cases nw_2d_entry w (alignIOtoChar A c.alphSize) (alignIOtoChar B c.alphSize) c
        (align2d_deltawh (alignIOtoChar B c.alphSize) (alignIOtoChar A c.alphSize)) with
    | none => rfl
    | some r => simp

/-- The fill entry point on two streams with `seq1` at least as long as `seq2`. -/
theorem nw_2d_entry_eq (w : Int → Int) (seq1 seq2 : seq) (c : cost_matrices_2d) (deltawh : Int)
    (h : seq2.len ≤ seq1.len) :
    nw_2d_entry w seq1 seq2 c deltawh =
      some (algn_fill_plane_2 w seq1 (precalc_of c seq2.elems) 0 seq1.len seq2.len zero_buffers 0 0
        c 50 (seq1.len - seq2.len + 50) deltawh.toNat) := by
  unfold nw_2d_entry algn_nw_2d_linear algn_nw_limit_2d_linear
  simp only [seq_get_len]
  rw [if_pos h]

set_option maxRecDepth 1000000 in
set_option maxHeartbeats 0 in
/-- The banded fill on `seq1 = asym_seqA`, `seq2 = asym_seqB` with `deltawh = 3` returns `108`. -/
theorem algn_fill_plane_2_asym_AB :
    (algn_fill_plane_2 wrap32 asym_seqA (precalc_of band_costs asym_seqB.elems) 0
      asym_seqA.len asym_seqB.len zero_buffers 0 0 band_costs 50
      (asym_seqA.len - asym_seqB.len + 50) 3).1 = 108 :=
  algn_fill_plane_2_of_table wrap32 asym_seqA (precalc_of band_costs asym_seqB.elems) 0 62 62
    zero_buffers 0 0 band_costs 50 50 3 53 53 asym_table_AB (by decide) (by decide) (by decide)
    (by decide) (by decide) (by decide) (by decide) (by decide) (by decide!) (by decide!)
    (by decide!) (by decide!)

set_option maxRecDepth 1000000 in
set_option maxHeartbeats 0 in
/-- The banded fill on `seq1 = asym_seqB`, `seq2 = asym_seqA` with `deltawh = 3` returns `106`. -/
theorem algn_fill_plane_2_asym_BA :
    (algn_fill_plane_2 wrap32 asym_seqB (precalc_of band_costs asym_seqA.elems) 0
      asym_seqB.len asym_seqA.len zero_buffers 0 0 band_costs 50
      (asym_seqB.len - asym_seqA.len + 50) 3).1 = 106 :=
  algn_fill_plane_2_of_table wrap32 asym_seqB (precalc_of band_costs asym_seqA.elems) 0 62 62
    zero_buffers 0 0 band_costs 50 50 3 53 53 asym_table_BA (by decide) (by decide) (by decide)
    (by decide) (by decide) (by decide) (by decide) (by decide) (by decide!) (by decide!)
    (by decide!) (by decide!)

theorem alignIOtoChar_asym_A : alignIOtoChar (alignIO_of asym_A) band_costs.alphSize = asym_seqA :=
  rfl

theorem alignIOtoChar_asym_B : alignIOtoChar (alignIO_of asym_B) band_costs.alphSize = asym_seqB :=
  rfl

/-- For `A = C⁸ G⁵³` and `B = A⁵³ C⁸` (both of `61` symbols) and the costs `0 / 1 / 2` for match /
indel / substitution, `align2d (A, B)` returns `106` and `align2d (B, A)` returns `108`: the two
inputs have the same length, so the first argument is taken as the longer stream, and with `62`
symbols (leading gap included) and `deltawh = 3` the fill of `algn_nw_2d` is banded. -/
theorem align2d_cost_asymmetric :
    (align2d wrap32 (alignIO_of asym_A) (alignIO_of asym_B) alignIO_none alignIO_none band_costs
      0 0 0).map (fun r => r.algnCost) = some 106 ∧
    (align2d wrap32 (alignIO_of asym_B) (alignIO_of asym_A) alignIO_none alignIO_none band_costs
      0 0 0).map (fun r => r.algnCost) = some 108 := by
  constructor
  · rw [align2d_cost_only, if_pos (by decide), if_pos (by decide), alignIOtoChar_asym_A,
      alignIOtoChar_asym_B, nw_2d_entry_eq wrap32 _ _ _ _ (by decide), Option.map_some']
    exact congrArg some algn_fill_plane_2_asym_BA
  · rw [align2d_cost_only, if_pos (by decide), if_pos (by decide), alignIOtoChar_asym_A,
      alignIOtoChar_asym_B, nw_2d_entry_eq wrap32 _ _ _ _ (by decide), Option.map_some']
    exact congrArg some algn_fill_plane_2_asym_AB

/-- For two inputs of different lengths `align2d` returns nothing: it passes the shorter stream
as `seq1` and the longer one as `seq2` to `algn_nw_2d`, whose assertion `seq1_len >= seq2_len`
fails. -/
theorem align2d_none_of_length_ne (w : Int → Int) (A B g u : alignIO) (c : cost_matrices_2d)
    (getUngapped getGapped getUnion : Int) (hne : A.length ≠ B.length) :
    align2d w A B g u c getUngapped getGapped getUnion = none := by
  unfold align2d align2d_with
  have hnone : ∀ (S L : alignIO) (d : Int), S.length < L.length →
      nw_2d_entry w (alignIOtoChar S c.alphSize) (alignIOtoChar L c.alphSize) c d = none := by
    intro S L d h
    unfold nw_2d_entry algn_nw_2d_linear
    simp only [seq_get_len]
    rw [alignIOtoChar_len, alignIOtoChar_len, if_neg (by omega)]
  by_cases h : A.length ≥ B.length
  · simp only [h, decide_True, if_true]
    rw [hnone B A _ (by omega)]
    rfl
  · simp only [h, decide_False, if_false, Bool.false_eq_true]
    rw [hnone A B _ (by omega)]
    rfl

set_option maxRecDepth 1000000 in
/-- Claim C15 (failing inputs). With the matrix that `setup2dCostMtx` builds for unit costs,
`align2d (GA, AC)` returns the cost `1` and `align2d (AC, GA)` returns the cost `2`: the two inputs
have the same length, so each call takes its first argument as the longer stream, and the fill of
the first call deletes `C` in its last column at `tail_cost[C] = 0` (C3). For `ACGT` against `AGT`
under unit costs `align2d` returns no cost in either order of the two arguments: it calls
`algn_nw_2d (shortChar, longChar, ...)` with streams of `4` and `5` symbols, and the assertion
`seq1_len >= seq2_len` of `algn_nw_2d` fails; the same call of `algn_nw_2d` with the two streams
exchanged returns the cost `1`. For `A = C⁸ G⁵³` and `B = A⁵³ C⁸` and the costs `0 / 1 / 2` for
match / indel / substitution the banded fill gives `106` for `(A, B)` and `108` for `(B, A)`. -/
theorem align2d_cost_not_symmetric :
    (align2d wrap32 (alignIO_of [4, 1]) (alignIO_of [1, 2]) alignIO_none alignIO_none setup_unit5
      0 0 0).map (fun r => r.algnCost) = some 1 ∧
    (align2d wrap32 (alignIO_of [1, 2]) (alignIO_of [4, 1]) alignIO_none alignIO_none setup_unit5
      0 0 0).map (fun r => r.algnCost) = some 2 ∧
    align2d wrap32 (alignIO_of [1, 2, 4, 8]) (alignIO_of [1, 4, 8]) alignIO_none alignIO_none
      (expanded_2d (unit_tcm 5) 5) 0 0 0 = none ∧
    align2d wrap32 (alignIO_of [1, 4, 8]) (alignIO_of [1, 2, 4, 8]) alignIO_none alignIO_none
      (expanded_2d (unit_tcm 5) 5) 0 0 0 = none ∧
    (nw_2d_entry wrap32 (alignIOtoChar (alignIO_of [1, 4, 8]) 5)
      (alignIOtoChar (alignIO_of [1, 2, 4, 8]) 5) (expanded_2d (unit_tcm 5) 5) 2).map (fun r => r.1)
      = none ∧
    (nw_2d_entry wrap32 (alignIOtoChar (alignIO_of [1, 2, 4, 8]) 5)
      (alignIOtoChar (alignIO_of [1, 4, 8]) 5) (expanded_2d (unit_tcm 5) 5) 2).map (fun r => r.1)
      = some 1 ∧
    (align2d wrap32 (alignIO_of asym_A) (alignIO_of asym_B) alignIO_none alignIO_none band_costs
      0 0 0).map (fun r => r.algnCost) = some 106 ∧
    (align2d wrap32 (alignIO_of asym_B) (alignIO_of asym_A) alignIO_none alignIO_none band_costs
      0 0 0).map (fun r => r.algnCost) = some 108 :=
  ⟨by decide!, by decide!, by decide!, by decide!, by decide!, by decide!,
    align2d_cost_asymmetric.1, align2d_cost_asymmetric.2⟩

set_option maxRecDepth 1000000 in
/-- Claim C16 (failing input). For `A = ACA` and `B = CAC` under unit costs, with the gapped
median asked for: `align2d (A, B)` writes back `A C A -` for `A` and `- C A C` for `B`, with the
median `A|- C A C|-`, and `align2d (B, A)` writes back `- A C A` for `A` and `C A C -` for `B`,
with the median `C|- A C A|-`. The two inputs have the same length, so each call takes its first
argument as the longer stream, and the backtrace runs with `swapped = 0` in both. For `ACGT`
against `AGT` neither order writes anything back: the assertion of `algn_nw_2d` fails. -/
theorem align2d_swap_changes_output :
    (align2d wrap32 (alignIO_of [1, 2, 1]) (alignIO_of [2, 1, 2]) alignIO_none alignIO_none
      (expanded_2d (unit_tcm 5) 5) 0 1 0).map
      (fun r => (r.inputChar1_aio.character, r.inputChar2_aio.character,
        r.gappedOutput_aio.character)) =
      some ([1, 2, 1, 16, 0, 0], [16, 2, 1, 2, 0, 0], [17, 2, 1, 18, 0, 0]) ∧
    (align2d wrap32 (alignIO_of [2, 1, 2]) (alignIO_of [1, 2, 1]) alignIO_none alignIO_none
      (expanded_2d (unit_tcm 5) 5) 0 1 0).map
      (fun r => (r.inputChar2_aio.character, r.inputChar1_aio.character,
        r.gappedOutput_aio.character)) =
      some ([16, 1, 2, 1, 0, 0], [2, 1, 2, 16, 0, 0], [18, 1, 2, 17, 0, 0]) ∧
    align2d wrap32 (alignIO_of [1, 2, 4, 8]) (alignIO_of [1, 4, 8]) alignIO_none alignIO_none
      (expanded_2d (unit_tcm 5) 5) 0 1 0 = none ∧
    align2d wrap32 (alignIO_of [1, 4, 8]) (alignIO_of [1, 2, 4, 8]) alignIO_none alignIO_none
      (expanded_2d (unit_tcm 5) 5) 0 1 0 = none := by
  refine ⟨?_, ?_, ?_, ?_⟩ <;> decide!

set_option maxRecDepth 1000000 in
/-- Claim C17 (failing input). For `AC` against `AG` under unit costs with `gap_open = 0`, the
linear engine driven by `align2d` returns `1`, and the affine engine driven by `align2dAffine`
returns `INT_MIN = -2147483648` with the 32 bit `int` of the source: the planes are initialised
with `INT_MAX` and the fill adds costs to these cells. With unbounded integers the same code
returns `1`. -/
theorem align2dAffine_gap_open_zero_differs :
    (align2d wrap32 (alignIO_of [1, 2]) (alignIO_of [1, 4]) alignIO_none alignIO_none (unit5_affine 0)
      0 0 0).map (fun r => r.algnCost) = some 1 ∧
    align2dAffine wrap32 (alignIO_of [1, 2]) (alignIO_of [1, 4]) (unit5_affine 0)
      = some (-2147483648) ∧
    align2dAffine id (alignIO_of [1, 2]) (alignIO_of [1, 4]) (unit5_affine 0) = some 1 := by
  refine ⟨?_, ?_, ?_⟩ <;> decide!

set_option maxRecDepth 1000000 in
/-- Claim C19 (failing input). For `S1 = AAAA`, `S2 = AA` under unit costs with `gap_open = 2`, the
affine engine returns `INT_MIN = -2147483648` with the 32 bit `int` of the source, not `4`; with
unbounded integers the same code returns `4 = 2 + 1 + 1`. -/
theorem align2dAffine_AAAA_AA :
    align2dAffine wrap32 (alignIO_of [1, 1, 1, 1]) (alignIO_of [1, 1]) (unit5_affine 2)
      = some (-2147483648) ∧
    align2dAffine id (alignIO_of [1, 1, 1, 1]) (alignIO_of [1, 1]) (unit5_affine 2) = some 4 := by
  refine ⟨?_, ?_⟩ <;> decide!

/-- Every entry `best_cost[a, b]` of the table that `setup2dCostMtx` builds from a base table with
non-negative entries is non-negative. -/
theorem setup2dCostMtx_best_cost_nonneg (tcm : Nat → Int) (K : Nat) (gap_open : Int)
    (retMtx : cost_matrices_2d) (hK : K ≤ 31) (h : TcmInRange2 tcm K)
    (hpos : ∀ i, i < K * K → 0 ≤ tcm i) :
    ∃ m, setup2dCostMtx tcm K gap_open retMtx = .ok m ∧
      ∀ a b, 1 ≤ a → a ≤ 2 ^ K - 1 → 1 ≤ b → b ≤ 2 ^ K - 1 → 0 ≤ cm_get_cost a b m := by
  obtain ⟨m, hm, _, _, hv⟩ := setup2dCostMtx_ok tcm K gap_open retMtx hK
  refine ⟨m, hm, ?_⟩
  intro a b ha1 ha2 hb1 hb2
  rw [(hv a b ha1 ha2 hb1 hb2).1]
  obtain ⟨⟨z, ⟨hz1, hz2⟩, hz⟩, _⟩ := (setup2d_value_spec tcm K a b h ha1 ha2 hb1 hb2).1
  have hle : ∀ i, i < K → tcm (i * K + z - 1) ≤ INT_MAX := fun i hi =>
    tcm_le_of_inRange2 tcm K h _ (tcm_index_lt K i z hi hz1 hz2)
  obtain ⟨i, hi, hia⟩ := distance_mem tcm K z a hle ha1 ha2
  obtain ⟨j, hj, hjb⟩ := distance_mem tcm K z b hle hb1 hb2
  have h1 := hpos _ (tcm_index_lt K i z hi hz1 hz2)
  have h2 := hpos _ (tcm_index_lt K j z hj hz1 hz2)
  rw [← hz]
  show 0 ≤ distance tcm K z a + distance tcm K z b
  rw [hia, hjb]
  omega

/-- The table of the recurrence is non-negative when the costs are. -/
theorem nw_cost_nonneg (best : Nat → Nat → Int) (gap : Nat) (s1 s2 : List Nat)
    (hbest : ∀ a b, 0 ≤ best a b) : ∀ i j, 0 ≤ nw_cost best gap s1 s2 i j := by
  intro i
  induction i with
  | zero =>
    intro j
    induction j with
    | zero => rw [nw_cost_zero_zero]
    | succ j ih =>
      rw [nw_cost_zero_succ]
      have := hbest gap (s2.getD (j + 1) 0)
      omega
  | succ i ihi =>
    intro j
    induction j with
    | zero =>
      rw [nw_cost_succ_zero]
      have := hbest (s1.getD (i + 1) 0) gap
      have := ihi 0
      omega
    | succ j ihj =>
      rw [nw_cost_succ_succ]
      have := hbest (s1.getD (i + 1) 0) (s2.getD (j + 1) 0)
      have := hbest (s1.getD (i + 1) 0) gap
      have := hbest gap (s2.getD (j + 1) 0)
      have := ihi j
      have := ihi (j + 1)
      omega

/-- The cost that the linear fill returns is non-negative when the costs of the expanded matrix
lie between `0` and `B` and `(M + N) * B ≤ INT_MAX`, so that no `int` sum overflows. -/
theorem algn_fill_plane_cost_nonneg (w : Int → Int) (c : cost_matrices_2d) (seq1 seq2 : seq)
    (precalc : Nat → Int) (precalcMtx : Nat) (s : nw_buffers) (curRow dirMtx : Nat) (B : Int)
    (hN : 1 ≤ seq2.len) (hM : 1 ≤ seq1.len)
    (hsym : ∀ x ∈ seq1.elems, 1 ≤ x)
    (hpre : IsPrecalc c seq2 precalc precalcMtx)
    (hg1 : GapCostsAgree c seq1) (hg2 : GapCostsAgree c seq2)
    (hw : IntFixed w) (hb : CostsBounded (best_cost c) c.gap seq1.elems seq2.elems B)
    (hB : ((seq1.len + seq2.len : Nat) : Int) * B ≤ INT_MAX) :
    0 ≤ (algn_fill_plane w seq1 precalc precalcMtx seq1.len seq2.len s curRow dirMtx c).1 := by
  rw [(algn_fill_plane_exact w c seq1 seq2 precalc precalcMtx s curRow dirMtx B hN hM hsym hpre
    hg1 hg2 hw hb hB).1]
  exact (nw_cost_bounds _ _ _ _ B hb _ (by unfold seq.len at hM ⊢; omega) _
    (by unfold seq.len at hN ⊢; omega)).1

set_option maxRecDepth 1000000 in
/-- Claim C18 (failing input). For `ACGT` against `AGT` under unit costs (a base table with
non-negative entries) and `gap_open = 2`, the affine engine driven by `align2dAffine` reports the
cost `INT_MIN = -2147483648 < 0` with the 32 bit `int` of the source; with unbounded integers the
same code reports `3`. -/
theorem align2dAffine_cost_negative :
    align2dAffine wrap32 (alignIO_of [1, 2, 4, 8]) (alignIO_of [1, 4, 8]) (unit5_affine 2)
      = some (-2147483648) ∧
    align2dAffine id (alignIO_of [1, 2, 4, 8]) (alignIO_of [1, 4, 8]) (unit5_affine 2)
      = some 3 ∧
    (∀ i, i < 5 * 5 → 0 ≤ unit_tcm 5 i) := by
  refine ⟨?_, ?_, ?_⟩ <;> decide!


/-- One call of `mat_setup_size` lowers none of the three recorded capacities. -/
theorem mat_setup_size_mono (m : nw_matrices) (len_seq1 len_seq2 len_seq3 is_ukk : Int)
    (lcm : Nat) :
    m.len_eff ≤ (mat_setup_size m len_seq1 len_seq2 len_seq3 is_ukk lcm).len_eff ∧
    m.len ≤ (mat_setup_size m len_seq1 len_seq2 len_seq3 is_ukk lcm).len ∧
    m.len_pre ≤ (mat_setup_size m len_seq1 len_seq2 len_seq3 is_ukk lcm).len_pre := by
  unfold mat_setup_size
  simp only []
  refine ⟨?_, ?_, ?_⟩ <;> split_ifs <;> omega

/-- Claim C21. For every pool state `m` and every call `mat_setup_size (m, L1, L2, L3, is_ukk, K)`,
each of the three recorded capacities `len_eff`, `len`, `len_pre` after the call is at least its
value before the call, and no sequence of calls lowers a capacity. -/
theorem mat_setup_size_only_grows (m : nw_matrices) :
    (∀ (len_seq1 len_seq2 len_seq3 is_ukk : Int) (lcm : Nat),
      m.len_eff ≤ (mat_setup_size m len_seq1 len_seq2 len_seq3 is_ukk lcm).len_eff ∧
      m.len ≤ (mat_setup_size m len_seq1 len_seq2 len_seq3 is_ukk lcm).len ∧
      m.len_pre ≤ (mat_setup_size m len_seq1 len_seq2 len_seq3 is_ukk lcm).len_pre) ∧
    (∀ calls : List (Int × Int × Int × Int × Nat),
      m.len_eff ≤ (mat_setup_size_calls m calls).len_eff ∧
      m.len ≤ (mat_setup_size_calls m calls).len ∧
      m.len_pre ≤ (mat_setup_size_calls m calls).len_pre) := by
  refine ⟨fun a b c d e => mat_setup_size_mono m a b c d e, ?_⟩
  intro calls
  induction calls generalizing m with
  | nil => exact ⟨le_refl _, le_refl _, le_refl _⟩
  | cons a t ih =>
    have h1 := mat_setup_size_mono m a.1 a.2.1 a.2.2.1 a.2.2.2.1 a.2.2.2.2
    have h2 := ih (mat_setup_size m a.1 a.2.1 a.2.2.1 a.2.2.2.1 a.2.2.2.2)
    unfold mat_setup_size_calls at h2 ⊢
    simp only [List.foldl_cons]
    exact ⟨le_trans h1.1 h2.1, le_trans h1.2.1 h2.2.1, le_trans h1.2.2 h2.2.2⟩

/-- The macro `my_prepend` on a stream with its pointers is `my_prepend` on the stream that it
holds. -/
theorem my_prepend_ptr_view (a : seq_ptr) (b : Nat) :
    (my_prepend_ptr a b).map seq_ptr.view = my_prepend a.view b := by
  unfold my_prepend_ptr my_prepend
  have hlen : a.view.len = a.len := by
    unfold seq_ptr.view seq.len
    simp
  have hcap : a.view.cap = a.cap := rfl
  rw [hlen, hcap]
  by_cases h : a.cap > a.len
  · rw [if_pos h, if_pos h, Option.map_some']
    congr 1
    unfold seq_ptr.view
    congr 1
    simp only []
    rw [show 1 + a.len = a.len + 1 by omega, List.range_succ_eq_map, List.map_cons, List.map_map]
    congr 1
    · unfold seq_ptr.get
      simp
    · apply List.map_congr_left
      intro i _
      unfold seq_ptr.get
      simp only [Function.comp]
      rw [if_neg (by push_cast; omega)]
      congr 1
      push_cast
      ring
  · rw [if_neg h, if_neg h]
    rfl

/-- Claim C22. For every stream `s` with `len < cap` and every symbol `v`, `my_prepend` yields a
stream of length `len + 1` whose element `0` is `v` and whose element `i + 1` is the old element
`i`, with the capacity unchanged and `len + 1 ≤ cap`; when `len = cap` the assertion of
`my_prepend` fails and nothing is written; `initializeChar` and `resetCharValues` yield length `0`
with `seq_begin = end`, with the capacity asked for and the capacity unchanged. -/
theorem my_prepend_ptr_spec (s : seq_ptr) (v : Nat) :
    (s.len < s.cap →
      ∃ r, my_prepend_ptr s v = some r ∧ r.len = s.len + 1 ∧ r.cap = s.cap ∧ r.len ≤ r.cap ∧
        r.get 0 = v ∧ (∀ i, r.get (i + 1) = s.get i) ∧ r.end_ = s.end_ ∧
        r.seq_begin = s.seq_begin - 1) ∧
    (s.len = s.cap → my_prepend_ptr s v = none) ∧
    (∀ (mem : Int → Nat) (head : Int) (allocSize : Nat),
      (initializeChar_ptr mem head allocSize).len = 0 ∧
      (initializeChar_ptr mem head allocSize).seq_begin =
        (initializeChar_ptr mem head allocSize).end_ ∧
      (initializeChar_ptr mem head allocSize).cap = allocSize) ∧
    ((resetCharValues s).len = 0 ∧ (resetCharValues s).seq_begin = (resetCharValues s).end_ ∧
      (resetCharValues s).cap = s.cap) := by
  refine ⟨?_, ?_, ?_, ?_⟩
  · intro h
    unfold my_prepend_ptr
    rw [if_pos h]
    refine ⟨_, rfl, ?_, rfl, ?_, ?_, ?_, rfl, rfl⟩
    · show 1 + s.len = s.len + 1
      omega
    · show 1 + s.len ≤ s.cap
      omega
    · unfold seq_ptr.get
      simp
    · intro i
      unfold seq_ptr.get
      simp only []
      rw [if_neg (by push_cast; omega)]
      congr 1
      push_cast
      ring
  · intro h
    unfold my_prepend_ptr
    rw [if_neg (by omega)]
  · intro mem head allocSize
    exact ⟨rfl, rfl, rfl⟩
  · exact ⟨rfl, rfl, rfl⟩

/-- Witness of C22: a prepend of `C` to the stream `A` in an array of two cells, and a prepend to
the full stream that results. -/
theorem my_prepend_ptr_spec_witness :
    (∃ r, my_prepend_ptr
        { cap := 2, len := 1, array_head := 0, seq_begin := 1, end_ := 2,
          mem := fun k => if k = 1 then 1 else 0 } 2 = some r ∧
      r.len = 1 + 1 ∧ r.cap = 2 ∧ r.len ≤ r.cap ∧ r.get 0 = 2 ∧
      (∀ i, r.get (i + 1) = (seq_ptr.get
        { cap := 2, len := 1, array_head := 0, seq_begin := 1, end_ := 2,
          mem := fun k => if k = 1 then 1 else 0 } i)) ∧ r.end_ = 2 ∧ r.seq_begin = 1 - 1) ∧
    my_prepend_ptr
      { cap := 2, len := 2, array_head := 0, seq_begin := 0, end_ := 2,
        mem := fun k => if k = 1 then 1 else 2 } 4 = none :=
  ⟨(my_prepend_ptr_spec
      { cap := 2, len := 1, array_head := 0, seq_begin := 1, end_ := 2,
        mem := fun k => if k = 1 then 1 else 0 } 2).1 (by decide),
   (my_prepend_ptr_spec
      { cap := 2, len := 2, array_head := 0, seq_begin := 0, end_ := 2,
        mem := fun k => if k = 1 then 1 else 2 } 4).2.1 rfl⟩

/-- The loop of `algn_get_median_3d` prepends the same median `i` times. -/
theorem algn_get_median_3d_loop_spec (end1 end2 end3 : Nat) (m : cost_matrices_3d) (i : Nat) :
    ∀ sm : seq, sm.len + i ≤ sm.cap →
      algn_get_median_3d_loop end1 end2 end3 m i sm =
        some { sm with elems :=
          List.replicate i (cm_get_median_3d m end1 end2 end3) ++ sm.elems } := by
  induction i with
  | zero => intro sm _; rfl
  | succ n ih =>
    intro sm h
    simp only [algn_get_median_3d_loop]
    rw [seq_prepend_some _ _ (by omega), Option.some_bind,
      ih _ (by rw [len_cons]; show sm.len + 1 + n ≤ sm.cap; omega)]
    simp only [List.replicate_succ']
    congr 2
    simp

/-- Claim C27 (failing input). For the three aligned streams `- A C`, `- A C`, `- A G` and the
table whose median of a triple is the union of its symbols, `algn_get_median_3d` emits
`C|G, C|G, C|G`: three times the median of the last column, because the pointers `end1`, `end2`,
`end3` are never moved. The medians of the three columns are `-`, `A`, `C|G`. In general the
stream emitted holds `len` copies of the median of the last column. -/
theorem algn_get_median_3d_repeats_last :
    (algn_get_median_3d { cap := 3, elems := [16, 1, 2] } { cap := 3, elems := [16, 1, 2] }
      { cap := 3, elems := [16, 1, 4] } union_mtx_3d (empty_seq 3)).map (fun r => r.elems)
      = some [6, 6, 6] ∧
    [cm_get_median_3d union_mtx_3d 16 16 16, cm_get_median_3d union_mtx_3d 1 1 1,
      cm_get_median_3d union_mtx_3d 2 2 4] = [16, 1, 6] ∧
    (∀ (seq1 seq2 seq3 sm : seq) (m : cost_matrices_3d), sm.elems = [] → seq1.len ≤ sm.cap →
      (algn_get_median_3d seq1 seq2 seq3 m sm).map (fun r => r.elems) =
        some (List.replicate seq1.len
          (cm_get_median_3d m (seq_get_end seq1) (seq_get_end seq2) (seq_get_end seq3)))) := by
  refine ⟨by decide, by decide, ?_⟩
  intro seq1 seq2 seq3 sm m hsm hcap
  unfold algn_get_median_3d
  simp only [seq_get_len]
  rw [algn_get_median_3d_loop_spec _ _ _ _ _ _ (by unfold seq.len at *; rw [hsm]; simpa using hcap)]
  simp [hsm]

/-- Claim C28. The assertion of `powell_3D_align` fails, before `setup` and `doUkk` run, if and
only if `mismatchCost = 0` or `gapExtendCost = 0`; with both different from `0` the call runs for
every `gapOpenCost`, `0` included. -/
theorem powell_3D_align_rejects {α : Type} (mismatchCost gapOpenCost gapExtendCost : Nat)
    (run : Nat → Nat → Nat → α) :
    (powell_3D_align mismatchCost gapOpenCost gapExtendCost run = powell_outcome.assertion_failed
      ↔ (mismatchCost = 0 ∨ gapExtendCost = 0)) ∧
    (mismatchCost ≠ 0 → gapExtendCost ≠ 0 →
      powell_3D_align mismatchCost 0 gapExtendCost run =
        powell_outcome.ran (run mismatchCost 0 gapExtendCost)) := by
  unfold powell_3D_align
  constructor
  · by_cases h : mismatchCost ≠ 0 ∧ gapExtendCost ≠ 0
    · rw [if_pos h]
      constructor
      · intro h'; cases h'
      · intro h'; omega
    · rw [if_neg h]
      constructor
      · intro _; omega
      · intro _; trivial
  · intro h1 h2
    rw [if_pos ⟨h1, h2⟩]

/-- Witness of C28: mismatch `1`, gap extension `1` and gap opening `0` are accepted. -/
theorem powell_3D_align_rejects_witness :
    powell_3D_align 1 0 1 (fun a b c => (a, b, c)) = powell_outcome.ran (1, 0, 1) :=
  (powell_3D_align_rejects 1 0 1 (fun a b c => (a, b, c))).2 (by decide) (by decide)

/-- The first loop of `doUkk` stops at `lesserLen` when the three strings are the same. -/
theorem doUkk_start_same (xs : List Nat) (fuel : Nat) :
    ∀ d, d + fuel = xs.length → doUkk_start xs xs xs xs.length fuel d = xs.length := by
  induction fuel with
  | zero => intro d h; simp only [doUkk_start]; omega
  | succ n ih =>
    intro d h
    simp only [doUkk_start]
    rw [if_pos ⟨by omega, by unfold doUkk_are_equal; simp⟩]
    exact ih (d + 1) (by omega)

/-- The second loop of `doUkk` ends with a value above the one it starts with. -/
theorem doUkk_cost_loop_gt (best : Nat → Int) (lesserLen : Nat) (fuel : Nat) :
    ∀ d v, doUkk_cost_loop best lesserLen fuel d = some v → d + 1 ≤ v := by
  induction fuel with
  | zero => intro d v h; simp [doUkk_cost_loop] at h
  | succ n ih =>
    intro d v h
    simp only [doUkk_cost_loop] at h
    split_ifs at h with hlt
    · have := ih _ _ h
      omega
    · have := Option.some.inj h
      omega

/-- Claim C25 (failing input). The value that `doUkk` returns is the counter `cur_editDist`, which
first counts the characters on which the three inputs agree from the start and is then incremented
at least once by the loop over the costs. So `doUkk` never returns `0`, whatever the inputs and
whatever `Ukk` and `find_bestDist` compute; for three identical strings of `L` characters every
value that it can return is at least `L + 1`, and for `ACGT, ACGT, ACGT` it is `5` when the first
call of `Ukk` reaches the end of the strings. -/
theorem doUkk_identical_cost_positive :
    (∀ (xs : List Nat) (best : Nat → Int) (fuel v : Nat),
      doUkk_finalCost xs xs xs best fuel = some v → xs.length + 1 ≤ v) ∧
    (∀ (lesserStr longerStr middleStr : List Nat) (best : Nat → Int) (fuel : Nat),
      doUkk_finalCost lesserStr longerStr middleStr best fuel ≠ some 0) ∧
    doUkk_finalCost [65, 67, 71, 84] [65, 67, 71, 84] [65, 67, 71, 84] (fun _ => 4) 1
      = some 5 := by
  refine ⟨?_, ?_, by decide⟩
  · intro xs best fuel v h
    unfold doUkk_finalCost at h
    simp only [] at h
    rw [doUkk_start_same xs xs.length 0 (by omega)] at h
    exact doUkk_cost_loop_gt best xs.length fuel _ _ h
  · intro l lo m best fuel h
    unfold doUkk_finalCost at h
    have := doUkk_cost_loop_gt best _ fuel _ _ h
    omega


set_option maxRecDepth 1000000 in
/-- Claim C23 (failing input). `align2d` allocates its output streams with capacity `L1 + L2`, not
`L1 + L2 + 2`. For two streams without symbols (`L1 = L2 = 0`) under unit costs the call that
asks for no output returns the cost `0`, and the call that asks for the gapped median fails: the
backtrace prepends the column of the two leading gaps to streams of capacity `0`; with streams of
capacity `L1 + L2 + 2 = 2` the same backtrace returns `-` and `-`. For `A` against `C` under a
base table that is not metric the alignment has three columns (`- A -` over `- - C`) and the
prepend of the third one fails on streams of capacity `L1 + L2 = 2`. -/
theorem align2d_output_capacity_too_small :
    (align2d wrap32 (alignIO_of []) (alignIO_of []) alignIO_none alignIO_none
      (expanded_2d (unit_tcm 5) 5) 0 0 0).map (fun r => r.algnCost) = some 0 ∧
    align2d wrap32 (alignIO_of []) (alignIO_of []) alignIO_none alignIO_none
      (expanded_2d (unit_tcm 5) 5) 0 1 0 = none ∧
    ((nw_2d_entry wrap32 (alignIOtoChar (alignIO_of []) 5) (alignIOtoChar (alignIO_of []) 5)
        (expanded_2d (unit_tcm 5) 5) 2).bind fun r =>
      backtrace_2d_entry (alignIOtoChar (alignIO_of []) 5) (alignIOtoChar (alignIO_of []) 5)
        (initializeChar 2) (initializeChar 2) r.2 (expanded_2d (unit_tcm 5) 5)).map
      (fun r => (r.1.elems, r.2.elems)) = some ([16], [16]) ∧
    (align2d wrap32 (alignIO_of [1]) (alignIO_of [2]) alignIO_none alignIO_none
      (expanded_2d nonmetric_tcm 5) 0 0 0).map (fun r => r.algnCost) = some 0 ∧
    align2d wrap32 (alignIO_of [1]) (alignIO_of [2]) alignIO_none alignIO_none
      (expanded_2d nonmetric_tcm 5) 0 1 0 = none ∧
    ((nw_2d_entry wrap32 (alignIOtoChar (alignIO_of [2]) 5) (alignIOtoChar (alignIO_of [1]) 5)
        (expanded_2d nonmetric_tcm 5) 2).bind fun r =>
      backtrace_2d_entry (alignIOtoChar (alignIO_of [2]) 5) (alignIOtoChar (alignIO_of [1]) 5)
        (initializeChar 4) (initializeChar 4) r.2 (expanded_2d nonmetric_tcm 5)).map
      (fun r => (r.1.elems, r.2.elems)) = some ([16, 16, 2], [16, 1, 16]) := by
  refine ⟨?_, ?_, ?_, ?_, ?_, ?_⟩ <;> decide!

set_option maxRecDepth 1000000 in
/-- Claim C24 (counterexample). `align2d` called with `getGapped` and `getUnion` both set, for `A`
against `R = A|G` under unit costs, returns the cost `0` and writes the aligned streams and, in
the slot of the gapped median, the union `R`; with `getGapped` alone that slot holds the gapped
median `A`. -/
theorem align2d_gapped_and_union :
    (align2d wrap32 (alignIO_of [1]) (alignIO_of [5]) alignIO_none alignIO_none
      (expanded_2d (unit_tcm 5) 5) 0 1 1).map
      (fun r => (r.algnCost, r.inputChar1_aio.character, r.inputChar2_aio.character,
        r.gappedOutput_aio.character)) = some (0, [1, 0], [5, 0], [5, 0]) ∧
    (align2d wrap32 (alignIO_of [1]) (alignIO_of [5]) alignIO_none alignIO_none
      (expanded_2d (unit_tcm 5) 5) 0 1 0).map
      (fun r => r.gappedOutput_aio.character) = some [1, 0] := by
  constructor <;> decide!

/-- With `getUnion` set, `align2d_outputs` does not look at `getGapped`. -/
theorem align2d_outputs_union (retShortChar retLongChar : seq) (c : cost_matrices_2d)
    (CHAR_CAPACITY : Nat) ( longIO shortIO g u : alignIO) (getUngapped getGapped getUnion : Int)
    (h : getUnion ≠ 0) :
    align2d_outputs retShortChar retLongChar c CHAR_CAPACITY longIO shortIO g u getUngapped
        getGapped getUnion =
      align2d_outputs retShortChar retLongChar c CHAR_CAPACITY longIO shortIO g u getUngapped
        0 getUnion := by
  unfold align2d_outputs
  simp only [h, ne_eq, not_true_eq_false, not_false_eq_true, and_false, if_false, and_true]

/-- Claim C24 (amended). With `getUnion` set, `align2d` does not fail on `getGapped` and does not
look at it: the call with `getGapped` and `getUnion` both set does what the call with `getUnion`
alone does, whatever the engine, and the slot of the gapped median receives the union. -/
theorem align2d_union_ignores_gapped
    (nw : seq → seq → cost_matrices_2d → Int → Option (Int × nw_buffers))
    (bt : seq → seq → seq → seq → nw_buffers → cost_matrices_2d → Option (seq × seq))
    (A B g u : alignIO) (c : cost_matrices_2d) (getUngapped getGapped getUnion : Int)
    (h : getUnion ≠ 0) :
    align2d_with nw bt A B g u c getUngapped getGapped getUnion =
      align2d_with nw bt A B g u c getUngapped 0 getUnion := by
  unfold align2d_with
  simp only [align2d_outputs_union _ _ _ _ _ _ _ _ _ getGapped _ h, h, ne_eq,
    not_false_eq_true, or_true, true_or, if_true]

set_option maxRecDepth 1000000 in
/-- Witness of the amended C24: `A` against `R = A|G` under unit costs on the engine of `algn.c`;
the call with both flags set is the call with `getUnion` alone. -/
theorem align2d_union_ignores_gapped_witness :
    align2d_with (nw_2d_entry wrap32) backtrace_2d_entry (alignIO_of [1]) (alignIO_of [5])
        alignIO_none alignIO_none (expanded_2d (unit_tcm 5) 5) 0 1 1 =
      align2d_with (nw_2d_entry wrap32) backtrace_2d_entry (alignIO_of [1]) (alignIO_of [5])
        alignIO_none alignIO_none (expanded_2d (unit_tcm 5) 5) 0 0 1 :=
  align2d_union_ignores_gapped (nw_2d_entry wrap32) backtrace_2d_entry (alignIO_of [1])
    (alignIO_of [5]) alignIO_none alignIO_none (expanded_2d (unit_tcm 5) 5) 0 1 1 (by decide)

/-- The value and the direction that `algn_fill_row` stores in a cell: the minimum of the three
candidates and the union of the flags of the candidates that are equal to it. -/
theorem algn_fill_row_cell_exact (t1 t2 t3 : Int) :
    (algn_fill_row_cell t1 t2 t3).1 = min (min t1 t2) t3 ∧
    (algn_fill_row_cell t1 t2 t3).2 =
      (if t1 = min (min t1 t2) t3 then DELETE else 0) |||
      (if t2 = min (min t1 t2) t3 then INSERT else 0) |||
      (if t3 = min (min t1 t2) t3 then ALIGN else 0) := by
  unfold algn_fill_row_cell
  constructor
  · split_ifs <;> simp only [] <;> omega
  · split_ifs <;> first | rfl | (exfalso; omega)

/-- Loop invariant of `algn_fill_row` in terms of the buffers before and after the loop: every
cell `j` that the loop visits holds the value and the direction of `algn_fill_row_cell` for the
candidates read from the row at `prevRow` and from the cell to its left in the row at `curRow`,
and the other cells are left alone. -/
theorem algn_fill_row_loop_cells (w : Int → Int) (precalc : Nat → Int)
    (curRow prevRow gap_row alg_row dirMtx : Nat) (c : Int) (fuel : Nat) :
    ∀ (i : Nat) (s : nw_buffers), 1 ≤ i →
      (∀ j k, i - 1 ≤ j → j < i + fuel → i ≤ k → k < i + fuel → prevRow + j ≠ curRow + k) →
      (∀ k, (k < curRow + i ∨ curRow + i + fuel ≤ k) →
        (algn_fill_row_loop w precalc curRow prevRow gap_row alg_row dirMtx c fuel i s).mtx k
          = s.mtx k) ∧
      (∀ k, (k < dirMtx + i ∨ dirMtx + i + fuel ≤ k) →
        (algn_fill_row_loop w precalc curRow prevRow gap_row alg_row dirMtx c fuel i s).dir k
          = s.dir k) ∧
      (∀ j, i ≤ j → j < i + fuel →
        (algn_fill_row_loop w precalc curRow prevRow gap_row alg_row dirMtx c fuel i s).mtx
            (curRow + j) =
          (algn_fill_row_cell (w (s.mtx (prevRow + j) + c))
            (w ((algn_fill_row_loop w precalc curRow prevRow gap_row alg_row dirMtx c fuel i s).mtx
              (curRow + (j - 1)) + precalc (gap_row + j)))
            (w (s.mtx (prevRow + (j - 1)) + precalc (alg_row + j)))).1 ∧
        (algn_fill_row_loop w precalc curRow prevRow gap_row alg_row dirMtx c fuel i s).dir
            (dirMtx + j) =
          (algn_fill_row_cell (w (s.mtx (prevRow + j) + c))
            (w ((algn_fill_row_loop w precalc curRow prevRow gap_row alg_row dirMtx c fuel i s).mtx
              (curRow + (j - 1)) + precalc (gap_row + j)))
            (w (s.mtx (prevRow + (j - 1)) + precalc (alg_row + j)))).2) := by
  induction fuel with
  | zero =>
    intro i s _ _
    refine ⟨fun k _ => rfl, fun k _ => rfl, fun j h1 h2 => by omega⟩
  | succ n ih =>
    intro i s hi hdisj
    simp only [algn_fill_row_loop]
    set r := algn_fill_row_cell (w (s.mtx (prevRow + i) + c))
      (w (s.mtx (curRow + (i - 1)) + precalc (gap_row + i)))
      (w (s.mtx (prevRow + (i - 1)) + precalc (alg_row + i))) with hr
    set s1 : nw_buffers :=
      { mtx := wr s.mtx (curRow + i) r.1, dir := wr s.dir (dirMtx + i) r.2 } with hs1
    obtain ⟨hf, hfd, hc⟩ := ih (i + 1) s1 (by omega)
      (fun j k h1 h2 h3 h4 => hdisj j k (by omega) (by omega) (by omega) (by omega))
    have hprev : ∀ j, i - 1 ≤ j → j < i + (n + 1) → s1.mtx (prevRow + j) = s.mtx (prevRow + j) := by
      intro j h1 h2
      show wr s.mtx (curRow + i) r.1 (prevRow + j) = _
      exact wr_other _ _ _ _ (hdisj j i h1 h2 (le_refl _) (by omega))
    refine ⟨?_, ?_, ?_⟩
    · intro k hk
      rw [hf k (by omega)]
      show wr s.mtx (curRow + i) r.1 k = _
      exact wr_other _ _ _ _ (by omega)
    · intro k hk
      rw [hfd k (by omega)]
      show wr s.dir (dirMtx + i) r.2 k = _
      exact wr_other _ _ _ _ (by omega)
    · intro j h1 h2
      by_cases hj : j = i
      · subst hj
        have e1 : (algn_fill_row_loop w precalc curRow prevRow gap_row alg_row dirMtx c n (j + 1)
            s1).mtx (curRow + j) = r.1 := by
          rw [hf _ (by omega)]
          exact wr_same _ _ _
        have e2 : (algn_fill_row_loop w precalc curRow prevRow gap_row alg_row dirMtx c n (j + 1)
            s1).dir (dirMtx + j) = r.2 := by
          rw [hfd _ (by omega)]
          exact wr_same _ _ _
        have e3 : (algn_fill_row_loop w precalc curRow prevRow gap_row alg_row dirMtx c n (j + 1)
            s1).mtx (curRow + (j - 1)) = s.mtx (curRow + (j - 1)) := by
          rw [hf _ (by omega)]
          show wr s.mtx (curRow + j) r.1 _ = _
          exact wr_other _ _ _ _ (by omega)
        rw [e1, e2, e3]
        exact ⟨rfl, rfl⟩
      · have := hc j (by omega) (by omega)
        rw [hprev j (by omega) h2, hprev (j - 1) (by omega) (by omega)] at this
        exact this

/-- Claim C29. For every `prevRow`, `gap_row`, `alg_row`, constant `c` and every index `i` in
`[st, end]` (`st ≥ 1`, the cells read in the row at `prevRow` are not cells written in the row at
`curRow`), `algn_fill_row` sets
`curRow[i] = min (prevRow[i] + c, curRow[i-1] + gap_row[i], prevRow[i-1] + alg_row[i])` and sets
`dirMtx[i]` to the union of the flags `DELETE`, `INSERT`, `ALIGN` whose candidate equals that
minimum, which is never `0`. The three sums are the `int` sums of the source: each is reduced by
`w`, which is any reduction (`wrap32` for the 32 bit `int`, the identity for sums that stay in
range). -/
theorem algn_fill_row_min_and_flags (w : Int → Int) (precalc : Nat → Int) (s : nw_buffers)
    (curRow prevRow gap_row alg_row dirMtx : Nat) (c : Int) (st end_ : Nat) (hst : 1 ≤ st)
    (hdisj : ∀ j k, st - 1 ≤ j → j ≤ end_ → st ≤ k → k ≤ end_ → prevRow + j ≠ curRow + k)
    (i : Nat) (hi1 : st ≤ i) (hi2 : i ≤ end_) :
    (algn_fill_row w precalc s curRow prevRow gap_row alg_row dirMtx c st end_).mtx (curRow + i) =
      min (min (w (s.mtx (prevRow + i) + c))
        (w ((algn_fill_row w precalc s curRow prevRow gap_row alg_row dirMtx c st end_).mtx
          (curRow + (i - 1)) + precalc (gap_row + i))))
        (w (s.mtx (prevRow + (i - 1)) + precalc (alg_row + i))) ∧
    (algn_fill_row w precalc s curRow prevRow gap_row alg_row dirMtx c st end_).dir (dirMtx + i) =
      (if w (s.mtx (prevRow + i) + c) =
          (algn_fill_row w precalc s curRow prevRow gap_row alg_row dirMtx c st end_).mtx
            (curRow + i) then DELETE else 0) |||
      (if w ((algn_fill_row w precalc s curRow prevRow gap_row alg_row dirMtx c st end_).mtx
            (curRow + (i - 1)) + precalc (gap_row + i)) =
          (algn_fill_row w precalc s curRow prevRow gap_row alg_row dirMtx c st end_).mtx
            (curRow + i) then INSERT else 0) |||
      (if w (s.mtx (prevRow + (i - 1)) + precalc (alg_row + i)) =
          (algn_fill_row w precalc s curRow prevRow gap_row alg_row dirMtx c st end_).mtx
            (curRow + i) then ALIGN else 0) ∧
    (algn_fill_row w precalc s curRow prevRow gap_row alg_row dirMtx c st end_).dir (dirMtx + i)
      ≠ 0 := by
  have hfuel : st + (end_ + 1 - st) = end_ + 1 := by omega
  obtain ⟨_, _, hc⟩ := algn_fill_row_loop_cells w precalc curRow prevRow gap_row alg_row dirMtx c
    (end_ + 1 - st) st s hst
    (fun j k h1 h2 h3 h4 => hdisj j k h1 (by omega) h3 (by omega))
  obtain ⟨hv, hd⟩ := hc i hi1 (by omega)
  unfold algn_fill_row
  have hx := algn_fill_row_cell_exact (w (s.mtx (prevRow + i) + c))
    (w ((algn_fill_row_loop w precalc curRow prevRow gap_row alg_row dirMtx c (end_ + 1 - st) st
      s).mtx (curRow + (i - 1)) + precalc (gap_row + i)))
    (w (s.mtx (prevRow + (i - 1)) + precalc (alg_row + i)))
  have hpos := (algn_fill_row_cell_snd (w (s.mtx (prevRow + i) + c))
    (w ((algn_fill_row_loop w precalc curRow prevRow gap_row alg_row dirMtx c (end_ + 1 - st) st
      s).mtx (curRow + (i - 1)) + precalc (gap_row + i)))
    (w (s.mtx (prevRow + (i - 1)) + precalc (alg_row + i)))).1
  refine ⟨?_, ?_, ?_⟩
  · rw [hv, hx.1]
  · rw [hd, hx.2, hv, hx.1]
  · rw [hd]
    omega

set_option maxRecDepth 100000 in
/-- Witness of C29: the row of `row_example_buffers` at `3` over the previous row `0, 1, 2` with
`c = 1` and the 32 bit `int` of the source; cell `2` holds the minimum `1` of `3, 2, 1` with the
flag `ALIGN` alone. -/
theorem algn_fill_row_min_and_flags_witness :
    ((algn_fill_row wrap32 row_example_precalc row_example_buffers 3 0 0 10 0 1 1 2).mtx (3 + 2) =
      min (min (wrap32 (row_example_buffers.mtx (0 + 2) + 1))
        (wrap32 ((algn_fill_row wrap32 row_example_precalc row_example_buffers 3 0 0 10 0 1 1
          2).mtx (3 + (2 - 1)) + row_example_precalc (0 + 2))))
        (wrap32 (row_example_buffers.mtx (0 + (2 - 1)) + row_example_precalc (10 + 2))) ∧
    (algn_fill_row wrap32 row_example_precalc row_example_buffers 3 0 0 10 0 1 1 2).dir (0 + 2) =
      (if wrap32 (row_example_buffers.mtx (0 + 2) + 1) =
          (algn_fill_row wrap32 row_example_precalc row_example_buffers 3 0 0 10 0 1 1 2).mtx
            (3 + 2) then DELETE else 0) |||
      (if wrap32 ((algn_fill_row wrap32 row_example_precalc row_example_buffers 3 0 0 10 0 1 1
            2).mtx (3 + (2 - 1)) + row_example_precalc (0 + 2)) =
          (algn_fill_row wrap32 row_example_precalc row_example_buffers 3 0 0 10 0 1 1 2).mtx
            (3 + 2) then INSERT else 0) |||
      (if wrap32 (row_example_buffers.mtx (0 + (2 - 1)) + row_example_precalc (10 + 2)) =
          (algn_fill_row wrap32 row_example_precalc row_example_buffers 3 0 0 10 0 1 1 2).mtx
            (3 + 2) then ALIGN else 0) ∧
    (algn_fill_row wrap32 row_example_precalc row_example_buffers 3 0 0 10 0 1 1 2).dir (0 + 2)
      ≠ 0) ∧
    (algn_fill_row wrap32 row_example_precalc row_example_buffers 3 0 0 10 0 1 1 2).mtx (3 + 2) = 1 ∧
    (algn_fill_row wrap32 row_example_precalc row_example_buffers 3 0 0 10 0 1 1 2).dir (0 + 2)
      = ALIGN :=
  ⟨algn_fill_row_min_and_flags wrap32 row_example_precalc row_example_buffers 3 0 0 10 0 1 1 2
      (by decide) (by intro j k _ _ _ _; omega) 2 (by decide) (by decide),
    by decide, by decide⟩

/-! ## `printTraceBack`: the output streams -/

/-- The value of `size_t_pred` on a positive `size_t`. -/
theorem size_t_pred_pos (x : Nat) (h1 : 0 < x) (h2 : x < 18446744073709551616) :
    size_t_pred x = x - 1 := by
  unfold size_t_pred
  omega

/-- No position of an empty range counts. -/
theorem nongap_count_empty (str : Nat → Nat) (lo : Nat) :
    ∀ hi, hi ≤ lo → nongap_count str lo hi = 0 := by
  intro hi
  induction hi with
  | zero => intro _; rfl
  | succ n ih =>
    intro h
    simp only [nongap_count]
    rw [ih (by omega), if_neg (by omega)]

/-- The count of a range that is extended by one position. -/
theorem nongap_count_succ (str : Nat → Nat) (lo hi : Nat) (h : lo ≤ hi) :
    nongap_count str lo (hi + 1) = nongap_count str lo hi + (if str hi = 45 then 0 else 1) := by
  simp only [nongap_count]
  by_cases h45 : str hi = 45
  · rw [if_neg (by tauto), if_pos h45]
  · rw [if_pos ⟨h, h45⟩, if_neg h45]

/-- The statement of `printTraceBack_copy_step` when the output stream has room. -/
theorem printTraceBack_copy_step_spec (str : Nat → Nat) (original : seq) (j : Nat) (ret : seq)
    (orig_idx : Nat) (hcap : ret.len < ret.cap) :
    printTraceBack_copy_step str original j ret orig_idx =
      some ({ ret with elems :=
                (if str j = 45 then 16 else original.elems.getD orig_idx 0) :: ret.elems },
            if str j = 45 then orig_idx else size_t_pred orig_idx) := by
  unfold printTraceBack_copy_step dyn_char_prepend seq_get_element
  by_cases h : str j = 45
  · simp only [h, if_true, if_pos (show ret.cap > ret.len from hcap)]
  · simp only [h, if_false, if_pos (show ret.cap > ret.len from hcap)]

/-- The relation `copy_stream_inv` goes one step of the loop back. -/
theorem copy_stream_inv_step (str : Nat → Nat) (original : seq) (j c : Nat) (r0 r1 : seq)
    (hc : c + nongap_count str 0 (j + 1) ≤ original.len)
    (h : copy_stream_inv str original j (c + (if str j = 45 then 0 else 1))
      { r0 with elems :=
          (if str j = 45 then 16 else original.elems.getD (original.len - 1 - c) 0) :: r0.elems }
      r1) :
    copy_stream_inv str original (j + 1) c r0 r1 := by
  obtain ⟨hcap, cols, he, hl, hcol, hf⟩ := h
  rw [nongap_count_succ str 0 j (Nat.zero_le _)] at hc
  refine ⟨hcap, cols ++ [if str j = 45 then 16 else
      original.elems.getD (original.len - 1 - c) 0], ?_, ?_, ?_, ?_⟩
  · rw [he]; simp
  · simp [hl]
  · intro k hk
    by_cases hkj : k = j
    · subst hkj
      rw [List.getD_append_right _ _ _ _ (by omega), hl, Nat.sub_self,
        nongap_count_empty str (k + 1) (k + 1) (le_refl _)]
      simp
    · have hk2 : k < j := by omega
      rw [List.getD_append _ _ _ _ (by omega), hcol k hk2,
        nongap_count_succ str (k + 1) j (by omega)]
      by_cases h1 : str k = 45
      · simp only [h1, if_true]
      · simp only [h1, if_false]
        congr 1
        split_ifs <;> omega
  · rw [List.filter_append, hf, nongap_count_succ str 0 j (Nat.zero_le _)]
    by_cases h45 : str j = 45
    · simp only [h45, if_true, Nat.add_zero]
      simp
    · simp only [h45, if_false] at hc ⊢
      have hlen : original.elems.length = original.len := rfl
      have hd : original.len - c - (nongap_count str 0 j + 1)
          = original.len - (c + 1) - nongap_count str 0 j := by omega
      rw [hd]
      have hlt : nongap_count str 0 j <
          (original.elems.drop (original.len - (c + 1) - nongap_count str 0 j)).length := by
        rw [List.length_drop]; omega
      rw [List.take_succ, List.filter_append]
      congr 1
      rw [List.getElem?_eq_getElem hlt]
      have hidx : original.len - (c + 1) - nongap_count str 0 j + nongap_count str 0 j
          = original.len - 1 - c := by omega
      have hin : original.len - 1 - c < original.elems.length := by omega
      simp only [Option.toList, List.getElem_drop, hidx]
      rw [List.getD_eq_getElem _ _ hin]

/-- Loop invariant of the copy loop of `printTraceBack`: when the three output streams have room
for `j` more symbols and the three input streams have the symbols that the result strings ask
for, the loop returns and each output stream is related to its value before the loop by
`copy_stream_inv`. -/
theorem printTraceBack_copy_loop_spec (ol om og : seq) (rc : characters_t)
    (hol : ol.len < 18446744073709551616) (hom : om.len < 18446744073709551616)
    (hog : og.len < 18446744073709551616) :
    ∀ (j : Nat) (st : printTraceBack_state) (cl cm cg : Nat),
      st.retLesserChar.len + j ≤ st.retLesserChar.cap →
      st.retMiddleChar.len + j ≤ st.retMiddleChar.cap →
      st.retLongerChar.len + j ≤ st.retLongerChar.cap →
      cl + nongap_count rc.lesserStr 0 j ≤ ol.len →
      cm + nongap_count rc.middleStr 0 j ≤ om.len →
      cg + nongap_count rc.longerStr 0 j ≤ og.len →
      st.orig_lessIdx = size_t_pred (ol.len - cl) →
      st.orig_middIdx = size_t_pred (om.len - cm) →
      st.orig_longIdx = size_t_pred (og.len - cg) →
      ∃ st1, printTraceBack_copy_loop ol om og rc j st = some st1 ∧
        copy_stream_inv rc.lesserStr ol j cl st.retLesserChar st1.retLesserChar ∧
        copy_stream_inv rc.middleStr om j cm st.retMiddleChar st1.retMiddleChar ∧
        copy_stream_inv rc.longerStr og j cg st.retLongerChar st1.retLongerChar := by
  intro j
  induction j with
  | zero =>
    intro st cl cm cg _ _ _ _ _ _ _ _ _
    refine ⟨st, rfl, ?_, ?_, ?_⟩ <;>
    exact ⟨rfl, [], rfl, rfl, fun k hk => absurd hk (Nat.not_lt_zero _), rfl⟩
  | succ j ih =>
    intro st cl cm cg hcl hcm hcg hnl hnm hng hil him hig
    have hnl2 := hnl
    have hnm2 := hnm
    have hng2 := hng
    rw [nongap_count_succ _ 0 j (Nat.zero_le _)] at hnl2 hnm2 hng2
    have key : ∀ (str : Nat → Nat) (o : seq) (c idx : Nat),
        o.len < 18446744073709551616 →
        c + (nongap_count str 0 j + (if str j = 45 then 0 else 1)) ≤ o.len →
        idx = size_t_pred (o.len - c) →
        (if str j = 45 then (16 : Nat) else o.elems.getD idx 0) =
            (if str j = 45 then 16 else o.elems.getD (o.len - 1 - c) 0) ∧
          (if str j = 45 then idx else size_t_pred idx) =
            size_t_pred (o.len - (c + (if str j = 45 then 0 else 1))) := by
      intro str o c idx ho hc hi
      by_cases h : str j = 45
      · simp only [h, if_true, Nat.add_zero]
        exact ⟨trivial, hi⟩
      · simp only [h, if_false] at hc ⊢
        have e : idx = o.len - 1 - c := by
          rw [hi, size_t_pred_pos _ (by omega) (by omega)]; omega
        refine ⟨by rw [e], ?_⟩
        rw [e]
        congr 1
        omega
    obtain ⟨kl1, kl2⟩ := key rc.lesserStr ol cl st.orig_lessIdx hol hnl2 hil
    obtain ⟨km1, km2⟩ := key rc.middleStr om cm st.orig_middIdx hom hnm2 him
    obtain ⟨kg1, kg2⟩ := key rc.longerStr og cg st.orig_longIdx hog hng2 hig
    simp only [printTraceBack_copy_loop]
    rw [printTraceBack_copy_step_spec _ _ _ _ _ (by omega),
      printTraceBack_copy_step_spec _ _ _ _ _ (by omega),
      printTraceBack_copy_step_spec _ _ _ _ _ (by omega)]
    simp only []
    rw [kl1, km1, kg1]
    obtain ⟨st1, h1, il, im, ig⟩ := ih
      { retLesserChar := { st.retLesserChar with elems :=
          (if rc.lesserStr j = 45 then 16 else ol.elems.getD (ol.len - 1 - cl) 0)
            :: st.retLesserChar.elems },
        retMiddleChar := { st.retMiddleChar with elems :=
          (if rc.middleStr j = 45 then 16 else om.elems.getD (om.len - 1 - cm) 0)
            :: st.retMiddleChar.elems },
        retLongerChar := { st.retLongerChar with elems :=
          (if rc.longerStr j = 45 then 16 else og.elems.getD (og.len - 1 - cg) 0)
            :: st.retLongerChar.elems },
        orig_lessIdx := if rc.lesserStr j = 45 then st.orig_lessIdx
          else size_t_pred st.orig_lessIdx,
        orig_longIdx := if rc.longerStr j = 45 then st.orig_longIdx
          else size_t_pred st.orig_longIdx,
        orig_middIdx := if rc.middleStr j = 45 then st.orig_middIdx
          else size_t_pred st.orig_middIdx }
      (cl + (if rc.lesserStr j = 45 then 0 else 1))
      (cm + (if rc.middleStr j = 45 then 0 else 1))
      (cg + (if rc.longerStr j = 45 then 0 else 1))
      (by simp only [seq.len, List.length_cons] at hcl ⊢; omega)
      (by simp only [seq.len, List.length_cons] at hcm ⊢; omega)
      (by simp only [seq.len, List.length_cons] at hcg ⊢; omega)
      (by omega) (by omega) (by omega) kl2 km2 kg2
    exact ⟨st1, h1, copy_stream_inv_step _ _ _ _ _ _ hnl il,
      copy_stream_inv_step _ _ _ _ _ _ hnm im, copy_stream_inv_step _ _ _ _ _ _ hng ig⟩

/-- From the relation of the copy loop to the relation of `printTraceBack_post`, after the last
`dyn_char_prepend (ret, 16)`. -/
theorem printTraceBack_post_of_inv (str : Nat → Nat) (n : Nat) (original r0 r1 : seq)
    (hn : nongap_count str 0 n ≤ original.len)
    (h : copy_stream_inv str original n 0 r0 r1) :
    printTraceBack_post str n original r0 { r1 with elems := 16 :: r1.elems } := by
  obtain ⟨hcap, cols, he, hl, hcol, hf⟩ := h
  have hlen : original.elems.length = original.len := rfl
  have htake : (16 :: r1.elems).take (n + 1) = 16 :: cols := by
    rw [he, List.take_succ_cons, List.take_left' hl]
  have hfil : ((16 :: r1.elems).take (n + 1)).filter (fun x => x ≠ 16) =
      (original.elems.drop (original.len - nongap_count str 0 n)).filter (fun x => x ≠ 16) := by
    rw [htake, List.filter_cons_of_neg (by simp), hf, Nat.sub_zero,
      List.take_of_length_le (by rw [List.length_drop]; omega)]
  refine ⟨hcap, ?_, ?_, rfl, ?_, hfil, ?_⟩
  · show (16 :: r1.elems).length = _
    rw [he]; simp [hl]; omega
  · show (16 :: r1.elems).drop (n + 1) = _
    rw [he, List.drop_succ_cons, List.drop_left' hl]
  · intro k hk
    show (16 :: r1.elems).getD (k + 1) 0 = _
    rw [List.getD_cons_succ, he, List.getD_append _ _ _ _ (by omega), hcol k hk, Nat.sub_zero]
  · intro hm h16
    show ((16 :: r1.elems).take (n + 1)).filter (fun x => x ≠ 16) = _
    rw [hfil, hm, Nat.sub_self, List.drop_zero, List.filter_eq_self]
    intro a ha
    simp only [ne_eq, decide_eq_true_eq]
    rintro rfl
    exact h16 ha

/-- Claim C26. For every traceback result held in `resultChars` (three arrays of characters with
the indices `lesserIdx = longerIdx = middleIdx = n`), when each output stream has room for
`n + 1` symbols and each input stream has the symbols that its result string asks for,
`printTraceBack` returns and each of the three output streams satisfies `printTraceBack_post`:
exactly `n + 1` symbols are prepended, the first is the gap `16`, every column holds the gap `16`
where the result character is `'-'` and otherwise the next symbol of the input stream from the
end backwards, and the prepended symbols without the gaps are the last symbols of the input
stream (the input stream itself when the result string has as many characters other than `'-'`
as the input stream has symbols, none of them `16`). -/
theorem printTraceBack_prepends (retLesserChar retMiddleChar retLongerChar : seq)
    (original_lesserChar original_middleChar original_longerChar : seq)
    (resultChars : characters_t) (n : Nat)
    (hil : resultChars.lesserIdx = n) (hig : resultChars.longerIdx = n)
    (him : resultChars.middleIdx = n)
    (hcl : retLesserChar.len + n + 1 ≤ retLesserChar.cap)
    (hcm : retMiddleChar.len + n + 1 ≤ retMiddleChar.cap)
    (hcg : retLongerChar.len + n + 1 ≤ retLongerChar.cap)
    (hol : original_lesserChar.len < 18446744073709551616)
    (hom : original_middleChar.len < 18446744073709551616)
    (hog : original_longerChar.len < 18446744073709551616)
    (hnl : nongap_count resultChars.lesserStr 0 n ≤ original_lesserChar.len)
    (hnm : nongap_count resultChars.middleStr 0 n ≤ original_middleChar.len)
    (hng : nongap_count resultChars.longerStr 0 n ≤ original_longerChar.len) :
    ∃ rl rm rg,
      printTraceBack retLesserChar retMiddleChar retLongerChar original_lesserChar
        original_middleChar original_longerChar resultChars = some (rl, rm, rg) ∧
      printTraceBack_post resultChars.lesserStr n original_lesserChar retLesserChar rl ∧
      printTraceBack_post resultChars.middleStr n original_middleChar retMiddleChar rm ∧
      printTraceBack_post resultChars.longerStr n original_longerChar retLongerChar rg := by
  obtain ⟨st1, h1, il, im, ig⟩ := printTraceBack_copy_loop_spec original_lesserChar
    original_middleChar original_longerChar resultChars hol hom hog n
    { retLesserChar := retLesserChar, retMiddleChar := retMiddleChar,
      retLongerChar := retLongerChar,
      orig_lessIdx := size_t_pred original_lesserChar.len,
      orig_longIdx := size_t_pred original_longerChar.len,
      orig_middIdx := size_t_pred original_middleChar.len } 0 0 0
    (by show retLesserChar.len + n ≤ retLesserChar.cap; omega) (by show retMiddleChar.len + n ≤ retMiddleChar.cap; omega)
    (by show retLongerChar.len + n ≤ retLongerChar.cap; omega)
    (by omega) (by omega) (by omega) rfl rfl rfl
  have hlenl : st1.retLesserChar.len < st1.retLesserChar.cap := by
    have i2 : copy_stream_inv _ _ n 0 retLesserChar st1.retLesserChar := il
    obtain ⟨hc, cols, he, hl, _⟩ := i2
    simp only [seq.len] at hcl ⊢
    rw [hc, he, List.length_append, hl]
    omega
  have hlenm : st1.retMiddleChar.len < st1.retMiddleChar.cap := by
    have i2 : copy_stream_inv _ _ n 0 retMiddleChar st1.retMiddleChar := im
    obtain ⟨hc, cols, he, hl, _⟩ := i2
    simp only [seq.len] at hcm ⊢
    rw [hc, he, List.length_append, hl]
    omega
  have hleng : st1.retLongerChar.len < st1.retLongerChar.cap := by
    have i2 : copy_stream_inv _ _ n 0 retLongerChar st1.retLongerChar := ig
    obtain ⟨hc, cols, he, hl, _⟩ := i2
    simp only [seq.len] at hcg ⊢
    rw [hc, he, List.length_append, hl]
    omega
  refine ⟨{ st1.retLesserChar with elems := 16 :: st1.retLesserChar.elems },
    { st1.retMiddleChar with elems := 16 :: st1.retMiddleChar.elems },
    { st1.retLongerChar with elems := 16 :: st1.retLongerChar.elems }, ?_,
    printTraceBack_post_of_inv _ _ _ _ _ hnl il, printTraceBack_post_of_inv _ _ _ _ _ hnm im,
    printTraceBack_post_of_inv _ _ _ _ _ hng ig⟩
  unfold printTraceBack
  rw [hil, Int.toNat_ofNat, h1]
  simp only [dyn_char_prepend, if_pos (show st1.retLesserChar.cap > st1.retLesserChar.len from
    hlenl), if_pos (show st1.retMiddleChar.cap > st1.retMiddleChar.len from hlenm),
    if_pos (show st1.retLongerChar.cap > st1.retLongerChar.len from hleng)]

/-- Witness of C26: the result strings `A-CG`, `AC-T`, `ACGT` over the input streams `A C G`,
`A C T`, `A C G T` give the output streams `- A - C G`, `- A C - T`, `- A C G T`. -/
theorem printTraceBack_prepends_witness :
    (∃ rl rm rg,
      printTraceBack trace_example_ret trace_example_ret trace_example_ret trace_example_lesser
        trace_example_middle trace_example_longer trace_example_result = some (rl, rm, rg) ∧
      printTraceBack_post trace_example_result.lesserStr 4 trace_example_lesser
        trace_example_ret rl ∧
      printTraceBack_post trace_example_result.middleStr 4 trace_example_middle
        trace_example_ret rm ∧
      printTraceBack_post trace_example_result.longerStr 4 trace_example_longer
        trace_example_ret rg) ∧
    printTraceBack trace_example_ret trace_example_ret trace_example_ret trace_example_lesser
        trace_example_middle trace_example_longer trace_example_result =
      some ({ cap := 5, elems := [16, 1, 16, 2, 4] }, { cap := 5, elems := [16, 1, 2, 16, 8] },
        { cap := 5, elems := [16, 1, 2, 4, 8] }) :=
  ⟨printTraceBack_prepends trace_example_ret trace_example_ret trace_example_ret
      trace_example_lesser trace_example_middle trace_example_longer trace_example_result 4
      rfl rfl rfl (by decide) (by decide) (by decide) (by decide) (by decide) (by decide)
      (by decide) (by decide) (by decide),
    rfl⟩

/-! ## A row of the cube: the minimum of seven candidates -/

/-- A cell that is stored is read back. -/
theorem wr_at_same {α : Type} (m : Int → α) (i : Int) (v : α) : wr_at m i v i = v := by
  simp [wr_at]

/-- A cell other than the one stored keeps its content. -/
theorem wr_at_other {α : Type} (m : Int → α) (i k : Int) (v : α) (h : k ≠ i) :
    wr_at m i v k = m k := by
  simp [wr_at, h]

/-- Storing twice at an address keeps the second value. -/
theorem wr_at_wr_at {α : Type} (m : Int → α) (i : Int) (v w : α) :
    wr_at (wr_at m i v) i w = wr_at m i w := by
  funext k
  simp only [wr_at]
  split_ifs <;> rfl

/-- Storing the content of a cell in the cell changes nothing. -/
theorem wr_at_self {α : Type} (m : Int → α) (i : Int) : wr_at m i (m i) = m := by
  funext k
  simp only [wr_at]
  split_ifs with h
  · rw [h]
  · rfl

/-- Loop invariant of a loop whose body stores in the cell `k` of the row only: the cells outside
the range of the loop keep their content, and for every `k` of the range the property `P` of the
body holds between a state `sk`, which is the state before the loop outside the cells
`k0, ..., k - 1` of the row and the state after the loop on the cells before `k`, and the cell `k`
after the loop. -/
theorem for_loop_cells (body : Nat → cube_buffers → cube_buffers) (curRow dirMtx : Int)
    (P : Nat → cube_buffers → Int → Nat → Prop)
    (hbody : ∀ k s, ∃ v f, body k s =
      { mtx := wr_at s.mtx (curRow + k) v, dir := wr_at s.dir (dirMtx + k) f } ∧ P k s v f) :
    ∀ (fuel k0 : Nat) (s : cube_buffers),
      (∀ x, (x < curRow + k0 ∨ curRow + k0 + fuel ≤ x) →
        (for_loop body fuel k0 s).mtx x = s.mtx x) ∧
      (∀ x, (x < dirMtx + k0 ∨ dirMtx + k0 + fuel ≤ x) →
        (for_loop body fuel k0 s).dir x = s.dir x) ∧
      ∀ k, k0 ≤ k → k < k0 + fuel → ∃ sk : cube_buffers,
        (∀ x, (x < curRow + k0 ∨ curRow + k ≤ x) → sk.mtx x = s.mtx x) ∧
        (∀ x, x < curRow + k → sk.mtx x = (for_loop body fuel k0 s).mtx x) ∧
        (∀ x, (x < dirMtx + k0 ∨ dirMtx + k ≤ x) → sk.dir x = s.dir x) ∧
        P k sk ((for_loop body fuel k0 s).mtx (curRow + k))
          ((for_loop body fuel k0 s).dir (dirMtx + k)) := by
  intro fuel
  induction fuel with
  | zero =>
    intro k0 s
    exact ⟨fun x _ => rfl, fun x _ => rfl, fun k h1 h2 => by omega⟩
  | succ n ih =>
    intro k0 s
    obtain ⟨v, f, hb, hP⟩ := hbody k0 s
    obtain ⟨hf, hfd, hc⟩ := ih (k0 + 1) (body k0 s)
    simp only [for_loop]
    have hm1 : ∀ x, x ≠ curRow + k0 → (body k0 s).mtx x = s.mtx x := by
      intro x hx; rw [hb]; exact wr_at_other _ _ _ _ hx
    have hd1 : ∀ x, x ≠ dirMtx + k0 → (body k0 s).dir x = s.dir x := by
      intro x hx; rw [hb]; exact wr_at_other _ _ _ _ hx
    refine ⟨?_, ?_, ?_⟩
    · intro x hx
      rw [hf x (by push_cast; omega), hm1 x (by omega)]
    · intro x hx
      rw [hfd x (by push_cast; omega), hd1 x (by omega)]
    · intro k h1 h2
      by_cases hk : k = k0
      · subst hk
        refine ⟨s, fun x _ => rfl, ?_, fun x _ => rfl, ?_⟩
        · intro x hx
          rw [hf x (by push_cast; omega), hm1 x (by omega)]
        · rw [hf _ (by push_cast; omega), hfd _ (by push_cast; omega), hb]
          simp only [wr_at_same]
          exact hP
      · obtain ⟨sk, a1, a2, a4, a3⟩ := hc k (by omega) (by omega)
        refine ⟨sk, ?_, a2, ?_, a3⟩
        · intro x hx
          rw [a1 x (by push_cast; omega), hm1 x (by omega)]
        · intro x hx
          rw [a4 x (by push_cast; omega), hd1 x (by omega)]

/-- The cell that the body of `fill_parallel` stores: the minimum of its three candidates with
the direction of a candidate that is equal to it. -/
theorem fill_parallel_body_spec (w : Int → Int) (prev_m upper_m diag_m : Int)
    (seq1_gap_gap gap_seq2_gap seq1_seq2_gap : Int) (curRow dirMtx : Int)
    (hp : prev_m ≠ curRow) (hd : diag_m ≠ curRow) (k : Nat) (s : cube_buffers) :
    ∃ v f, fill_parallel_body w prev_m upper_m diag_m seq1_gap_gap gap_seq2_gap seq1_seq2_gap
        curRow dirMtx k s =
        { mtx := wr_at s.mtx (curRow + k) v, dir := wr_at s.dir (dirMtx + k) f } ∧
      v = min (min (w (s.mtx (upper_m + k) + seq1_gap_gap)) (w (s.mtx (prev_m + k) + gap_seq2_gap)))
        (w (s.mtx (diag_m + k) + seq1_seq2_gap)) ∧
      ((f = GAP23 ∧ v = w (s.mtx (upper_m + k) + seq1_gap_gap)) ∨
       (f = GAP13 ∧ v = w (s.mtx (prev_m + k) + gap_seq2_gap)) ∨
       (f = ALIGN12 ∧ v = w (s.mtx (diag_m + k) + seq1_seq2_gap))) := by
  have e1 : prev_m + (k : Int) ≠ curRow + k := by omega
  have e2 : diag_m + (k : Int) ≠ curRow + k := by omega
  unfold fill_parallel_body
  simp only [wr_at_same, wr_at_other _ _ _ _ e1]
  by_cases h1 : w (s.mtx (prev_m + k) + gap_seq2_gap) < w (s.mtx (upper_m + k) + seq1_gap_gap)
  · simp only [h1, if_true, wr_at_same, wr_at_other _ _ _ _ e2, wr_at_wr_at]
    by_cases h2 : w (s.mtx (diag_m + k) + seq1_seq2_gap) < w (s.mtx (prev_m + k) + gap_seq2_gap)
    · simp only [h2, if_true]
      exact ⟨_, _, rfl, by omega, Or.inr (Or.inr ⟨rfl, rfl⟩)⟩
    · simp only [h2, if_false]
      exact ⟨_, _, rfl, by omega, Or.inr (Or.inl ⟨rfl, rfl⟩)⟩
  · simp only [h1, if_false, wr_at_same, wr_at_other _ _ _ _ e2, wr_at_wr_at]
    by_cases h2 : w (s.mtx (diag_m + k) + seq1_seq2_gap) < w (s.mtx (upper_m + k) + seq1_gap_gap)
    · simp only [h2, if_true]
      exact ⟨_, _, rfl, by omega, Or.inr (Or.inr ⟨rfl, rfl⟩)⟩
    · simp only [h2, if_false]
      exact ⟨_, _, rfl, by omega, Or.inl ⟨rfl, rfl⟩⟩

/-- The cell that the body of `fill_moved` stores: the minimum of the cell and the three
candidates, with the direction of the cell or of a candidate that is equal to the minimum. -/
theorem fill_moved_body_spec (w : Int → Int) (prev_m upper_m diag_m : Int)
    (seq1_gap_seq3 gap_seq2_seq3 seq1_seq2_seq3 : Nat → Int) (curRow dirMtx : Int)
    (hu : upper_m ≠ curRow) (hp : prev_m ≠ curRow) (hd : diag_m ≠ curRow) (k : Nat)
    (s : cube_buffers) :
    ∃ v f, fill_moved_body w prev_m upper_m diag_m seq1_gap_seq3 gap_seq2_seq3 seq1_seq2_seq3
        curRow dirMtx k s =
        { mtx := wr_at s.mtx (curRow + k) v, dir := wr_at s.dir (dirMtx + k) f } ∧
      v = min (min (min (s.mtx (curRow + k)) (w (s.mtx (upper_m + k) + seq1_gap_seq3 k)))
        (w (s.mtx (prev_m + k) + gap_seq2_seq3 k))) (w (s.mtx (diag_m + k) + seq1_seq2_seq3 k)) ∧
      ((f = s.dir (dirMtx + k) ∧ v = s.mtx (curRow + k)) ∨
       (f = ALIGN13 ∧ v = w (s.mtx (upper_m + k) + seq1_gap_seq3 k)) ∨
       (f = ALIGN23 ∧ v = w (s.mtx (prev_m + k) + gap_seq2_seq3 k)) ∨
       (f = ALIGNALL ∧ v = w (s.mtx (diag_m + k) + seq1_seq2_seq3 k))) := by
  have e0 : upper_m + (k : Int) ≠ curRow + k := by omega
  have e1 : prev_m + (k : Int) ≠ curRow + k := by omega
  have e2 : diag_m + (k : Int) ≠ curRow + k := by omega
  have hs : s = ⟨wr_at s.mtx (curRow + k) (s.mtx (curRow + k)),
      wr_at s.dir (dirMtx + k) (s.dir (dirMtx + k))⟩ := by
    rw [wr_at_self, wr_at_self]
  unfold fill_moved_body
  by_cases h0 : w (s.mtx (upper_m + k) + seq1_gap_seq3 k) < s.mtx (curRow + k)
  · simp only [h0, if_true, wr_at_same, wr_at_other _ _ _ _ e1]
    by_cases h1 : w (s.mtx (prev_m + k) + gap_seq2_seq3 k) < w (s.mtx (upper_m + k) + seq1_gap_seq3 k)
    · simp only [h1, if_true, wr_at_same, wr_at_other _ _ _ _ e2, wr_at_wr_at]
      by_cases h2 : w (s.mtx (diag_m + k) + seq1_seq2_seq3 k) < w (s.mtx (prev_m + k) + gap_seq2_seq3 k)
      · simp only [h2, if_true]
        exact ⟨_, _, rfl, by omega, Or.inr (Or.inr (Or.inr ⟨rfl, rfl⟩))⟩
      · simp only [h2, if_false]
        exact ⟨_, _, rfl, by omega, Or.inr (Or.inr (Or.inl ⟨rfl, rfl⟩))⟩
    · simp only [h1, if_false, wr_at_same, wr_at_other _ _ _ _ e2, wr_at_wr_at]
      by_cases h2 : w (s.mtx (diag_m + k) + seq1_seq2_seq3 k) < w (s.mtx (upper_m + k) + seq1_gap_seq3 k)
      · simp only [h2, if_true]
        exact ⟨_, _, rfl, by omega, Or.inr (Or.inr (Or.inr ⟨rfl, rfl⟩))⟩
      · simp only [h2, if_false]
        exact ⟨_, _, rfl, by omega, Or.inr (Or.inl ⟨rfl, rfl⟩)⟩
  · simp only [h0, if_false]
    by_cases h1 : w (s.mtx (prev_m + k) + gap_seq2_seq3 k) < s.mtx (curRow + k)
    · simp only [h1, if_true, wr_at_same, wr_at_other _ _ _ _ e2, wr_at_wr_at]
      by_cases h2 : w (s.mtx (diag_m + k) + seq1_seq2_seq3 k) < w (s.mtx (prev_m + k) + gap_seq2_seq3 k)
      · simp only [h2, if_true]
        exact ⟨_, _, rfl, by omega, Or.inr (Or.inr (Or.inr ⟨rfl, rfl⟩))⟩
      · simp only [h2, if_false]
        exact ⟨_, _, rfl, by omega, Or.inr (Or.inr (Or.inl ⟨rfl, rfl⟩))⟩
    · simp only [h1, if_false]
      by_cases h2 : w (s.mtx (diag_m + k) + seq1_seq2_seq3 k) < s.mtx (curRow + k)
      · simp only [h2, if_true]
        exact ⟨_, _, rfl, by omega, Or.inr (Or.inr (Or.inr ⟨rfl, rfl⟩))⟩
      · simp only [h2, if_false]
        exact ⟨_, _, hs, by omega, Or.inl ⟨rfl, rfl⟩⟩

/-- The cell that the body of the last loop over a row stores: the minimum of the cell and the
candidate `GAP12`. -/
theorem algn_fill_cube_gap12_body_spec (w : Int → Int) (gap_gap_seq3 : Nat → Int) (curRow dirMtx : Int)
    (k : Nat) (s : cube_buffers) :
    ∃ v f, algn_fill_cube_gap12_body w gap_gap_seq3 curRow dirMtx k s =
        { mtx := wr_at s.mtx (curRow + k) v, dir := wr_at s.dir (dirMtx + k) f } ∧
      v = min (s.mtx (curRow + k)) (w (s.mtx (curRow + (k - 1 : Int)) + gap_gap_seq3 k)) ∧
      ((f = s.dir (dirMtx + k) ∧ v = s.mtx (curRow + k)) ∨
       (f = GAP12 ∧ v = w (s.mtx (curRow + (k - 1 : Int)) + gap_gap_seq3 k))) := by
  have hs : s = ⟨wr_at s.mtx (curRow + k) (s.mtx (curRow + k)),
      wr_at s.dir (dirMtx + k) (s.dir (dirMtx + k))⟩ := by
    rw [wr_at_self, wr_at_self]
  unfold algn_fill_cube_gap12_body
  by_cases h : w (s.mtx (curRow + (k - 1 : Int)) + gap_gap_seq3 k) < s.mtx (curRow + k)
  · simp only [h, if_true]
    exact ⟨_, _, rfl, by omega, Or.inr ⟨rfl, rfl⟩⟩
  · simp only [h, if_false]
    exact ⟨_, _, hs, by omega, Or.inl ⟨rfl, rfl⟩⟩

/-- Claim C30. For every row of `algn_fill_cube` in a plane `i ≥ 1` with `j ≥ 1` whose three
neighbour rows `prev_m`, `upper_m`, `diag_m` lie before the row `curRow` in the cube, after
`fill_parallel`, `fill_moved` (called with `prev_m - 1`, `upper_m - 1`, `diag_m - 1`) and the last
pass of `GAP12`, every cell `curRow[k]` with `1 ≤ k < seq3_len` is the minimum of the seven
candidates (`GAP23`, `GAP13`, `ALIGN12` from the cells `k` of `upper_m`, `prev_m`, `diag_m`;
`ALIGN13`, `ALIGN23`, `ALIGNALL` from the cells `k - 1`; `GAP12` from `curRow[k - 1]`), and
`dirMtx[k]` is the one direction of a candidate that is equal to it. Every candidate is the sum
of the C code reduced by `w`: the statement holds for every reduction, `wrap32` (the sums of C
`int`) included, so that no bound on the cells or on the costs is needed. -/
theorem algn_fill_cube_row_min_of_seven (w : Int → Int) (seq3_len : Nat)
    (prev_m upper_m diag_m : Int)
    (seq1_gap_seq3 gap_seq2_seq3 seq1_seq2_seq3 gap_gap_seq3 : Nat → Int) (curRow dirMtx : Int)
    (s : cube_buffers)
    (hp : prev_m + seq3_len ≤ curRow) (hu : upper_m + seq3_len ≤ curRow)
    (hd : diag_m + seq3_len ≤ curRow) (k : Nat) (hk1 : 1 ≤ k) (hk : k < seq3_len) :
    (algn_fill_cube_row w seq3_len prev_m upper_m diag_m seq1_gap_seq3 gap_seq2_seq3
        seq1_seq2_seq3 gap_gap_seq3 curRow dirMtx s).mtx (curRow + k) =
      min (min (min (min (min (min
        (w (s.mtx (upper_m + k) + seq1_gap_seq3 0))
        (w (s.mtx (prev_m + k) + gap_seq2_seq3 0)))
        (w (s.mtx (diag_m + k) + seq1_seq2_seq3 0)))
        (w (s.mtx (upper_m + k - 1) + seq1_gap_seq3 k)))
        (w (s.mtx (prev_m + k - 1) + gap_seq2_seq3 k)))
        (w (s.mtx (diag_m + k - 1) + seq1_seq2_seq3 k)))
        (w ((algn_fill_cube_row w seq3_len prev_m upper_m diag_m seq1_gap_seq3 gap_seq2_seq3
          seq1_seq2_seq3 gap_gap_seq3 curRow dirMtx s).mtx (curRow + k - 1) + gap_gap_seq3 k)) ∧
    (((algn_fill_cube_row w seq3_len prev_m upper_m diag_m seq1_gap_seq3 gap_seq2_seq3
          seq1_seq2_seq3 gap_gap_seq3 curRow dirMtx s).dir (dirMtx + k) = GAP23 ∧
        (algn_fill_cube_row w seq3_len prev_m upper_m diag_m seq1_gap_seq3 gap_seq2_seq3
          seq1_seq2_seq3 gap_gap_seq3 curRow dirMtx s).mtx (curRow + k) =
          w (s.mtx (upper_m + k) + seq1_gap_seq3 0)) ∨
     ((algn_fill_cube_row w seq3_len prev_m upper_m diag_m seq1_gap_seq3 gap_seq2_seq3
          seq1_seq2_seq3 gap_gap_seq3 curRow dirMtx s).dir (dirMtx + k) = GAP13 ∧
        (algn_fill_cube_row w seq3_len prev_m upper_m diag_m seq1_gap_seq3 gap_seq2_seq3
          seq1_seq2_seq3 gap_gap_seq3 curRow dirMtx s).mtx (curRow + k) =
          w (s.mtx (prev_m + k) + gap_seq2_seq3 0)) ∨
     ((algn_fill_cube_row w seq3_len prev_m upper_m diag_m seq1_gap_seq3 gap_seq2_seq3
          seq1_seq2_seq3 gap_gap_seq3 curRow dirMtx s).dir (dirMtx + k) = ALIGN12 ∧
        (algn_fill_cube_row w seq3_len prev_m upper_m diag_m seq1_gap_seq3 gap_seq2_seq3
          seq1_seq2_seq3 gap_gap_seq3 curRow dirMtx s).mtx (curRow + k) =
          w (s.mtx (diag_m + k) + seq1_seq2_seq3 0)) ∨
     ((algn_fill_cube_row w seq3_len prev_m upper_m diag_m seq1_gap_seq3 gap_seq2_seq3
          seq1_seq2_seq3 gap_gap_seq3 curRow dirMtx s).dir (dirMtx + k) = ALIGN13 ∧
        (algn_fill_cube_row w seq3_len prev_m upper_m diag_m seq1_gap_seq3 gap_seq2_seq3
          seq1_seq2_seq3 gap_gap_seq3 curRow dirMtx s).mtx (curRow + k) =
          w (s.mtx (upper_m + k - 1) + seq1_gap_seq3 k)) ∨
     ((algn_fill_cube_row w seq3_len prev_m upper_m diag_m seq1_gap_seq3 gap_seq2_seq3
          seq1_seq2_seq3 gap_gap_seq3 curRow dirMtx s).dir (dirMtx + k) = ALIGN23 ∧
        (algn_fill_cube_row w seq3_len prev_m upper_m diag_m seq1_gap_seq3 gap_seq2_seq3
          seq1_seq2_seq3 gap_gap_seq3 curRow dirMtx s).mtx (curRow + k) =
          w (s.mtx (prev_m + k - 1) + gap_seq2_seq3 k)) ∨
     ((algn_fill_cube_row w seq3_len prev_m upper_m diag_m seq1_gap_seq3 gap_seq2_seq3
          seq1_seq2_seq3 gap_gap_seq3 curRow dirMtx s).dir (dirMtx + k) = ALIGNALL ∧
        (algn_fill_cube_row w seq3_len prev_m upper_m diag_m seq1_gap_seq3 gap_seq2_seq3
          seq1_seq2_seq3 gap_gap_seq3 curRow dirMtx s).mtx (curRow + k) =
          w (s.mtx (diag_m + k - 1) + seq1_seq2_seq3 k)) ∨
     ((algn_fill_cube_row w seq3_len prev_m upper_m diag_m seq1_gap_seq3 gap_seq2_seq3
          seq1_seq2_seq3 gap_gap_seq3 curRow dirMtx s).dir (dirMtx + k) = GAP12 ∧
        (algn_fill_cube_row w seq3_len prev_m upper_m diag_m seq1_gap_seq3 gap_seq2_seq3
          seq1_seq2_seq3 gap_gap_seq3 curRow dirMtx s).mtx (curRow + k) =
          w ((algn_fill_cube_row w seq3_len prev_m upper_m diag_m seq1_gap_seq3 gap_seq2_seq3
            seq1_seq2_seq3 gap_gap_seq3 curRow dirMtx s).mtx (curRow + k - 1)
            + gap_gap_seq3 k))) := by
  have hfuel : 1 + (seq3_len - 1) = seq3_len := by omega
  unfold algn_fill_cube_row fill_moved fill_parallel
  simp only []
  -- the three passes
  obtain ⟨f1, fd1, c1⟩ := for_loop_cells _ curRow dirMtx _
    (fill_parallel_body_spec w prev_m upper_m diag_m (seq1_gap_seq3 0) (gap_seq2_seq3 0)
      (seq1_seq2_seq3 0) curRow dirMtx (by omega) (by omega)) seq3_len 0 s
  obtain ⟨f2, fd2, c2⟩ := for_loop_cells _ curRow dirMtx _
    (fill_moved_body_spec w (prev_m - 1) (upper_m - 1) (diag_m - 1) seq1_gap_seq3 gap_seq2_seq3
      seq1_seq2_seq3 curRow dirMtx (by omega) (by omega) (by omega)) (seq3_len - 1) 1
    (for_loop (fill_parallel_body w prev_m upper_m diag_m (seq1_gap_seq3 0) (gap_seq2_seq3 0)
      (seq1_seq2_seq3 0) curRow dirMtx) seq3_len 0 s)
  obtain ⟨f3, fd3, c3⟩ := for_loop_cells _ curRow dirMtx _
    (algn_fill_cube_gap12_body_spec w gap_gap_seq3 curRow dirMtx) (seq3_len - 1) 1
    (for_loop (fill_moved_body w (prev_m - 1) (upper_m - 1) (diag_m - 1) seq1_gap_seq3
      gap_seq2_seq3 seq1_seq2_seq3 curRow dirMtx) (seq3_len - 1) 1
      (for_loop (fill_parallel_body w prev_m upper_m diag_m (seq1_gap_seq3 0) (gap_seq2_seq3 0)
        (seq1_seq2_seq3 0) curRow dirMtx) seq3_len 0 s))
  obtain ⟨k1, a1, _, _, v1, d1⟩ := c1 k (by omega) (by omega)
  obtain ⟨k2, a2, _, b2, v2, d2⟩ := c2 k hk1 (by omega)
  obtain ⟨k3, a3, b3, e3, v3, d3⟩ := c3 k hk1 (by omega)
  clear c1 c2 c3 fd1 fd2 fd3 f2 f3
  generalize (for_loop (algn_fill_cube_gap12_body w gap_gap_seq3 curRow dirMtx) (seq3_len - 1) 1
    (for_loop (fill_moved_body w (prev_m - 1) (upper_m - 1) (diag_m - 1) seq1_gap_seq3
      gap_seq2_seq3 seq1_seq2_seq3 curRow dirMtx) (seq3_len - 1) 1
      (for_loop (fill_parallel_body w prev_m upper_m diag_m (seq1_gap_seq3 0) (gap_seq2_seq3 0)
        (seq1_seq2_seq3 0) curRow dirMtx) seq3_len 0 s))) = s3 at *
  generalize (for_loop (fill_moved_body w (prev_m - 1) (upper_m - 1) (diag_m - 1) seq1_gap_seq3
      gap_seq2_seq3 seq1_seq2_seq3 curRow dirMtx) (seq3_len - 1) 1
      (for_loop (fill_parallel_body w prev_m upper_m diag_m (seq1_gap_seq3 0) (gap_seq2_seq3 0)
        (seq1_seq2_seq3 0) curRow dirMtx) seq3_len 0 s)) = s2 at *
  generalize (for_loop (fill_parallel_body w prev_m upper_m diag_m (seq1_gap_seq3 0)
      (gap_seq2_seq3 0) (seq1_seq2_seq3 0) curRow dirMtx) seq3_len 0 s) = s1 at *
  -- the cells that the bodies read
  have r1u : k1.mtx (upper_m + k) = s.mtx (upper_m + k) := a1 _ (by omega)
  have r1p : k1.mtx (prev_m + k) = s.mtx (prev_m + k) := a1 _ (by omega)
  have r1d : k1.mtx (diag_m + k) = s.mtx (diag_m + k) := a1 _ (by omega)
  have r2u : k2.mtx (upper_m - 1 + k) = s.mtx (upper_m + k - 1) := by
    rw [a2 _ (by omega), f1 _ (by omega)]
    congr 1; omega
  have r2p : k2.mtx (prev_m - 1 + k) = s.mtx (prev_m + k - 1) := by
    rw [a2 _ (by omega), f1 _ (by omega)]
    congr 1; omega
  have r2d : k2.mtx (diag_m - 1 + k) = s.mtx (diag_m + k - 1) := by
    rw [a2 _ (by omega), f1 _ (by omega)]
    congr 1; omega
  have r2c := a2 (curRow + k) (by omega)
  have r2f := b2 (dirMtx + k) (by omega)
  have r3c := a3 (curRow + k) (by omega)
  have r3f := e3 (dirMtx + k) (by omega)
  have r3l : k3.mtx (curRow + (k - 1 : Int)) = s3.mtx (curRow + k - 1) := by
    rw [b3 _ (by omega)]
    congr 1; omega
  rw [r1u, r1p, r1d] at v1 d1
  rw [r2u, r2p, r2d, r2c] at v2 d2
  rw [r2f] at d2
  rw [r3c, r3l] at v3 d3
  rw [r3f] at d3
  constructor
  · rw [v3, v2, v1]
  · rcases d3 with ⟨g1, g2⟩ | ⟨g1, g2⟩
    · rcases d2 with ⟨g3, g4⟩ | ⟨g3, g4⟩ | ⟨g3, g4⟩ | ⟨g3, g4⟩
      · rcases d1 with ⟨g5, g6⟩ | ⟨g5, g6⟩ | ⟨g5, g6⟩
        · exact Or.inl ⟨by rw [g1, g3, g5], g2.trans (g4.trans g6)⟩
        · exact Or.inr (Or.inl ⟨by rw [g1, g3, g5], g2.trans (g4.trans g6)⟩)
        · exact Or.inr (Or.inr (Or.inl ⟨by rw [g1, g3, g5], g2.trans (g4.trans g6)⟩))
      · exact Or.inr (Or.inr (Or.inr (Or.inl ⟨by rw [g1, g3], g2.trans g4⟩)))
      · exact Or.inr (Or.inr (Or.inr (Or.inr (Or.inl ⟨by rw [g1, g3], g2.trans g4⟩))))
      · exact Or.inr (Or.inr (Or.inr (Or.inr (Or.inr (Or.inl ⟨by rw [g1, g3], g2.trans g4⟩)))))
    · exact Or.inr (Or.inr (Or.inr (Or.inr (Or.inr (Or.inr ⟨g1, g2⟩)))))

set_option maxRecDepth 100000 in
/-- Witness of C30: the row at `9` of `cube_example_buffers` over the rows `diag_m` at `0`,
`upper_m` at `3` and `prev_m` at `6`; the cell `2` holds `1`, the candidate `ALIGNALL`
(`diag_m[1] + 0`), with the direction `ALIGNALL` alone. -/
theorem algn_fill_cube_row_min_of_seven_witness :
    ((algn_fill_cube_row wrap32 3 6 3 0 cube_example_gap cube_example_gap
        cube_example_row cube_example_gap 9 9 cube_example_buffers).mtx (9 + ((2 : Nat) : Int)) =
      min (min (min (min (min (min
        (wrap32 (cube_example_buffers.mtx (3 + ((2 : Nat) : Int)) + cube_example_gap 0))
        (wrap32 (cube_example_buffers.mtx (6 + ((2 : Nat) : Int)) + cube_example_gap 0)))
        (wrap32 (cube_example_buffers.mtx (0 + ((2 : Nat) : Int)) + cube_example_row 0)))
        (wrap32 (cube_example_buffers.mtx (3 + ((2 : Nat) : Int) - 1) + cube_example_gap 2)))
        (wrap32 (cube_example_buffers.mtx (6 + ((2 : Nat) : Int) - 1) + cube_example_gap 2)))
        (wrap32 (cube_example_buffers.mtx (0 + ((2 : Nat) : Int) - 1) + cube_example_row 2)))
        (wrap32 ((algn_fill_cube_row wrap32 3 6 3 0 cube_example_gap cube_example_gap
          cube_example_row cube_example_gap 9 9 cube_example_buffers).mtx (9 + ((2 : Nat) : Int) - 1) + cube_example_gap 2)) ∧
    (((algn_fill_cube_row wrap32 3 6 3 0 cube_example_gap cube_example_gap
          cube_example_row cube_example_gap 9 9 cube_example_buffers).dir (9 + ((2 : Nat) : Int)) = GAP23 ∧
        (algn_fill_cube_row wrap32 3 6 3 0 cube_example_gap cube_example_gap
          cube_example_row cube_example_gap 9 9 cube_example_buffers).mtx (9 + ((2 : Nat) : Int)) =
          wrap32 (cube_example_buffers.mtx (3 + ((2 : Nat) : Int)) + cube_example_gap 0)) ∨
     ((algn_fill_cube_row wrap32 3 6 3 0 cube_example_gap cube_example_gap
          cube_example_row cube_example_gap 9 9 cube_example_buffers).dir (9 + ((2 : Nat) : Int)) = GAP13 ∧
        (algn_fill_cube_row wrap32 3 6 3 0 cube_example_gap cube_example_gap
          cube_example_row cube_example_gap 9 9 cube_example_buffers).mtx (9 + ((2 : Nat) : Int)) =
          wrap32 (cube_example_buffers.mtx (6 + ((2 : Nat) : Int)) + cube_example_gap 0)) ∨
     ((algn_fill_cube_row wrap32 3 6 3 0 cube_example_gap cube_example_gap
          cube_example_row cube_example_gap 9 9 cube_example_buffers).dir (9 + ((2 : Nat) : Int)) = ALIGN12 ∧
        (algn_fill_cube_row wrap32 3 6 3 0 cube_example_gap cube_example_gap
          cube_example_row cube_example_gap 9 9 cube_example_buffers).mtx (9 + ((2 : Nat) : Int)) =
          wrap32 (cube_example_buffers.mtx (0 + ((2 : Nat) : Int)) + cube_example_row 0)) ∨
     ((algn_fill_cube_row wrap32 3 6 3 0 cube_example_gap cube_example_gap
          cube_example_row cube_example_gap 9 9 cube_example_buffers).dir (9 + ((2 : Nat) : Int)) = ALIGN13 ∧
        (algn_fill_cube_row wrap32 3 6 3 0 cube_example_gap cube_example_gap
          cube_example_row cube_example_gap 9 9 cube_example_buffers).mtx (9 + ((2 : Nat) : Int)) =
          wrap32 (cube_example_buffers.mtx (3 + ((2 : Nat) : Int) - 1) + cube_example_gap 2)) ∨
     ((algn_fill_cube_row wrap32 3 6 3 0 cube_example_gap cube_example_gap
          cube_example_row cube_example_gap 9 9 cube_example_buffers).dir (9 + ((2 : Nat) : Int)) = ALIGN23 ∧
        (algn_fill_cube_row wrap32 3 6 3 0 cube_example_gap cube_example_gap
          cube_example_row cube_example_gap 9 9 cube_example_buffers).mtx (9 + ((2 : Nat) : Int)) =
          wrap32 (cube_example_buffers.mtx (6 + ((2 : Nat) : Int) - 1) + cube_example_gap 2)) ∨
     ((algn_fill_cube_row wrap32 3 6 3 0 cube_example_gap cube_example_gap
          cube_example_row cube_example_gap 9 9 cube_example_buffers).dir (9 + ((2 : Nat) : Int)) = ALIGNALL ∧
        (algn_fill_cube_row wrap32 3 6 3 0 cube_example_gap cube_example_gap
          cube_example_row cube_example_gap 9 9 cube_example_buffers).mtx (9 + ((2 : Nat) : Int)) =
          wrap32 (cube_example_buffers.mtx (0 + ((2 : Nat) : Int) - 1) + cube_example_row 2)) ∨
     ((algn_fill_cube_row wrap32 3 6 3 0 cube_example_gap cube_example_gap
          cube_example_row cube_example_gap 9 9 cube_example_buffers).dir (9 + ((2 : Nat) : Int)) = GAP12 ∧
        (algn_fill_cube_row wrap32 3 6 3 0 cube_example_gap cube_example_gap
          cube_example_row cube_example_gap 9 9 cube_example_buffers).mtx (9 + ((2 : Nat) : Int)) =
          wrap32 ((algn_fill_cube_row wrap32 3 6 3 0 cube_example_gap cube_example_gap
            cube_example_row cube_example_gap 9 9 cube_example_buffers).mtx (9 + ((2 : Nat) : Int) - 1)
            + cube_example_gap 2)))) ∧
    (algn_fill_cube_row wrap32 3 6 3 0 cube_example_gap cube_example_gap cube_example_row
      cube_example_gap 9 9 cube_example_buffers).mtx (9 + 2) = 1 ∧
    (algn_fill_cube_row wrap32 3 6 3 0 cube_example_gap cube_example_gap cube_example_row
      cube_example_gap 9 9 cube_example_buffers).dir (9 + 2) = ALIGNALL :=
  ⟨algn_fill_cube_row_min_of_seven wrap32 3 6 3 0 cube_example_gap cube_example_gap cube_example_row
      cube_example_gap 9 9 cube_example_buffers (by decide) (by decide) (by decide) 2
      (by decide) (by decide),
    by decide, by decide⟩

/-! ## The affine engine: minima and their direction bits -/

/-- One step of `affine_min_step` on a running minimum `v` whose mask is `G v`, for a mask `G`
that is `0` below `v`: the value is `min v x` and the mask is `G` at the new value with the flag
`f` when `x` is equal to it. -/
theorem affine_min_step_mask (G : Int → Nat) (v x : Int) (f : Nat)
    (hG : ∀ t, t < v → G t = 0) :
    (affine_min_step v (G v) x f).1 = min v x ∧
    (affine_min_step v (G v) x f).2 = G (min v x) ||| (if x = min v x then f else 0) := by
  unfold affine_min_step
  rcases lt_trichotomy v x with h | h | h
  · rw [if_neg (by omega), min_eq_left (by omega), if_neg (by omega)]
    exact ⟨rfl, (Nat.or_zero _).symm⟩
  · subst h
    rw [if_pos (by omega), if_neg (by omega), min_self, if_pos rfl]
    exact ⟨rfl, rfl⟩
  · rw [if_pos (by omega), if_pos (by omega), min_eq_right (by omega), if_pos rfl, hG x h]
    exact ⟨rfl, (Nat.zero_or _).symm⟩

/-- Three steps of `affine_min_step` from the candidate `a` with the flag `fa`: the value is the
minimum of the four candidates and the mask is the union of the flags of the candidates that are
equal to it. -/
theorem affine_min_step_chain (a b c d : Int) (fa fb fc fd : Nat) :
    (affine_min_step (affine_min_step (affine_min_step a fa b fb).1
        (affine_min_step a fa b fb).2 c fc).1
      (affine_min_step (affine_min_step a fa b fb).1 (affine_min_step a fa b fb).2 c fc).2
      d fd).1 = min (min (min a b) c) d ∧
    (affine_min_step (affine_min_step (affine_min_step a fa b fb).1
        (affine_min_step a fa b fb).2 c fc).1
      (affine_min_step (affine_min_step a fa b fb).1 (affine_min_step a fa b fb).2 c fc).2
      d fd).2 =
      (if a = min (min (min a b) c) d then fa else 0) |||
      (if b = min (min (min a b) c) d then fb else 0) |||
      (if c = min (min (min a b) c) d then fc else 0) |||
      (if d = min (min (min a b) c) d then fd else 0) := by
  have s1 := affine_min_step_mask (fun t => if a = t then fa else 0) a b fb
    (by intro t ht; exact if_neg (by omega))
  simp only [if_true] at s1
  have s2 := affine_min_step_mask
    (fun t => (if a = t then fa else 0) ||| (if b = t then fb else 0)) (min a b) c fc
    (by intro t ht
        have h1 : t < a := lt_of_lt_of_le ht (min_le_left _ _)
        have h2 : t < b := lt_of_lt_of_le ht (min_le_right _ _)
        show (if a = t then fa else 0) ||| (if b = t then fb else 0) = 0
        rw [if_neg (by omega), if_neg (by omega)]; rfl)
  have s3 := affine_min_step_mask
    (fun t => (if a = t then fa else 0) ||| (if b = t then fb else 0) |||
      (if c = t then fc else 0)) (min (min a b) c) d fd
    (by intro t ht
        have h0 : t < min a b := lt_of_lt_of_le ht (min_le_left _ _)
        have h1 : t < a := lt_of_lt_of_le h0 (min_le_left _ _)
        have h2 : t < b := lt_of_lt_of_le h0 (min_le_right _ _)
        have h3 : t < c := lt_of_lt_of_le ht (min_le_right _ _)
        show (if a = t then fa else 0) ||| (if b = t then fb else 0) |||
          (if c = t then fc else 0) = 0
        rw [if_neg (by omega), if_neg (by omega), if_neg (by omega)]; rfl)
  simp only [] at s2 s3
  rw [s1.1, s1.2, s2.1, s2.2]
  exact s3

/-- Claim C33. For all plane values `h`, `v`, `d`, `m`, `ASSIGN_MINIMUM` stores
`min (h, v, d, m)` to `*final_cost_matrix` and ORs into the direction value the flags among
`DO_HORIZONTAL`, `DO_VERTICAL`, `DO_DIAGONAL`, `DO_ALIGN` whose plane value is equal to that
minimum, and no other; at least one of them is set. -/
theorem ASSIGN_MINIMUM_min_and_flags (h v d m : Int) (direction_matrix : Nat) :
    (ASSIGN_MINIMUM h v d m direction_matrix).1 = min (min (min h v) d) m ∧
    (ASSIGN_MINIMUM h v d m direction_matrix).2 = direction_matrix |||
      ((if h = min (min (min h v) d) m then DO_HORIZONTAL else 0) |||
       (if v = min (min (min h v) d) m then DO_VERTICAL else 0) |||
       (if d = min (min (min h v) d) m then DO_DIAGONAL else 0) |||
       (if m = min (min (min h v) d) m then DO_ALIGN else 0)) ∧
    ((if h = min (min (min h v) d) m then DO_HORIZONTAL else 0) |||
       (if v = min (min (min h v) d) m then DO_VERTICAL else 0) |||
       (if d = min (min (min h v) d) m then DO_DIAGONAL else 0) |||
       (if m = min (min (min h v) d) m then DO_ALIGN else 0)) ≠ 0 := by
  obtain ⟨h1, h2⟩ := affine_min_step_chain h v d m DO_HORIZONTAL DO_VERTICAL DO_DIAGONAL DO_ALIGN
  refine ⟨h1, ?_, ?_⟩
  · show direction_matrix ||| _ = _
    rw [h2]
  · split_ifs <;> first | decide | (exfalso; omega)

/-- Counterexample of C31: with the gap opening cost `3` for both streams, the previous cells
`100` of the planes `M`, `V`, `H` and `0` of the plane `D`, and the substitution cost `1`,
`FILL_CLOSE_BLOCK_DIAGONAL` stores `4 = 0 + 1 + 3` (one gap opening for the candidate of `D`),
where `min (M, V, H, D + 2 * 3) + 1` is `7`. -/
theorem FILL_CLOSE_BLOCK_DIAGONAL_one_gap_open :
    (FILL_CLOSE_BLOCK_DIAGONAL wrap32 1 2 1 2 3 3 1 (fun _ => 1) 0 40 0 10 20 30 0
      close_example_mtx).1 (40 + 1) = 4 ∧
    (FILL_CLOSE_BLOCK_DIAGONAL wrap32 1 2 1 2 3 3 1 (fun _ => 1) 0 40 0 10 20 30 0
      close_example_mtx).2 = ALIGN_TO_DIAGONAL ∧
    min (min (min (close_example_mtx (0 + (1 - 1))) (close_example_mtx (10 + (1 - 1))))
      (close_example_mtx (20 + (1 - 1)))) (close_example_mtx (30 + (1 - 1)) + 2 * 3) + 1 = 7 := by
  decide

/-- Claim C31, amended. `FILL_CLOSE_BLOCK_DIAGONAL` sets `close_block_diagonal[j]` to the minimum
of four candidates: `M[i-1,j-1] + best`, `V[i-1,j-1] + best` (plus the gap opening of `sj` when
`si_base` is not `si_no_gap`), `H[i-1,j-1] + best` (plus the gap opening of `si` when `sj_base`
is not `sj_no_gap`) and `D[i-1,j-1] + best` plus the larger of the two gap openings; it ORs into
the direction value the flags among `ALIGN_TO_ALIGN`, `ALIGN_TO_VERTICAL`,
`ALIGN_TO_HORIZONTAL`, `ALIGN_TO_DIAGONAL` whose candidate is equal to that minimum, and no
other. Every addition is followed by the reduction `w`. -/
theorem FILL_CLOSE_BLOCK_DIAGONAL_min_and_flags (w : Int → Int)
    (si_base sj_base si_no_gap sj_no_gap : Nat) (si_gap_opening sj_gap_opening : Int) (j : Nat)
    (cost : Nat → Int) (si_no_gap_vector : Nat)
    (close_block_diagonal prev_close_block_diagonal prev_extend_vertical prev_extend_horizontal
      prev_extend_block_diagonal : Nat) (direction_matrix : Nat) (mtx : Nat → Int) :
    (FILL_CLOSE_BLOCK_DIAGONAL w si_base sj_base si_no_gap sj_no_gap si_gap_opening
        sj_gap_opening j cost si_no_gap_vector close_block_diagonal prev_close_block_diagonal
        prev_extend_vertical prev_extend_horizontal prev_extend_block_diagonal direction_matrix
        mtx).1 (close_block_diagonal + j) =
      min (min (min
        (w (mtx (prev_close_block_diagonal + (j - 1)) + cost (si_no_gap_vector + sj_no_gap)))
        (if si_base = si_no_gap then
          w (mtx (prev_extend_vertical + (j - 1)) + cost (si_no_gap_vector + sj_no_gap))
        else w (w (mtx (prev_extend_vertical + (j - 1)) + cost (si_no_gap_vector + sj_no_gap))
          + sj_gap_opening)))
        (if sj_base = sj_no_gap then
          w (mtx (prev_extend_horizontal + (j - 1)) + cost (si_no_gap_vector + sj_no_gap))
        else w (w (mtx (prev_extend_horizontal + (j - 1)) + cost (si_no_gap_vector + sj_no_gap))
          + si_gap_opening)))
        (w (w (mtx (prev_extend_block_diagonal + (j - 1)) + cost (si_no_gap_vector + sj_no_gap))
          + max si_gap_opening sj_gap_opening)) ∧
    (FILL_CLOSE_BLOCK_DIAGONAL w si_base sj_base si_no_gap sj_no_gap si_gap_opening
        sj_gap_opening j cost si_no_gap_vector close_block_diagonal prev_close_block_diagonal
        prev_extend_vertical prev_extend_horizontal prev_extend_block_diagonal direction_matrix
        mtx).2 = direction_matrix |||
      ((if w (mtx (prev_close_block_diagonal + (j - 1)) + cost (si_no_gap_vector + sj_no_gap)) =
          (FILL_CLOSE_BLOCK_DIAGONAL w si_base sj_base si_no_gap sj_no_gap si_gap_opening
            sj_gap_opening j cost si_no_gap_vector close_block_diagonal
            prev_close_block_diagonal prev_extend_vertical prev_extend_horizontal
            prev_extend_block_diagonal direction_matrix mtx).1 (close_block_diagonal + j)
        then ALIGN_TO_ALIGN else 0) |||
       (if (if si_base = si_no_gap then
            w (mtx (prev_extend_vertical + (j - 1)) + cost (si_no_gap_vector + sj_no_gap))
          else w (w (mtx (prev_extend_vertical + (j - 1)) + cost (si_no_gap_vector + sj_no_gap))
            + sj_gap_opening)) =
          (FILL_CLOSE_BLOCK_DIAGONAL w si_base sj_base si_no_gap sj_no_gap si_gap_opening
            sj_gap_opening j cost si_no_gap_vector close_block_diagonal
            prev_close_block_diagonal prev_extend_vertical prev_extend_horizontal
            prev_extend_block_diagonal direction_matrix mtx).1 (close_block_diagonal + j)
        then ALIGN_TO_VERTICAL else 0) |||
       (if (if sj_base = sj_no_gap then
            w (mtx (prev_extend_horizontal + (j - 1)) + cost (si_no_gap_vector + sj_no_gap))
          else w (w (mtx (prev_extend_horizontal + (j - 1))
            + cost (si_no_gap_vector + sj_no_gap)) + si_gap_opening)) =
          (FILL_CLOSE_BLOCK_DIAGONAL w si_base sj_base si_no_gap sj_no_gap si_gap_opening
            sj_gap_opening j cost si_no_gap_vector close_block_diagonal
            prev_close_block_diagonal prev_extend_vertical prev_extend_horizontal
            prev_extend_block_diagonal direction_matrix mtx).1 (close_block_diagonal + j)
        then ALIGN_TO_HORIZONTAL else 0) |||
       (if w (w (mtx (prev_extend_block_diagonal + (j - 1))
            + cost (si_no_gap_vector + sj_no_gap)) + max si_gap_opening sj_gap_opening) =
          (FILL_CLOSE_BLOCK_DIAGONAL w si_base sj_base si_no_gap sj_no_gap si_gap_opening
            sj_gap_opening j cost si_no_gap_vector close_block_diagonal
            prev_close_block_diagonal prev_extend_vertical prev_extend_horizontal
            prev_extend_block_diagonal direction_matrix mtx).1 (close_block_diagonal + j)
        then ALIGN_TO_DIAGONAL else 0)) := by
  have hmax : (if sj_gap_opening < si_gap_opening then si_gap_opening else sj_gap_opening) =
      max si_gap_opening sj_gap_opening := by
    split_ifs <;> omega
  have hc := affine_min_step_chain
    (w (mtx (prev_close_block_diagonal + (j - 1)) + cost (si_no_gap_vector + sj_no_gap)))
    (if si_base = si_no_gap then
      w (mtx (prev_extend_vertical + (j - 1)) + cost (si_no_gap_vector + sj_no_gap))
    else w (w (mtx (prev_extend_vertical + (j - 1)) + cost (si_no_gap_vector + sj_no_gap))
      + sj_gap_opening))
    (if sj_base = sj_no_gap then
      w (mtx (prev_extend_horizontal + (j - 1)) + cost (si_no_gap_vector + sj_no_gap))
    else w (w (mtx (prev_extend_horizontal + (j - 1)) + cost (si_no_gap_vector + sj_no_gap))
      + si_gap_opening))
    (w (w (mtx (prev_extend_block_diagonal + (j - 1)) + cost (si_no_gap_vector + sj_no_gap))
      + max si_gap_opening sj_gap_opening))
    ALIGN_TO_ALIGN ALIGN_TO_VERTICAL ALIGN_TO_HORIZONTAL ALIGN_TO_DIAGONAL
  unfold FILL_CLOSE_BLOCK_DIAGONAL
  simp only [hmax, wr_same]
  exact ⟨hc.1, by rw [hc.2, hc.1]⟩

/-! ## `initialize_matrices_affine` -/

/-- Loop invariant of the first loop of `initialize_matrices_affine`, for planes that are laid
out in the order `close_block_diagonal`, `extend_block_diagonal`, `extend_vertical`,
`extend_horizontal`, `final_cost_matrix` with `N` cells or more between their starts: the cells
`j` that the loop visits hold `R j` in the planes `extend_horizontal`, `close_block_diagonal`,
`final_cost_matrix` and `INT_MAX` in the planes `extend_block_diagonal`, `extend_vertical`; the
cells before `j` keep their content, and so does cell `0` of the direction matrix. -/
theorem initialize_matrices_affine_row_spec (w : Int → Int) (precalc : Nat → Int)
    (gap_row cbd ebd ev eh fcm dm : Nat) (N : Nat) (R : Nat → Int)
    (h1 : cbd + N ≤ ebd) (h2 : ebd + N ≤ ev) (h3 : ev + N ≤ eh) (h4 : eh + N ≤ fcm)
    (hR : ∀ j, 1 ≤ j → R j = w (R (j - 1) + precalc (gap_row + j))) (fuel : Nat) :
    ∀ (j0 : Nat) (s : nw_buffers), 1 ≤ j0 → j0 + fuel ≤ N → s.mtx (eh + (j0 - 1)) = R (j0 - 1) →
      (∀ j, j0 ≤ j → j < j0 + fuel →
        (initialize_matrices_affine_row w precalc gap_row cbd ebd ev eh fcm dm fuel j0 s).mtx
          (eh + j) = R j ∧
        (initialize_matrices_affine_row w precalc gap_row cbd ebd ev eh fcm dm fuel j0 s).mtx
          (cbd + j) = R j ∧
        (initialize_matrices_affine_row w precalc gap_row cbd ebd ev eh fcm dm fuel j0 s).mtx
          (fcm + j) = R j ∧
        (initialize_matrices_affine_row w precalc gap_row cbd ebd ev eh fcm dm fuel j0 s).mtx
          (ebd + j) = INT_MAX ∧
        (initialize_matrices_affine_row w precalc gap_row cbd ebd ev eh fcm dm fuel j0 s).mtx
          (ev + j) = INT_MAX) ∧
      (∀ k, ((k < cbd + j0 ∨ cbd + N ≤ k) ∧ (k < ebd + j0 ∨ ebd + N ≤ k) ∧
          (k < ev + j0 ∨ ev + N ≤ k) ∧ (k < eh + j0 ∨ eh + N ≤ k) ∧
          (k < fcm + j0 ∨ fcm + N ≤ k)) →
        (initialize_matrices_affine_row w precalc gap_row cbd ebd ev eh fcm dm fuel j0 s).mtx k
          = s.mtx k) ∧
      (∀ k, k < dm + j0 →
        (initialize_matrices_affine_row w precalc gap_row cbd ebd ev eh fcm dm fuel j0 s).dir k
          = s.dir k) := by
  induction fuel with
  | zero =>
    intro j0 s _ _ _
    exact ⟨fun j a b => by omega, fun k _ => rfl, fun k _ => rfl⟩
  | succ n ih =>
    intro j0 s hj0 hN hs
    simp only [initialize_matrices_affine_row]
    have hr : w (s.mtx (eh + (j0 - 1)) + precalc (gap_row + j0)) = R j0 := by
      rw [hs, hR j0 hj0]
    rw [hr]
    set s1 : nw_buffers :=
      ⟨wr (wr (wr (wr (wr s.mtx (eh + j0) (R j0)) (cbd + j0) (R j0)) (fcm + j0) (R j0))
          (ebd + j0) INT_MAX) (ev + j0) INT_MAX,
        wr s.dir (dm + j0) (DO_HORIZONTAL ||| END_HORIZONTAL)⟩ with hs1
    have e_eh : s1.mtx (eh + j0) = R j0 := by
      show wr (wr (wr (wr (wr s.mtx _ _) _ _) _ _) _ _) _ _ _ = _
      rw [wr_other _ _ _ _ (by omega), wr_other _ _ _ _ (by omega),
        wr_other _ _ _ _ (by omega), wr_other _ _ _ _ (by omega), wr_same]
    have e_cbd : s1.mtx (cbd + j0) = R j0 := by
      show wr (wr (wr (wr (wr s.mtx _ _) _ _) _ _) _ _) _ _ _ = _
      rw [wr_other _ _ _ _ (by omega), wr_other _ _ _ _ (by omega),
        wr_other _ _ _ _ (by omega), wr_same]
    have e_fcm : s1.mtx (fcm + j0) = R j0 := by
      show wr (wr (wr (wr (wr s.mtx _ _) _ _) _ _) _ _) _ _ _ = _
      rw [wr_other _ _ _ _ (by omega), wr_other _ _ _ _ (by omega), wr_same]
    have e_ebd : s1.mtx (ebd + j0) = INT_MAX := by
      show wr (wr (wr (wr (wr s.mtx _ _) _ _) _ _) _ _) _ _ _ = _
      rw [wr_other _ _ _ _ (by omega), wr_same]
    have e_ev : s1.mtx (ev + j0) = INT_MAX := by
      show wr (wr (wr (wr (wr s.mtx _ _) _ _) _ _) _ _) _ _ _ = _
      rw [wr_same]
    have e_fr : ∀ k, k ≠ eh + j0 → k ≠ cbd + j0 → k ≠ fcm + j0 → k ≠ ebd + j0 → k ≠ ev + j0 →
        s1.mtx k = s.mtx k := by
      intro k a b c d e
      show wr (wr (wr (wr (wr s.mtx _ _) _ _) _ _) _ _) _ _ _ = _
      rw [wr_other _ _ _ _ e, wr_other _ _ _ _ d, wr_other _ _ _ _ c, wr_other _ _ _ _ b,
        wr_other _ _ _ _ a]
    obtain ⟨ic, ifr, idr⟩ := ih (j0 + 1) s1 (by omega) (by omega)
      (by rw [Nat.add_sub_cancel]; exact e_eh)
    refine ⟨?_, ?_, ?_⟩
    · intro j a b
      by_cases hj : j = j0
      · subst hj
        rw [ifr _ (by omega), ifr _ (by omega), ifr _ (by omega), ifr _ (by omega),
          ifr _ (by omega)]
        exact ⟨e_eh, e_cbd, e_fcm, e_ebd, e_ev⟩
      · exact ic j (by omega) (by omega)
    · intro k hk
      rw [ifr k (by omega)]
      exact e_fr k (by omega) (by omega) (by omega) (by omega) (by omega)
    · intro k hk
      rw [idr k (by omega)]
      show wr s.dir (dm + j0) _ k = _
      exact wr_other _ _ _ _ (by omega)

/-- Without reduction the trajectory of row `0` is `go` plus the sum of `gap_row[1..j]`. -/
theorem affine_row0_id_sum (go : Int) (precalc : Nat → Int) (gap_row : Nat) (j : Nat) :
    affine_row0 id go precalc gap_row j =
      go + ((List.range j).map (fun t => precalc (gap_row + (t + 1)))).sum := by
  induction j with
  | zero => simp [affine_row0]
  | succ n ih =>
    simp only [affine_row0, id, ih, List.range_succ, List.map_append, List.sum_append,
      List.map_cons, List.map_nil, List.sum_cons, List.sum_nil]
    omega

/-- The step of the trajectory of row `0`. -/
theorem affine_row0_step (w : Int → Int) (go : Int) (precalc : Nat → Int) (gap_row : Nat)
    (j : Nat) (hj : 1 ≤ j) :
    affine_row0 w go precalc gap_row j =
      w (affine_row0 w go precalc gap_row (j - 1) + precalc (gap_row + j)) := by
  obtain ⟨n, rfl⟩ : ∃ n, j = n + 1 := ⟨j - 1, by omega⟩
  simp only [affine_row0, Nat.add_sub_cancel]

/-- Counterexample of C32: for `A` against `A` under unit costs with `go = 1` and the planes at
`0, 10, 20, 30, 40`, cell `1` of row `0` of the plane `close_block_diagonal` holds
`2 = go + gap_row[1]` after `initialize_matrices_affine`, as the plane `extend_horizontal` does,
and not `INT_MAX`. -/
theorem initialize_matrices_affine_close_row0 :
    (initialize_matrices_affine wrap32 1 sA sA (unit5_affine 1) 0 10 20 30 40 0
      (precalc_of (unit5_affine 1) sA.elems) 0 zero_buffers).mtx (0 + 1) = 2 ∧
    (initialize_matrices_affine wrap32 1 sA sA (unit5_affine 1) 0 10 20 30 40 0
      (precalc_of (unit5_affine 1) sA.elems) 0 zero_buffers).mtx (30 + 1) = 2 ∧
    (2 : Int) ≠ INT_MAX := by
  refine ⟨?_, ?_, ?_⟩ <;> decide!

/-- Claim C32, amended. After `initialize_matrices_affine` on planes that are laid out in the
order `close_block_diagonal`, `extend_block_diagonal`, `extend_vertical`, `extend_horizontal`,
`final_cost_matrix` with `lenj + 2` cells or more between their starts: for every column `j` in
`[1, lenj]` of row `0` the planes `V` (`extend_vertical`) and `D` (`extend_block_diagonal`) hold
`INT_MAX`, while `H` (`extend_horizontal`) and `M` (`close_block_diagonal`) both hold
`go + sum of gap_row[1..j]` (`affine_row0`); at row `1` column `0`, `H` and `D` hold `INT_MAX`
while `V` and `M` hold `go` plus the gap extension cost of `S1[1]`; and
`direction_matrix[0] = 0xFFFF`. -/
theorem initialize_matrices_affine_planes (w : Int → Int) (go : Int) (si sj : seq)
    (c : cost_matrices_2d) (cbd ebd ev eh fcm dm : Nat) (precalc : Nat → Int)
    (precalcMtx : Nat) (s : nw_buffers)
    (h1 : cbd + (seq_get_len sj - 1 + 2) ≤ ebd) (h2 : ebd + (seq_get_len sj - 1 + 2) ≤ ev)
    (h3 : ev + (seq_get_len sj - 1 + 2) ≤ eh) (h4 : eh + (seq_get_len sj - 1 + 2) ≤ fcm) :
    (∀ j, 1 ≤ j → j ≤ seq_get_len sj - 1 →
      (initialize_matrices_affine w go si sj c cbd ebd ev eh fcm dm precalc precalcMtx s).mtx
          (cbd + j) = affine_row0 w go precalc
            (cm_get_precal_row precalcMtx 0 (seq_get_len sj - 1)) j ∧
      (initialize_matrices_affine w go si sj c cbd ebd ev eh fcm dm precalc precalcMtx s).mtx
          (eh + j) = affine_row0 w go precalc
            (cm_get_precal_row precalcMtx 0 (seq_get_len sj - 1)) j ∧
      (initialize_matrices_affine w go si sj c cbd ebd ev eh fcm dm precalc precalcMtx s).mtx
          (ev + j) = INT_MAX ∧
      (initialize_matrices_affine w go si sj c cbd ebd ev eh fcm dm precalc precalcMtx s).mtx
          (ebd + j) = INT_MAX) ∧
    (initialize_matrices_affine w go si sj c cbd ebd ev eh fcm dm precalc precalcMtx s).mtx
        (eh + (1 + (seq_get_len sj - 1))) = INT_MAX ∧
    (initialize_matrices_affine w go si sj c cbd ebd ev eh fcm dm precalc precalcMtx s).mtx
        (ebd + (1 + (seq_get_len sj - 1))) = INT_MAX ∧
    (initialize_matrices_affine w go si sj c cbd ebd ev eh fcm dm precalc precalcMtx s).mtx
        (ev + (1 + (seq_get_len sj - 1))) = w (go + HAS_GAP_EXTENSION (seq_get_element si 1) c) ∧
    (initialize_matrices_affine w go si sj c cbd ebd ev eh fcm dm precalc precalcMtx s).mtx
        (cbd + (1 + (seq_get_len sj - 1))) = w (go + HAS_GAP_EXTENSION (seq_get_element si 1) c) ∧
    (initialize_matrices_affine w go si sj c cbd ebd ev eh fcm dm precalc precalcMtx s).dir dm
        = 0xFFFF ∧
    (∀ j, affine_row0 id go precalc (cm_get_precal_row precalcMtx 0 (seq_get_len sj - 1)) j =
      go + ((List.range j).map (fun t =>
        precalc (cm_get_precal_row precalcMtx 0 (seq_get_len sj - 1) + (t + 1)))).sum) := by
  generalize hL : seq_get_len sj - 1 = lenj at *
  have hs0 : (wr (wr (wr (wr (wr s.mtx fcm 0) cbd 0) ebd 0) eh go) ev go) (eh + (1 - 1))
      = affine_row0 w go precalc (cm_get_precal_row precalcMtx 0 lenj) (1 - 1) := by
    show wr _ _ _ (eh + 0) = go
    rw [Nat.add_zero, wr_other _ _ _ _ (by omega), wr_same]
  obtain ⟨lc, lf, ld⟩ := initialize_matrices_affine_row_spec w precalc
    (cm_get_precal_row precalcMtx 0 lenj) cbd ebd ev eh fcm dm (lenj + 2)
    (affine_row0 w go precalc (cm_get_precal_row precalcMtx 0 lenj)) h1 h2 h3 h4
    (affine_row0_step w go precalc _) lenj 1
    ⟨wr (wr (wr (wr (wr s.mtx fcm 0) cbd 0) ebd 0) eh go) ev go, wr s.dir dm 0xFFFF⟩
    (le_refl _) (by omega) hs0
  have hev : (initialize_matrices_affine_row w precalc (cm_get_precal_row precalcMtx 0 lenj)
      cbd ebd ev eh fcm dm lenj 1
      ⟨wr (wr (wr (wr (wr s.mtx fcm 0) cbd 0) ebd 0) eh go) ev go, wr s.dir dm 0xFFFF⟩).mtx ev
      = go := by
    rw [lf ev (by omega)]
    exact wr_same _ _ _
  unfold initialize_matrices_affine
  simp only [hL, hev]
  refine ⟨?_, ?_, ?_, ?_, ?_, ?_, affine_row0_id_sum go precalc _⟩
  · intro j ha hb
    obtain ⟨a1, a2, _, a4, a5⟩ := lc j ha (by omega)
    refine ⟨?_, ?_, ?_, ?_⟩
    · rw [wr_other _ _ _ _ (by omega), wr_other _ _ _ _ (by omega),
        wr_other _ _ _ _ (by omega), wr_other _ _ _ _ (by omega),
        wr_other _ _ _ _ (by omega)]
      exact a2
    · rw [wr_other _ _ _ _ (by omega), wr_other _ _ _ _ (by omega),
        wr_other _ _ _ _ (by omega), wr_other _ _ _ _ (by omega),
        wr_other _ _ _ _ (by omega)]
      exact a1
    · rw [wr_other _ _ _ _ (by omega), wr_other _ _ _ _ (by omega),
        wr_other _ _ _ _ (by omega), wr_other _ _ _ _ (by omega),
        wr_other _ _ _ _ (by omega)]
      exact a5
    · rw [wr_other _ _ _ _ (by omega), wr_other _ _ _ _ (by omega),
        wr_other _ _ _ _ (by omega), wr_other _ _ _ _ (by omega),
        wr_other _ _ _ _ (by omega)]
      exact a4
  · rw [wr_other _ _ _ _ (by omega), wr_other _ _ _ _ (by omega),
      wr_other _ _ _ _ (by omega), wr_other _ _ _ _ (by omega), wr_same]
  · rw [wr_other _ _ _ _ (by omega), wr_same]
  · rw [wr_same]
  · rw [wr_other _ _ _ _ (by omega), wr_other _ _ _ _ (by omega),
      wr_other _ _ _ _ (by omega), wr_same]
  · rw [wr_other _ _ _ _ (by omega), ld dm (by omega)]
    exact wr_same _ _ _

set_option maxRecDepth 1000000 in
/-- Witness of C32: `A` against `A` under unit costs with `go = 1` and the planes at
`0, 10, 20, 30, 40`. -/
theorem initialize_matrices_affine_planes_witness :
    (initialize_matrices_affine wrap32 1 sA sA (unit5_affine 1) 0 10 20 30 40 0
        (precalc_of (unit5_affine 1) sA.elems) 0 zero_buffers).mtx
        (20 + (1 + (seq_get_len sA - 1))) =
      wrap32 (1 + HAS_GAP_EXTENSION (seq_get_element sA 1) (unit5_affine 1)) ∧
    (initialize_matrices_affine wrap32 1 sA sA (unit5_affine 1) 0 10 20 30 40 0
        (precalc_of (unit5_affine 1) sA.elems) 0 zero_buffers).mtx
        (20 + (1 + (seq_get_len sA - 1))) = 2 :=
  ⟨(initialize_matrices_affine_planes wrap32 1 sA sA (unit5_affine 1) 0 10 20 30 40 0
      (precalc_of (unit5_affine 1) sA.elems) 0 zero_buffers (by decide) (by decide) (by decide)
      (by decide)).2.2.2.1,
    by decide!⟩

/-! ## `Ukk` and `calcUkk`: the memo and `furthestReached` -/

/-- The statement `calcUkk_improve` leaves the memory alone. -/
theorem calcUkk_improve_st (e : ukk_env) (g : ukk_globals) (input_editDist : Int)
    (l1 m1 fromCost : Int) (fromState : Nat) (editDist : Int) (v : calcUkk_vars) :
    (calcUkk_improve e g input_editDist l1 m1 fromCost fromState editDist v).st = v.st := by
  unfold calcUkk_improve
  split_ifs <;> rfl

/-- The loop over `fromState` does not lower `furthestReached`. -/
theorem calcUkk_from_loop_mono
    (rec : Int → Int → Int → Nat → ukk_state → Option (Int × ukk_state)) (hrec : UkkMono rec)
    (e : ukk_env) (g : ukk_globals) (input_editDist : Int) (toState : Nat)
    (da db dc l1 m1 : Int) :
    ∀ (n fromState : Nat) (v v1 : calcUkk_vars),
      calcUkk_from_loop rec e g input_editDist toState da db dc l1 m1 n fromState v = some v1 →
      v.st.furthestReached ≤ v1.st.furthestReached := by
  intro n
  induction n with
  | zero =>
    intro fromState v v1 h
    simp only [calcUkk_from_loop, Option.some.injEq] at h
    rw [h]
  | succ n ih =>
    intro fromState v v1 h
    simp only [calcUkk_from_loop] at h
    split at h
    · exact absurd h (by simp)
    · rename_i a1 st1 h1
      have m1' := hrec _ _ _ _ _ _ _ h1
      generalize (if da ≠ 0 then e.lesserStr a1 else 45) = cA at h
      generalize (if db ≠ 0 then e.longerStr (a1 - l1) else 45) = cB at h
      generalize (if dc ≠ 0 then e.middleStr (a1 - m1) else 45) = cC at h
      split_ifs at h
      · have := ih _ _ _ h
        rw [calcUkk_improve_st] at this
        exact le_trans m1' this
      · exact le_trans m1' (ih _ _ _ h)
      · split at h
        · exact absurd h (by simp)
        · rename_i a2 st2 h2
          have m2 := hrec _ _ _ _ _ _ _ h2
          split_ifs at h
          · have := ih _ _ _ h
            rw [calcUkk_improve_st] at this
            exact le_trans m1' (le_trans m2 this)
          · have := ih _ _ _ h
            rw [calcUkk_improve_st] at this
            exact le_trans m1' (le_trans m2 this)

/-- The loop over `curState` does not lower `furthestReached`. -/
theorem calcUkk_furthest_loop_mono
    (rec : Int → Int → Int → Nat → ukk_state → Option (Int × ukk_state)) (hrec : UkkMono rec)
    (l m input_editDist best : Int) :
    ∀ (n curState : Nat) (r r1 : ukk_state × Int × Int),
      calcUkk_furthest_loop rec l m input_editDist best n curState r = some r1 →
      r.1.furthestReached ≤ r1.1.furthestReached := by
  intro n
  induction n with
  | zero =>
    intro curState r r1 h
    obtain ⟨st, ed, fs⟩ := r
    simp only [calcUkk_furthest_loop, Option.some.injEq] at h
    rw [← h]
  | succ n ih =>
    intro curState r r1 h
    obtain ⟨st, ed, fs⟩ := r
    simp only [calcUkk_furthest_loop] at h
    split_ifs at h with h0 hb
    · exact (ih _ _ _ h : st.furthestReached ≤ _)
    · exact (ih _ _ _ h : st.furthestReached ≤ _)
    · split at h
      · exact absurd h (by simp)
      · rename_i this_editDist st1 h1
        have m1 := hrec _ _ _ _ _ _ _ h1
        split_ifs at h
        · exact le_trans m1 (ih _ _ _ h : st1.furthestReached ≤ _)
        · exact le_trans m1 (ih _ _ _ h : st1.furthestReached ≤ _)

/-- The first part of `calcUkk` does not lower `furthestReached`. -/
theorem calcUkk_from_mono
    (rec : Int → Int → Int → Nat → ukk_state → Option (Int × ukk_state)) (hrec : UkkMono rec)
    (e : ukk_env) (g : ukk_globals) (l m input_editDist : Int) (toState : Nat)
    (st : ukk_state) (v : calcUkk_vars)
    (h : calcUkk_from rec e g l m input_editDist toState st = some v) :
    st.furthestReached ≤ v.st.furthestReached := by
  unfold calcUkk_from at h
  simp only [] at h
  split_ifs at h
  all_goals first
    | exact calcUkk_from_loop_mono rec hrec e g _ _ _ _ _ _ _ _ _ _ _ h
    | (simp only [Option.some.injEq] at h; rw [← h])

/-- The second part of `calcUkk` does not lower `furthestReached`. -/
theorem calcUkk_atmost_mono
    (rec : Int → Int → Int → Nat → ukk_state → Option (Int × ukk_state)) (hrec : UkkMono rec)
    (e : ukk_env) (g : ukk_globals) (l m input_editDist : Int) (toState : Nat)
    (v1 v2 : calcUkk_vars)
    (h : calcUkk_atmost rec e g l m input_editDist toState v1 = some v2) :
    v1.st.furthestReached ≤ v2.st.furthestReached := by
  unfold calcUkk_atmost at h
  split at h
  · exact absurd h (by simp)
  · rename_i editDist st2 h2
    have m2 := hrec _ _ _ _ _ _ _ h2
    split_ifs at h <;> simp only [Option.some.injEq] at h <;> rw [← h] <;> exact m2

/-- The third part of `calcUkk` does not lower `furthestReached`. -/
theorem calcUkk_extend_mono
    (rec : Int → Int → Int → Nat → ukk_state → Option (Int × ukk_state)) (hrec : UkkMono rec)
    (fuel : Nat) (e : ukk_env) (g : ukk_globals) (l m input_editDist : Int)
    (v2 v3 : calcUkk_vars)
    (h : calcUkk_extend rec fuel e g l m input_editDist v2 = some v3) :
    v2.st.furthestReached ≤ v3.st.furthestReached := by
  unfold calcUkk_extend at h
  split at h
  · exact absurd h (by simp)
  · rename_i st3 editDist0 from_fsm_state h3
    have m3 : v2.st.furthestReached ≤ st3.furthestReached :=
      calcUkk_furthest_loop_mono rec hrec _ _ _ _ _ _ _ _ h3
    split at h
    · exact absurd h (by simp)
    · rename_i editDist1 innerLoop h4
      split_ifs at h <;> simp only [Option.some.injEq] at h <;> rw [← h] <;> exact m3

/-- The part of `calcUkk` between its assertions does not lower `furthestReached`. -/
theorem calcUkk_best_mono
    (rec : Int → Int → Int → Nat → ukk_state → Option (Int × ukk_state)) (hrec : UkkMono rec)
    (fuel : Nat) (e : ukk_env) (g : ukk_globals) (l m input_editDist : Int) (toState : Nat)
    (st : ukk_state) (v : calcUkk_vars)
    (h : calcUkk_best rec fuel e g l m input_editDist toState st = some v) :
    st.furthestReached ≤ v.st.furthestReached := by
  unfold calcUkk_best at h
  split at h
  · exact absurd h (by simp)
  · rename_i v1 hv1
    have m1 := calcUkk_from_mono rec hrec e g l m input_editDist toState st v1 hv1
    split at h
    · exact absurd h (by simp)
    · rename_i v2 hv2
      have m2 := calcUkk_atmost_mono rec hrec e g l m input_editDist toState v1 v2 hv2
      split_ifs at h
      · exact le_trans m1 (le_trans m2
          (calcUkk_extend_mono rec hrec fuel e g l m input_editDist v2 v h))
      · simp only [Option.some.injEq] at h
        rw [← h]
        exact le_trans m1 m2

/-- What `calcUkk` leaves when it returns: the cell is stored last, with the field `computed`
equal to `input_editDist + costOffset`, and `furthestReached` is not lowered. -/
theorem calcUkk_spec
    (rec : Int → Int → Int → Nat → ukk_state → Option (Int × ukk_state)) (hrec : UkkMono rec)
    (fuel : Nat) (e : ukk_env) (g : ukk_globals) (l m input_editDist : Int) (toState : Nat)
    (st st1 : ukk_state)
    (h : calcUkk rec fuel e g l m input_editDist toState st = some st1) :
    (st1.cells (get_ukk_cell e l m input_editDist toState e.numStates)).computed
      = input_editDist + g.costOffset ∧
    st.furthestReached ≤ st1.furthestReached := by
  unfold calcUkk at h
  simp only [] at h
  split_ifs at h with ha
  split at h
  · exact absurd h (by simp)
  · rename_i v hv
    have mv := calcUkk_best_mono rec hrec fuel e g l m input_editDist toState st v hv
    split_ifs at h with hb
    simp only [Option.some.injEq] at h
    rw [← h]
    exact ⟨by simp only [wr_same], mv⟩

/-- The statement `Ukk_checkPoint` leaves the cells and `furthestReached` alone. -/
theorem Ukk_checkPoint_same (e : ukk_env) (g : ukk_globals) (l m d : Int) (s : Nat)
    (st : ukk_state) :
    (Ukk_checkPoint e g l m d s st).cells = st.cells ∧
    (Ukk_checkPoint e g l m d s st).furthestReached = st.furthestReached := by
  unfold Ukk_checkPoint
  split_ifs <;> exact ⟨rfl, rfl⟩

/-- The statement `Ukk_furthest` leaves the cells alone and does not lower `furthestReached`. -/
theorem Ukk_furthest_same (cell : Nat) (st : ukk_state) :
    (Ukk_furthest cell st).cells = st.cells ∧
    st.furthestReached ≤ (Ukk_furthest cell st).furthestReached := by
  unfold Ukk_furthest
  split_ifs with h
  · exact ⟨rfl, le_of_lt h⟩
  · exact ⟨rfl, le_refl _⟩

/-- The body of `Ukk` does not lower `furthestReached` when the calls inside it do not. -/
theorem Ukk_body_mono
    (rec : Int → Int → Int → Nat → ukk_state → Option (Int × ukk_state)) (hrec : UkkMono rec)
    (fuel : Nat) (e : ukk_env) (g : ukk_globals) : UkkMono (Ukk_body rec fuel e g) := by
  intro a b c s st v st1 h
  unfold Ukk_body at h
  split_ifs at h with h1 h2
  · simp only [Option.some.injEq, Prod.mk.injEq] at h
    rw [← h.2]
  · simp only [Option.some.injEq, Prod.mk.injEq] at h
    rw [← h.2]
  · split at h
    · exact absurd h (by simp)
    · rename_i st2 hc
      have m2 : st.furthestReached ≤ st2.furthestReached :=
        (calcUkk_spec rec hrec fuel e g a b c s _ st2 hc).2
      simp only [Option.some.injEq, Prod.mk.injEq] at h
      rw [← h.2]
      have m3 := (Ukk_furthest_same (get_ukk_cell e a b c s e.numStates)
        (Ukk_checkPoint e g a b c s st2)).2
      rw [(Ukk_checkPoint_same e g a b c s st2).2] at m3
      exact le_trans m2 m3

/-- The function `Ukk` does not lower `furthestReached`. -/
theorem Ukk_mono (e : ukk_env) (g : ukk_globals) : ∀ fuel, UkkMono (Ukk e g fuel) := by
  intro fuel
  induction fuel with
  | zero => intro a b c s st v st1 h; exact absurd h (by simp [Ukk])
  | succ n ih => exact Ukk_body_mono (Ukk e g n) ih n e g

/-- Claim C34. For every call `Ukk (ab, ac, d, s)` that passes `withinMatrix`: if the field
`computed` of the cell is already `d + costOffset`, the stored `editDist` is returned and the
memory is not modified; otherwise `calcUkk` runs, and on return the field `computed` of the cell
is `d + costOffset` and the returned value is the `editDist` of the cell; and `furthestReached`
after a call that returns is not below its value before the call. -/
theorem Ukk_memo (e : ukk_env) (g : ukk_globals) (fuel : Nat) (ab ac d : Int) (s : Nat)
    (st : ukk_state) (hw : withinMatrix e g ab ac d ≠ 0) :
    ((st.cells (get_ukk_cell e ab ac d s e.numStates)).computed = d + g.costOffset →
      Ukk e g (fuel + 1) ab ac d s st =
        some ((st.cells (get_ukk_cell e ab ac d s e.numStates)).editDist, st)) ∧
    ((st.cells (get_ukk_cell e ab ac d s e.numStates)).computed ≠ d + g.costOffset →
      ∀ v st1, Ukk e g (fuel + 1) ab ac d s st = some (v, st1) →
        (∃ st2, calcUkk (Ukk e g fuel) fuel e g ab ac d s
          { st with counts_cells := st.counts_cells + 1 } = some st2) ∧
        (st1.cells (get_ukk_cell e ab ac d s e.numStates)).computed = d + g.costOffset ∧
        v = (st1.cells (get_ukk_cell e ab ac d s e.numStates)).editDist) ∧
    (∀ n v st1, Ukk e g n ab ac d s st = some (v, st1) →
      st.furthestReached ≤ st1.furthestReached) := by
  refine ⟨?_, ?_, ?_⟩
  · intro hc
    show Ukk_body (Ukk e g fuel) fuel e g ab ac d s st = _
    unfold Ukk_body
    rw [if_neg hw, if_pos hc]
  · intro hc v st1 h
    change Ukk_body (Ukk e g fuel) fuel e g ab ac d s st = _ at h
    unfold Ukk_body at h
    rw [if_neg hw, if_neg hc] at h
    split at h
    · exact absurd h (by simp)
    · rename_i st2 h2
      have hs := (calcUkk_spec (Ukk e g fuel) (Ukk_mono e g fuel) fuel e g ab ac d s _ st2 h2).1
      simp only [Option.some.injEq, Prod.mk.injEq] at h
      refine ⟨⟨st2, h2⟩, ?_, ?_⟩
      · rw [← h.2, (Ukk_furthest_same _ _).1, (Ukk_checkPoint_same e g ab ac d s st2).1]
        exact hs
      · rw [← h.1, ← h.2]
  · intro n v st1 h
    exact Ukk_mono e g n ab ac d s st v st1 h

/-- Witness of C34: on the memory `ukk_example_state`, in which the cell of cost `0` is computed,
the call `Ukk (0, 0, 1, 0)` passes `withinMatrix`, runs `calcUkk` and returns `1`; the cell of
cost `1` then has `computed = 1 + costOffset = 2` and `editDist = 1`, and `furthestReached` went
from `-1` to `1`. -/
theorem Ukk_memo_witness :
    (∀ n v st1, Ukk ukk_example_env ukk_example_globals n 0 0 1 0 ukk_example_state
        = some (v, st1) → ukk_example_state.furthestReached ≤ st1.furthestReached) ∧
    (Ukk ukk_example_env ukk_example_globals 2 0 0 1 0 ukk_example_state).map
      (fun r => (r.1, r.2.furthestReached, (r.2.cells 1).computed, (r.2.cells 1).editDist))
      = some (1, 1, 2, 1) ∧
    (Ukk ukk_example_env ukk_example_globals 2 0 0 0 0 ukk_example_state).map
      (fun r => (r.1, r.2.furthestReached, r.2.counts_cells)) = some (1, -1, 0) :=
  ⟨(Ukk_memo ukk_example_env ukk_example_globals 1 0 0 1 0 ukk_example_state
      (by decide)).2.2,
    by decide, by decide⟩

/-! ## The epoch `costOffset` -/

/-- A call of `doUkkInLimits` on a positive `costOffset` with `0 ≤ finalCost < INT_MAX`: the
assertion passes exactly when `costOffset + finalCost + 1` is a `long`, and then that sum is
the new value. -/
theorem doUkkInLimits_costOffset_step (costOffset startCost finalCost : Int)
    (hs : 0 ≤ startCost) (hf0 : 0 ≤ finalCost) (hf1 : finalCost < 2147483647)
    (hc0 : 0 < costOffset) (hc1 : costOffset ≤ 9223372036854775807) :
    (costOffset + finalCost + 1 ≤ 9223372036854775807 →
      doUkkInLimits_costOffset costOffset startCost finalCost
        = some (costOffset + finalCost + 1)) ∧
    (9223372036854775807 < costOffset + finalCost + 1 →
      doUkkInLimits_costOffset costOffset startCost finalCost = none) := by
  have hw : wrap32 (finalCost + 1) = finalCost + 1 := by
    unfold wrap32
    omega
  unfold doUkkInLimits_costOffset
  rw [if_pos ⟨hs, hf0⟩, hw]
  constructor
  · intro h
    have e : wrap64 (costOffset + (finalCost + 1)) = costOffset + finalCost + 1 := by
      unfold wrap64
      omega
    rw [e, if_pos (by omega)]
  · intro h
    have e : wrap64 (costOffset + (finalCost + 1)) ≤ 0 := by
      unfold wrap64
      omega
    rw [if_neg (by omega)]

/-- Claim C35. Every call of `doUkkInLimits` with `0 ≤ finalCost < INT_MAX` on a positive
`costOffset` that returns from its second assertion has increased `costOffset` by exactly
`finalCost + 1`, to a positive value; a sum that does not fit a `long` (the wrapped value is not
positive) fails the assertion. So over the calls of a check point recursion that pass their
assertions `costOffset` is the start value plus the sum of the `finalCost + 1`, and it is
strictly above the start value when there is a call. -/
theorem doUkkInLimits_costOffset_increases (calls : List (Int × Int)) (costOffset : Int)
    (hc0 : 0 < costOffset) (hc1 : costOffset ≤ 9223372036854775807)
    (hcalls : ∀ p ∈ calls, 0 ≤ p.2 ∧ p.2 < 2147483647) :
    (∀ startCost finalCost c, 0 ≤ finalCost → finalCost < 2147483647 →
      doUkkInLimits_costOffset costOffset startCost finalCost = some c →
      c = costOffset + (finalCost + 1) ∧ 0 < c ∧ costOffset < c) ∧
    (∀ startCost finalCost, 0 ≤ startCost → 0 ≤ finalCost → finalCost < 2147483647 →
      9223372036854775807 < costOffset + (finalCost + 1) →
      doUkkInLimits_costOffset costOffset startCost finalCost = none) ∧
    (∀ c, doUkkInLimits_costOffsets calls costOffset = some c →
      c = costOffset + (calls.map (fun p => p.2 + 1)).sum ∧ 0 < c ∧
      (calls ≠ [] → costOffset < c)) := by
  have step1 : ∀ co startCost finalCost c, 0 < co → co ≤ 9223372036854775807 →
      0 ≤ finalCost → finalCost < 2147483647 →
      doUkkInLimits_costOffset co startCost finalCost = some c →
      c = co + (finalCost + 1) ∧ 0 < c ∧ co < c ∧ c ≤ 9223372036854775807 := by
    intro co startCost finalCost c h0 h1 hf0 hf1 h
    have hs : 0 ≤ startCost := by
      unfold doUkkInLimits_costOffset at h
      split_ifs at h with ha
      exact ha.1
    obtain ⟨a, b⟩ := doUkkInLimits_costOffset_step co startCost finalCost hs hf0 hf1 h0 h1
    by_cases hfit : co + finalCost + 1 ≤ 9223372036854775807
    · rw [a hfit] at h
      simp only [Option.some.injEq] at h
      omega
    · rw [b (by omega)] at h
      exact absurd h (by simp)
  refine ⟨?_, ?_, ?_⟩
  · intro startCost finalCost c hf0 hf1 h
    obtain ⟨a, b, c', _⟩ := step1 costOffset startCost finalCost c hc0 hc1 hf0 hf1 h
    exact ⟨a, b, c'⟩
  · intro startCost finalCost hs hf0 hf1 h
    exact (doUkkInLimits_costOffset_step costOffset startCost finalCost hs hf0 hf1 hc0 hc1).2
      (by omega)
  · intro c h
    have H : ∀ (calls : List (Int × Int)) (co c : Int), 0 < co → co ≤ 9223372036854775807 →
        (∀ p ∈ calls, 0 ≤ p.2 ∧ p.2 < 2147483647) →
        doUkkInLimits_costOffsets calls co = some c →
        c = co + (calls.map (fun p => p.2 + 1)).sum ∧ 0 < c ∧ co ≤ c ∧
          (calls ≠ [] → co < c) := by
      intro calls
      induction calls with
      | nil =>
        intro co c h0 h1 _ h
        simp only [doUkkInLimits_costOffsets, Option.some.injEq] at h
        subst h
        exact ⟨by simp, h0, le_refl _, fun hne => absurd rfl hne⟩
      | cons p rest ih =>
        intro co c h0 h1 hp h
        obtain ⟨sc, fc⟩ := p
        simp only [doUkkInLimits_costOffsets] at h
        split at h
        · exact absurd h (by simp)
        · rename_i c1 hc
          have hpf := hp (sc, fc) (List.mem_cons_self _ _)
          obtain ⟨a, b, c', d⟩ := step1 co sc fc c1 h0 h1 hpf.1 hpf.2 hc
          obtain ⟨e1, e2, e3, _⟩ := ih c1 c b d
            (fun p hp' => hp p (List.mem_cons_of_mem _ hp')) h
          refine ⟨?_, e2, by omega, fun _ => by omega⟩
          simp only [List.map_cons, List.sum_cons]
          omega
    obtain ⟨a, b, _, d⟩ := H calls costOffset c hc0 hc1 hcalls h
    exact ⟨a, b, d⟩

/-- Witness of C35: from `costOffset = 1`, the calls with the final costs `5` and `2` leave
`costOffset = 1 + 6 + 3 = 10`; a call with the final cost `5` on `costOffset = LONG_MAX - 3`
fails the assertion. -/
theorem doUkkInLimits_costOffset_increases_witness :
    (∀ c, doUkkInLimits_costOffsets [(0, 5), (0, 2)] 1 = some c →
      c = 1 + ([(0, 5), (0, 2)].map (fun p : Int × Int => p.2 + 1)).sum ∧ 0 < c ∧
      (([(0, 5), (0, 2)] : List (Int × Int)) ≠ [] → 1 < c)) ∧
    doUkkInLimits_costOffsets [(0, 5), (0, 2)] 1 = some 10 ∧
    doUkkInLimits_costOffset 9223372036854775804 0 5 = none :=
  ⟨(doUkkInLimits_costOffset_increases [(0, 5), (0, 2)] 1 (by decide) (by decide)
      (by decide)).2.2,
    by decide, by decide⟩

/-! ## `setup2dCostMtx`: symmetry and the zero entries -/

/-- The `nucleotide` loop of `setup2dCostMtx` gives the same result for `(a, b)` and `(b, a)`. -/
theorem setup2d_nucleotide_loop_comm (tcm : Nat → Int) (K a b : Nat) (fuel : Nat) :
    ∀ (n : Nat) (mc : Int) (md : Nat),
      setup2d_nucleotide_loop tcm K a b fuel n mc md =
        setup2d_nucleotide_loop tcm K b a fuel n mc md := by
  induction fuel with
  | zero => intro n mc md; rfl
  | succ f ih =>
    intro n mc md
    simp only [setup2d_nucleotide_loop]
    rw [add_comm (distance tcm K n a) (distance tcm K n b)]
    split_ifs <;> exact ih _ _ _

/-- Claim C36. For every base table (symmetric or not), alphabet size `K ≤ 31` and all symbols
`a, b` in `[1, 2^K - 1]`, the table built by `setup2dCostMtx` is symmetric:
`best_cost[a, b] = best_cost[b, a]` and `median[a, b] = median[b, a]`. -/
theorem setup2dCostMtx_symmetric (tcm : Nat → Int) (K : Nat) (gap_open : Int)
    (retMtx : cost_matrices_2d) (hK : K ≤ 31) :
    ∃ m, setup2dCostMtx tcm K gap_open retMtx = .ok m ∧
      ∀ a b, 1 ≤ a → a ≤ 2 ^ K - 1 → 1 ≤ b → b ≤ 2 ^ K - 1 →
        cm_get_cost a b m = cm_get_cost b a m ∧
        cm_get_median m a b = cm_get_median m b a := by
  obtain ⟨m, hm, _, _, hv⟩ := setup2dCostMtx_ok tcm K gap_open retMtx hK
  refine ⟨m, hm, ?_⟩
  intro a b ha1 ha2 hb1 hb2
  rw [(hv a b ha1 ha2 hb1 hb2).1, (hv a b ha1 ha2 hb1 hb2).2, (hv b a hb1 hb2 ha1 ha2).1,
    (hv b a hb1 hb2 ha1 ha2).2]
  unfold setup2d_value
  rw [setup2d_nucleotide_loop_comm]
  exact ⟨rfl, rfl⟩

set_option maxRecDepth 1000000 in
/-- Witness of C36: the table `asym_tcm`, which is not symmetric (`tcm[A, C] = 1`,
`tcm[C, A] = 2`); for `A` and `C` both orders give the cost `1`. -/
theorem setup2dCostMtx_symmetric_witness :
    (∃ m, setup2dCostMtx asym_tcm 5 0 zero_mtx_2d = .ok m ∧
      ∀ a b, 1 ≤ a → a ≤ 2 ^ 5 - 1 → 1 ≤ b → b ≤ 2 ^ 5 - 1 →
        cm_get_cost a b m = cm_get_cost b a m ∧
        cm_get_median m a b = cm_get_median m b a) ∧
    asym_tcm (0 * 5 + 1) ≠ asym_tcm (1 * 5 + 0) ∧
    best_cost_of (setup2dCostMtx asym_tcm 5 0 zero_mtx_2d) 1 2 = some 1 ∧
    best_cost_of (setup2dCostMtx asym_tcm 5 0 zero_mtx_2d) 2 1 = some 1 :=
  ⟨setup2dCostMtx_symmetric asym_tcm 5 0 zero_mtx_2d (by decide), by decide, by decide!,
    by decide!⟩

/-- A bit of a symbol below `2^K` is a bit below `K`. -/
theorem testBit_lt_of_symbol (K s p : Nat) (h2 : s ≤ 2 ^ K - 1) (hp : s.testBit p = true) :
    p < K := by
  by_contra hK
  have hlt : s < 2 ^ K := by
    have := Nat.two_pow_pos K
    omega
  have : s < 2 ^ p := lt_of_lt_of_le hlt (Nat.pow_le_pow_right (by norm_num) (not_lt.mp hK))
  rw [Nat.testBit_lt_two_pow this] at hp
  exact Bool.false_ne_true hp

/-- For a base table with zero diagonal and positive entries off the diagonal, `distance` is not
negative, and it is `0` exactly when the pivot is one of the states of the symbol. -/
theorem distance_zero_iff (tcm : Nat → Int) (K z s : Nat) (h : TcmInRange2 tcm K)
    (hdiag : ∀ i, i < K → tcm (i * K + i) = 0)
    (hoff : ∀ i j, i < K → j < K → i ≠ j → 0 < tcm (i * K + j))
    (hz1 : 1 ≤ z) (hz2 : z ≤ K) (hs1 : 1 ≤ s) (hs2 : s ≤ 2 ^ K - 1) :
    0 ≤ distance tcm K z s ∧ (distance tcm K z s = 0 ↔ s.testBit (z - 1) = true) := by
  have hle : ∀ i, i < K → tcm (i * K + z - 1) ≤ INT_MAX := fun i hi =>
    tcm_le_of_inRange2 tcm K h _ (tcm_index_lt K i z hi hz1 hz2)
  obtain ⟨⟨i, ⟨hi, hbit⟩, hval⟩, hleast⟩ := distance_isLeast tcm K z s hle hs1 hs2
  have hidx : ∀ i, i * K + z - 1 = i * K + (z - 1) := fun i => by omega
  have hnn : ∀ i, i < K → 0 ≤ tcm (i * K + z - 1) := by
    intro i hi
    rw [hidx]
    by_cases e : i = z - 1
    · rw [← e, hdiag i hi]
    · exact le_of_lt (hoff i (z - 1) hi (by omega) e)
  simp only [] at hval
  refine ⟨by rw [← hval]; exact hnn i hi, ?_, ?_⟩
  · intro h0
    by_cases e : i = z - 1
    · rw [← e]; exact hbit
    · have := hoff i (z - 1) hi (by omega) e
      rw [← hidx, hval, h0] at this
      exact absurd this (lt_irrefl _)
  · intro hb
    have hmem : tcm ((z - 1) * K + z - 1) ∈
        (fun i => tcm (i * K + z - 1)) '' {i | i < K ∧ s.testBit i = true} :=
      ⟨z - 1, ⟨by omega, hb⟩, rfl⟩
    have hle0 := hleast hmem
    rw [hidx, hdiag (z - 1) (by omega)] at hle0
    have hge : 0 ≤ distance tcm K z s := by rw [← hval]; exact hnn i hi
    omega

/-- Claim C37. For every base table with zero diagonal and strictly positive entries off the
diagonal (and sums of two entries that fit an `int`), alphabet size `K ≤ 31` and all symbols
`a, b` in `[1, 2^K - 1]`: `setup2dCostMtx` stores `best_cost[a, b] = 0` if and only if
`a & b != 0`, and in that case `median[a, b] = a & b`. -/
theorem setup2dCostMtx_zero_iff (tcm : Nat → Int) (K : Nat) (gap_open : Int)
    (retMtx : cost_matrices_2d) (hK : K ≤ 31) (h : TcmInRange2 tcm K)
    (hdiag : ∀ i, i < K → tcm (i * K + i) = 0)
    (hoff : ∀ i j, i < K → j < K → i ≠ j → 0 < tcm (i * K + j)) :
    ∃ m, setup2dCostMtx tcm K gap_open retMtx = .ok m ∧
      ∀ a b, 1 ≤ a → a ≤ 2 ^ K - 1 → 1 ≤ b → b ≤ 2 ^ K - 1 →
        (cm_get_cost a b m = 0 ↔ a &&& b ≠ 0) ∧
        (a &&& b ≠ 0 → cm_get_median m a b = a &&& b) := by
  obtain ⟨m, hm, _, _, hv⟩ := setup2dCostMtx_ok tcm K gap_open retMtx hK
  refine ⟨m, hm, ?_⟩
  intro a b ha1 ha2 hb1 hb2
  rw [(hv a b ha1 ha2 hb1 hb2).1, (hv a b ha1 ha2 hb1 hb2).2]
  obtain ⟨⟨⟨z0, ⟨hz01, hz02⟩, hz0⟩, hleast⟩, hmed, _⟩ :=
    setup2d_value_spec tcm K a b h ha1 ha2 hb1 hb2
  simp only [] at hz0
  have da := fun z hz1 hz2 => distance_zero_iff tcm K z a h hdiag hoff hz1 hz2 ha1 ha2
  have db := fun z hz1 hz2 => distance_zero_iff tcm K z b h hdiag hoff hz1 hz2 hb1 hb2
  have hnn : 0 ≤ (setup2d_value tcm K a b).1 := by
    rw [← hz0]
    have := (da z0 hz01 hz02).1
    have := (db z0 hz01 hz02).1
    omega
  have hiff : (setup2d_value tcm K a b).1 = 0 ↔ a &&& b ≠ 0 := by
    constructor
    · intro h0
      rw [h0] at hz0
      have h1 := da z0 hz01 hz02
      have h2 := db z0 hz01 hz02
      have e1 : distance tcm K z0 a = 0 := by omega
      have e2 : distance tcm K z0 b = 0 := by omega
      intro hand
      have hb : (a &&& b).testBit (z0 - 1) = true := by
        rw [Nat.testBit_and, h1.2.mp e1, h2.2.mp e2]; rfl
      rw [hand, Nat.zero_testBit] at hb
      exact Bool.false_ne_true hb
    · intro hand
      obtain ⟨p, hp⟩ := Nat.ne_zero_implies_bit_true hand
      rw [Nat.testBit_and, Bool.and_eq_true] at hp
      have hpK := testBit_lt_of_symbol K a p ha2 hp.1
      have e1 : distance tcm K (p + 1) a = 0 :=
        (da (p + 1) (by omega) (by omega)).2.mpr (by rw [Nat.add_sub_cancel]; exact hp.1)
      have e2 : distance tcm K (p + 1) b = 0 :=
        (db (p + 1) (by omega) (by omega)).2.mpr (by rw [Nat.add_sub_cancel]; exact hp.2)
      have hmem : distance tcm K (p + 1) a + distance tcm K (p + 1) b ∈
          (fun z => distance tcm K z a + distance tcm K z b) '' Set.Icc 1 K :=
        ⟨p + 1, ⟨by omega, by omega⟩, rfl⟩
      have := hleast hmem
      rw [e1, e2] at this
      omega
  refine ⟨hiff, ?_⟩
  intro hand
  have h0 := hiff.mpr hand
  apply Nat.eq_of_testBit_eq
  intro p
  rw [Nat.testBit_and]
  cases hq : (setup2d_value tcm K a b).2.testBit p
  · -- the bit is not in the median: it is not in both symbols
    cases hpa : a.testBit p
    · rfl
    · cases hpb : b.testBit p
      · rfl
      · exfalso
        have hpK := testBit_lt_of_symbol K a p ha2 hpa
        have e1 : distance tcm K (p + 1) a = 0 :=
          (da (p + 1) (by omega) (by omega)).2.mpr (by rw [Nat.add_sub_cancel]; exact hpa)
        have e2 : distance tcm K (p + 1) b = 0 :=
          (db (p + 1) (by omega) (by omega)).2.mpr (by rw [Nat.add_sub_cancel]; exact hpb)
        have := (hmed p).mpr ⟨by omega, by rw [e1, e2, h0]; rfl⟩
        rw [hq] at this
        exact Bool.false_ne_true this
  · obtain ⟨hpK, hsum⟩ := (hmed p).mp hq
    rw [h0] at hsum
    have h1 := da (p + 1) (by omega) hpK
    have h2 := db (p + 1) (by omega) hpK
    have e1 : distance tcm K (p + 1) a = 0 := by omega
    have e2 : distance tcm K (p + 1) b = 0 := by omega
    have b1 := h1.2.mp e1
    have b2 := h2.2.mp e2
    rw [Nat.add_sub_cancel] at b1 b2
    rw [b1, b2]
    rfl

set_option maxRecDepth 1000000 in
/-- Witness of C37: the unit-cost table over `A, C, G, T, -`; `R = A | G = 5` against `A = 1`
gives the cost `0` and the median `A`. -/
theorem setup2dCostMtx_zero_iff_witness :
    (∃ m, setup2dCostMtx (unit_tcm 5) 5 0 zero_mtx_2d = .ok m ∧
      ∀ a b, 1 ≤ a → a ≤ 2 ^ 5 - 1 → 1 ≤ b → b ≤ 2 ^ 5 - 1 →
        (cm_get_cost a b m = 0 ↔ a &&& b ≠ 0) ∧
        (a &&& b ≠ 0 → cm_get_median m a b = a &&& b)) ∧
    best_cost_of (setup2dCostMtx (unit_tcm 5) 5 0 zero_mtx_2d) 5 1 = some 0 ∧
    (match setup2dCostMtx (unit_tcm 5) 5 0 zero_mtx_2d with
      | .ok m => cm_get_median m 5 1
      | .error _ => 0) = 1 :=
  ⟨setup2dCostMtx_zero_iff (unit_tcm 5) 5 0 zero_mtx_2d (by decide) (unit_tcm_inRange2 5)
      (by decide)
      (by intro i j hi hj hij
          interval_cases i <;> interval_cases j <;> first | exact absurd rfl hij | decide),
    by decide!, by decide!⟩

/-! ## `algn_remove_gaps` -/

/-- Loop invariant of `algn_remove_gaps`: the `n` cells up to `source` are read from the last
one down, the symbols other than `gap` are stored, in their order, in the cells up to
`destination`, and the cells above `destination` and below the cells read keep their content. -/
theorem algn_remove_gaps_loop_spec (gap : Nat) (n : Nat) :
    ∀ (source destination : Int) (newlen : Nat) (mem : Int → Nat), source ≤ destination →
      (algn_remove_gaps_loop gap n source destination newlen mem).1 = destination -
        (((List.range n).map (fun i : Nat => mem (source - n + 1 + i))).filter
          (fun x => x ≠ gap)).length ∧
      (algn_remove_gaps_loop gap n source destination newlen mem).2.1 = newlen +
        (((List.range n).map (fun i : Nat => mem (source - n + 1 + i))).filter
          (fun x => x ≠ gap)).length ∧
      (∀ i : Nat, i < (((List.range n).map (fun i : Nat => mem (source - n + 1 + i))).filter
          (fun x => x ≠ gap)).length →
        (algn_remove_gaps_loop gap n source destination newlen mem).2.2
          ((algn_remove_gaps_loop gap n source destination newlen mem).1 + 1 + i) =
          (((List.range n).map (fun i : Nat => mem (source - n + 1 + i))).filter
            (fun x => x ≠ gap)).getD i 0) ∧
      (∀ k, destination < k →
        (algn_remove_gaps_loop gap n source destination newlen mem).2.2 k = mem k) := by
  induction n with
  | zero =>
    intro source destination newlen mem _
    simp [algn_remove_gaps_loop]
  | succ n ih =>
    intro source destination newlen mem hsd
    have hrange : (List.range (n + 1)).map (fun i : Nat => mem (source - (n + 1 : Nat) + 1 + i))
        = (List.range n).map (fun i : Nat => mem (source - 1 - n + 1 + i)) ++ [mem source] := by
      rw [List.range_succ, List.map_append, List.map_cons, List.map_nil]
      congr 1
      · apply List.map_congr_left
        intro i _
        congr 1
        push_cast
        omega
      · congr 2
        push_cast
        omega
    rw [hrange, List.filter_append]
    simp only [algn_remove_gaps_loop]
    by_cases hg : gap ≠ mem source
    · rw [if_pos hg]
      have hx : ([mem source].filter (fun x => x ≠ gap)) = [mem source] := by
        rw [List.filter_cons_of_pos (by simpa using fun h => hg h.symm), List.filter_nil]
      rw [hx]
      have hmem : ∀ i : Nat, i < n →
          (fun k => if k = destination then mem source else mem k) (source - 1 - n + 1 + i)
            = mem (source - 1 - n + 1 + i) := by
        intro i hi
        show (if _ = destination then _ else _) = _
        rw [if_neg (by omega)]
      have hlist : (List.range n).map (fun i : Nat =>
          (fun k => if k = destination then mem source else mem k) (source - 1 - n + 1 + i))
          = (List.range n).map (fun i : Nat => mem (source - 1 - n + 1 + i)) := by
        apply List.map_congr_left
        intro i hi
        exact hmem i (List.mem_range.mp hi)
      obtain ⟨a1, a2, a3, a4⟩ := ih (source - 1) (destination - 1) (newlen + 1)
        (fun k => if k = destination then mem source else mem k) (by omega)
      rw [hlist] at a1 a2 a3
      refine ⟨?_, ?_, ?_, ?_⟩
      · rw [a1, List.length_append, List.length_singleton]
        push_cast
        omega
      · rw [a2, List.length_append, List.length_singleton]
        omega
      · intro i hi
        rw [List.length_append, List.length_singleton] at hi
        by_cases hlast : i < (((List.range n).map
            (fun i : Nat => mem (source - 1 - n + 1 + i))).filter (fun x => x ≠ gap)).length
        · rw [a3 i hlast, List.getD_append _ _ _ _ hlast]
        · have hi2 : i = (((List.range n).map
              (fun i : Nat => mem (source - 1 - n + 1 + i))).filter (fun x => x ≠ gap)).length := by
            omega
          rw [List.getD_append_right _ _ _ _ (by omega), ← hi2, Nat.sub_self]
          have hcell : (algn_remove_gaps_loop gap n (source - 1) (destination - 1) (newlen + 1)
              (fun k => if k = destination then mem source else mem k)).1 + 1 + (i : Int)
              = destination := by
            rw [a1, ← hi2]
            omega
          rw [hcell, a4 destination (by omega)]
          simp
      · intro k hk
        rw [a4 k (by omega)]
        show (if k = destination then _ else _) = _
        rw [if_neg (by omega)]
    · rw [if_neg hg]
      have e : mem source = gap := by
        by_contra h
        exact hg (fun h' => h h'.symm)
      have hx : ([mem source].filter (fun x => x ≠ gap)) = [] := by
        rw [List.filter_cons_of_neg (by simp [e]), List.filter_nil]
      rw [hx, List.append_nil]
      exact ih (source - 1) destination newlen mem (by omega)

/-- What `algn_remove_gaps` does to a stream whose last symbol is at `end`, when the symbols
other than `gap` leave room for one more symbol. -/
theorem algn_remove_gaps_once (gap : Nat) (s : seq_ptr)
    (hend : s.end_ = s.seq_begin + s.len - 1)
    (hroom : (s.view.elems.filter (fun x => x ≠ gap)).length < s.cap) :
    ∃ s1, algn_remove_gaps gap s = some s1 ∧
      s1.view.elems = gap :: s.view.elems.filter (fun x => x ≠ gap) ∧
      s1.len = 1 + (s.view.elems.filter (fun x => x ≠ gap)).length ∧
      s1.cap = s.cap ∧ s1.end_ = s.end_ ∧ s1.end_ = s1.seq_begin + s1.len - 1 := by
  have hview : s.view.elems = (List.range s.len).map
      (fun i : Nat => s.mem (s.end_ - s.len + 1 + i)) := by
    unfold seq_ptr.view
    simp only []
    apply List.map_congr_left
    intro i _
    unfold seq_ptr.get
    congr 1
    omega
  obtain ⟨a1, a2, a3, _⟩ := algn_remove_gaps_loop_spec gap s.len s.end_ s.end_ 0 s.mem
    (le_refl _)
  rw [← hview] at a1 a2 a3
  rw [Nat.zero_add] at a2
  set r := algn_remove_gaps_loop gap s.len s.end_ s.end_ 0 s.mem with hr
  set F := s.view.elems.filter (fun x => x ≠ gap) with hF
  have hs1view : (seq_ptr.view { s with len := r.2.1, seq_begin := r.1 + 1, mem := r.2.2 }).elems
      = F := by
    unfold seq_ptr.view
    simp only []
    apply List.ext_getElem
    · simp [a2]
    · intro i h1 h2
      simp only [List.getElem_map, List.getElem_range]
      unfold seq_ptr.get
      simp only []
      rw [a3 i h2, List.getD_eq_getElem _ _ h2]
  have hpre := my_prepend_ptr_view { s with len := r.2.1, seq_begin := r.1 + 1, mem := r.2.2 } gap
  unfold algn_remove_gaps seq_prepend_ptr
  simp only []
  rw [← hr]
  have hcap : ({ s with len := r.2.1, seq_begin := r.1 + 1, mem := r.2.2 } : seq_ptr).cap >
      ({ s with len := r.2.1, seq_begin := r.1 + 1, mem := r.2.2 } : seq_ptr).len := by
    show s.cap > r.2.1
    rw [a2]
    exact hroom
  unfold my_prepend_ptr at hpre ⊢
  rw [if_pos hcap] at hpre ⊢
  refine ⟨_, rfl, ?_, ?_, rfl, rfl, ?_⟩
  · unfold my_prepend at hpre
    have hcap2 : (seq_ptr.view { s with len := r.2.1, seq_begin := r.1 + 1, mem := r.2.2 }).cap >
        (seq_ptr.view { s with len := r.2.1, seq_begin := r.1 + 1, mem := r.2.2 }).len := by
      show s.cap > _
      unfold seq.len
      rw [hs1view]
      exact hroom
    rw [if_pos hcap2, Option.map_some', Option.some.injEq] at hpre
    rw [hpre]
    show gap :: _ = _
    rw [hs1view]
  · show 1 + r.2.1 = _
    rw [a2]
  · show s.end_ = r.1 + 1 - 1 + ((1 + r.2.1 : Nat) : Int) - 1
    rw [a1, a2]
    push_cast
    omega

/-- Claim C40 (counterexample). For the stream `A C` built by `initializeChar` and two prepends,
whose `end` is one cell past the array, `algn_remove_gaps (16, s)` reads the cell past the array
and never reads the first symbol: it leaves `- C 0` when that cell holds `0` and `- C` when it
holds the gap, where the claim gives `- A C`. For the stream `- A - C` of capacity `4` and the
symbol `8`, which the stream does not hold, the four symbols leave no room in the buffer and the
assertion of the prepend fails. -/
theorem algn_remove_gaps_end_past_array :
    (prepended_AC 0).map (fun s => (s.view.elems, s.cap, s.len, s.seq_begin, s.end_))
      = some ([1, 2], 4, 2, 2, 4) ∧
    ((prepended_AC 0).bind (algn_remove_gaps 16)).map (fun r => r.view.elems)
      = some [16, 2, 0] ∧
    ((prepended_AC 16).bind (algn_remove_gaps 16)).map (fun r => r.view.elems)
      = some [16, 2] ∧
    (gaps_example.view.elems, gaps_example.cap) = ([16, 1, 16, 2], 4) ∧
    (algn_remove_gaps 8 gaps_example).map (fun r => r.view.elems) = none := by
  refine ⟨?_, ?_, ?_, ?_, ?_⟩ <;> decide

/-- Claim C40 (amended). For every stream `s` whose last symbol is at `s->end` (as
`alignIOtoChar` sets it) and every gap symbol `g` such that the symbols of `s` other than `g`
leave room for one more symbol in the buffer, `algn_remove_gaps (g, s)` returns and leaves `s`
equal to `g` followed by exactly the symbols of the old `s` that differ from `g`, in their order
(length `1 +` the number of these symbols); applying `algn_remove_gaps` a second time returns
and gives the same stream. -/
theorem algn_remove_gaps_spec (gap : Nat) (s : seq_ptr)
    (hend : s.end_ = s.seq_begin + s.len - 1)
    (hroom : (s.view.elems.filter (fun x => x ≠ gap)).length < s.cap) :
    ∃ s1, algn_remove_gaps gap s = some s1 ∧
      s1.view.elems = gap :: s.view.elems.filter (fun x => x ≠ gap) ∧
      s1.len = 1 + (s.view.elems.filter (fun x => x ≠ gap)).length ∧
      ∃ s2, algn_remove_gaps gap s1 = some s2 ∧ s2.view.elems = s1.view.elems ∧
        s2.len = s1.len := by
  obtain ⟨s1, h1, v1, l1, c1, e1, w1⟩ := algn_remove_gaps_once gap s hend hroom
  have hfil : s1.view.elems.filter (fun x => x ≠ gap) =
      s.view.elems.filter (fun x => x ≠ gap) := by
    rw [v1, List.filter_cons_of_neg (by simp), List.filter_filter]
    simp
  obtain ⟨s2, h2, v2, l2, _, _, _⟩ := algn_remove_gaps_once gap s1 w1
    (by rw [hfil, c1]; exact hroom)
  refine ⟨s1, h1, v1, l1, s2, h2, ?_, ?_⟩
  · rw [v2, hfil, v1]
  · rw [l2, hfil, l1]

/-- Witness of C40 (amended): the stream `- A - C` that `alignIOtoChar` builds becomes `- A C`,
and stays `- A C` under a second call. -/
theorem algn_remove_gaps_spec_witness :
    (∃ s1, algn_remove_gaps 16 gaps_example = some s1 ∧
      s1.view.elems = 16 :: gaps_example.view.elems.filter (fun x => x ≠ 16) ∧
      s1.len = 1 + (gaps_example.view.elems.filter (fun x => x ≠ 16)).length ∧
      ∃ s2, algn_remove_gaps 16 s1 = some s2 ∧ s2.view.elems = s1.view.elems ∧
        s2.len = s1.len) ∧
    (algn_remove_gaps 16 gaps_example).map (fun r => r.view.elems) = some [16, 1, 2] ∧
    ((algn_remove_gaps 16 gaps_example).bind (algn_remove_gaps 16)).map (fun r => r.view.elems)
      = some [16, 1, 2] :=
  ⟨algn_remove_gaps_spec 16 gaps_example (by decide) (by decide), by decide, by decide⟩

/-! ## The affine engine: the two fills and the additions to `INT_MAX` -/

/-- Claim C38 (the code at the failing input). For two bases `A | -` (`17`), the gap opening cost
`3`, `prev_extend_block_diagonal[j - 1] = 10` and `prev_close_block_diagonal[j - 1] = 0`,
`FILL_EXTEND_BLOCK_DIAGONAL` stores `0` to `extend_block_diagonal[j]` (its `open_cost` adds
`diag`, the local `open_diag` is not used) and `FILL_EXTEND_BLOCK_DIAGONAL_NOBT` stores
`6 = 0 + 2 * 3` (its `open_cost` adds `open_diag`). -/
theorem FILL_EXTEND_BLOCK_DIAGONAL_NOBT_differs :
    (FILL_EXTEND_BLOCK_DIAGONAL wrap32 17 17 1 40 30 0 0 block_example_mtx).1 (40 + 1) = 0 ∧
    FILL_EXTEND_BLOCK_DIAGONAL_NOBT wrap32 17 17 1 1 3 1 40 30 0 block_example_mtx (40 + 1)
      = 6 := by
  decide

set_option maxRecDepth 1000000 in
/-- Claim C39 (the code at the failing input). For `A` against `A` under unit costs with
`gap_open = 1` and the planes laid out as by `align2dAffine`: with unbounded integers the fill
leaves `INT_MAX + 1` in `extend_horizontal[1]` of row `1` (address `15`), the sum
`extend_horizontal[0] + sj_horizontal_extension[1]` of `FILL_EXTEND_HORIZONTAL` on the cell that
the fill has set to `INT_MAX`; with the 32 bit `int` of the source that cell and
`extend_vertical[1]` (address `11`) hold the wrapped value `INT_MIN`, which wins the minimum: the
fill returns `INT_MIN`, where unbounded integers give the cost `0`. -/
theorem algn_fill_plane_3_affine_adds_to_INT_MAX :
    (algn_fill_plane_3_affine id sA sA 1 1 16 0 (unit5_affine 1) 12 8 0 4
        (precalc_of (unit5_affine 1) sA.elems) 0 20 22
        (initialize_matrices_affine id 1 sA sA (unit5_affine 1) 0 4 8 12 16 0
          (precalc_of (unit5_affine 1) sA.elems) 0 zero_buffers)).map
      (fun r => (r.1, r.2.mtx 15)) = some (0, INT_MAX + 1) ∧
    (algn_fill_plane_3_affine wrap32 sA sA 1 1 16 0 (unit5_affine 1) 12 8 0 4
        (precalc_of (unit5_affine 1) sA.elems) 0 20 22
        (initialize_matrices_affine wrap32 1 sA sA (unit5_affine 1) 0 4 8 12 16 0
          (precalc_of (unit5_affine 1) sA.elems) 0 zero_buffers)).map
      (fun r => (r.1, r.2.mtx 15, r.2.mtx 11)) = some (INT_MIN, INT_MIN, INT_MIN) ∧
    align2dAffine wrap32 (alignIO_of [1]) (alignIO_of [1]) (unit5_affine 1) = some INT_MIN ∧
    align2dAffine id (alignIO_of [1]) (alignIO_of [1]) (unit5_affine 1) = some 0 := by
  refine ⟨?_, ?_, ?_, ?_⟩ <;> decide!

end PCG
